import Mathlib

/-!
# MonetDB analytic-function kernel (`gdk/gdk_analytic_func.c`) and expression trees (`sql/server/rel_exp.c`)

A shallow embedding of the vectorised window-function routines (namespace
`GDK`) and of the expression nodes of the relational layer (namespace `SQL`),
and the properties proved about them.

Conventions of the embedding of the kernel.

* A column (`BAT`) is its row count, its two NIL flags and its tail storage.
  The storage is a total map from offsets (relative to `Tloc(b, 0)`) to
  values, so that pointer arithmetic such as `*(bs + nth)` is the value at
  offset `start[i] + nth`, whatever that offset is.
* A `for` loop that advances a pointer up to a limit is a recursion on the
  number of iterations that remain; the pointers are the explicit arguments.
* The text of a macro instantiated per scalar type is one definition that
  takes the operations of the type (`Atom`) as an argument.
-/

set_option autoImplicit false

namespace GDK

/-! ## Data model -/

/-- Tail storage: the value found at each offset from the start of the heap. -/
abbrev Heap (α : Type) := Int → α

/-- The assignment `p[k] = v`. -/
def store {α : Type} (h : Heap α) (k : Int) (v : α) : Heap α :=
  fun x => if x = k then v else h x

/-- A column: `BATcount`, the storage behind `Tloc(b, 0)`, and the flags
`tnonil` / `tnil`. -/
structure BAT (α : Type) where
  count : Nat
  tloc : Heap α
  tnonil : Bool
  tnil : Bool

/-- Modelled from the spec: what the kernel uses of a scalar type of `gdk.h`
(a header outside this file): the NIL sentinel `TPE_nil`, the
test `is_TPE_nil`, the C operator `==` on values of the type, the comparator
returned by `ATOMcompare`, and whether the type is `flt` / `dbl`. -/
structure Atom (α : Type) where
  nil : α
  is_nil : α → Bool
  eq : α → α → Bool
  cmp : α → α → Int
  floating : Bool

/-- The type codes the kernel switches on. `other` stands for every type that
takes the `default:` branch (variable-sized and user-defined atoms). -/
inductive TYPE where
  | bit | bte | sht | int | lng | hge | flt | dbl | other
  deriving DecidableEq, Repr

/-- Values equal for grouping purposes: equal under `==`, or both NIL. -/
def Atom.same {α : Type} (T : Atom α) (x y : α) : Bool :=
  T.eq x y || (T.is_nil x && T.is_nil y)

/-- Modelled from the spec: the properties of a scalar type the proofs rely
on. `==` is symmetric and transitive, it never relates a NIL to a non-NIL
value, and every non-NIL value equals itself. For the integer types the NIL is
an ordinary value, equal to itself; for `flt`/`dbl` the NIL is NaN, for
which `==` is false. The comparator returns 0 exactly on values that are the
same for grouping purposes. -/
structure Atom.Lawful {α : Type} (T : Atom α) : Prop where
  nil_is_nil : T.is_nil T.nil = true
  eq_symm : ∀ x y, T.eq x y = T.eq y x
  eq_trans : ∀ x y z, T.eq x y = true → T.eq y z = true → T.eq x z = true
  eq_nil : ∀ x y, T.eq x y = true → T.is_nil x = T.is_nil y
  eq_refl : ∀ x, T.is_nil x = false → T.eq x x = true
  fixed_nil : T.floating = false → ∀ x y, T.is_nil x = true → T.is_nil y = true → T.eq x y = true
  cmp_zero : ∀ x y, (T.cmp x y = 0) ↔ T.same x y = true

/-- Modelled from the spec: an integer type of `w` bits whose NIL sentinel is
the smallest value of the type (so that the valid values are
`-GDK_max .. GDK_max`). -/
def intAtom (w : Nat) : Atom Int where
  nil := -(2 ^ (w - 1))
  is_nil := fun v => decide (v = -(2 ^ (w - 1)))
  eq := fun x y => decide (x = y)
  cmp := fun x y => if x < y then -1 else if x = y then 0 else 1
  floating := false

/-- Modelled from the spec: a floating-point value as far as the kernel looks
at it: a NaN (every NaN is the NIL of the type) with its payload, or a number.
The number is given by a sign and a magnitude so that both zeros exist. -/
inductive Fp where
  | nan (payload : Nat)
  | num (neg : Bool) (mag : Nat)
  deriving DecidableEq, Repr

/-- Modelled from the spec: `==` of C on floating-point values: false as soon
as one side is a NaN, and the two zeros are equal. -/
def Fp.ceq : Fp → Fp → Bool
  | .num s m, .num t n => decide (m = n ∧ (s = t ∨ m = 0))
  | _, _ => false

/-- Modelled from the spec: the scalar operations of `flt` / `dbl`;
`is_flt_nil` is `isnan`, and the comparator treats all NILs as equal. -/
def fpAtom : Atom Fp where
  nil := .nan 0
  is_nil := fun v => match v with
    | .nan _ => true
    | .num _ _ => false
  eq := Fp.ceq
  cmp := fun x y => if Fp.ceq x y then 0 else
    match x, y with
    | .nan _, .nan _ => 0
    | _, _ => 1
  floating := true

/-! ## `GDKanalyticaldiff` -/

/-- The loop `for (; bp < end; bp++, rb++, np++)` of the branch with partition
markers: `*rb = *np; if (differs(*bp, prev)) { *rb = TRUE; prev = *bp; }`.
`n` rows remain and the three pointers stand at row `i`. -/
def diff_loop_np {α : Type} (differs : α → α → Bool) (b : Heap α) (np : Heap Bool) :
    Nat → Int → α → Heap Bool → Heap Bool
  | 0, _, _, rb => rb
  | n + 1, i, prev, rb =>
    let rb1 := store rb i (np i)
    if differs (b i) prev then
      diff_loop_np differs b np n (i + 1) (b i) (store rb1 i true)
    else
      diff_loop_np differs b np n (i + 1) prev rb1

/-- The loop `for (; bp < end; bp++, rb++)` of the branch without markers:
`if (same(*bp, prev)) *rb = FALSE; else { *rb = TRUE; prev = *bp; }`. -/
def diff_loop {α : Type} (same : α → α → Bool) (b : Heap α) :
    Nat → Int → α → Heap Bool → Heap Bool
  | 0, _, _, rb => rb
  | n + 1, i, prev, rb =>
    if same (b i) prev then
      diff_loop same b n (i + 1) prev (store rb i false)
    else
      diff_loop same b n (i + 1) (b i) (store rb i true)

/-- `ANALYTICAL_DIFF_IMP(TPE)`: `prev = *bp`, then one of the two loops with
the tests `*bp != prev` and `*bp == prev`. -/
def ANALYTICAL_DIFF_IMP {α : Type} (T : Atom α) (cnt : Nat) (b : Heap α)
    (np : Option (Heap Bool)) (rb : Heap Bool) : Heap Bool :=
  let prev := b 0
  match np with
  | some np => diff_loop_np (fun x p => !T.eq x p) b np cnt 0 prev rb
  | none => diff_loop (fun x p => T.eq x p) b cnt 0 prev rb

/-- `ANALYTICAL_DIFF_FLOAT_IMP(TPE)`: the same with the tests
`*bp != prev && (!is_nil(*bp) || !is_nil(prev))` and
`*bp == prev || (is_nil(*bp) && is_nil(prev))`. -/
def ANALYTICAL_DIFF_FLOAT_IMP {α : Type} (T : Atom α) (cnt : Nat) (b : Heap α)
    (np : Option (Heap Bool)) (rb : Heap Bool) : Heap Bool :=
  let prev := b 0
  match np with
  | some np =>
    diff_loop_np (fun x p => !T.eq x p && (!T.is_nil x || !T.is_nil p)) b np cnt 0 prev rb
  | none =>
    diff_loop (fun x p => T.eq x p || (T.is_nil x && T.is_nil p)) b cnt 0 prev rb

/-- The `default:` branch of `GDKanalyticaldiff`: `v = BUNtail(it, 0)` and the
test `atomcmp(v, next) != 0`. -/
def diff_default {α : Type} (T : Atom α) (cnt : Nat) (b : Heap α)
    (np : Option (Heap Bool)) (rb : Heap Bool) : Heap Bool :=
  let v := b 0
  match np with
  | some np => diff_loop_np (fun next v => decide (T.cmp v next ≠ 0)) b np cnt 0 v rb
  | none => diff_loop (fun next v => !decide (T.cmp v next ≠ 0)) b cnt 0 v rb

/-- `GDKanalyticaldiff(r, b, p, tpe)`. The call always succeeds; the value is
the result column `r` after the call. -/
def GDKanalyticaldiff {α : Type} (T : Atom α) (r : BAT Bool) (b : BAT α)
    (p : Option (BAT Bool)) (tpe : TYPE) : BAT Bool :=
  let cnt := b.count
  let np := p.map (fun p => p.tloc)
  let rb :=
    match tpe with
    | .flt | .dbl =>
      if b.tnonil then ANALYTICAL_DIFF_IMP T cnt b.tloc np r.tloc
      else ANALYTICAL_DIFF_FLOAT_IMP T cnt b.tloc np r.tloc
    | .other => diff_default T cnt b.tloc np r.tloc
    | _ => ANALYTICAL_DIFF_IMP T cnt b.tloc np r.tloc
  { count := cnt, tloc := rb, tnonil := true, tnil := false }

/-! ## Partitions, failures and the loops shared by several routines -/

/-- The marker of row `x`, FALSE when there is no marker column. -/
def marker (p : Option (BAT Bool)) (x : Int) : Bool :=
  match p with
  | some p => p.tloc x
  | none => false

/-- The rows `q .. e-1` form a partition of the `cnt` rows under the markers
of `p`: a partition starts at row 0 and at every row whose marker is set, and
runs up to the next such row or to the end of the column. -/
def IsPartition (p : Option (BAT Bool)) (cnt : Nat) (q e : Int) : Prop :=
  0 ≤ q ∧ q < e ∧ e ≤ cnt ∧ (q = 0 ∨ marker p q = true) ∧ (e = cnt ∨ marker p e = true) ∧
    ∀ u, q < u → u < e → marker p u = false

/-- The rows between a partition start `pnp` and the row `t` the marker loop
has reached: no marker is set strictly between them. -/
def Seg (np : Heap Bool) (cnt : Nat) (pnp t : Int) : Prop :=
  0 ≤ pnp ∧ pnp ≤ t ∧ t ≤ cnt ∧ (pnp = 0 ∨ np pnp = true) ∧
    ∀ u, pnp < u → u < t → np u = false

/-- A column holding the listed values (and `d` at every other offset). -/
def BAT.ofList {α : Type} (d : α) (l : List α) : BAT α where
  count := l.length
  tloc := fun k => if 0 ≤ k then l.getD k.toNat d else d
  tnonil := false
  tnil := false

/-- The rows `0 .. count-1` of a column, in order. -/
def BAT.rows {α : Type} (b : BAT α) : List α :=
  (List.range b.count).map (fun k => b.tloc (k : Int))

/-- The failures a kernel routine reports (`GDK_FAIL` after `GDKerror`):
unsupported type, overflow in a calculation, allocation failure. -/
inductive gdk_err where
  | nosupport
  | calc_overflow
  | allocation_error
  deriving DecidableEq, Repr

deriving instance DecidableEq for Except

/-- Modelled from the spec: the width in bits of the integer type behind a
type code (`bte`, `sht`, `int`, `lng`, `hge`: 8, 16, 32, 64, 128; builds with
`HAVE_HGE`); no width for the other codes. -/
def TYPE.bits : TYPE → Option Nat
  | .bte => some 8
  | .sht => some 16
  | .int => some 32
  | .lng => some 64
  | .hge => some 128
  | _ => none

/-- Modelled from the spec: `GDK_TPE_max` of the integer type of `w` bits. -/
def GDK_max (w : Nat) : Int := 2 ^ (w - 1) - 1

/-- Conversion of an integer to the signed type of `w` bits (two's
complement), as done by a cast or by `j++` on a variable of that type. -/
def wrap (w : Nat) (x : Int) : Int :=
  (x + 2 ^ (w - 1)) % 2 ^ w - 2 ^ (w - 1)

/-- The conversion `(BUN) val` of a signed value to the unsigned 64-bit row
count type. -/
def toBUN (val : Int) : Nat := (val % 2 ^ 64).toNat

/-- The loop `for (; rp < end; rp++) *rp = TPE_nil` (and its likes): `n` rows
from `rb` on are set to `v`. -/
def fill {α : Type} (v : α) : Nat → Int → Heap α → Heap α
  | 0, _, r => r
  | n + 1, rb, r => fill v n (rb + 1) (store r rb v)

/-- The loop over the partition markers that ntile, lag and lead share:
`for (; np < end; np++) { if (*np) { body; pnp = np; } }`, where `body` works
on the partition between the marker `pnp` of the running partition and the
marker `np` just found. `n` markers remain to be visited, `np` stands at row
`t`; the state is `pnp` and the variables of the body. -/
def parts_loop {σ : Type} (np : Heap Bool) (body : Int → Int → σ → σ) :
    Nat → Int → Int × σ → Int × σ
  | 0, _, s => s
  | n + 1, t, (pnp, s) =>
    if np t then parts_loop np body n (t + 1) (t, body pnp t s)
    else parts_loop np body n (t + 1) (pnp, s)

/-! ## `GDKanalyticalntile` -/

/-- The variables `NTILE_CALC` works on: the counter `i`, the bucket label `j`,
the write pointer `rb` and the result storage. -/
structure NtileSt where
  i : Nat
  j : Int
  rb : Int
  r : Heap Int

/-- First loop of `NTILE_CALC`: `for (; rb < rp; j++, rb++) *rb = j;`
(`n` iterations remain; `j` is of the `w`-bit type). -/
def ntile_loop1 (w : Nat) : Nat → NtileSt → NtileSt
  | 0, s => s
  | n + 1, s =>
    ntile_loop1 w n { s with r := store s.r s.rb s.j, j := wrap w (s.j + 1), rb := s.rb + 1 }

/-- Second loop of `NTILE_CALC`:
`for (; rb < rp; i++, rb++) { if (i == buckets) { j++; i = 0; } *rb = j; }`. -/
def ntile_loop2 (w : Nat) (buckets : Nat) : Nat → NtileSt → NtileSt
  | 0, s => s
  | n + 1, s =>
    let s1 := if s.i = buckets then { s with j := wrap w (s.j + 1), i := 0 } else s
    ntile_loop2 w buckets n { s1 with r := store s1.r s1.rb s1.j, i := s1.i + 1, rb := s1.rb + 1 }

/-- Third loop of `NTILE_CALC`:
`for (; rb < rp; i++, rb++) { *rb = j; if (i == buckets) { j++; i = 0; } }`. -/
def ntile_loop3 (w : Nat) (buckets : Nat) : Nat → NtileSt → NtileSt
  | 0, s => s
  | n + 1, s =>
    let s1 := { s with r := store s.r s.rb s.j }
    let s2 := if s1.i = buckets then { s1 with j := wrap w (s1.j + 1), i := 0 } else s1
    ntile_loop3 w buckets n { s2 with i := s2.i + 1, rb := s2.rb + 1 }

/-- `NTILE_CALC`, for the partition of `ncnt` rows that ends at `rp`. Each loop
runs while `rb < rp`, that is `rp - rb` times. (For `bval = 0` and `ncnt > 0`
the C text divides by zero; Lean's `%` and `/` by zero are total.) -/
def NTILE_CALC (w : Nat) (bval ncnt : Nat) (rp : Int) (s : NtileSt) : NtileSt :=
  if bval ≥ ncnt then
    ntile_loop1 w (rp - s.rb).toNat { s with j := 1 }
  else if ncnt % bval = 0 then
    ntile_loop2 w (ncnt / bval) (rp - s.rb).toNat s
  else
    ntile_loop3 w (ncnt / bval) (rp - s.rb).toNat s

/-- The body of the marker loop of `ANALYTICAL_NTILE_IMP`, also run once
behind the loop: `i = 0; j = 1; ncnt = np - pnp; rp += ncnt; NTILE_CALC;`.
The state is `rp` and the variables of `NTILE_CALC`. -/
def ntile_part (w : Nat) (bval : Nat) (pnp np : Int) (s : Int × NtileSt) : Int × NtileSt :=
  let ncnt := (np - pnp).toNat
  let rp := s.1 + ncnt
  (rp, NTILE_CALC w bval ncnt rp { s.2 with i := 0, j := 1 })

/-- `ANALYTICAL_NTILE_IMP(TPE)` for the type of `w` bits: the result storage
and `has_nils`. -/
def ANALYTICAL_NTILE_IMP (w : Nat) (cnt : Nat) (p : Option (BAT Bool)) (val : Int)
    (r : Heap Int) : Heap Int × Bool :=
  let bval := toBUN val
  if (intAtom w).is_nil val then
    (fill (intAtom w).nil cnt 0 r, true)
  else
    match p with
    | some p =>
      let (pnp, s) := parts_loop p.tloc (ntile_part w bval) cnt 0
        (0, (0, { i := 0, j := 1, rb := 0, r := r }))
      ((ntile_part w bval pnp cnt s).2.r, false)
    | none =>
      ((NTILE_CALC w bval cnt cnt { i := 0, j := 1, rb := 0, r := r }).r, false)

/-- `GDKanalyticalntile(r, b, p, tpe, ntile)`; `ntile` points to the bucket
count `val` of type `tpe`. -/
def GDKanalyticalntile {α : Type} (r : BAT Int) (b : BAT α) (p : Option (BAT Bool))
    (tpe : TYPE) (val : Int) : Except gdk_err (BAT Int) :=
  let cnt := b.count
  match tpe.bits with
  | some w =>
    let (rb, has_nils) := ANALYTICAL_NTILE_IMP w cnt p val r.tloc
    .ok { count := cnt, tloc := rb, tnonil := !has_nils, tnil := has_nils }
  | none => .error .nosupport

/-! ## `GDKanalyticalnthvalue` -/

/-- A row loop `for (; i < cnt; i++, rb++) { curval = ...; *rb = curval;
if (is_nil(curval)) has_nils = true; }` whose `curval` is computed from the row
number alone (`rb` and `i` advance together from row 0; in the `default:`
branches `BUNappend` writes the rows in the same order). The state is the
result storage and `has_nils`; `n` rows remain. -/
def row_loop {α : Type} (T : Atom α) (curval : Int → α) :
    Nat → Int → Heap α × Bool → Heap α × Bool
  | 0, _, s => s
  | n + 1, i, (rb, has_nils) =>
    row_loop T curval n (i + 1) (store rb i (curval i), has_nils || T.is_nil (curval i))

/-- The row loop of `ANALYTICAL_NTHVALUE_IMP_SINGLE_FIXED` (and of the
`default:` branch for the other types), `nth` already decremented:
`bs = bp + start[i]; be = bp + end[i];
curval = (be > bs && nth < (end[i] - start[i])) ? *(bs + nth) : TPE_nil`. -/
def nthvalue_single_loop {α : Type} (T : Atom α) (b : Heap α) (start end_ : Heap Int)
    (nth : Int) : Nat → Int → Heap α × Bool → Heap α × Bool :=
  row_loop T (fun i =>
    if end_ i > start i ∧ nth < end_ i - start i then b (start i + nth) else T.nil)

/-- `ANALYTICAL_NTHVALUE_IMP_SINGLE_FIXED(TPE1)`: all rows NIL when `nth` is
the NIL of `lng`, otherwise `nth--` and the row loop. -/
def ANALYTICAL_NTHVALUE_IMP_SINGLE_FIXED {α : Type} (T : Atom α) (cnt : Nat) (b : Heap α)
    (start end_ : Heap Int) (nth : Int) (r : Heap α) : Heap α × Bool :=
  if (intAtom 64).is_nil nth then
    (fill T.nil cnt 0 r, true)
  else
    nthvalue_single_loop T b start end_ (nth - 1) cnt 0 (r, false)

/-- `ANALYTICAL_NTHVALUE_IMP_MULTI_FIXED(TPE1, TPE2, TPE3)` (and
`ANALYTICAL_NTHVALUE_IMP_MULTI_VARSIZED`), `w2` the width of `TPE2`:
`lnth = lp[i]; if (is_nil(lnth) || be <= bs ||
(TPE3)(lnth - 1) > (TPE3)(end[i] - start[i])) curval = nil;
else curval = *(bs + lnth - 1);`. Neither cast changes the value: `lnth` is a
non-NIL value of `TPE2` and `TPE3` is at least as wide. -/
def nthvalue_multi_loop {α : Type} (T : Atom α) (w2 : Nat) (b : Heap α)
    (start end_ : Heap Int) (lp : Heap Int) : Nat → Int → Heap α × Bool → Heap α × Bool :=
  row_loop T (fun i =>
    if (intAtom w2).is_nil (lp i) ∨ end_ i ≤ start i ∨ lp i - 1 > end_ i - start i then T.nil
    else b (start i + lp i - 1))

/-- The two calling modes of `GDKanalyticalnthvalue`: a constant `bound`
(with `l` absent), or a column `l` of per-row values (with `bound` absent). -/
inductive NthArg where
  | bound (val : Int)
  | perRow (l : BAT Int)

/-- The bound that applies to row `i`. -/
def NthArg.at (arg : NthArg) (i : Int) : Int :=
  match arg with
  | .bound val => val
  | .perRow l => l.tloc i

/-- The conversion of the constant bound of type `tp2` to `lng nth`. -/
def nth_of_bound (tp2 : TYPE) (val : Int) : Except gdk_err Int :=
  match tp2 with
  | .bte => .ok (if !(intAtom 8).is_nil val then val else (intAtom 64).nil)
  | .sht => .ok (if !(intAtom 16).is_nil val then val else (intAtom 64).nil)
  | .int => .ok (if !(intAtom 32).is_nil val then val else (intAtom 64).nil)
  | .lng => .ok val
  | .hge => .ok (if (intAtom 128).is_nil val then (intAtom 64).nil
      else if val > GDK_max 64 then GDK_max 64 else wrap 64 val)
  | _ => .error .nosupport

/-- `GDKanalyticalnthvalue(r, b, s, e, l, bound, tp1, tp2)`. For every `tp1`
the body is the same loop: the fixed-width instances of the macros, or the
`default:` branch, which appends the rows in order. -/
def GDKanalyticalnthvalue {α : Type} (T : Atom α) (r : BAT α) (b : BAT α) (s e : BAT Int)
    (arg : NthArg) (_tp1 tp2 : TYPE) : Except gdk_err (BAT α) :=
  let cnt := b.count
  let done := fun (res : Heap α × Bool) =>
    ({ count := cnt, tloc := res.1, tnonil := !res.2, tnil := res.2 } : BAT α)
  match arg with
  | .bound val =>
    match nth_of_bound tp2 val with
    | .error err => .error err
    | .ok nth =>
      .ok (done (ANALYTICAL_NTHVALUE_IMP_SINGLE_FIXED T cnt b.tloc s.tloc e.tloc nth r.tloc))
  | .perRow l =>
    match tp2.bits with
    | some w2 =>
      .ok (done (nthvalue_multi_loop T w2 b.tloc s.tloc e.tloc l.tloc cnt 0 (r.tloc, false)))
    | none => .error .nosupport

/-! ## `GDKanalyticallag` -/

/-- Modelled from the spec: the "none" sentinel `BUN_NONE` of the row-offset
type `BUN` (the largest `lng` value). -/
def BUN_NONE : Nat := 2 ^ 63 - 1

/-- The variables the partition bodies of lag and lead work on: the write
pointer `rb`, the read pointer `bp`, the result storage and `has_nils`. -/
structure ShiftSt (α : Type) where
  rb : Int
  bp : Int
  r : Heap α
  has_nils : Bool

/-- First loop of `ANALYTICAL_LAG_CALC`:
`for (i = 0; i < lag && rb < rp; i++, rb++) *rb = def;`. At most `rp - rb`
iterations can take place, which is the bound the recursion runs on. -/
def lag_fill {α : Type} (def_ : α) (lag : Nat) (rp : Int) :
    Nat → Nat → Int → Heap α → Int × Heap α
  | 0, _, rb, r => (rb, r)
  | f + 1, i, rb, r =>
    if i < lag ∧ rb < rp then lag_fill def_ lag rp f (i + 1) (rb + 1) (store r rb def_)
    else (rb, r)

/-- Second loop of `ANALYTICAL_LAG_CALC` (also the copy loop of `LEAD_CALC`):
`for (; rb < rp; rb++, bp++) { next = *bp; *rb = next;
if (is_nil(next)) has_nils = true; }`, with `n` iterations remaining. -/
def shift_copy {α : Type} (T : Atom α) (b : Heap α) : Nat → ShiftSt α → ShiftSt α
  | 0, s => s
  | n + 1, s =>
    let next := b s.bp
    shift_copy T b n
      { rb := s.rb + 1, bp := s.bp + 1, r := store s.r s.rb next,
        has_nils := s.has_nils || T.is_nil next }

/-- `ANALYTICAL_LAG_CALC(TPE)` for the partition that ends at `rp`. -/
def ANALYTICAL_LAG_CALC {α : Type} (T : Atom α) (b : Heap α) (def_ : α) (lag : Nat)
    (rp : Int) (s : ShiftSt α) : ShiftSt α :=
  let f := lag_fill def_ lag rp (rp - s.rb).toNat 0 s.rb s.r
  let has_nils := if lag > 0 ∧ T.is_nil def_ = true then true else s.has_nils
  shift_copy T b (rp - f.1).toNat { rb := f.1, bp := s.bp, r := f.2, has_nils := has_nils }

/-- The body of the marker loop of `ANALYTICAL_LAG_IMP`: `ncnt = (np - pnp);
rp += ncnt; nbp = bp + ncnt; ANALYTICAL_LAG_CALC(TPE); bp = nbp;`. The state
is `rp` and the variables of `ANALYTICAL_LAG_CALC`. -/
def lag_part {α : Type} (T : Atom α) (b : Heap α) (def_ : α) (lag : Nat) (pnp np : Int)
    (s : Int × ShiftSt α) : Int × ShiftSt α :=
  let ncnt := np - pnp
  let rp := s.1 + ncnt
  let nbp := s.2.bp + ncnt
  (rp, { ANALYTICAL_LAG_CALC T b def_ lag rp s.2 with bp := nbp })

/-- `ANALYTICAL_LAG_IMP(TPE)`: the result storage and `has_nils`. Behind the
marker loop: `rp += (np - pnp); ANALYTICAL_LAG_CALC(TPE);`. -/
def ANALYTICAL_LAG_IMP {α : Type} (T : Atom α) (cnt : Nat) (b : Heap α)
    (p : Option (BAT Bool)) (lag : Nat) (def_ : α) (r : Heap α) : Heap α × Bool :=
  if lag = BUN_NONE then
    (fill T.nil cnt 0 r, true)
  else
    match p with
    | some p =>
      let (pnp, s) := parts_loop p.tloc (lag_part T b def_ lag) cnt 0
        (0, (0, { rb := 0, bp := 0, r := r, has_nils := false }))
      let rp := s.1 + ((cnt : Int) - pnp)
      let st := ANALYTICAL_LAG_CALC T b def_ lag rp s.2
      (st.r, st.has_nils)
    | none =>
      let st := ANALYTICAL_LAG_CALC T b def_ lag cnt
        { rb := 0, bp := 0, r := r, has_nils := false }
      (st.r, st.has_nils)

/-- The variables of the `default:` branches of lag and lead: the counters
`j` (end of the partition) and `k` (next row), the result column under
construction (`BUNappend` stores at row `count` and increments it) and
`has_nils`. -/
structure AppendSt (α : Type) where
  j : Int
  k : Int
  r : Heap α
  count : Nat
  has_nils : Bool

/-- `BUNappend(r, v, false)`. Allocation failure is not modelled: the call
returns `GDK_SUCCEED`. -/
def AppendSt.BUNappend {α : Type} (s : AppendSt α) (v : α) : AppendSt α :=
  { s with r := store s.r s.count v, count := s.count + 1 }

/-- First loop of `ANALYTICAL_LAG_OTHERS`:
`for (i = 0; i < lag && k < j; i++, k++) BUNappend(r, default_value)`. -/
def lag_others_fill {α : Type} (def_ : α) (lag : Nat) :
    Nat → Nat → AppendSt α → AppendSt α
  | 0, _, s => s
  | f + 1, i, s =>
    if i < lag ∧ s.k < s.j then
      lag_others_fill def_ lag f (i + 1) { s.BUNappend def_ with k := s.k + 1 }
    else s

/-- Second loop of `ANALYTICAL_LAG_OTHERS`:
`for (l = k - lag; k < j; k++, l++) { curval = BUNtail(bpi, l);
BUNappend(r, curval); if (atomcmp(curval, nil) == 0) has_nils = true; }`. -/
def lag_others_copy {α : Type} (T : Atom α) (b : Heap α) :
    Nat → Int → AppendSt α → AppendSt α
  | 0, _, s => s
  | n + 1, l, s =>
    let curval := b l
    lag_others_copy T b n (l + 1)
      { s.BUNappend curval with
        k := s.k + 1, has_nils := s.has_nils || decide (T.cmp curval T.nil = 0) }

/-- `ANALYTICAL_LAG_OTHERS`. The start `l = k - lag` of the copy is computed
in the unsigned type `BUN`; it is only used when the first loop ended on
`i = lag`, and then `k >= lag`, so that the difference does not wrap. -/
def ANALYTICAL_LAG_OTHERS {α : Type} (T : Atom α) (b : Heap α) (def_ : α) (lag : Nat)
    (s : AppendSt α) : AppendSt α :=
  let s1 := lag_others_fill def_ lag (s.j - s.k).toNat 0 s
  let s2 := if lag > 0 ∧ T.cmp def_ T.nil = 0 then { s1 with has_nils := true } else s1
  lag_others_copy T b (s2.j - s2.k).toNat (s2.k - lag) s2

/-- The body of the marker loop of the `default:` branch of lag, also run
once behind the loop: `j += (np - pnp); ANALYTICAL_LAG_OTHERS;`. -/
def lag_others_part {α : Type} (T : Atom α) (b : Heap α) (def_ : α) (lag : Nat)
    (pnp np : Int) (s : AppendSt α) : AppendSt α :=
  ANALYTICAL_LAG_OTHERS T b def_ lag { s with j := s.j + (np - pnp) }

/-- The `default:` branch of `GDKanalyticallag`, appending to the result
column `r` (whose storage and row count so far are `r0`, `count0`). -/
def lag_default {α : Type} (T : Atom α) (cnt : Nat) (b : Heap α) (p : Option (BAT Bool))
    (lag : Nat) (def_ : α) (r0 : Heap α) (count0 : Nat) : Heap α × Bool :=
  if lag = BUN_NONE then
    (fill T.nil cnt count0 r0, true)
  else
    let s0 : AppendSt α := { j := 0, k := 0, r := r0, count := count0, has_nils := false }
    match p with
    | some p =>
      let (pnp, s) := parts_loop p.tloc (lag_others_part T b def_ lag) cnt 0 (0, s0)
      let s1 := lag_others_part T b def_ lag pnp cnt s
      (s1.r, s1.has_nils)
    | none =>
      let s1 := ANALYTICAL_LAG_OTHERS T b def_ lag { s0 with j := s0.j + cnt }
      (s1.r, s1.has_nils)

/-- `GDKanalyticallag(r, b, p, lag, default_value, tpe)`; the value is the
result column after the call (the call fails only when `BUNappend` cannot
allocate, which is not modelled). -/
def GDKanalyticallag {α : Type} (T : Atom α) (r : BAT α) (b : BAT α) (p : Option (BAT Bool))
    (lag : Nat) (default_value : α) (tpe : TYPE) : BAT α :=
  let cnt := b.count
  let res :=
    match tpe with
    | .other => lag_default T cnt b.tloc p lag default_value r.tloc r.count
    | _ => ANALYTICAL_LAG_IMP T cnt b.tloc p lag default_value r.tloc
  { count := cnt, tloc := res.1, tnonil := !res.2, tnil := res.2 }

/-! ## `GDKanalyticallead` -/

/-- `LEAD_CALC(TPE)` for the partition of `ncnt` rows that ends at `rp`:
`if (lead < ncnt) { bp += lead; l = ncnt - lead;
for (i = 0; i < l; i++, rb++, bp++) { next = *bp; *rb = next; ... } }
else { bp += ncnt; }
for (; rb < rp; rb++) *rb = def;
if (lead > 0 && is_nil(def)) has_nils = true;`. -/
def LEAD_CALC {α : Type} (T : Atom α) (b : Heap α) (def_ : α) (lead : Nat) (ncnt : Nat)
    (rp : Int) (s : ShiftSt α) : ShiftSt α :=
  let s1 :=
    if lead < ncnt then shift_copy T b (ncnt - lead) { s with bp := s.bp + lead }
    else { s with bp := s.bp + ncnt }
  let n := (rp - s1.rb).toNat
  { rb := s1.rb + n, bp := s1.bp, r := fill def_ n s1.rb s1.r,
    has_nils := if lead > 0 ∧ T.is_nil def_ = true then true else s1.has_nils }

/-- The body of the marker loop of `ANALYTICAL_LEAD_IMP`, also run once behind
the loop: `ncnt = (np - pnp); rp += ncnt; LEAD_CALC(TPE);`. -/
def lead_part {α : Type} (T : Atom α) (b : Heap α) (def_ : α) (lead : Nat) (pnp np : Int)
    (s : Int × ShiftSt α) : Int × ShiftSt α :=
  let ncnt := (np - pnp).toNat
  let rp := s.1 + ncnt
  (rp, LEAD_CALC T b def_ lead ncnt rp s.2)

/-- `ANALYTICAL_LEAD_IMP(TPE)`: the result storage and `has_nils`. -/
def ANALYTICAL_LEAD_IMP {α : Type} (T : Atom α) (cnt : Nat) (b : Heap α)
    (p : Option (BAT Bool)) (lead : Nat) (def_ : α) (r : Heap α) : Heap α × Bool :=
  if lead = BUN_NONE then
    (fill T.nil cnt 0 r, true)
  else
    match p with
    | some p =>
      let (pnp, s) := parts_loop p.tloc (lead_part T b def_ lead) cnt 0
        (0, (0, { rb := 0, bp := 0, r := r, has_nils := false }))
      let st := (lead_part T b def_ lead pnp cnt s).2
      (st.r, st.has_nils)
    | none =>
      let st := LEAD_CALC T b def_ lead cnt cnt { rb := 0, bp := 0, r := r, has_nils := false }
      (st.r, st.has_nils)

/-- The copy loop of `ANALYTICAL_LEAD_OTHERS`:
`for (i = 0, n = k + lead; i < m; i++, n++) { curval = BUNtail(bpi, n);
BUNappend(r, curval); if (atomcmp(curval, nil) == 0) has_nils = true; }`,
with `m - i` iterations remaining. -/
def lead_others_copy {α : Type} (T : Atom α) (b : Heap α) :
    Nat → Int → AppendSt α → AppendSt α
  | 0, _, s => s
  | m + 1, n, s =>
    let curval := b n
    lead_others_copy T b m (n + 1)
      { s.BUNappend curval with has_nils := s.has_nils || decide (T.cmp curval T.nil = 0) }

/-- The loop `for (; k < j; k++) BUNappend(r, default_value)` of
`ANALYTICAL_LEAD_OTHERS`, with `n` iterations remaining. -/
def lead_others_fill {α : Type} (def_ : α) : Nat → AppendSt α → AppendSt α
  | 0, s => s
  | n + 1, s => lead_others_fill def_ n { s.BUNappend def_ with k := s.k + 1 }

/-- `ANALYTICAL_LEAD_OTHERS` for a partition of `ncnt` rows: `j += ncnt;
if (lead < ncnt) { m = ncnt - lead; (copy loop) k += i; }
(fill loop) if (lead > 0 && atomcmp(default_value, nil) == 0) has_nils = true;`. -/
def ANALYTICAL_LEAD_OTHERS {α : Type} (T : Atom α) (b : Heap α) (def_ : α) (lead : Nat)
    (ncnt : Nat) (s : AppendSt α) : AppendSt α :=
  let s0 := { s with j := s.j + ncnt }
  let s1 :=
    if lead < ncnt then
      let m := ncnt - lead
      let s' := lead_others_copy T b m (s0.k + lead) s0
      { s' with k := s'.k + m }
    else s0
  let s2 := lead_others_fill def_ (s1.j - s1.k).toNat s1
  if lead > 0 ∧ T.cmp def_ T.nil = 0 then { s2 with has_nils := true } else s2

/-- The body of the marker loop of the `default:` branch of lead, also run
once behind the loop: `ncnt = (np - pnp); ANALYTICAL_LEAD_OTHERS;`. -/
def lead_others_part {α : Type} (T : Atom α) (b : Heap α) (def_ : α) (lead : Nat)
    (pnp np : Int) (s : AppendSt α) : AppendSt α :=
  ANALYTICAL_LEAD_OTHERS T b def_ lead (np - pnp).toNat s

/-- The `default:` branch of `GDKanalyticallead`, appending to the result
column `r` (whose storage and row count so far are `r0`, `count0`). -/
def lead_default {α : Type} (T : Atom α) (cnt : Nat) (b : Heap α) (p : Option (BAT Bool))
    (lead : Nat) (def_ : α) (r0 : Heap α) (count0 : Nat) : Heap α × Bool :=
  if lead = BUN_NONE then
    (fill T.nil cnt count0 r0, true)
  else
    let s0 : AppendSt α := { j := 0, k := 0, r := r0, count := count0, has_nils := false }
    match p with
    | some p =>
      let (pnp, s) := parts_loop p.tloc (lead_others_part T b def_ lead) cnt 0 (0, s0)
      let s1 := lead_others_part T b def_ lead pnp cnt s
      (s1.r, s1.has_nils)
    | none =>
      let s1 := ANALYTICAL_LEAD_OTHERS T b def_ lead cnt s0
      (s1.r, s1.has_nils)

/-- `GDKanalyticallead(r, b, p, lead, default_value, tpe)`; the value is the
result column after the call (the call fails only when `BUNappend` cannot
allocate, which is not modelled). -/
def GDKanalyticallead {α : Type} (T : Atom α) (r : BAT α) (b : BAT α) (p : Option (BAT Bool))
    (lead : Nat) (default_value : α) (tpe : TYPE) : BAT α :=
  let cnt := b.count
  let res :=
    match tpe with
    | .other => lead_default T cnt b.tloc p lead default_value r.tloc r.count
    | _ => ANALYTICAL_LEAD_IMP T cnt b.tloc p lead default_value r.tloc
  { count := cnt, tloc := res.1, tnonil := !res.2, tnil := res.2 }

/-! ## `GDKanalyticalsum` -/

/-- Modelled from the spec: `ADD_WITH_CHECK(lft, rgt, TYPE3, dst, max,
on_overflow)` of `gdk_calc_private.h`: the sum is assigned to `dst` when it
lies in `[-max, max]`; otherwise the overflow is detected and reported through
`on_overflow` (here `goto calc_overflow`) instead of a wrapped value being
stored. -/
def ADD_WITH_CHECK (lft rgt max : Int) : Except gdk_err Int :=
  if -max ≤ lft + rgt ∧ lft + rgt ≤ max then .ok (lft + rgt) else .error .calc_overflow

/-- The inner loop of `ANALYTICAL_SUM_IMP_NUM(TPE1, TPE2)` over one frame,
`w1` and `w2` the widths of the two types:
`for (; bs < be; bs++) { v = *bs; if (!is_nil(v)) { if (is_nil(curval))
curval = (TPE2) v; else ADD_WITH_CHECK(v, curval, TPE2, curval,
GDK_TPE2_max, goto calc_overflow); } }`, with `n` elements remaining. -/
def sum_frame (w1 w2 : Nat) (b : Heap Int) : Nat → Int → Int → Except gdk_err Int
  | 0, _, curval => .ok curval
  | n + 1, bs, curval =>
    let v := b bs
    if !(intAtom w1).is_nil v then
      if (intAtom w2).is_nil curval then
        sum_frame w1 w2 b n (bs + 1) (wrap w2 v)
      else
        match ADD_WITH_CHECK v curval (GDK_max w2) with
        | .ok c => sum_frame w1 w2 b n (bs + 1) c
        | .error err => .error err
    else
      sum_frame w1 w2 b n (bs + 1) curval

/-- The row loop of `ANALYTICAL_SUM_IMP_NUM(TPE1, TPE2)`:
`for (; i < cnt; i++, rb++) { bs = bp + start[i]; be = bp + end[i];
(inner loop) *rb = curval; if (is_nil(curval)) has_nils = true;
else curval = TPE2_nil; }`. The inner loop runs `end[i] - start[i]` times
(not at all when that is negative). -/
def sum_rows (w1 w2 : Nat) (b : Heap Int) (start end_ : Heap Int) :
    Nat → Int → Int → Heap Int × Bool → Except gdk_err (Heap Int × Bool)
  | 0, _, _, s => .ok s
  | n + 1, i, curval, (rb, has_nils) =>
    match sum_frame w1 w2 b (end_ i - start i).toNat (start i) curval with
    | .error err => .error err
    | .ok c =>
      if (intAtom w2).is_nil c then
        sum_rows w1 w2 b start end_ n (i + 1) c (store rb i c, true)
      else
        sum_rows w1 w2 b start end_ n (i + 1) (intAtom w2).nil (store rb i c, has_nils)

/-- The two nested switches of `GDKanalyticalsum` over the integer types: the
widths of `TPE1` and `TPE2` for the supported pairs, nothing for the pairs that
`goto nosupport`. -/
def sum_types (tp1 tp2 : TYPE) : Option (Nat × Nat) :=
  match tp2 with
  | .bte =>
    match tp1 with
    | .bte => some (8, 8)
    | _ => none
  | .sht =>
    match tp1 with
    | .bte => some (8, 16)
    | .sht => some (16, 16)
    | _ => none
  | .int =>
    match tp1 with
    | .bte => some (8, 32)
    | .sht => some (16, 32)
    | .int => some (32, 32)
    | _ => none
  | .lng =>
    match tp1 with
    | .bte => some (8, 64)
    | .sht => some (16, 64)
    | .int => some (32, 64)
    | .lng => some (64, 64)
    | _ => none
  | .hge =>
    match tp1 with
    | .bte => some (8, 128)
    | .sht => some (16, 128)
    | .int => some (32, 128)
    | .lng => some (64, 128)
    | .hge => some (128, 128)
    | _ => none
  | _ => none

/-- `GDKanalyticalsum(r, b, s, e, tp1, tp2)` on integer columns
(`ANALYTICAL_SUM_CALC` with `ANALYTICAL_SUM_IMP_NUM`, `curval` starting as
`TPE2_nil`). The `flt` / `dbl` cases of the switch work on floating-point
columns through `dofsum` and are not covered by this definition over integer
columns: here these codes end like every other pair outside the table. -/
def GDKanalyticalsum (r : BAT Int) (b : BAT Int) (s e : BAT Int) (tp1 tp2 : TYPE) :
    Except gdk_err (BAT Int) :=
  let cnt := b.count
  match sum_types tp1 tp2 with
  | some (w1, w2) =>
    match sum_rows w1 w2 b.tloc s.tloc e.tloc cnt 0 (intAtom w2).nil (r.tloc, false) with
    | .ok (rb, has_nils) =>
      .ok { count := cnt, tloc := rb, tnonil := !has_nils, tnil := has_nils }
    | .error err => .error err
  | none => .error .nosupport

/-- The elements of a frame in row order: the `n` values from position `s`
on. -/
def frame_values {α : Type} (b : Heap α) : Nat → Int → List α
  | 0, _ => []
  | n + 1, s => b s :: frame_values b n (s + 1)

/-- The non-NIL elements of the frame `[s, e)` of a column of the type of
`w1` bits, in row order. -/
def non_nil_values (w1 : Nat) (b : Heap Int) (s e : Int) : List Int :=
  (frame_values b (e - s).toNat s).filter (fun v => !(intAtom w1).is_nil v)

/-- Every running partial sum of the list lies in `[-max, max]`. -/
def running_sums_in_range (max : Int) (l : List Int) : Prop :=
  ∀ m, m ≤ l.length → -max ≤ (l.take m).sum ∧ (l.take m).sum ≤ max

/-- The integer `v` is a value of the signed type of `w` bits. -/
def in_type (w : Nat) (v : Int) : Prop :=
  -(2 ^ (w - 1)) ≤ v ∧ v < 2 ^ (w - 1)

/-- What the claim on `sum` promises for a frame: NIL when the frame has no
non-NIL element, their mathematical sum otherwise. -/
def frame_sum (w1 w2 : Nat) (b : Heap Int) (s e : Int) : Int :=
  if non_nil_values w1 b s e = [] then (intAtom w2).nil else (non_nil_values w1 b s e).sum

/-! ## `GDKanalyticalfirst` and `GDKanalyticallast` -/

/-- `ANALYTICAL_FIRST_IMP(TPE)` (and the `default:` branch, which tests
`end[i] > start[i]` and appends `BUNtail(bpi, start[i])` or the NIL):
`bs = bp + start[i]; be = bp + end[i]; curval = (be > bs) ? *bs : TPE_nil;`. -/
def ANALYTICAL_FIRST_IMP {α : Type} (T : Atom α) (cnt : Nat) (b : Heap α)
    (start end_ : Heap Int) (r : Heap α) : Heap α × Bool :=
  row_loop T (fun i => if end_ i > start i then b (start i) else T.nil) cnt 0 (r, false)

/-- `GDKanalyticalfirst(r, b, s, e, tpe)`. Every case of the switch is the same
row loop; the value is the result column after the call (the call fails only
when `BUNappend` cannot allocate, which is not modelled). -/
def GDKanalyticalfirst {α : Type} (T : Atom α) (r b : BAT α) (s e : BAT Int) (_tpe : TYPE) :
    BAT α :=
  let cnt := b.count
  let res := ANALYTICAL_FIRST_IMP T cnt b.tloc s.tloc e.tloc r.tloc
  { count := cnt, tloc := res.1, tnonil := !res.2, tnil := res.2 }

/-- `ANALYTICAL_LAST_IMP(TPE)` (and the `default:` branch):
`curval = (be > bs) ? *(be - 1) : TPE_nil;`. -/
def ANALYTICAL_LAST_IMP {α : Type} (T : Atom α) (cnt : Nat) (b : Heap α)
    (start end_ : Heap Int) (r : Heap α) : Heap α × Bool :=
  row_loop T (fun i => if end_ i > start i then b (end_ i - 1) else T.nil) cnt 0 (r, false)

/-- `GDKanalyticallast(r, b, s, e, tpe)`. -/
def GDKanalyticallast {α : Type} (T : Atom α) (r b : BAT α) (s e : BAT Int) (_tpe : TYPE) :
    BAT α :=
  let cnt := b.count
  let res := ANALYTICAL_LAST_IMP T cnt b.tloc s.tloc e.tloc r.tloc
  { count := cnt, tloc := res.1, tnonil := !res.2, tnil := res.2 }

/-! ## `GDKanalyticalmin` and `GDKanalyticalmax` -/

/-- Modelled from the spec: the macro `MIN(a, b)` of the configuration header,
the smaller of two values under the C operator `<` (given as `lt`). -/
def MIN {α : Type} (lt : α → α → Bool) (a b : α) : α := if lt a b then a else b

/-- Modelled from the spec: the macro `MAX(a, b)` of the configuration header,
the larger of two values under the C operator `<` (given as `lt`). -/
def MAX {α : Type} (lt : α → α → Bool) (a b : α) : α := if lt b a then a else b

/-- The inner loop of `ANALYTICAL_MIN_MAX_CALC(TPE, OP)` over one frame:
`for (; bs < be; bs++) { v = *bs; if (!is_nil(v)) { if (is_nil(curval))
curval = v; else curval = OP(v, curval); } }`, with `n` elements remaining. -/
def minmax_frame {α : Type} (T : Atom α) (OP : α → α → α) (b : Heap α) :
    Nat → Int → α → α
  | 0, _, curval => curval
  | n + 1, bs, curval =>
    let v := b bs
    if !T.is_nil v then
      if T.is_nil curval then minmax_frame T OP b n (bs + 1) v
      else minmax_frame T OP b n (bs + 1) (OP v curval)
    else minmax_frame T OP b n (bs + 1) curval

/-- The row loop of `ANALYTICAL_MIN_MAX_CALC(TPE, OP)`:
`for (; i < cnt; i++, rb++) { bs = bp + start[i]; be = bp + end[i];
(inner loop) *rb = curval; if (is_nil(curval)) has_nils = true;
else curval = TPE_nil; }`. -/
def minmax_rows {α : Type} (T : Atom α) (OP : α → α → α) (b : Heap α)
    (start end_ : Heap Int) : Nat → Int → α → Heap α × Bool → Heap α × Bool
  | 0, _, _, s => s
  | n + 1, i, curval, (rb, has_nils) =>
    let c := minmax_frame T OP b (end_ i - start i).toNat (start i) curval
    if T.is_nil c then
      minmax_rows T OP b start end_ n (i + 1) c (store rb i c, true)
    else
      minmax_rows T OP b start end_ n (i + 1) T.nil (store rb i c, has_nils)

/-- The inner loop of the `default:` branch of `ANALYTICAL_MIN_MAX`:
`for (; j < l; j++) { next = BUNtail(bpi, j); if (atomcmp(next, nil) != 0) {
if (atomcmp(curval, nil) == 0) curval = next; else
curval = atomcmp(next, curval) SIGN_OP 0 ? curval : next; } }`; `sign_op c`
stands for `c SIGN_OP 0`. -/
def minmax_default_frame {α : Type} (T : Atom α) (sign_op : Int → Bool) (b : Heap α) :
    Nat → Int → α → α
  | 0, _, curval => curval
  | n + 1, j, curval =>
    let next := b j
    if T.cmp next T.nil ≠ 0 then
      if T.cmp curval T.nil = 0 then minmax_default_frame T sign_op b n (j + 1) next
      else
        minmax_default_frame T sign_op b n (j + 1)
          (if sign_op (T.cmp next curval) then curval else next)
    else minmax_default_frame T sign_op b n (j + 1) curval

/-- The row loop of the `default:` branch of `ANALYTICAL_MIN_MAX`:
`j = start[i]; l = end[i]; curval = nil; (inner loop) BUNappend(r, curval);
if (atomcmp(curval, nil) == 0) has_nils = true;`. -/
def minmax_default_rows {α : Type} (T : Atom α) (sign_op : Int → Bool) (b : Heap α)
    (start end_ : Heap Int) : Nat → Int → Heap α × Bool → Heap α × Bool
  | 0, _, s => s
  | n + 1, i, (rb, has_nils) =>
    let curval := minmax_default_frame T sign_op b (end_ i - start i).toNat (start i) T.nil
    minmax_default_rows T sign_op b start end_ n (i + 1)
      (store rb i curval, has_nils || decide (T.cmp curval T.nil = 0))

/-- The function text `ANALYTICAL_MIN_MAX(OP, IMP, SIGN_OP)`: the fixed-width
cases run `ANALYTICAL_MIN_MAX_CALC(TPE, IMP)` with `curval` starting as the
NIL, the other types the `default:` branch. The value is the result column
after the call (allocation failure of `BUNappend` is not modelled). -/
def ANALYTICAL_MIN_MAX {α : Type} (T : Atom α) (IMP : α → α → α) (sign_op : Int → Bool)
    (r b : BAT α) (s e : BAT Int) (tpe : TYPE) : BAT α :=
  let cnt := b.count
  let res :=
    match tpe with
    | .other => minmax_default_rows T sign_op b.tloc s.tloc e.tloc cnt 0 (r.tloc, false)
    | _ => minmax_rows T IMP b.tloc s.tloc e.tloc cnt 0 T.nil (r.tloc, false)
  { count := cnt, tloc := res.1, tnonil := !res.2, tnil := res.2 }

/-- `GDKanalyticalmin`, that is `ANALYTICAL_MIN_MAX(min, MIN, >)`; `lt` is the
C operator `<` of the element type. -/
def GDKanalyticalmin {α : Type} (T : Atom α) (lt : α → α → Bool) (r b : BAT α)
    (s e : BAT Int) (tpe : TYPE) : BAT α :=
  ANALYTICAL_MIN_MAX T (MIN lt) (fun c => decide (c > 0)) r b s e tpe

/-- `GDKanalyticalmax`, that is `ANALYTICAL_MIN_MAX(max, MAX, <)`. -/
def GDKanalyticalmax {α : Type} (T : Atom α) (lt : α → α → Bool) (r b : BAT α)
    (s e : BAT Int) (tpe : TYPE) : BAT α :=
  ANALYTICAL_MIN_MAX T (MAX lt) (fun c => decide (c < 0)) r b s e tpe

/-- The C operator `<` on integers. -/
def int_lt (a b : Int) : Bool := decide (a < b)

/-- The non-NIL elements of the frame `[s, e)` of a column, in row order. -/
def frame_non_nil {α : Type} (T : Atom α) (b : Heap α) (s e : Int) : List α :=
  (frame_values b (e - s).toNat s).filter (fun v => !T.is_nil v)

/-! ## `GDKanalyticalcount` -/

/-- The inner loop of `ANALYTICAL_COUNT_NO_NIL_FIXED_SIZE_IMP(TPE)`:
`for (; bs < be; bs++) curval += !is_nil(*bs);`, with `n` elements
remaining. -/
def count_frame {α : Type} (notnil : α → Bool) (b : Heap α) : Nat → Int → Int → Int
  | 0, _, curval => curval
  | n + 1, bs, curval =>
    count_frame notnil b n (bs + 1) (curval + (if notnil (b bs) then 1 else 0))

/-- The row loop of `ANALYTICAL_COUNT_NO_NIL_FIXED_SIZE_IMP(TPE)` and of the
loops for the other types, which differ in the test `notnil` only:
`for (; i < cnt; i++, rb++) { (inner loop) *rb = curval; curval = 0; }`. -/
def count_rows {α : Type} (notnil : α → Bool) (b : Heap α) (start end_ : Heap Int) :
    Nat → Int → Int → Heap Int → Heap Int
  | 0, _, _, rb => rb
  | n + 1, i, curval, rb =>
    let c := count_frame notnil b (end_ i - start i).toNat (start i) curval
    count_rows notnil b start end_ n (i + 1) 0 (store rb i c)

/-- The loop `for (; i < cnt; i++, rb++)
*rb = (end[i] > start[i]) ? (end[i] - start[i]) : 0;`. -/
def count_all_rows (start end_ : Heap Int) : Nat → Int → Heap Int → Heap Int
  | 0, _, rb => rb
  | n + 1, i, rb =>
    count_all_rows start end_ n (i + 1)
      (store rb i (if end_ i > start i then end_ i - start i else 0))

/-- `GDKanalyticalcount(r, b, s, e, ignore_nils, tpe)`. The fixed-width types
test `!is_TPE_nil(*bs)`. For the other types (`other`) the element is compared
with the NIL through the comparator, `cmp(..., nil) != 0`; the case `TYPE_str`
of the source, which instead tests the first byte of the string against the
first byte of the NIL string, is a matter of the storage layout and is
represented by the same comparison. The call always succeeds. -/
def GDKanalyticalcount {α : Type} (T : Atom α) (r : BAT Int) (b : BAT α) (s e : BAT Int)
    (ignore_nils : Bool) (tpe : TYPE) : BAT Int :=
  let cnt := b.count
  let rb :=
    if !ignore_nils || b.tnonil then
      count_all_rows s.tloc e.tloc cnt 0 r.tloc
    else
      match tpe with
      | .other =>
        count_rows (fun v => decide (T.cmp v T.nil ≠ 0)) b.tloc s.tloc e.tloc cnt 0 0 r.tloc
      | _ => count_rows (fun v => !T.is_nil v) b.tloc s.tloc e.tloc cnt 0 0 r.tloc
  { count := cnt, tloc := rb, tnonil := true, tnil := false }


/-! ## `GDKanalyticalprod` -/

/-- Modelled from the spec: `MUL4_WITH_CHECK(lft, rgt, TYPE3, dst, max, TYPE4,
on_overflow)` of `gdk_calc_private.h`, for `TYPE3` of `w3` bits and the wider
`TYPE4` of `w4` bits: `TYPE4 c = (TYPE4) (lft) * (rgt); if (c < (TYPE4) -(max)
|| c > (TYPE4) (max)) on_overflow; else (dst) = (TYPE3) c;`. The product is
formed in the wider type and compared with the bounds of the result type
there. -/
def MUL4_WITH_CHECK (lft rgt : Int) (w3 : Nat) (max : Int) (w4 : Nat) : Except gdk_err Int :=
  let c := wrap w4 (wrap w4 lft * rgt)
  if c < wrap w4 (-max) ∨ c > wrap w4 max then .error .calc_overflow else .ok (wrap w3 c)

/-- Modelled from the spec: `HGEMUL_CHECK(lft, rgt, dst, max, on_overflow)` of
`gdk_calc_private.h`, the checked multiplication in the widest type, where no
wider type is left to form the product in: the product is assigned when it
lies in `[-max, max]`, the overflow is reported otherwise. -/
def HGEMUL_CHECK (lft rgt max : Int) : Except gdk_err Int :=
  if -max ≤ lft * rgt ∧ lft * rgt ≤ max then .ok (lft * rgt) else .error .calc_overflow

/-- The inner loop of `ANALYTICAL_PROD_CALC_NUM(TPE1, TPE2, TPE3)` and of
`ANALYTICAL_PROD_CALC_NUM_LIMIT(TPE1, TPE2, REAL_IMP)` over one frame, `mul`
the checked multiplication of the macro:
`for (; bs < be; bs++) { v = *bs; if (!is_nil(v)) { if (is_nil(curval))
curval = (TPE2) v; else (checked) curval = v * curval; } }`, with `n` elements
remaining. -/
def prod_frame (w1 w2 : Nat) (mul : Int → Int → Except gdk_err Int) (b : Heap Int) :
    Nat → Int → Int → Except gdk_err Int
  | 0, _, curval => .ok curval
  | n + 1, bs, curval =>
    let v := b bs
    if !(intAtom w1).is_nil v then
      if (intAtom w2).is_nil curval then
        prod_frame w1 w2 mul b n (bs + 1) (wrap w2 v)
      else
        match mul v curval with
        | .ok c => prod_frame w1 w2 mul b n (bs + 1) c
        | .error err => .error err
    else
      prod_frame w1 w2 mul b n (bs + 1) curval

/-- The row loop of the two integer macros of `prod`:
`for (; i < cnt; i++, rb++) { bs = bp + start[i]; be = bp + end[i];
(inner loop) *rb = curval; if (is_nil(curval)) has_nils = true;
else curval = TPE2_nil; }`. -/
def prod_rows (w1 w2 : Nat) (mul : Int → Int → Except gdk_err Int) (b : Heap Int)
    (start end_ : Heap Int) :
    Nat → Int → Int → Heap Int × Bool → Except gdk_err (Heap Int × Bool)
  | 0, _, _, s => .ok s
  | n + 1, i, curval, (rb, has_nils) =>
    match prod_frame w1 w2 mul b (end_ i - start i).toNat (start i) curval with
    | .error err => .error err
    | .ok c =>
      if (intAtom w2).is_nil c then
        prod_rows w1 w2 mul b start end_ n (i + 1) c (store rb i c, true)
      else
        prod_rows w1 w2 mul b start end_ n (i + 1) (intAtom w2).nil (store rb i c, has_nils)

/-- The two nested switches of `GDKanalyticalprod` over the integer types: the
widths of `TPE1` and `TPE2` for the supported pairs, with the width of the
wider `TPE3` for the pairs of `ANALYTICAL_PROD_CALC_NUM` and without it for the
pairs of `ANALYTICAL_PROD_CALC_NUM_LIMIT` (the `hge` results); nothing for the
pairs that `goto nosupport`. -/
def prod_types (tp1 tp2 : TYPE) : Option (Nat × Nat × Option Nat) :=
  match tp2 with
  | .bte =>
    match tp1 with
    | .bte => some (8, 8, some 16)
    | _ => none
  | .sht =>
    match tp1 with
    | .bte => some (8, 16, some 32)
    | .sht => some (16, 16, some 32)
    | _ => none
  | .int =>
    match tp1 with
    | .bte => some (8, 32, some 64)
    | .sht => some (16, 32, some 64)
    | .int => some (32, 32, some 64)
    | _ => none
  | .lng =>
    match tp1 with
    | .bte => some (8, 64, some 128)
    | .sht => some (16, 64, some 128)
    | .int => some (32, 64, some 128)
    | .lng => some (64, 64, some 128)
    | _ => none
  | .hge =>
    match tp1 with
    | .bte => some (8, 128, none)
    | .sht => some (16, 128, none)
    | .int => some (32, 128, none)
    | .lng => some (64, 128, none)
    | .hge => some (128, 128, none)
    | _ => none
  | _ => none

/-- The checked multiplication used for a pair of the table. -/
def prod_mul (w2 : Nat) : Option Nat → Int → Int → Except gdk_err Int
  | some w3, v, curval => MUL4_WITH_CHECK v curval w2 (GDK_max w2) w3
  | none, v, curval => HGEMUL_CHECK v curval (GDK_max w2)

/-- `GDKanalyticalprod(r, b, s, e, tp1, tp2)` on integer columns, `curval`
starting as `TPE2_nil`. The `flt` / `dbl` cases of the switch
(`ANALYTICAL_PROD_CALC_FP`) work on floating-point columns and are not covered
by this definition over integer columns: here these codes end like every other
pair outside the table. -/
def GDKanalyticalprod (r : BAT Int) (b : BAT Int) (s e : BAT Int) (tp1 tp2 : TYPE) :
    Except gdk_err (BAT Int) :=
  let cnt := b.count
  match prod_types tp1 tp2 with
  | some (w1, w2, k) =>
    match prod_rows w1 w2 (prod_mul w2 k) b.tloc s.tloc e.tloc cnt 0 (intAtom w2).nil
        (r.tloc, false) with
    | .ok (rb, has_nils) =>
      .ok { count := cnt, tloc := rb, tnonil := !has_nils, tnil := has_nils }
    | .error err => .error err
  | none => .error .nosupport

/-- Every running product of a non-empty prefix of the list lies in
`[-max, max]`. -/
def running_prods_in_range (max : Int) (l : List Int) : Prop :=
  ∀ m, 1 ≤ m → m ≤ l.length → -max ≤ (l.take m).prod ∧ (l.take m).prod ≤ max

/-- What the claim on `prod` promises for a frame: NIL when the frame has no
non-NIL element, their mathematical product otherwise. -/
def frame_prod (w1 w2 : Nat) (b : Heap Int) (s e : Int) : Int :=
  if non_nil_values w1 b s e = [] then (intAtom w2).nil else (non_nil_values w1 b s e).prod

/-! ## `GDKanalyticalavg` -/

/-- Modelled from the spec: what `GDKanalyticalavg` uses of the type `dbl` of
its result: the NIL `dbl_nil` with its test `is_dbl_nil`, the conversion
`(dbl) x` of an integer, and the operators `+` and `/`. -/
structure DblOps (D : Type) where
  nil : D
  is_nil : D → Bool
  ofInt : Int → D
  add : D → D → D
  div : D → D → D

/-- The facts about `dbl` the NIL flags of the average rest on: `dbl_nil` is the
only NIL there, that is, the quotient of a converted integer by a positive
count is a number, and so is its sum with a converted integer. -/
structure DblOps.Lawful {D : Type} (F : DblOps D) : Prop where
  nil_is_nil : F.is_nil F.nil = true
  div_not_nil : ∀ (x : Int) (n : Nat), 0 < n →
    F.is_nil (F.div (F.ofInt x) (F.ofInt n)) = false
  add_div_not_nil : ∀ (a x : Int) (n : Nat), 0 < n →
    F.is_nil (F.add (F.ofInt a) (F.div (F.ofInt x) (F.ofInt n))) = false

/-- Exact rational arithmetic standing for `dbl` in the examples, whose values
are all representable: no value is the NIL, every other one a number. -/
def ratDbl : DblOps (Option ℚ) where
  nil := none
  is_nil := fun v => v.isNone
  ofInt := fun x => some (x : ℚ)
  add := fun x y =>
    match x, y with
    | some p, some q => some (p + q)
    | _, _ => none
  div := fun x y =>
    match x, y with
    | some p, some q => some (p / q)
    | _, _ => none

/-- Modelled from the spec: `AVERAGE_ITER(TYPE, x, a, r, n)` of
`gdk_calc_private.h`, the incremental update of a running mean kept as the
average `a` rounded down and the remainder `r` (`0 <= r < n`): the count `n`
grows by one, `z1 = (x - a) / n` rounded down and `z2` the remainder of that
division are added to `a` and `r`, and a remainder that reached `n` is carried
into `a`. The result is the new `(a, r, n)`; `w` is the width of `TYPE`. -/
def AVERAGE_ITER (w : Nat) (x a : Int) (r n : Nat) : Int × Nat × Nat :=
  let n1 := n + 1
  let z1 := (x - a) / (n1 : Int)
  let z2 := ((x - a) % (n1 : Int)).toNat
  let a1 := wrap w (a + z1)
  let r1 := r + z2
  if r1 ≥ n1 then (wrap w (a1 + 1), r1 - n1, n1) else (a1, r1, n1)

/-- The second inner loop of `ANALYTICAL_AVERAGE_CALC_NUM`, run after an
overflow of the sum over what is left of the frame:
`for (; bs < be; bs++) { v = *bs; if (is_nil(v)) continue;
AVERAGE_ITER(TPE, v, a, rr, n); }`, with `k` elements remaining. -/
def avg_iter_loop (w : Nat) (b : Heap Int) : Nat → Int → Int → Nat → Nat → Int × Nat × Nat
  | 0, _, a, rr, n => (a, rr, n)
  | k + 1, bs, a, rr, n =>
    let v := b bs
    if (intAtom w).is_nil v then
      avg_iter_loop w b k (bs + 1) a rr n
    else
      let s := AVERAGE_ITER w v a rr n
      avg_iter_loop w b k (bs + 1) s.1 s.2.1 s.2.2

/-- The switch to the running mean at the label `avg_overflow`: the pair `(a,
rr)` computed from the sum and the count `n` of the elements summed so far:
`if (sum >= 0) { a = (TPE) (sum / n); rr = (BUN) (sum % n); } else { sum =
-sum; a = - (TPE) (sum / n); rr = (BUN) (sum % n); if (r) { a--; rr = n - rr; }
}`. The condition `r` is the result column of the function, a pointer that is
never NULL, so that the adjustment is always made. -/
def avg_switch (w wacc : Nat) (sum : Int) (n : Nat) : Int × Nat :=
  if sum ≥ 0 then
    (wrap w (sum / (n : Int)), (sum % (n : Int)).toNat)
  else
    let sum1 := wrap wacc (-sum)
    (wrap w (wrap w (-(wrap w (sum1 / (n : Int)))) - 1), n - (sum1 % (n : Int)).toNat)

/-- The block at the label `avg_overflow` of `ANALYTICAL_AVERAGE_CALC_NUM(TPE,
lng_hge)`, entered from the element at `bs` with `k` elements of the frame
left, the sum and the count `n` of the elements before it: the switch to the
running mean (`avg_switch`), then the second inner loop and `curval = a +
(dbl) rr / n`. The result is `curval` with the final count. -/
def avg_overflow {D : Type} (F : DblOps D) (w wacc : Nat) (b : Heap Int) (k : Nat) (bs : Int)
    (sum : Int) (n : Nat) : D × Nat :=
  let st : Int × Nat := avg_switch w wacc sum n
  let res := avg_iter_loop w b k bs st.1 st.2 n
  (F.add (F.ofInt res.1) (F.div (F.ofInt res.2.1) (F.ofInt res.2.2)), res.2.2)

/-- The first inner loop of `ANALYTICAL_AVERAGE_CALC_NUM(TPE, lng_hge)` over
one frame with what follows it up to `calc_done`:
`for (; bs < be; bs++) { v = *bs; if (!is_nil(v)) { ADD_WITH_CHECK(v, sum,
lng_hge, sum, GDK_lng_hge_max, goto avg_overflowTPE); n++; } }` and then
`curval = n > 0 ? (dbl) sum / n : dbl_nil`. The result is `curval` with the
final count `n`; `k` elements remain. -/
def avg_frame {D : Type} (F : DblOps D) (w wacc : Nat) (b : Heap Int) :
    Nat → Int → Int → Nat → D × Nat
  | 0, _, sum, n => (if n > 0 then F.div (F.ofInt sum) (F.ofInt n) else F.nil, n)
  | k + 1, bs, sum, n =>
    let v := b bs
    if !(intAtom w).is_nil v then
      match ADD_WITH_CHECK v sum (GDK_max wacc) with
      | .ok c => avg_frame F w wacc b k (bs + 1) c (n + 1)
      | .error _ => avg_overflow F w wacc b (k + 1) bs sum n
    else
      avg_frame F w wacc b k (bs + 1) sum n

/-- The row loop of `ANALYTICAL_AVERAGE_CALC_NUM(TPE, lng_hge)`:
`for (; i < cnt; i++, rb++) { bs = bp + start[i]; be = bp + end[i]; (frame)
*rb = curval; has_nils = has_nils || (n == 0); n = 0; sum = 0; }`: every
frame is entered with `n = 0` and `sum = 0`. -/
def avg_rows {D : Type} (F : DblOps D) (w wacc : Nat) (b : Heap Int) (start end_ : Heap Int) :
    Nat → Int → Heap D × Bool → Heap D × Bool
  | 0, _, s => s
  | k + 1, i, (rb, has_nils) =>
    let res := avg_frame F w wacc b (end_ i - start i).toNat (start i) 0 0
    avg_rows F w wacc b start end_ k (i + 1) (store rb i res.1, has_nils || decide (res.2 = 0))

/-- `GDKanalyticalavg(r, b, s, e, tpe)` on integer columns: the cases
`TYPE_bte` .. `TYPE_hge` run `ANALYTICAL_AVERAGE_LNG_HGE(TPE)` with the 128-bit
accumulator (`HAVE_HGE`); the `default:` case fails as unsupported. The
`flt` / `dbl` cases (`ANALYTICAL_AVERAGE_CALC_FP`) work on floating-point
columns and are not covered by this definition over integer columns: here
these codes end like the `default:` case. -/
def GDKanalyticalavg {D : Type} (F : DblOps D) (r : BAT D) (b : BAT Int) (s e : BAT Int)
    (tpe : TYPE) : Except gdk_err (BAT D) :=
  let cnt := b.count
  match tpe.bits with
  | some w =>
    let res := avg_rows F w 128 b.tloc s.tloc e.tloc cnt 0 (r.tloc, false)
    .ok { count := cnt, tloc := res.1, tnonil := !res.2, tnil := res.2 }
  | none => .error .nosupport

/-! ## Example columns -/

/-- An empty result column, as handed to the routines. -/
def exOut : BAT Int := BAT.ofList 0 []

/-- The `int` column 5, NIL, 3, 9. -/
def exCol : BAT Int := BAT.ofList 0 [5, (intAtom 32).nil, 3, 9]

/-- The frame starts 0, 1, 2, 1 of the example. -/
def exStart : BAT Int := BAT.ofList 0 [0, 1, 2, 1]

/-- The frame ends 4, 2, 1, 4 of the example: the frames are `[0, 4)`,
`[1, 2)` (the NIL alone), `[2, 1)` (negative) and `[1, 4)`. -/
def exEnd : BAT Int := BAT.ofList 0 [4, 2, 1, 4]

end GDK

namespace SQL

/-! # The expression trees of `sql/server/rel_exp.c`

An expression node `sql_exp` lives in an arena; two pointers to nodes are equal
exactly when they point to the same allocation. The embedding keeps the
address of every node, so that pointer equality of the source is equality of
addresses, and the allocator hands out the addresses in increasing order. -/

/-- Modelled from the spec: `expression_type` of `sql_relation.h`, the variant
of an expression node. -/
inductive expression_type where
  | e_atom | e_column | e_cmp | e_func | e_aggr | e_convert | e_psm
  deriving DecidableEq, Repr

/-- Modelled from the spec: the values of the enumeration `comp_type` of
`sql_catalog.h` that an expression flag takes. -/
def cmp_gt : Nat := 0

/-- Modelled from the spec: `cmp_gte` of `comp_type`. -/
def cmp_gte : Nat := 1

/-- Modelled from the spec: `cmp_lte` of `comp_type`. -/
def cmp_lte : Nat := 2

/-- Modelled from the spec: `cmp_lt` of `comp_type`. -/
def cmp_lt : Nat := 3

/-- Modelled from the spec: `cmp_equal` of `comp_type`. -/
def cmp_equal : Nat := 4

/-- Modelled from the spec: `cmp_notequal` of `comp_type`. -/
def cmp_notequal : Nat := 5

/-- Modelled from the spec: `cmp_filter` of `comp_type`. -/
def cmp_filter : Nat := 6

/-- Modelled from the spec: `cmp_or` of `comp_type`. -/
def cmp_or : Nat := 7

/-- Modelled from the spec: `cmp_in` of `comp_type`. -/
def cmp_in : Nat := 8

/-- Modelled from the spec: `cmp_notin` of `comp_type`. -/
def cmp_notin : Nat := 9

/-- Modelled from the spec: `CARD_ATOM` of `sql_relation.h`, the cardinality
class of a single value. -/
def CARD_ATOM : Nat := 1

/-- Modelled from the spec: `CARD_AGGR` of `sql_relation.h`. -/
def CARD_AGGR : Nat := 2

/-- Modelled from the spec: `CARD_MULTI` of `sql_relation.h`. -/
def CARD_MULTI : Nat := 3

/-- Modelled from the spec: `sql_subtype` of `sql_catalog.h`: the catalog type
(`type`, none for the NULL pointer) with its digits and scale. -/
structure sql_subtype where
  type : Option Nat
  digits : Nat
  scale : Nat
  deriving DecidableEq, Repr

/-- Modelled from the spec: `subtype_cmp` of `sql_types.c`: 0 for two
descriptors of the same type with the same digits and scale, -1 otherwise and
when a type pointer is NULL. -/
def subtype_cmp (t1 t2 : sql_subtype) : Int :=
  if t1.type.isSome ∧ t2.type.isSome ∧ t1 = t2 then 0 else -1

/-- Modelled from the spec: a literal `atom` of `sql_atom.h`: its type, whether
it is the SQL NULL, its numeric value and its string value
(`data.val.sval`). -/
structure atom where
  tpe : sql_subtype
  isnull : Bool
  data : Int
  sval : String
  deriving DecidableEq, Repr

/-- Modelled from the spec: `atom_cmp` of `sql_atom.c`: 0 for two literals of
the same type and value, non-zero otherwise. -/
def atom_cmp (a1 a2 : atom) : Int :=
  if a1 = a2 then 0 else -1

/-- Modelled from the spec: `sql_subfunc` / `sql_subaggr` of `sql_catalog.h`
as far as the expression layer looks at it: the catalog function (its id, its
name `func->base.name`, its `side_effect` flag) and the result types. -/
structure sql_subfunc where
  id : Nat
  name : String
  side_effect : Bool
  res : List sql_subtype
  deriving DecidableEq, Repr

/-- Modelled from the spec: `subfunc_cmp` of `sql_types.c`: 0 for the same
catalog function with the same result types, -1 otherwise. -/
def subfunc_cmp (f1 f2 : sql_subfunc) : Int :=
  if f1 = f2 then 0 else -1

/-- Modelled from the spec: `subaggr_cmp` of `sql_types.c`: 0 for the same
catalog aggregate with the same result types, -1 otherwise. -/
def subaggr_cmp (f1 f2 : sql_subfunc) : Int :=
  if f1 = f2 then 0 else -1

/-- Modelled from the spec: the scalar fields of the struct `sql_exp` of
`sql_relation.h`, as `exp_create` initialises them: the variant, the alias
(`alias.label`, `alias.name`, `alias.rname`; none for NULL), the flag, the
cardinality class, the bit fields and the type. -/
structure exp_fields where
  type : expression_type
  label : Nat
  name : Option String
  rname : Option String
  flag : Nat
  card : Nat
  freevar : Bool
  intern : Bool
  anti : Bool
  base : Bool
  used : Bool
  has_no_nil : Bool
  tpe : sql_subtype
  deriving DecidableEq, Repr

/-- Modelled from the spec: `operator_type` of `sql_relation.h`, the operator
of a plan node. -/
inductive operator_type where
  | op_basetable | op_table | op_ddl | op_project | op_select | op_join | op_left
  | op_right | op_full | op_semi | op_anti | op_union | op_inter | op_except
  | op_groupby | op_topn | op_sample | op_insert | op_update | op_delete | op_truncate
  deriving DecidableEq, Repr

/-- Modelled from the spec: a catalog table `sql_table` of `sql_catalog.h` as
far as the plan layer looks at it: its id `base.id`, its name, and the names
and ids of its columns and of its indexes. -/
structure sql_table where
  id : Nat
  name : String
  columns : List (String × Nat)
  idxs : List (String × Nat)
  deriving DecidableEq, Repr

/-- Modelled from the spec: a catalog column `sql_column` of `sql_catalog.h`:
its id, its name and its table `c->t`. -/
structure sql_column where
  id : Nat
  name : String
  t : sql_table
  deriving DecidableEq, Repr

/-- Modelled from the spec: the scalar fields of the struct `sql_rel` of
`sql_relation.h`, as `rel_create` initialises them: the reference count
`ref.refcnt`, the operator, the number of columns, the flag, the cardinality
class and the bit fields; `ht` tells whether the list `exps` already carries
its hash table (`exps->ht`). -/
structure rel_fields where
  refcnt : Nat
  op : operator_type
  nrcols : Nat
  flag : Nat
  card : Nat
  processed : Bool
  single : Bool
  dependent : Bool
  subquery : Bool
  ht : Bool
  deriving DecidableEq, Repr

mutual
/-- Modelled from the spec: a node `sql_exp` of `sql_relation.h`: its address
in the arena, its scalar fields, and the three untyped pointers `l`, `r` and
`f`. -/
inductive sql_exp where
  | mk (addr : Nat) (d : exp_fields) (l r f : slot)
/-- What one of the `void *` fields `l`, `r`, `f` of an expression or `l`, `r`,
`exps` of a plan node points to: nothing (NULL), an expression, a list of
expressions, a string, a literal, a catalog function, the pair of types of a
conversion, a plan node, a catalog table or a catalog column. -/
inductive slot where
  | null
  | exp (e : sql_exp)
  | list (es : exp_list)
  | str (s : String)
  | atom (a : atom)
  | func (f : sql_subfunc)
  | types (fromtype totype : sql_subtype)
  | rel (r : sql_rel)
  | table (t : sql_table)
  | column (c : sql_column)
/-- Modelled from the spec: a `list` of `sql_list.h` holding expressions, from
its head `l->h` on. -/
inductive exp_list where
  | nil
  | cons (e : sql_exp) (next : exp_list)
/-- Modelled from the spec: a plan node `sql_rel` of `sql_relation.h`: its
address in the arena, its scalar fields, the two untyped pointers `l` and `r`,
and the expression list `exps` (NULL or a list). -/
inductive sql_rel where
  | mk (addr : Nat) (d : rel_fields) (l r exps : slot)
end

/-- The address of a node. -/
def sql_exp.addr : sql_exp → Nat
  | .mk a _ _ _ _ => a

/-- The scalar fields of a node. -/
def sql_exp.d : sql_exp → exp_fields
  | .mk _ d _ _ _ => d

/-- The field `e->l`. -/
def sql_exp.l : sql_exp → slot
  | .mk _ _ l _ _ => l

/-- The field `e->r`. -/
def sql_exp.r : sql_exp → slot
  | .mk _ _ _ r _ => r

/-- The field `e->f`. -/
def sql_exp.f : sql_exp → slot
  | .mk _ _ _ _ f => f

/-- The test `!p` of a pointer field. -/
def slot.is_null : slot → Bool
  | .null => true
  | _ => false

/-- Modelled from the spec: `list_length` of `sql_list.c`. -/
def list_length : exp_list → Nat
  | .nil => 0
  | .cons _ t => list_length t + 1

/-- The expressions of a list, in order. -/
def exp_list.toList : exp_list → List sql_exp
  | .nil => []
  | .cons e t => e :: exp_list.toList t

/-- Modelled from the spec: `sql_allocator` of `sql_mem.h` as far as `SA_NEW`
goes: the address the next node gets. Allocation is taken to succeed. -/
structure sql_allocator where
  next : Nat
  deriving DecidableEq, Repr

/-- Modelled from the spec: `is_complex_exp(e)` of `sql_relation.h`: the flag
is `cmp_or`, `cmp_in`, `cmp_notin` or `cmp_filter`. -/
def is_complex_exp (fl : Nat) : Bool :=
  fl == cmp_or || fl == cmp_in || fl == cmp_notin || fl == cmp_filter

/-- Modelled from the spec: `get_cmp(e)` of `sql_relation.h`, the comparison
kind kept in the flag of a comparison. -/
def get_cmp (e : sql_exp) : Nat := e.d.flag

/-- Modelled from the spec: `is_anti(e)` of `sql_relation.h`. -/
def is_anti (e : sql_exp) : Bool := e.d.anti

/-- `exp_create(sa, type)`: a new node of the given variant, at a fresh
address, every other field zero or NULL. The result is the node and the
allocator after the allocation. -/
def exp_create (sa : sql_allocator) (type : expression_type) : sql_exp × sql_allocator :=
  (.mk sa.next
    { type := type, label := 0, name := none, rname := none, flag := 0, card := 0,
      freevar := false, intern := false, anti := false, base := false, used := false,
      has_no_nil := false, tpe := { type := none, digits := 0, scale := 0 } }
    .null .null .null,
   { next := sa.next + 1 })

mutual
/-- `exp_is_atom(e)`. -/
def exp_is_atom : sql_exp → Bool
  | .mk _ d l _ f =>
    match d.type with
    | .e_atom => f.is_null
    | .e_convert => slot_is_atom l
    | .e_func | .e_aggr => decide (d.card = CARD_ATOM) && slot_are_atoms l
    | .e_column | .e_cmp | .e_psm => false
/-- The call `exp_is_atom(e->l)` on the field of a conversion. -/
def slot_is_atom : slot → Bool
  | .exp e => exp_is_atom e
  | _ => false
/-- The loop of `exp_is_atom` over the argument list `e->l` of a function or
an aggregate: `if (r && l) for (n = l->h; n && r; n = n->next) r &=
exp_is_atom(n->data);`. -/
def slot_are_atoms : slot → Bool
  | .null => true
  | .list es => exps_are_atoms es
  | _ => false
/-- The loop of `exp_is_atom` from the node `n` on. -/
def exps_are_atoms : exp_list → Bool
  | .nil => true
  | .cons e t => exp_is_atom e && exps_are_atoms t
end

/-- `exp_compare(sa, l, r, cmptype)`: `e->card = MAX(l->card, r->card); if
(e->card == CARD_ATOM && !exp_is_atom(l)) e->card = CARD_AGGR; e->l = l;
e->r = r; e->flag = cmptype;`. -/
def exp_compare (sa : sql_allocator) (l r : sql_exp) (cmptype : Nat) :
    sql_exp × sql_allocator :=
  let c := exp_create sa .e_cmp
  let card := max l.d.card r.d.card
  let card := if card = CARD_ATOM ∧ !exp_is_atom l then CARD_AGGR else card
  (.mk c.1.addr { c.1.d with card := card, flag := cmptype } (.exp l) (.exp r) c.1.f, c.2)

/-- `exp_column(sa, rname, cname, t, card, has_nils, intern)`: the alias and
the fields `l` and `r` hold the relation name and the column name. -/
def exp_column (sa : sql_allocator) (rname : Option String) (cname : String)
    (t : Option sql_subtype) (card : Nat) (has_nils intern : Bool) :
    sql_exp × sql_allocator :=
  let c := exp_create sa .e_column
  let tpe := match t with
    | some t => t
    | none => c.1.d.tpe
  (.mk c.1.addr
    { c.1.d with
      card := card, name := some cname, rname := rname, tpe := tpe,
      has_no_nil := !has_nils, intern := intern }
    (match rname with
      | some s => .str s
      | none => .null)
    (.str cname) c.1.f, c.2)

/-- `exp_cmp(e1, e2)`: `(e1 == e2) ? 0 : -1`, the identity of the two
pointers. -/
def exp_cmp (e1 e2 : sql_exp) : Int :=
  if e1.addr = e2.addr then 0 else -1

/-- The test of `exp_match` on the fields `l` of two columns: it passes unless
`e1->l != e2->l && (!e1->l || !e2->l || strcmp(e1->l, e2->l) != 0)`. Two equal
pointers are both NULL or hold the same string. -/
def column_l_match : slot → slot → Bool
  | .null, .null => true
  | .str s1, .str s2 => s1 == s2
  | _, _ => false

/-- The test of `exp_match` on the fields `r` of two columns: it passes unless
`!e1->r || !e2->r || strcmp(e1->r, e2->r) != 0`. -/
def column_r_match : slot → slot → Bool
  | .str s1, .str s2 => s1 == s2
  | _, _ => false

/-- `is_identity(e, NULL)`: with no relation given, only a function whose
catalog name is `identity`. -/
def is_identity (e : sql_exp) : Bool :=
  match e.d.type with
  | .e_func =>
    match e.f with
    | .func f => f.name == "identity"
    | _ => false
  | _ => false

mutual
/-- `exp_match(e1, e2)`: the same node; or two columns with the same relation
name and the same column name; or two calls of `identity` whose single
arguments match. -/
def exp_match : sql_exp → sql_exp → Bool
  | .mk a1 d1 l1 r1 f1, e2 =>
    if exp_cmp (.mk a1 d1 l1 r1 f1) e2 = 0 then true
    else if d1.type = e2.d.type ∧ d1.type = .e_column then
      if !column_l_match l1 e2.l then false
      else if !column_r_match r1 e2.r then false
      else true
    else if d1.type = e2.d.type ∧ d1.type = .e_func then
      if is_identity (.mk a1 d1 l1 r1 f1) && is_identity e2 then
        slot_match_single l1 e2.l
      else false
    else false
/-- The inner test of `exp_match` on two argument lists:
`list_length(args1) == list_length(args2) && list_length(args1) == 1` and
`exp_match(args1->h->data, args2->h->data)`. -/
def slot_match_single : slot → slot → Bool
  | .list (.cons ne1 .nil), .list (.cons ne2 .nil) => exp_match ne1 ne2
  | _, _ => false
end

/-- Modelled from the spec: `exp_fromtype(e)` of `rel_exp.h`, the first of
the two types kept in the field `r` of a conversion. -/
def exp_fromtype (e : sql_exp) : Option sql_subtype :=
  match e.r with
  | .types t _ => some t
  | _ => none

/-- Modelled from the spec: `exp_totype(e)` of `rel_exp.h`, the second of the
two types kept in the field `r` of a conversion. -/
def exp_totype (e : sql_exp) : Option sql_subtype :=
  match e.r with
  | .types _ t => some t
  | _ => none

/-- The test `!subtype_cmp(t1, t2)` on the types of two conversions. -/
def subtype_same : Option sql_subtype → Option sql_subtype → Bool
  | some t1, some t2 => decide (subtype_cmp t1 t2 = 0)
  | _, _ => false

/-- The test `!cmp(e1->f, e2->f)` on the catalog functions of two calls, `cmp`
being `subfunc_cmp` or `subaggr_cmp`. -/
def func_same (cmp : sql_subfunc → sql_subfunc → Int) : slot → slot → Bool
  | .func f1, .func f2 => decide (cmp f1 f2 = 0)
  | _, _ => false

/-- The test `!f->func->side_effect` on the field `f` of a call. -/
def no_side_effect : slot → Bool
  | .func f => !f.side_effect
  | _ => false

/-- The test `e1->l && e2->l && !atom_cmp(e1->l, e2->l)` on two literals. -/
def atom_same : slot → slot → Bool
  | .atom a1, .atom a2 => decide (atom_cmp a1 a2 = 0)
  | _, _ => false

/-- The inner loop of `exp_match_list` for one element `le` of the left list,
`m` being the test `exp_match_exp(le, re)` on an element `re` of the right
list: `for (m = r->h, rc = 0; m; m = m->next, rc++) if (!ru[rc] &&
exp_match_exp(le, re)) { lu[lc] = 1; ru[rc] = 1; match = 1; }`. The loop does
not stop at the first hit. The result is the new `ru` and whether the body of
the `if` ran. -/
def match_row (m : sql_exp → Bool) : exp_list → List Bool → List Bool × Bool
  | .cons re t, u :: us =>
    let rest := match_row m t us
    if !u && m re then (true :: rest.1, true) else (u :: rest.1, rest.2)
  | _, us => (us, false)

/-- The two final loops of `exp_match_list` on the marks `lu`, `ru` and on
`match`: `for (n = l->h, lc = 0; n && match; n = n->next, lc++) if (!lu[lc])
match = 0;` and the same over `ru`; the result is `match`. -/
def match_done (res : List Bool × List Bool × Bool) : Bool :=
  res.2.2 && res.1.all id && res.2.1.all id

mutual
/-- `exp_match_exp(e1, e2)`. A field that the source reads as an expression or
as a list and that holds something else (for which the source has no defined
behaviour) counts as no match. -/
def exp_match_exp : sql_exp → sql_exp → Bool
  | .mk a1 d1 l1 r1 f1, e2 =>
    if exp_match (.mk a1 d1 l1 r1 f1) e2 then true
    else if d1.type = e2.d.type then
      match d1.type with
      | .e_cmp =>
        if d1.flag = e2.d.flag ∧ !is_complex_exp d1.flag ∧
            slot_match_exp l1 e2.l ∧ slot_match_exp r1 e2.r ∧
            ((f1.is_null ∧ e2.f.is_null) ∨ slot_match_exp f1 e2.f) then true
        else if d1.flag = e2.d.flag ∧ d1.flag = cmp_or ∧
            slot_match_list l1 e2.l ∧ slot_match_list r1 e2.r then true
        else if d1.flag = e2.d.flag ∧ d1.anti = is_anti e2 ∧
            (d1.flag = cmp_in ∨ d1.flag = cmp_notin) ∧
            slot_match_exp l1 e2.l ∧ slot_match_list r1 e2.r then true
        else if d1.flag = e2.d.flag ∧ (d1.flag = cmp_equal ∨ d1.flag = cmp_notequal) ∧
            slot_match_exp l1 e2.r ∧ slot_match_exp r1 e2.l then true
        else false
      | .e_convert =>
        subtype_same (exp_totype (.mk a1 d1 l1 r1 f1)) (exp_totype e2) &&
          subtype_same (exp_fromtype (.mk a1 d1 l1 r1 f1)) (exp_fromtype e2) &&
          slot_match_exp l1 e2.l
      | .e_aggr =>
        func_same subaggr_cmp f1 e2.f && slot_exps_equal l1 e2.l && decide (d1.flag = e2.d.flag)
      | .e_func =>
        func_same subfunc_cmp f1 e2.f && slot_exps_equal l1 e2.l && slot_exps_equal r1 e2.r &&
          no_side_effect f1
      | .e_atom => atom_same l1 e2.l
      | _ => false
    else false
termination_by structural x => x
/-- The call `exp_match_exp(p1, p2)` on two fields. -/
def slot_match_exp : slot → slot → Bool
  | .exp e1, .exp e2 => exp_match_exp e1 e2
  | _, _ => false
termination_by structural x => x
/-- The call `exp_match_list(p1, p2)` on two fields: `if (!l || !r) return
l == r; if (list_length(l) != list_length(r)) return 0;`, then the marking
loops started on zeroed arrays `lu` and `ru` with `match = 0`, and the two
final loops. -/
def slot_match_list : slot → slot → Bool
  | .null, s2 => s2.is_null
  | .list l, .list r =>
    if list_length l ≠ list_length r then false
    else match_done (match_rows l r (List.replicate (list_length r) false) false)
  | _, _ => false
termination_by structural x => x
/-- The call `exps_equal(p1, p2)` on two fields: `if (!l || !r) return
l == r; if (list_length(l) != list_length(r)) return 0;`, then the loop. -/
def slot_exps_equal : slot → slot → Bool
  | .null, s2 => s2.is_null
  | .list l, .list r =>
    if list_length l ≠ list_length r then false
    else exps_equal_loop l r
  | _, _ => false
termination_by structural x => x
/-- The outer loop of `exp_match_list` from the node `n` of the left list on:
`for (n = l->h, lc = 0; n; n = n->next, lc++) { le = n->data; (inner loop) }`.
The state is `ru` and `match`; the result is the part of `lu` written by the
loop, `ru` and `match`. -/
def match_rows : exp_list → exp_list → List Bool → Bool → List Bool × List Bool × Bool
  | .nil, _, ru, mtch => ([], ru, mtch)
  | .cons le t, r, ru, mtch =>
    let row := match_row (fun re => exp_match_exp le re) r ru
    let rest := match_rows t r row.1 (mtch || row.2)
    (row.2 :: rest.1, rest.2)
termination_by structural x => x
/-- The loop of `exps_equal`: `for (n = l->h, m = r->h; n && m; n = n->next,
m = m->next) if (!exp_match_exp(le, re)) return 0; return 1;`. -/
def exps_equal_loop : exp_list → exp_list → Bool
  | .cons le t, .cons re u => if !exp_match_exp le re then false else exps_equal_loop t u
  | _, _ => true
termination_by structural x => x
end

/-- `exp_match_list(l, r)` on two lists that are not NULL: equal lengths, the
marking loops started on zeroed arrays `lu` and `ru` with `match = 0`, and the
two final loops, which keep `match` only when every mark of `lu` and of `ru`
is set. -/
def exp_match_list (l r : exp_list) : Bool :=
  slot_match_list (.list l) (.list r)

/-- `exps_equal(l, r)` on two lists that are not NULL: equal lengths and
`exp_match_exp` on the elements pairwise in order. -/
def exps_equal (l r : exp_list) : Bool :=
  slot_exps_equal (.list l) (.list r)

/-! ## Binding a column name in a list of expressions -/

/-- Modelled from the spec: `HASH_MIN_SIZE` of `sql_hash.h`, the length above
which a list gets a hash table on its first lookup. -/
def HASH_MIN_SIZE : Nat := 4

/-- Modelled from the spec: the chain of the hash table of a list that a
lookup of a name walks through. The table holds the elements that have an
alias name (the loop that fills it skips the others), and `hash_add` of
`sql_hash.c` puts an entry at the head of the chain of its bucket, so that a
chain runs from the newest entry to the oldest. The entries of other names,
whether they share the bucket or not, fail the `strcmp` test of the lookup
loops; the model leaves them in the chain. -/
def hash_chain (exps : exp_list) : List sql_exp :=
  (exps.toList.filter (fun e => e.d.name.isSome)).reverse

/-- The assignment `if (ambiguous) *ambiguous = 1;`, the flag being none for
the NULL pointer. -/
def set_ambiguous (ambiguous : Option Bool) : Option Bool :=
  ambiguous.map (fun _ => true)

/-- The test of the hash lookup of `exps_bind_column` on the candidate `e`
found so far and the next candidate `ce`: `e && e != ce && ce->alias.rname &&
e->alias.rname && strcmp(ce->alias.rname, e->alias.rname) != 0`. -/
def bind_conflict (e : Option sql_exp) (ce : sql_exp) : Bool :=
  match e with
  | none => false
  | some e =>
    decide (e.addr ≠ ce.addr) &&
      (match ce.d.rname, e.d.rname with
        | some s1, some s2 => s1 != s2
        | _, _ => false)

/-- The loop of `exps_bind_column` over the chain of the hash table:
`for (; he; he = he->chain) { ce = he->value; if (ce->alias.name &&
strcmp(ce->alias.name, cname) == 0) { if (conflict) { if (ambiguous)
*ambiguous = 1; return NULL; } e = ce; } } return e;`. -/
def bind_hash_loop (cname : String) :
    List sql_exp → Option sql_exp → Option Bool → Option sql_exp × Option Bool
  | [], e, ambiguous => (e, ambiguous)
  | ce :: chain, e, ambiguous =>
    if ce.d.name = some cname then
      if bind_conflict e ce then (none, set_ambiguous ambiguous)
      else bind_hash_loop cname chain (some ce) ambiguous
    else bind_hash_loop cname chain e ambiguous

/-- The loop of `exps_bind_column` over the list itself:
`for (en = exps->h; en; en = en->next) { ce = en->data; if (ce->alias.name &&
strcmp(ce->alias.name, cname) == 0) { if (e) { if (ambiguous) *ambiguous = 1;
return NULL; } e = ce; } } return e;`. -/
def bind_linear_loop (cname : String) :
    exp_list → Option sql_exp → Option Bool → Option sql_exp × Option Bool
  | .nil, e, ambiguous => (e, ambiguous)
  | .cons ce t, e, ambiguous =>
    if ce.d.name = some cname then
      if e.isSome then (none, set_ambiguous ambiguous)
      else bind_linear_loop cname t (some ce) ambiguous
    else bind_linear_loop cname t e ambiguous

/-- `exps_bind_column(exps, cname, ambiguous)`: `exps` and `cname` may be
NULL, `ht` tells whether the list already has its hash table, `ambiguous` is
the flag the caller points to (none for NULL). A list without a table that is
longer than `HASH_MIN_SIZE` gets one now (`hash_new` and `hash_add` are taken
to succeed); a list with a table is searched through it, any other by the
linear scan. The result is the expression found and the flag. -/
def exps_bind_column (exps : Option exp_list) (ht : Bool) (cname : Option String)
    (ambiguous : Option Bool) : Option sql_exp × Option Bool :=
  match exps, cname with
  | some l, some c =>
    if ht || decide (list_length l > HASH_MIN_SIZE) then
      bind_hash_loop c (hash_chain l) none ambiguous
    else
      bind_linear_loop c l none ambiguous
  | _, _ => (none, ambiguous)

/-! ## Construction and copy of expressions -/

/-- Modelled from the spec: `PSM_SET` of `sql_relation.h`, the statement kind
of an assignment; the kinds are bits of the flag of a procedural statement. -/
def PSM_SET : Nat := 1

/-- Modelled from the spec: `PSM_VAR` of `sql_relation.h`. -/
def PSM_VAR : Nat := 2

/-- Modelled from the spec: `PSM_RETURN` of `sql_relation.h`. -/
def PSM_RETURN : Nat := 4

/-- Modelled from the spec: `PSM_WHILE` of `sql_relation.h`. -/
def PSM_WHILE : Nat := 8

/-- Modelled from the spec: `PSM_IF` of `sql_relation.h`. -/
def PSM_IF : Nat := 16

/-- Modelled from the spec: `PSM_REL` of `sql_relation.h`. -/
def PSM_REL : Nat := 32

/-- Modelled from the spec: `PSM_EXCEPTION` of `sql_relation.h`. -/
def PSM_EXCEPTION : Nat := 64

/-- Modelled from the spec: `SET_PSM_LEVEL(level)` of `sql_relation.h`, the
frame level kept above the statement bits. -/
def SET_PSM_LEVEL (level : Nat) : Nat := level <<< 8

/-- Modelled from the spec: `GET_PSM_LEVEL(level)` of `sql_relation.h`. -/
def GET_PSM_LEVEL (level : Nat) : Nat := level >>> 8

/-- Modelled from the spec: `EXP_DISTINCT` of `sql_relation.h`, the bit of the
flag of an aggregate read by `need_distinct`. -/
def EXP_DISTINCT : Nat := 1

/-- Modelled from the spec: `NO_NIL` of `sql_relation.h`, the bit of the flag
of an aggregate read by `need_no_nil`. -/
def NO_NIL : Nat := 2

/-- Modelled from the spec: `need_distinct(e)` of `sql_relation.h`. -/
def need_distinct (e : sql_exp) : Bool := e.d.flag &&& EXP_DISTINCT == EXP_DISTINCT

/-- Modelled from the spec: `need_no_nil(e)` of `sql_relation.h`. -/
def need_no_nil (e : sql_exp) : Bool := e.d.flag &&& NO_NIL == NO_NIL

/-- Modelled from the spec: `has_nil(e)` of `sql_relation.h`. -/
def has_nil (e : sql_exp) : Bool := !e.d.has_no_nil

/-- Modelled from the spec: `is_intern(e)` of `sql_relation.h`. -/
def is_intern (e : sql_exp) : Bool := e.d.intern

/-- Modelled from the spec: `is_freevar(e)` of `sql_relation.h`. -/
def is_freevar (e : sql_exp) : Bool := e.d.freevar

/-- Modelled from the spec: `is_basecol(e)` of `sql_relation.h`. -/
def is_basecol (e : sql_exp) : Bool := e.d.base

/-- The string a `char *` field points to, none for NULL (and for a field that
holds no string). -/
def slot.str_val : slot → Option String
  | .str s => some s
  | _ => none

/-- The loop of `exps_card` from the node `n` on: `if (card < e->card) card =
e->card;`. -/
def exps_card_loop : exp_list → Nat → Nat
  | .nil, card => card
  | .cons e t, card => exps_card_loop t (if card < e.d.card then e.d.card else card)

/-- `exps_card(l)`: the largest cardinality class of the list, `CARD_ATOM` at
least, also for NULL. -/
def exps_card (l : slot) : Nat :=
  match l with
  | .list es => exps_card_loop es CARD_ATOM
  | _ => CARD_ATOM

/-- `exp_subtype(e)`, none for NULL. -/
def exp_subtype (e : sql_exp) : Option sql_subtype :=
  match e.d.type with
  | .e_atom =>
    match e.l with
    | .atom a => some a.tpe
    | _ => if e.d.tpe.type.isSome then some e.d.tpe else none
  | .e_convert | .e_column => if e.d.tpe.type.isSome then some e.d.tpe else none
  | .e_aggr | .e_func =>
    match e.f with
    | .func f =>
      match f.res with
      | [t] => some t
      | _ => none
    | _ => none
  | _ => none

/-- `exp_compare2(sa, l, r, h, cmptype)`: a comparison with the second bound
`h` in the field `f`. -/
def exp_compare2 (sa : sql_allocator) (l r : sql_exp) (h : Option sql_exp) (cmptype : Nat) :
    sql_exp × sql_allocator :=
  let c := exp_create sa .e_cmp
  let card := if l.d.card = CARD_ATOM ∧ !exp_is_atom l then CARD_AGGR else l.d.card
  (.mk c.1.addr { c.1.d with card := card, flag := cmptype } (.exp l) (.exp r)
    (match h with
      | some h => .exp h
      | none => c.1.f), c.2)

/-- `exp_filter(sa, l, r, f, anti)`. -/
def exp_filter (sa : sql_allocator) (l r : slot) (f : slot) (anti : Bool) :
    sql_exp × sql_allocator :=
  let c := exp_create sa .e_cmp
  (.mk c.1.addr { c.1.d with card := exps_card l, flag := cmp_filter, anti := anti } l r f, c.2)

/-- The head `l->h->data` of a list. -/
def exp_list.head : exp_list → Option sql_exp
  | .nil => none
  | .cons e _ => some e

/-- `exp_or(sa, l, r, anti)` on two lists that are not NULL: `f = l->h ?
l->h->data : r->h ? r->h->data : NULL; e->card = l->h ? exps_card(l) :
exps_card(r); e->l = l; e->r = r; e->f = f; e->flag = cmp_or;`. -/
def exp_or (sa : sql_allocator) (l r : exp_list) (anti : Bool) : sql_exp × sql_allocator :=
  let c := exp_create sa .e_cmp
  let f : slot :=
    match l.head with
    | some e => .exp e
    | none =>
      match r.head with
      | some e => .exp e
      | none => .null
  let card := if l.head.isSome then exps_card (.list l) else exps_card (.list r)
  (.mk c.1.addr { c.1.d with card := card, flag := cmp_or, anti := anti } (.list l) (.list r) f,
    c.2)

/-- `exp_in(sa, l, r, cmptype)`. -/
def exp_in (sa : sql_allocator) (l : sql_exp) (r : slot) (cmptype : Nat) :
    sql_exp × sql_allocator :=
  let c := exp_create sa .e_cmp
  (.mk c.1.addr { c.1.d with card := l.d.card, flag := cmptype } (.exp l) r c.1.f, c.2)

/-- `exp_convert(sa, exp, fromtype, totype)`: the field `r` holds the copies
of the two types, the type of the node is the target type, and the alias is
the one of the operand. -/
def exp_convert (sa : sql_allocator) (exp : sql_exp) (fromtype totype : sql_subtype) :
    sql_exp × sql_allocator :=
  let c := exp_create sa .e_convert
  (.mk c.1.addr
    { c.1.d with
      card := exp.d.card, tpe := totype, label := exp.d.label, name := exp.d.name,
      rname := exp.d.rname }
    (.exp exp) (.types fromtype totype) c.1.f, c.2)

/-- `exp_op(sa, l, f)`: `e->card = exps_card(l); if (!l || list_length(l) ==
0) e->card = CARD_ATOM; if (f->func->side_effect) e->card = CARD_MULTI;`. -/
def exp_op (sa : sql_allocator) (l : slot) (f : slot) : sql_exp × sql_allocator :=
  let c := exp_create sa .e_func
  let card := exps_card l
  let card :=
    match l with
    | .list (.cons _ _) => card
    | _ => CARD_ATOM
  let card :=
    match f with
    | .func fn => if fn.side_effect then CARD_MULTI else card
    | _ => card
  (.mk c.1.addr { c.1.d with card := card } l c.1.r f, c.2)

/-- `exp_aggr(sa, l, a, distinct, no_nils, card, has_nils)`. -/
def exp_aggr (sa : sql_allocator) (l : slot) (a : slot) (distinct no_nils : Bool) (card : Nat)
    (has_nils : Bool) : sql_exp × sql_allocator :=
  let c := exp_create sa .e_aggr
  let flag := if distinct then c.1.d.flag ||| EXP_DISTINCT else c.1.d.flag
  let flag := if no_nils then flag ||| NO_NIL else flag
  (.mk c.1.addr { c.1.d with card := card, flag := flag, has_no_nil := !has_nils } l c.1.r a,
    c.2)

/-- `exp_atom(sa, a)`: a literal. -/
def exp_atom (sa : sql_allocator) (a : atom) : sql_exp × sql_allocator :=
  let c := exp_create sa .e_atom
  (.mk c.1.addr { c.1.d with card := CARD_ATOM, tpe := a.tpe } (.atom a) c.1.r c.1.f, c.2)

/-- `exp_atom_ref(sa, i, tpe)`: a reference to argument `i`. -/
def exp_atom_ref (sa : sql_allocator) (i : Nat) (tpe : Option sql_subtype) :
    sql_exp × sql_allocator :=
  let c := exp_create sa .e_atom
  (.mk c.1.addr
    { c.1.d with
      card := CARD_ATOM, flag := i,
      tpe := (match tpe with
        | some t => t
        | none => c.1.d.tpe) }
    c.1.l c.1.r c.1.f, c.2)

/-- `exp_param(sa, name, tpe, frame)`: a named parameter. -/
def exp_param (sa : sql_allocator) (name : slot) (tpe : Option sql_subtype) (frame : Nat) :
    sql_exp × sql_allocator :=
  let c := exp_create sa .e_atom
  (.mk c.1.addr
    { c.1.d with
      card := CARD_ATOM, flag := frame,
      tpe := (match tpe with
        | some t => t
        | none => c.1.d.tpe) }
    c.1.l name c.1.f, c.2)

/-- `exp_values(sa, exps)`: an atom that holds a list of values in its field
`f`. -/
def exp_values (sa : sql_allocator) (exps : exp_list) : sql_exp × sql_allocator :=
  let c := exp_create sa .e_atom
  (.mk c.1.addr { c.1.d with card := CARD_MULTI } c.1.l c.1.r (.list exps), c.2)

/-- `exp_set(sa, name, val, level)`: the assignment statement; `val` may be
NULL. -/
def exp_set (sa : sql_allocator) (name : Option String) (val : Option sql_exp) (level : Nat) :
    sql_exp × sql_allocator :=
  let c := exp_create sa .e_psm
  (.mk c.1.addr { c.1.d with name := name, flag := PSM_SET + SET_PSM_LEVEL level }
    (match val with
      | some v => .exp v
      | none => .null)
    c.1.r c.1.f, c.2)

/-- `exp_return(sa, val, level)`. -/
def exp_return (sa : sql_allocator) (val : sql_exp) (level : Nat) : sql_exp × sql_allocator :=
  let c := exp_create sa .e_psm
  (.mk c.1.addr { c.1.d with flag := PSM_RETURN + SET_PSM_LEVEL level } (.exp val) c.1.r c.1.f,
    c.2)

/-- `exp_while(sa, cond, stmts)`. -/
def exp_while (sa : sql_allocator) (cond : sql_exp) (stmts : exp_list) :
    sql_exp × sql_allocator :=
  let c := exp_create sa .e_psm
  (.mk c.1.addr { c.1.d with flag := PSM_WHILE } (.exp cond) (.list stmts) c.1.f, c.2)

/-- `exp_if(sa, cond, if_stmts, else_stmts)`: the condition in `l`, the
then-branch in `r`, the else-branch (NULL or a list) in `f`. -/
def exp_if (sa : sql_allocator) (cond : sql_exp) (if_stmts : exp_list)
    (else_stmts : Option exp_list) : sql_exp × sql_allocator :=
  let c := exp_create sa .e_psm
  (.mk c.1.addr { c.1.d with flag := PSM_IF } (.exp cond) (.list if_stmts)
    (match else_stmts with
      | some es => .list es
      | none => .null), c.2)

/-- `exp_prop_alias(e, oe)`: `e->alias = oe->alias`. -/
def exp_prop_alias (e oe : sql_exp) : sql_exp :=
  .mk e.addr { e.d with label := oe.d.label, name := oe.d.name, rname := oe.d.rname } e.l e.r e.f

/-- `exp_propagate(sa, ne, oe)`: the bits intern, anti and basecol of `oe` are
set in `ne` (the property list `p` is not part of the embedding). -/
def exp_propagate (ne oe : sql_exp) : sql_exp :=
  .mk ne.addr
    { ne.d with
      intern := if is_intern oe then true else ne.d.intern,
      anti := if is_anti oe then true else ne.d.anti,
      base := if is_basecol oe then true else ne.d.base }
    ne.l ne.r ne.f

/-- The end of `exp_copy` for the node `ne` that the switch built from `e`:
`if (!ne) return ne; if (e->alias.name) exp_prop_alias(ne, e); ne =
exp_propagate(sa, ne, e); if (is_freevar(e)) set_freevar(ne); return ne;`. -/
def exp_copy_finish (e : sql_exp) (ne : Option sql_exp) : Option sql_exp :=
  match ne with
  | none => none
  | some ne =>
    let ne := if e.d.name.isSome then exp_prop_alias ne e else ne
    let ne := exp_propagate ne e
    some (if is_freevar e then .mk ne.addr { ne.d with freevar := true } ne.l ne.r ne.f else ne)

mutual
/-- `exp_copy(sa, e)`: the copy (none for NULL) and the allocator after it. A
field that the source reads as an expression and that holds none (for which the
source has no defined behaviour) gives NULL. -/
def exp_copy : sql_allocator → sql_exp → Option sql_exp × sql_allocator
  | sa, .mk a d l r f =>
    match d.type with
    | .e_column =>
      match r with
      | .str cname =>
        let c := exp_column sa l.str_val cname (exp_subtype (.mk a d l r f)) d.card
          (has_nil (.mk a d l r f)) (is_intern (.mk a d l r f))
        (exp_copy_finish (.mk a d l r f)
          (some (.mk c.1.addr { c.1.d with flag := d.flag } c.1.l c.1.r c.1.f)), c.2)
      | _ => (none, sa)
    | .e_cmp =>
      if d.flag = cmp_or ∨ d.flag = cmp_filter then
        let nl := slot_exps_copy sa l
        let nr := slot_exps_copy nl.2 r
        match nl.1, nr.1 with
        | .list ll, .list lr =>
          if d.flag = cmp_filter then
            let c := exp_filter nr.2 (.list ll) (.list lr) f d.anti
            (exp_copy_finish (.mk a d l r f) (some c.1), c.2)
          else
            let c := exp_or nr.2 ll lr d.anti
            (exp_copy_finish (.mk a d l r f) (some c.1), c.2)
        | _, _ => (none, nr.2)
      else if d.flag = cmp_in ∨ d.flag = cmp_notin then
        let nl := slot_exp_copy sa l
        let nr := slot_exps_copy nl.2 r
        match nl.1, nr.1 with
        | some el, .list lr =>
          let c := exp_in nr.2 el (.list lr) d.flag
          (exp_copy_finish (.mk a d l r f) (some c.1), c.2)
        | _, _ => (none, nr.2)
      else
        let nl := slot_exp_copy sa l
        let nr := slot_exp_copy nl.2 r
        if f.is_null then
          match nl.1, nr.1 with
          | some el, some er =>
            let c := exp_compare nr.2 el er d.flag
            (exp_copy_finish (.mk a d l r f) (some c.1), c.2)
          | _, _ => (none, nr.2)
        else
          let nf := slot_exp_copy nr.2 f
          match nl.1, nr.1, nf.1 with
          | some el, some er, some ef =>
            let c := exp_compare2 nf.2 el er (some ef) d.flag
            (exp_copy_finish (.mk a d l r f) (some c.1), c.2)
          | _, _, _ => (none, nf.2)
    | .e_convert =>
      let nl := slot_exp_copy sa l
      match nl.1, r with
      | some el, .types fromtype totype =>
        let c := exp_convert nl.2 el fromtype totype
        (exp_copy_finish (.mk a d l r f) (some c.1), c.2)
      | _, _ => (none, nl.2)
    | .e_aggr =>
      if l.is_null then (some (.mk a d l r f), sa)
      else
        let nl := slot_exps_copy sa l
        if nl.1.is_null then (none, nl.2)
        else
          let c := exp_aggr nl.2 nl.1 f (need_distinct (.mk a d l r f))
            (need_no_nil (.mk a d l r f)) d.card (has_nil (.mk a d l r f))
          (exp_copy_finish (.mk a d l r f) (some c.1), c.2)
    | .e_func =>
      if l.is_null then (some (.mk a d l r f), sa)
      else
        let nl := slot_exps_copy sa l
        if nl.1.is_null then (none, nl.2)
        else
          let c := exp_op nl.2 nl.1 f
          (exp_copy_finish (.mk a d l r f) (some c.1), c.2)
    | .e_atom =>
      match l with
      | .atom lit =>
        let c := exp_atom sa lit
        (exp_copy_finish (.mk a d l r f) (some c.1), c.2)
      | _ =>
        if r.is_null then
          let c := exp_atom_ref sa d.flag (some d.tpe)
          (exp_copy_finish (.mk a d l r f) (some c.1), c.2)
        else
          let c := exp_param sa r (some d.tpe) d.flag
          (exp_copy_finish (.mk a d l r f) (some c.1), c.2)
    | .e_psm =>
      if d.flag = PSM_SET then
        let nl := slot_exp_copy sa l
        let c := exp_set nl.2 d.name nl.1 (GET_PSM_LEVEL d.flag)
        (exp_copy_finish (.mk a d l r f) (some c.1), c.2)
      else (none, sa)
termination_by structural _ x => x
/-- The call `exp_copy(sa, p)` on a field. -/
def slot_exp_copy : sql_allocator → slot → Option sql_exp × sql_allocator
  | sa, .exp e => exp_copy sa e
  | sa, _ => (none, sa)
termination_by structural _ x => x
/-- The call `exps_copy(sa, p)` on a field: NULL for NULL (`if (!exps) return
exps;`), NULL when the copy of an element fails, the new list otherwise. -/
def slot_exps_copy : sql_allocator → slot → slot × sql_allocator
  | sa, .list es =>
    match exps_copy_loop sa es with
    | (some nl, sa1) => (.list nl, sa1)
    | (none, sa1) => (.null, sa1)
  | sa, _ => (.null, sa)
termination_by structural _ x => x
/-- The loop of `exps_copy` from the node `n` on: `arg = exp_copy(sa, arg);
if (!arg) return NULL; append(nl, arg);`. -/
def exps_copy_loop : sql_allocator → exp_list → Option exp_list × sql_allocator
  | sa, .nil => (some .nil, sa)
  | sa, .cons e t =>
    match exp_copy sa e with
    | (none, sa1) => (none, sa1)
    | (some ne, sa1) =>
      match exps_copy_loop sa1 t with
      | (none, sa2) => (none, sa2)
      | (some nt, sa2) => (some (.cons ne nt), sa2)
termination_by structural _ x => x
end

/-- `exps_copy(sa, exps)`. -/
def exps_copy (sa : sql_allocator) (exps : slot) : slot × sql_allocator :=
  slot_exps_copy sa exps

/-- The expressions built only from column references, literals, conversions
and simple comparisons (two operands, or three for a range, and a flag that is
not one of the list comparisons). A column holds its relation name (or NULL)
and its column name in `l` and `r`, a literal its value in `l`, a conversion
its operand in `l` and two types of the catalog in `r`. -/
inductive simple_exp : sql_exp → Prop where
  | column (a : Nat) (d : exp_fields) (l : slot) (cname : String) (f : slot)
      (ht : d.type = expression_type.e_column) (hl : l = slot.null ∨ ∃ s, l = slot.str s) :
      simple_exp (.mk a d l (.str cname) f)
  | atom (a : Nat) (d : exp_fields) (lit : atom) (r f : slot)
      (ht : d.type = expression_type.e_atom) :
      simple_exp (.mk a d (.atom lit) r f)
  | convert (a : Nat) (d : exp_fields) (e : sql_exp) (fromtype totype : sql_subtype) (f : slot)
      (ht : d.type = expression_type.e_convert) (he : simple_exp e)
      (hfrom : fromtype.type.isSome = true) (hto : totype.type.isSome = true) :
      simple_exp (.mk a d (.exp e) (.types fromtype totype) f)
  | cmp (a : Nat) (d : exp_fields) (l r : sql_exp)
      (ht : d.type = expression_type.e_cmp) (hc : is_complex_exp d.flag = false)
      (hl : simple_exp l) (hr : simple_exp r) :
      simple_exp (.mk a d (.exp l) (.exp r) .null)
  | range (a : Nat) (d : exp_fields) (l r h : sql_exp)
      (ht : d.type = expression_type.e_cmp) (hc : is_complex_exp d.flag = false)
      (hl : simple_exp l) (hr : simple_exp r) (hh : simple_exp h) :
      simple_exp (.mk a d (.exp l) (.exp r) (.exp h))

/-! ## The session and the dependencies of a plan (`sql/server/rel_rel.c`) -/

/-- Modelled from the spec: the fields of the session `mvc` of `sql_mvc.h`
that the plan layer uses: the allocator, whether push-down is enabled, the
label counter, the status `session->status` and the message of the first error
reported, the types of the parameters of the query, and the sequences of the
catalog (schema name, sequence name, id). -/
structure mvc where
  sa : sql_allocator
  pushdown : Bool
  label : Nat
  status : Int
  errstr : String
  params : List (Option sql_subtype)
  sequences : List (String × String × Nat)
  deriving DecidableEq, Repr

/-- Modelled from the spec: `sql_error(sql, error_code, message)` of
`sql_semantic.c`: the message is kept when none is pending, the status
becomes `-error_code` when it was 0; the caller gets NULL. -/
def sql_error (sql : mvc) (error_code : Nat) (message : String) : mvc :=
  { sql with
    errstr := if sql.errstr = "" then message else sql.errstr,
    status := if sql.status = 0 then -(error_code : Int) else sql.status }

/-- Modelled from the spec: `THRhighwater()` of `gdk_utils.h` tells whether the
stack of the thread has grown beyond its high-water mark. In the embedding a
routine that checks the guard is entered with the number `stk` of frames that
are left up to the mark, and enters each routine it calls with one frame
less; the guard is tripped when no frame is left. -/
def THRhighwater (stk : Nat) : Bool := stk == 0

/-- The message of the failure reported when the guard is tripped. -/
def too_complex : String := "42000!Query too complex: running out of stack space"

/-- Modelled from the spec: `FUNC_OIDS` of `sql_catalog.h`, the first id of the
catalog objects that are not built in. -/
def FUNC_OIDS : Nat := 2000

/-- `cond_append(l, id)`: `if (*id >= FUNC_OIDS && !list_find(l, id, id_cmp))
list_append(l, id);`. -/
def cond_append (l : List Nat) (id : Nat) : List Nat :=
  if id ≥ FUNC_OIDS ∧ ¬ id ∈ l then l ++ [id] else l

/-- The state of the dependency walk: the session, the list `refs` (the
addresses of the shared plan nodes already handled; the source keeps each
together with the id list) and the id list `l`. -/
structure deps_st where
  sql : mvc
  refs : List Nat
  l : List Nat
  deriving DecidableEq, Repr

/-- Modelled from the spec: `rel_is_ref(rel)` of `rel_rel.h`: the node has
more than one reference. -/
def rel_is_ref (r : sql_rel) : Bool :=
  match r with
  | .mk _ d _ _ _ => decide (d.refcnt > 1)

/-- The address of a plan node. -/
def sql_rel.addr : sql_rel → Nat
  | .mk a _ _ _ _ => a

/-- The scalar fields of a plan node. -/
def sql_rel.d : sql_rel → rel_fields
  | .mk _ d _ _ _ => d

/-- The field `rel->l`. -/
def sql_rel.l : sql_rel → slot
  | .mk _ _ l _ _ => l

/-- The field `rel->r`. -/
def sql_rel.r : sql_rel → slot
  | .mk _ _ _ r _ => r

/-- The field `rel->exps`. -/
def sql_rel.exps : sql_rel → slot
  | .mk _ _ _ _ exps => exps

/-- Modelled from the spec: `is_base(op)` of `sql_relation.h`. -/
def is_base (op : operator_type) : Bool :=
  op == .op_basetable || op == .op_table

/-- Modelled from the spec: `is_groupby(op)` of `sql_relation.h`. -/
def is_groupby (op : operator_type) : Bool := op == .op_groupby

/-- Modelled from the spec: `ddl_output` of `sql_relation.h`. -/
def ddl_output : Nat := 1

/-- Modelled from the spec: `ddl_list` of `sql_relation.h`. -/
def ddl_list : Nat := 2

/-- Modelled from the spec: `ddl_psm` of `sql_relation.h`. -/
def ddl_psm : Nat := 3

/-- Modelled from the spec: `ddl_exception` of `sql_relation.h`. -/
def ddl_exception : Nat := 4

/-- Modelled from the spec: `ddl_create_seq` of `sql_relation.h`. -/
def ddl_create_seq : Nat := 5

/-- Modelled from the spec: `ddl_alter_seq` of `sql_relation.h`. -/
def ddl_alter_seq : Nat := 6

/-- Modelled from the spec: `TID` of `sql_catalog.h`, the name of the row-id
column. -/
def TID : String := "%TID%"

/-- The id found under a name in a list of named catalog objects
(`find_sql_column`, `find_sql_idx`), none for NULL. -/
def find_id (objs : List (String × Nat)) (name : String) : Option Nat :=
  (objs.find? (fun p => p.1 == name)).map (fun p => p.2)

/-- The loop of `rel_deps` over the expressions of a base table: `oname =
exp->r; if (oname[0] == '%' && strcmp(oname, TID) == 0) continue; else if
(oname[0] == '%') cond_append(l, &find_sql_idx(t, oname+1)->base.id); else
cond_append(l, &find_sql_column(t, oname)->base.id);`. A name that is not
found (for which the source has no defined behaviour) adds nothing. -/
def basetable_deps (t : sql_table) : exp_list → List Nat → List Nat
  | .nil, l => l
  | .cons exp rest, l =>
    match exp.r with
    | .str oname =>
      if oname.front = '%' ∧ oname = TID then basetable_deps t rest l
      else if oname.front = '%' then
        match find_id t.idxs (oname.drop 1) with
        | some id => basetable_deps t rest (cond_append l id)
        | none => basetable_deps t rest l
      else
        match find_id t.columns oname with
        | some id => basetable_deps t rest (cond_append l id)
        | none => basetable_deps t rest l
    | _ => basetable_deps t rest l

/-- The last element `l->t->data` of a list. -/
def exp_list.last : exp_list → Option sql_exp
  | .nil => none
  | .cons e .nil => some e
  | .cons _ t => exp_list.last t

/-- The dependency of a call of `next_value_for` on its sequence: `if (e->l &&
list_length(e->l) == 2 && strcmp(f->func->base.name, "next_value_for") == 0)`
the names are the string values of the literals in the first and the last
argument, and the id of the sequence found in the catalog is added. A sequence
that is not found (for which the source has no defined behaviour) adds
nothing. -/
def seq_deps (sql : mvc) (args : slot) (f : sql_subfunc) (l : List Nat) : List Nat :=
  match args with
  | .list nl =>
    if list_length nl = 2 ∧ f.name = "next_value_for" then
      match nl.head, nl.last with
      | some schname, some seqname =>
        match schname.l, seqname.l with
        | .atom a1, .atom a2 =>
          match sql.sequences.find? (fun s => s.1 == a1.sval && s.2.1 == a2.sval) with
          | some s => cond_append l s.2.2
          | none => l
        | _, _ => l
      | _, _ => l
    else l
  | _ => l

/-- The body of `exp_deps(sql, e, refs, l)` after the guard, for a node with
the scalar fields `d` and the fields `l`, `r`, `f`. The recursive calls are
given as arguments: `el`, `er`, `ef` stand for `exp_deps` on `e->l`, `e->r`,
`e->f`, `xl` and `xr` for `exps_deps` on `e->l` and `e->r`, and `rl` for
`rel_deps` on `e->l`. -/
def exp_deps_body (d : exp_fields) (l f : slot)
    (el er ef xl xr rl : deps_st → Int × deps_st) (st : deps_st) : Int × deps_st :=
  match d.type with
  | .e_psm =>
    if d.flag &&& PSM_SET ≠ 0 ∨ d.flag &&& PSM_RETURN ≠ 0 then el st
    else if d.flag &&& PSM_VAR ≠ 0 then (0, st)
    else if d.flag &&& PSM_WHILE ≠ 0 ∨ d.flag &&& PSM_IF ≠ 0 then
      let r1 := el st
      if r1.1 ≠ 0 then (-1, r1.2)
      else
        let r2 := xr r1.2
        if r2.1 ≠ 0 then (-1, r2.2)
        else if d.flag = PSM_IF ∧ !f.is_null then xr r2.2
        else (0, r2.2)
    else if d.flag &&& PSM_REL ≠ 0 then rl st
    else if d.flag &&& PSM_EXCEPTION ≠ 0 then xl st
    else (0, st)
  | .e_atom | .e_column => (0, st)
  | .e_convert => el st
  | .e_func =>
    let r1 := if l.is_null then (0, st) else xl st
    if r1.1 ≠ 0 then (-1, r1.2)
    else
      match f with
      | .func fn => (0, { r1.2 with l := seq_deps r1.2.sql l fn (cond_append r1.2.l fn.id) })
      | _ => (0, r1.2)
  | .e_aggr =>
    let r1 := if l.is_null then (0, st) else xl st
    if r1.1 ≠ 0 then (-1, r1.2)
    else
      match f with
      | .func fn => (0, { r1.2 with l := cond_append r1.2.l fn.id })
      | _ => (0, r1.2)
  | .e_cmp =>
    if d.flag = cmp_or ∨ d.flag = cmp_filter then
      let st1 :=
        if d.flag = cmp_filter then
          match f with
          | .func fn => { st with l := cond_append st.l fn.id }
          | _ => st
        else st
      let r1 := xl st1
      if r1.1 ≠ 0 then (-1, r1.2)
      else
        let r2 := xr r1.2
        if r2.1 ≠ 0 then (-1, r2.2) else (0, r2.2)
    else if d.flag = cmp_in ∨ d.flag = cmp_notin then
      let r1 := el st
      if r1.1 ≠ 0 then (-1, r1.2)
      else
        let r2 := xr r1.2
        if r2.1 ≠ 0 then (-1, r2.2) else (0, r2.2)
    else
      let r1 := el st
      if r1.1 ≠ 0 then (-1, r1.2)
      else
        let r2 := er r1.2
        if r2.1 ≠ 0 then (-1, r2.2)
        else if !f.is_null then ef r2.2
        else (0, r2.2)

/-- The switch of `rel_deps(sql, r, refs, l)` on the operator of a node with
the scalar fields `d` and the fields `l`, `r`, `exps`; `rl` and `rr` stand for
the recursive calls of `rel_deps` on `r->l` and `r->r`. The result is the
code, the state, and whether the function returns from inside the switch. -/
def rel_deps_switch (d : rel_fields) (l r exps : slot) (rl rr : deps_st → Int × deps_st)
    (st : deps_st) : Int × deps_st × Bool :=
  match d.op with
  | .op_basetable =>
    let t : Option sql_table :=
      match l, r with
      | .table t, _ => some t
      | _, .column c => some c.t
      | _, _ => none
    match t with
    | some t =>
      let l1 := cond_append st.l t.id
      match exps with
      | .list es => (0, { st with l := basetable_deps t es l1 }, false)
      | _ => (0, { st with l := l1 }, false)
    | none => (0, st, false)
  | .op_table =>
    if (d.flag = 0 ∨ d.flag = 1) ∧ !r.is_null then
      match r with
      | .exp op =>
        match op.f with
        | .func fn => (0, { st with l := cond_append st.l fn.id }, false)
        | _ => (0, st, false)
      | _ => (0, st, false)
    else (0, st, false)
  | .op_join | .op_left | .op_right | .op_full | .op_semi | .op_anti | .op_union
  | .op_except | .op_inter | .op_insert | .op_update | .op_delete | .op_truncate =>
    let r1 := rl st
    if r1.1 ≠ 0 then (-1, r1.2, true)
    else
      let r2 := rr r1.2
      if r2.1 ≠ 0 then (-1, r2.2, true) else (0, r2.2, false)
  | .op_project | .op_select | .op_groupby | .op_topn | .op_sample =>
    let r1 := rl st
    if r1.1 ≠ 0 then (-1, r1.2, true) else (0, r1.2, false)
  | .op_ddl =>
    if d.flag = ddl_output then
      if !l.is_null then
        let r1 := rl st
        (r1.1, r1.2, true)
      else (0, st, false)
    else if d.flag = ddl_list ∨ d.flag = ddl_exception then
      if !l.is_null then
        let r1 := rl st
        (r1.1, r1.2, true)
      else if !r.is_null then
        let r1 := rr st
        (r1.1, r1.2, true)
      else (0, st, false)
    else if d.flag = ddl_psm then (0, st, false)
    else if d.flag = ddl_create_seq ∨ d.flag = ddl_alter_seq then
      if !l.is_null then
        let r1 := rl st
        (r1.1, r1.2, true)
      else (0, st, false)
    else (0, st, false)

/-- The body of `rel_deps(sql, r, refs, l)` after the guard, for the node at
address `a`: the test of `refs`, the switch, and what follows it: `if
(!is_base(r->op) && r->exps) (exps_deps on r->exps)`, `if (is_groupby(r->op)
&& r->r) (exps_deps on r->r)`, and the registration of a shared node in
`refs`. `xe` and `xr` stand for `exps_deps` on `r->exps` and on `r->r`. -/
def rel_deps_body (a : Nat) (d : rel_fields) (l r exps : slot)
    (rl rr xe xr : deps_st → Int × deps_st) (st : deps_st) : Int × deps_st :=
  if decide (d.refcnt > 1) && decide (a ∈ st.refs) then (0, st)
  else
    let sw := rel_deps_switch d l r exps rl rr st
    if sw.2.2 then (sw.1, sw.2.1)
    else
      let r1 := if !is_base d.op ∧ !exps.is_null then xe sw.2.1 else (0, sw.2.1)
      if r1.1 ≠ 0 then (-1, r1.2)
      else
        let r2 := if is_groupby d.op ∧ !r.is_null then xr r1.2 else (0, r1.2)
        if r2.1 ≠ 0 then (-1, r2.2)
        else if decide (d.refcnt > 1) then (0, { r2.2 with refs := r2.2.refs ++ [a] })
        else (0, r2.2)

mutual
/-- `exp_deps(sql, e, refs, l)`, entered with `stk` frames left: the result
code and the state after the call. A field that the source reads as an
expression, a list or a plan node and that holds something else (for which the
source has no defined behaviour) is passed over with the result 0. -/
def exp_deps : Nat → sql_exp → deps_st → Int × deps_st
  | stk, .mk _ d l r f, st =>
    if THRhighwater stk then (-1, { st with sql := sql_error st.sql 10 too_complex })
    else
      exp_deps_body d l f (slot_exp_deps (stk - 1) l) (slot_exp_deps (stk - 1) r)
        (slot_exp_deps (stk - 1) f) (slot_exps_deps (stk - 1) l) (slot_exps_deps (stk - 1) r)
        (slot_rel_deps (stk - 1) l) st
termination_by structural _ e => e
/-- The call `exp_deps(sql, p, refs, l)` on a field. -/
def slot_exp_deps : Nat → slot → deps_st → Int × deps_st
  | stk, .exp e, st => exp_deps stk e st
  | _, _, st => (0, st)
termination_by structural _ s => s
/-- The call `exps_deps(sql, p, refs, l)` on a field. -/
def slot_exps_deps : Nat → slot → deps_st → Int × deps_st
  | stk, .list es, st => exps_deps stk es st
  | _, _, st => (0, st)
termination_by structural _ s => s
/-- `exps_deps(sql, exps, refs, l)` from the node `n` on: `if (exp_deps(sql,
n->data, refs, l) != 0) return -1;` for every element, then 0. -/
def exps_deps : Nat → exp_list → deps_st → Int × deps_st
  | _, .nil, st => (0, st)
  | stk, .cons e t, st =>
    let r1 := exp_deps (stk - 1) e st
    if r1.1 ≠ 0 then (-1, r1.2) else exps_deps stk t r1.2
termination_by structural _ es => es
/-- The call `rel_deps(sql, p, refs, l)` on a field; the guard is checked
before the test `if (!r) return 0;`. -/
def slot_rel_deps : Nat → slot → deps_st → Int × deps_st
  | stk, .rel r, st => rel_deps stk r st
  | stk, _, st =>
    if THRhighwater stk then (-1, { st with sql := sql_error st.sql 10 too_complex })
    else (0, st)
termination_by structural _ s => s
/-- `rel_deps(sql, r, refs, l)` on a plan node, entered with `stk` frames
left. -/
def rel_deps : Nat → sql_rel → deps_st → Int × deps_st
  | stk, .mk a d l r exps, st =>
    if THRhighwater stk then (-1, { st with sql := sql_error st.sql 10 too_complex })
    else
      rel_deps_body a d l r exps (slot_rel_deps (stk - 1) l) (slot_rel_deps (stk - 1) r)
        (slot_exps_deps (stk - 1) exps) (slot_exps_deps (stk - 1) r) st
termination_by structural _ r => r
end

/-- `rel_dependencies(sql, r)`: the id list (none for NULL) and the session
after the walk, which starts with empty lists `refs` and `l`. -/
def rel_dependencies (sql : mvc) (stk : Nat) (r : slot) : Option (List Nat) × mvc :=
  let res := slot_rel_deps stk r { sql := sql, refs := [], l := [] }
  if res.1 ≠ 0 then (none, res.2.sql) else (some res.2.l, res.2.sql)

/-- An id list without repetition whose ids are all `FUNC_OIDS` at least. -/
def deps_ok (l : List Nat) : Prop :=
  l.Nodup ∧ ∀ id ∈ l, FUNC_OIDS ≤ id

/-! ## Setting the type of a parameter (`exp_set_type_recurse`) -/

/-- Modelled from the spec: `set_type_param(sql, type, nr)` of
`sql_semantic.c`: the type of parameter number `nr` of the query is set and
the result is 0; the result is -1 when the query has no such parameter. -/
def set_type_param (sql : mvc) (type : sql_subtype) (nr : Nat) : Int × mvc :=
  if nr < sql.params.length then (0, { sql with params := sql.params.set nr (some type) })
  else (-1, sql)

/-- The state of the type-setting traversal: the session and the two names
`*relname` and `*expname` the caller points to. -/
structure type_st where
  sql : mvc
  relname : String
  expname : String
  deriving DecidableEq, Repr

mutual
/-- `exp_name(e)`: the alias name, or the name of the operand of a
conversion; none for NULL. -/
def exp_name : sql_exp → Option String
  | .mk _ d l _ _ =>
    match d.name with
    | some n => some n
    | none => if d.type = .e_convert then slot_exp_name l else none
termination_by structural e => e
/-- The call `exp_name(e->l)` on the field of a conversion that is not
NULL. -/
def slot_exp_name : slot → Option String
  | .exp e => exp_name e
  | _ => none
termination_by structural s => s
end

/-- `exp_relname(e)`: the relation alias, none for NULL. -/
def exp_relname (e : sql_exp) : Option String := e.d.rname

/-- The body of `exp_set_list_recurse(sql, type, e, relname, expname)` after
the guard and the test `if (!e) return 0;`, for the node at address `a` with
the fields `d`, `l`, `r`, `f`; `loop` stands for the loop `for (n = ((list *)
e->f)->h; n; n = n->next) exp_set_list_recurse(sql, type, n->data, relname,
expname);`, whose results are not looked at. Then `if ((e->f || (!e->l &&
!e->r && !e->f)) && !e->tpe.type) { if (set_type_param(sql, type, e->flag) ==
0) e->tpe = *type; else return -1; } return 0;`. The result is the code, the
node after the call and the state. -/
def exp_set_list_body (type : sql_subtype) (a : Nat) (d : exp_fields) (l r f : slot)
    (loop : type_st → slot × type_st) (st : type_st) : Int × sql_exp × type_st :=
  let res : slot × type_st :=
    if !f.is_null ∧ d.rname = some st.relname ∧
        exp_name (.mk a d l r f) = some st.expname then loop st
    else (f, st)
  if (!f.is_null ∨ (l.is_null ∧ r.is_null ∧ f.is_null)) ∧ d.tpe.type.isNone then
    let p := set_type_param res.2.sql type d.flag
    if p.1 = 0 then (0, .mk a { d with tpe := type } l r res.1, { res.2 with sql := p.2 })
    else (-1, .mk a d l r res.1, { res.2 with sql := p.2 })
  else (0, .mk a d l r res.1, res.2)

mutual
/-- `exp_set_list_recurse(sql, type, e, relname, expname)` on a node, entered
with `stk` frames left. -/
def exp_set_list_recurse (type : sql_subtype) : Nat → sql_exp → type_st →
    Int × sql_exp × type_st
  | stk, .mk a d l r f, st =>
    if THRhighwater stk then
      (-1, .mk a d l r f, { st with sql := sql_error st.sql 10 too_complex })
    else exp_set_list_body type a d l r f (slot_set_list_loop type (stk - 1) f) st
termination_by structural _ e => e
/-- The loop of `exp_set_list_recurse` over the list in the field `e->f`. A
field that holds no list (for which the source has no defined behaviour) is
left alone. -/
def slot_set_list_loop (type : sql_subtype) : Nat → slot → type_st → slot × type_st
  | stk, .list es, st =>
    let res := exps_set_list_loop type stk es st
    (.list res.1, res.2)
  | _, s, st => (s, st)
termination_by structural _ s => s
/-- The loop `exp_set_list_recurse(sql, type, n->data, relname, expname)` from
the node `n` on; the result of a call is not looked at. -/
def exps_set_list_loop (type : sql_subtype) : Nat → exp_list → type_st → exp_list × type_st
  | _, .nil, st => (.nil, st)
  | stk, .cons e t, st =>
    let r1 := exp_set_list_recurse type stk e st
    let r2 := exps_set_list_loop type stk t r1.2.2
    (.cons r1.2.1 r2.1, r2.2)
termination_by structural _ es => es
/-- `exp_set_type_recurse(sql, type, e, relname, expname)` on a node, entered
with `stk` frames left: the code, the node after the call and the state. The
result of none of the nested calls is looked at, except the one of
`exp_set_list_recurse` on an atom, which is returned. On a conversion whose
alias is the pair of names looked for, `*relname` and `*expname` are replaced
by the equal strings of the alias, which leaves the state as it is; on a
column they become the names in `e->l` and `e->r`. -/
def exp_set_type_recurse (type : sql_subtype) : Nat → sql_exp → type_st →
    Int × sql_exp × type_st
  | stk, .mk a d l r f, st =>
    if THRhighwater stk then
      (-1, .mk a d l r f, { st with sql := sql_error st.sql 10 too_complex })
    else
      match d.type with
      | .e_atom =>
        if THRhighwater (stk - 1) then
          (-1, .mk a d l r f, { st with sql := sql_error st.sql 10 too_complex })
        else exp_set_list_body type a d l r f (slot_set_list_loop type (stk - 2) f) st
      | .e_convert =>
        let rl := slot_set_type type (stk - 1) l st
        (0, .mk a d rl.1 r f, rl.2)
      | .e_column =>
        if d.rname = some st.relname then
          let relname :=
            match l with
            | .str s => s
            | _ => st.relname
          if exp_name (.mk a d l r f) = some st.expname then
            let expname :=
              match r with
              | .str s => s
              | _ => st.expname
            if d.tpe.type.isNone then
              let p := set_type_param st.sql type d.flag
              if p.1 = 0 then
                (0, .mk a { d with tpe := type } l r f,
                  { sql := p.2, relname := relname, expname := expname })
              else (-1, .mk a d l r f, { sql := p.2, relname := relname, expname := expname })
            else (0, .mk a d l r f, { st with relname := relname, expname := expname })
          else (0, .mk a d l r f, { st with relname := relname })
        else (0, .mk a d l r f, st)
      | .e_psm =>
        if d.flag &&& PSM_RETURN ≠ 0 then
          let rr := slot_set_type_loop type (stk - 1) r st
          (0, .mk a d l rr.1 f, rr.2)
        else if d.flag &&& PSM_WHILE ≠ 0 then
          let rl := slot_set_type type (stk - 1) l st
          let rr := slot_set_type_loop type (stk - 1) r rl.2
          (0, .mk a d rl.1 rr.1 f, rr.2)
        else if d.flag &&& PSM_IF ≠ 0 then
          let rl := slot_set_type type (stk - 1) l st
          let rr := slot_set_type_loop type (stk - 1) r rl.2
          let rf := if f.is_null then (f, rr.2) else slot_set_type_loop type (stk - 1) f rr.2
          (0, .mk a d rl.1 rr.1 rf.1, rf.2)
        else if d.flag &&& PSM_REL ≠ 0 then
          let rl := slot_rel_set_type type (stk - 1) l st
          (0, .mk a d rl.2.1 r f, rl.2.2)
        else if d.flag &&& PSM_EXCEPTION ≠ 0 then
          let rl := slot_set_type type (stk - 1) l st
          (0, .mk a d rl.1 r f, rl.2)
        else (0, .mk a d l r f, st)
      | .e_func =>
        let rl := slot_set_type_loop type (stk - 1) l st
        let rr := if r.is_null then (r, rl.2) else slot_set_type_loop type (stk - 1) r rl.2
        (0, .mk a d rl.1 rr.1 f, rr.2)
      | .e_aggr =>
        let rl := if l.is_null then (l, st) else slot_set_type_loop type (stk - 1) l st
        (0, .mk a d rl.1 r f, rl.2)
      | .e_cmp =>
        if d.flag = cmp_in ∨ d.flag = cmp_notin then
          let rl := slot_set_type type (stk - 1) l st
          let rr := slot_set_type_loop type (stk - 1) r rl.2
          (0, .mk a d rl.1 rr.1 f, rr.2)
        else if d.flag = cmp_or ∨ d.flag = cmp_filter then
          let rl := slot_set_type_loop type (stk - 1) l st
          let rr := slot_set_type_loop type (stk - 1) r rl.2
          (0, .mk a d rl.1 rr.1 f, rr.2)
        else
          let rl := if l.is_null then (l, st) else slot_set_type type (stk - 1) l st
          let rr := if r.is_null then (r, rl.2) else slot_set_type type (stk - 1) r rl.2
          let rf := if f.is_null then (f, rr.2) else slot_set_type type (stk - 1) f rr.2
          (0, .mk a d rl.1 rr.1 rf.1, rf.2)
termination_by structural _ e => e
/-- The call `exp_set_type_recurse(sql, type, p, relname, expname)` on a
field, its result dropped: the field and the state after the call. For NULL
(and for a field that holds no expression) the callee checks the guard and
returns. -/
def slot_set_type (type : sql_subtype) : Nat → slot → type_st → slot × type_st
  | stk, .exp e, st =>
    let res := exp_set_type_recurse type stk e st
    (.exp res.2.1, res.2.2)
  | stk, s, st =>
    if THRhighwater stk then (s, { st with sql := sql_error st.sql 10 too_complex })
    else (s, st)
termination_by structural _ s => s
/-- A loop `for (n = ((list *) p)->h; n; n = n->next)
exp_set_type_recurse(sql, type, n->data, relname, expname);` over the list in a
field. A field that holds no list (for which the source has no defined
behaviour) is left alone. -/
def slot_set_type_loop (type : sql_subtype) : Nat → slot → type_st → slot × type_st
  | stk, .list es, st =>
    let res := exps_set_type_loop type stk es st
    (.list res.1, res.2)
  | _, s, st => (s, st)
termination_by structural _ s => s
/-- The loop `exp_set_type_recurse(sql, type, n->data, relname, expname)` from
the node `n` on; the result of a call is not looked at. -/
def exps_set_type_loop (type : sql_subtype) : Nat → exp_list → type_st → exp_list × type_st
  | _, .nil, st => (.nil, st)
  | stk, .cons e t, st =>
    let r1 := exp_set_type_recurse type stk e st
    let r2 := exps_set_type_loop type stk t r1.2.2
    (.cons r1.2.1 r2.1, r2.2)
termination_by structural _ es => es
/-- The call `rel_set_type_recurse(sql, type, p, relname, expname)` on a
field: the code, the field and the state after the call. -/
def slot_rel_set_type (type : sql_subtype) : Nat → slot → type_st → Int × slot × type_st
  | stk, .rel r, st =>
    let res := rel_set_type_recurse type stk r st
    (res.1, .rel res.2.1, res.2.2)
  | stk, s, st =>
    if THRhighwater stk then (-1, s, { st with sql := sql_error st.sql 10 too_complex })
    else (0, s, st)
termination_by structural _ s => s
/-- `rel_set_type_recurse(sql, type, rel, relname, expname)` on a plan node,
entered with `stk` frames left: the loop over `rel->exps`, then the children
the operator has; the result of none of the nested calls is looked at. -/
def rel_set_type_recurse (type : sql_subtype) : Nat → sql_rel → type_st →
    Int × sql_rel × type_st
  | stk, .mk a d l r exps, st =>
    if THRhighwater stk then
      (-1, .mk a d l r exps, { st with sql := sql_error st.sql 10 too_complex })
    else
      let re := if exps.is_null then (exps, st) else slot_set_type_loop type (stk - 1) exps st
      match d.op with
      | .op_basetable | .op_table | .op_ddl => (0, .mk a d l r re.1, re.2)
      | .op_join | .op_left | .op_right | .op_full | .op_semi | .op_anti | .op_union
      | .op_inter | .op_except =>
        let rl := if l.is_null then (0, l, re.2) else slot_rel_set_type type (stk - 1) l re.2
        let rr :=
          if r.is_null then (0, r, rl.2.2) else slot_rel_set_type type (stk - 1) r rl.2.2
        (0, .mk a d rl.2.1 rr.2.1 re.1, rr.2.2)
      | .op_groupby | .op_project | .op_select | .op_topn | .op_sample =>
        let rl := if l.is_null then (0, l, re.2) else slot_rel_set_type type (stk - 1) l re.2
        (0, .mk a d rl.2.1 r re.1, rl.2.2)
      | .op_insert | .op_update | .op_delete | .op_truncate =>
        let rr := if r.is_null then (0, r, re.2) else slot_rel_set_type type (stk - 1) r re.2
        (0, .mk a d l rr.2.1 re.1, rr.2.2)
termination_by structural _ r => r
end

/-! ## Selections and their push-down (`sql/server/rel_rel.c`) -/

/-- Modelled from the spec: `is_select(op)` of `sql_relation.h`. -/
def is_select (op : operator_type) : Bool := op == .op_select

/-- Modelled from the spec: `is_semi(op)` of `sql_relation.h`. -/
def is_semi (op : operator_type) : Bool := op == .op_semi || op == .op_anti

/-- Modelled from the spec: `is_outerjoin(op)` of `sql_relation.h`. -/
def is_outerjoin (op : operator_type) : Bool :=
  op == .op_left || op == .op_right || op == .op_full

/-- Modelled from the spec: `is_processed(rel)` of `sql_relation.h`. -/
def is_processed (rel : sql_rel) : Bool := rel.d.processed

/-- Modelled from the spec: `is_column(et)` of `sql_relation.h`: every variant
but a comparison. -/
def is_column (et : expression_type) : Bool := et != .e_cmp

/-- `rel_create(sa)`: a new plan node at a fresh address with one reference,
no children, no expressions, the cardinality class `CARD_ATOM` and every bit
clear. The operator, which `rel_create` leaves unset, is given by the
caller. -/
def rel_create (sa : sql_allocator) : sql_rel × sql_allocator :=
  (.mk sa.next
    { refcnt := 1, op := .op_basetable, nrcols := 0, flag := 0, card := CARD_ATOM,
      processed := false, single := false, dependent := false, subquery := false, ht := false }
    .null .null .null,
   { next := sa.next + 1 })

/-- `append(l, e)` on a list of expressions. -/
def exp_list.append : exp_list → sql_exp → exp_list
  | .nil, e => .cons e .nil
  | .cons x t, e => .cons x (exp_list.append t e)

/-- Modelled from the spec: the type `boolean` found by `sql_find_subtype`. -/
def bool_subtype : sql_subtype := { type := some 1, digits := 1, scale := 0 }

/-- Modelled from the spec: `atom_bool(sa, tpe, val)` of `sql_atom.c`. -/
def atom_bool (tpe : sql_subtype) (val : Bool) : atom :=
  { tpe := tpe, isnull := false, data := if val then 1 else 0, sval := "" }

/-- `exp_atom_bool(sa, b)`. -/
def exp_atom_bool (sa : sql_allocator) (b : Bool) : sql_exp × sql_allocator :=
  exp_atom sa (atom_bool bool_subtype b)

/-- The list `l->exps` after `if (!l->exps) l->exps = new_exp_list(sa);
append(l->exps, e);`. -/
def exps_append (exps : slot) (e : sql_exp) : slot :=
  match exps with
  | .list es => .list (es.append e)
  | _ => .list (.cons e .nil)

/-- `rel_select_add_exp(sa, l, e)`: an expression that is no comparison and
has more than one value is first turned into the comparison with the literal
true; the expression is appended to the list of `l`. The result is `l` after
the call and the allocator. -/
def rel_select_add_exp (sa : sql_allocator) (l : sql_rel) (e : sql_exp) :
    sql_rel × sql_allocator :=
  let c : sql_exp × sql_allocator :=
    if e.d.type ≠ .e_cmp ∧ e.d.card > CARD_ATOM then
      let t := exp_atom_bool sa true
      exp_compare t.2 e t.1 cmp_equal
    else (e, sa)
  (.mk l.addr l.d l.l l.r (exps_append l.exps c.1), c.2)

/-- `rel_select(sa, l, e)`: an outer join that is not processed takes the
expression into its own list, a selection with one reference is refined, and
otherwise a new selection over `l` is made. The result is the node returned
(`l` itself after the change in the first two cases) and the allocator. -/
def rel_select (sa : sql_allocator) (l : Option sql_rel) (e : Option sql_exp) :
    sql_rel × sql_allocator :=
  match l with
  | some l0 =>
    if is_outerjoin l0.d.op ∧ !is_processed l0 then
      match e with
      | some e => (.mk l0.addr l0.d l0.l l0.r (exps_append l0.exps e), sa)
      | none => (l0, sa)
    else if l0.d.op = .op_select ∧ !rel_is_ref l0 then
      match e with
      | some e => rel_select_add_exp sa l0 e
      | none => (l0, sa)
    else
      let c := rel_create sa
      let rel : sql_rel :=
        .mk c.1.addr { c.1.d with op := .op_select } (.rel l0) .null (.list .nil)
      let c2 : sql_rel × sql_allocator :=
        match e with
        | some e => rel_select_add_exp c.2 rel e
        | none => (rel, c.2)
      (.mk c2.1.addr { c2.1.d with card := l0.d.card, nrcols := l0.d.nrcols } c2.1.l c2.1.r
        c2.1.exps, c2.2)
  | none =>
    let c := rel_create sa
    let rel : sql_rel := .mk c.1.addr { c.1.d with op := .op_select } .null .null (.list .nil)
    let c2 : sql_rel × sql_allocator :=
      match e with
      | some e => rel_select_add_exp c.2 rel e
      | none => (rel, c.2)
    (.mk c2.1.addr { c2.1.d with card := CARD_ATOM } c2.1.l c2.1.r c2.1.exps, c2.2)

/-- The test of `exps_bind_column2` on an element `e`: a column-like
expression whose alias is `rname.cname`, or a column reference without
relation alias named `cname` whose field `l` is `rname`. -/
def bind2_test (rname cname : String) (e : sql_exp) : Bool :=
  (is_column e.d.type && e.d.name.isSome && e.d.rname.isSome &&
      decide (e.d.name = some cname) && decide (e.d.rname = some rname)) ||
    (decide (e.d.type = .e_column) && e.d.name.isSome && e.d.rname.isNone &&
      !e.l.is_null && decide (e.d.name = some cname) && decide (e.l.str_val = some rname))

/-- `exps_bind_column2(exps, rname, cname)`: the first element that passes the
test, in the chain of the hash table for a list that has one or is longer
than `HASH_MIN_SIZE`, in the list itself otherwise; none for NULL. -/
def exps_bind_column2 (exps : Option exp_list) (ht : Bool) (rname cname : String) :
    Option sql_exp :=
  match exps with
  | some l =>
    if ht || decide (list_length l > HASH_MIN_SIZE) then
      (hash_chain l).find? (bind2_test rname cname)
    else l.toList.find? (bind2_test rname cname)
  | none => none

/-- The tests of `rel_bind_path_` on the expressions of a node for the column
`e`: `if (!rel->exps) break; if (e->l && exps_bind_column2(rel->exps, e->l,
e->r)) found = 1; if (!found && !e->l && exps_bind_column(rel->exps, e->r,
NULL)) found = 1;`. -/
def bind_path_found (exps : slot) (ht : Bool) (e : sql_exp) : Bool :=
  match exps with
  | .list es =>
    match e.l with
    | .null => (exps_bind_column (some es) ht e.r.str_val none).1.isSome
    | .str rname =>
      match e.r with
      | .str cname => (exps_bind_column2 (some es) ht rname cname).isSome
      | _ => false
    | _ => false
  | _ => false

/-- The switch of `rel_bind_path_(sql, rel, e, path)` on the operator of a
node with the fields `d` and `exps`; `bl` and `br` stand for the recursive
calls on `rel->l` and `rel->r`, which give whether the column was found, the
path and the session. -/
def rel_bind_path_switch (d : rel_fields) (exps : slot) (e : sql_exp)
    (bl br : List sql_rel → mvc → Bool × List sql_rel × mvc) (path : List sql_rel) (sql : mvc) :
    Bool × List sql_rel × mvc :=
  match d.op with
  | .op_join | .op_left | .op_right | .op_full =>
    let r1 := br path sql
    if !r1.1 then bl r1.2.1 r1.2.2 else r1
  | .op_semi | .op_anti | .op_select | .op_topn | .op_sample => bl path sql
  | .op_union | .op_inter | .op_except =>
    if exps.is_null then bl path sql
    else (bind_path_found exps d.ht e, path, sql)
  | .op_groupby | .op_project | .op_table | .op_basetable =>
    (bind_path_found exps d.ht e, path, sql)
  | .op_insert | .op_update | .op_delete | .op_truncate | .op_ddl => (false, path, sql)

mutual
/-- `rel_bind_path_(sql, rel, e, path)` on a plan node, entered with `stk`
frames left: whether the column `e` was found below the node, the path (the
node is put in front of it when the column was found) and the session. -/
def rel_bind_path_ (e : sql_exp) : Nat → sql_rel → List sql_rel → mvc →
    Bool × List sql_rel × mvc
  | stk, .mk a d l r exps, path, sql =>
    if THRhighwater stk then (false, path, sql_error sql 10 too_complex)
    else
      let res := rel_bind_path_switch d exps e (slot_bind_path e (stk - 1) l)
        (slot_bind_path e (stk - 1) r) path sql
      if res.1 then (true, .mk a d l r exps :: res.2.1, res.2.2) else res
termination_by structural _ r => r
/-- The call `rel_bind_path_(sql, p, e, path)` on a field. A field that holds
no plan node (for which the source has no defined behaviour) gives not
found. -/
def slot_bind_path (e : sql_exp) : Nat → slot → List sql_rel → mvc →
    Bool × List sql_rel × mvc
  | stk, .rel r, path, sql => rel_bind_path_ e stk r path sql
  | _, _, path, sql => (false, path, sql)
termination_by structural _ s => s
end

/-- `rel_bind_path(sql, rel, e)`: the path from `rel` down to the node that
binds the column `e` (the operand of `e` when `e` is a conversion), none for
NULL when the column is not found; for any other expression the path is `rel`
alone. -/
def rel_bind_path (sql : mvc) (stk : Nat) (rel : Option sql_rel) (e : sql_exp) :
    Option (List (Option sql_rel)) × mvc :=
  let e1 : Option sql_exp :=
    if e.d.type = .e_convert then
      match e.l with
      | .exp x => some x
      | _ => none
    else some e
  match e1 with
  | some e1 =>
    if e1.d.type = .e_column then
      match rel with
      | some r =>
        let res := rel_bind_path_ e1 (stk - 1) r [] sql
        if !res.1 then (none, res.2.2) else (some (res.2.1.map some), res.2.2)
      | none => (some [], sql)
    else (some [rel], sql)
  | none => (some [rel], sql)

/-- The loop of `rel_push_select` over the path: `lrel = n->data; if
(rel_is_ref(lrel)) break; if (!is_select(lrel->op) && !(is_semi(lrel->op) &&
!rel_is_ref(lrel->l)) && lrel->op != op_join && lrel->op != op_left) break;
if (lrel->op == op_left && (!n->next || lrel->l != n->next->data)) break; p =
lrel;`. The result is `lrel` and `p`. -/
def push_select_loop : List (Option sql_rel) → Option sql_rel → Option sql_rel →
    Option sql_rel × Option sql_rel
  | [], lrel, p => (lrel, p)
  | none :: _, _, p => (none, p)
  | some lrel :: rest, _, p =>
    if rel_is_ref lrel then (some lrel, p)
    else if !is_select lrel.d.op ∧
        !(is_semi lrel.d.op ∧
          !(match lrel.l with
            | .rel x => rel_is_ref x
            | _ => false)) ∧
        lrel.d.op ≠ .op_join ∧ lrel.d.op ≠ .op_left then (some lrel, p)
    else if decide (lrel.d.op = .op_left) &&
        (match rest, lrel.l with
          | some nx :: _, .rel x => decide (x.addr ≠ nx.addr)
          | none :: _, .null => false
          | _, _ => true) then (some lrel, p)
    else push_select_loop rest (some lrel) (some lrel)

mutual
/-- The plan below `rel` after the node at address `target` was changed in
place into `new`: every pointer to that node along the children `l` and `r`
sees the new fields. -/
def rel_replace (target : Nat) (new : sql_rel) : sql_rel → sql_rel
  | .mk a d l r exps =>
    if a = target then new
    else .mk a d (slot_rel_replace target new l) (slot_rel_replace target new r) exps
termination_by structural r => r
/-- The change `rel_replace` below a field. -/
def slot_rel_replace (target : Nat) (new : sql_rel) : slot → slot
  | .rel r => .rel (rel_replace target new r)
  | .null => .null
  | .exp e => .exp e
  | .list es => .list es
  | .str s => .str s
  | .atom a => .atom a
  | .func f => .func f
  | .types t1 t2 => .types t1 t2
  | .table t => .table t
  | .column c => .column c
termination_by structural s => s
end

/-- `rel_push_select(sql, rel, ls, e)`, entered with `stk` frames left: the
plan returned (none for NULL), as it is after the changes the call makes in
place, and the session. -/
def rel_push_select (sql : mvc) (stk : Nat) (rel : Option sql_rel) (ls e : sql_exp) :
    Option sql_rel × mvc :=
  let bp := rel_bind_path sql stk rel ls
  match bp.1 with
  | none =>
    let n := rel_select bp.2.sa rel (some e)
    (some n.1, { bp.2 with sa := n.2 })
  | some path =>
    if !bp.2.pushdown then
      let n := rel_select bp.2.sa rel (some e)
      (some n.1, { bp.2 with sa := n.2 })
    else
      let lp := push_select_loop path none none
      match lp.1 with
      | none => (none, bp.2)
      | some lrel =>
        match lp.2 with
        | some p =>
          if p.d.op = .op_select ∧ !rel_is_ref p then
            let p1 := rel_select_add_exp bp.2.sa p e
            (rel.map (rel_replace p.addr p1.1), { bp.2 with sa := p1.2 })
          else
            let n := rel_select bp.2.sa (some lrel) (some e)
            if p.addr ≠ lrel.addr then
              let p1 : sql_rel :=
                if (match p.l with
                    | .rel x => decide (x.addr = lrel.addr)
                    | _ => false) then .mk p.addr p.d (.rel n.1) p.r p.exps
                else .mk p.addr p.d p.l (.rel n.1) p.exps
              (rel.map (rel_replace p.addr p1), { bp.2 with sa := n.2 })
            else (some n.1, { bp.2 with sa := n.2 })
        | none =>
          let n := rel_select bp.2.sa (some lrel) (some e)
          (some n.1, { bp.2 with sa := n.2 })

/-- The plan node a field points to, none for any other field. -/
def slot.rel_val : slot → Option sql_rel
  | .rel r => some r
  | _ => none

/-- The addresses of the expressions in the list of a plan node, in order. -/
def sql_rel.exps_addrs (r : sql_rel) : List Nat :=
  match r.exps with
  | .list es => es.toList.map sql_exp.addr
  | _ => []

/-! ## Reference counts of plan nodes (`sql/server/rel_rel.c`) -/

/-- Modelled from the spec: `is_join(op)` of `sql_relation.h`. -/
def is_join (op : operator_type) : Bool := op == .op_join || is_outerjoin op

/-- Modelled from the spec: `is_set(op)` of `sql_relation.h`. -/
def is_set (op : operator_type) : Bool :=
  op == .op_union || op == .op_inter || op == .op_except

/-- Modelled from the spec: `is_project(op)` of `sql_relation.h`. -/
def is_project (op : operator_type) : Bool :=
  op == .op_project || op == .op_groupby || is_set op

/-- Modelled from the spec: `is_simple_project(op)` of `sql_relation.h`. -/
def is_simple_project (op : operator_type) : Bool := op == .op_project

/-- Modelled from the spec: `is_modify(op)` of `sql_relation.h`. -/
def is_modify (op : operator_type) : Bool :=
  op == .op_insert || op == .op_update || op == .op_delete || op == .op_truncate

/-- `rel_dup(r)`: the same node with its reference count increased by one
(`sql_ref_inc`). -/
def rel_dup (r : sql_rel) : sql_rel :=
  .mk r.addr { r.d with refcnt := r.d.refcnt + 1 } r.l r.r r.exps

/-- The reference count of the node `x` after the decrements `decs` (the
addresses of the nodes decremented, one entry for each `sql_ref_dec`) were
made in place: the count the field of `x` holds less the number of
decrements of its address. -/
def refcnt_after (decs : List Nat) (x : sql_rel) : Int :=
  (x.d.refcnt : Int) - (decs.count x.addr : Int)

mutual
/-- `rel_destroy(rel)` on a plan node, given the decrements `decs` made so
far: `if (sql_ref_dec(&rel->ref) > 0) return; rel_destroy_(rel);`, where
`rel_destroy_` destroys both children of a join, semijoin, selection, set
operation, topn or sample, the left child of a projection or group by, and
the right child of a modification. The result is the list of decrements after
the call. A node that is reached twice is the same node: its count is read
through the decrements already made. -/
def rel_destroy : sql_rel → List Nat → List Nat
  | .mk a d l r _, decs =>
    if d.refcnt > (a :: decs).count a then a :: decs
    else if is_join d.op || is_semi d.op || is_select d.op || is_set d.op ||
        d.op == .op_topn || d.op == .op_sample then
      slot_destroy r (slot_destroy l (a :: decs))
    else if is_project d.op then slot_destroy l (a :: decs)
    else if is_modify d.op then slot_destroy r (a :: decs)
    else a :: decs
termination_by structural r => r
/-- The call `if (rel->l) rel_destroy(rel->l);` on a field: nothing happens
for NULL (and for a field that holds no plan node). -/
def slot_destroy : slot → List Nat → List Nat
  | .rel r, decs => rel_destroy r decs
  | _, decs => decs
termination_by structural s => s
end

/-! ## Pushing a join condition down (`rel_push_join`) -/

/-- `rel_join_add_exp(sa, rel, e)`: the expression is appended to the list of
`rel` and the cardinality class of `rel` is raised to that of `e`. -/
def rel_join_add_exp (rel : sql_rel) (e : sql_exp) : sql_rel :=
  .mk rel.addr { rel.d with card := if e.d.card > rel.d.card then e.d.card else rel.d.card }
    rel.l rel.r (exps_append rel.exps e)

/-- The test `!is_select(lrel->op) && !(is_semi(lrel->op) &&
!rel_is_ref(lrel->l)) && lrel->op != op_join && lrel->op != op_left` of the
push-down loops: the operator does not allow to push further down. -/
def push_blocked (lrel : sql_rel) : Bool :=
  !is_select lrel.d.op &&
    !(is_semi lrel.d.op &&
      !(match lrel.l with
        | .rel x => rel_is_ref x
        | _ => false)) &&
    decide (lrel.d.op ≠ .op_join) && decide (lrel.d.op ≠ .op_left)

/-- The test `lrel->op == op_left && (!ln->next || lrel->l != ln->next->data)`
of the push-down loops, `rest` being the path behind `lrel`: only the left
head of a left join is passed. -/
def left_head_blocked (lrel : sql_rel) (rest : List (Option sql_rel)) : Bool :=
  decide (lrel.d.op = .op_left) &&
    (match rest, lrel.l with
      | some nx :: _, .rel x => decide (x.addr ≠ nx.addr)
      | none :: _, .null => false
      | _, _ => true)

/-- The loop of `rel_push_join` over the two paths (no `rs2`): `lrel =
ln->data; rrel = rn->data; if (rel_is_ref(lrel) || rel_is_ref(rrel) ||
is_processed(lrel) || is_processed(rrel)) break; if (lrel != rrel || (the
operator blocks)) break; if (the left head test) break; p = lrel;`. The
result is `lrel`, `rrel` and `p`. A path entry that is NULL (for which the
source has no defined behaviour) ends the loop with `lrel` NULL. -/
def push_join_loop : List (Option sql_rel) → List (Option sql_rel) → Option sql_rel →
    Option sql_rel → Option sql_rel → Option sql_rel × Option sql_rel × Option sql_rel
  | some lrel :: ln, some rrel :: rn, _, _, p =>
    if rel_is_ref lrel || rel_is_ref rrel || is_processed lrel || is_processed rrel then
      (some lrel, some rrel, p)
    else if decide (lrel.addr ≠ rrel.addr) || push_blocked lrel then (some lrel, some rrel, p)
    else if left_head_blocked lrel ln then (some lrel, some rrel, p)
    else push_join_loop ln rn (some lrel) (some rrel) (some lrel)
  | none :: _, _ :: _, _, _, p => (none, none, p)
  | some _ :: _, none :: _, _, _, p => (none, none, p)
  | [], _, lrel, rrel, p => (lrel, rrel, p)
  | _ :: _, [], lrel, rrel, p => (lrel, rrel, p)

/-- The loop of `rel_push_join` over the three paths (with `rs2`): as
`push_join_loop`, with `rel_is_ref(rrel2)` in the first test and `lrel !=
rrel2` in the second. The result is `lrel`, `rrel`, `rrel2` and `p`. -/
def push_join_loop3 : List (Option sql_rel) → List (Option sql_rel) → List (Option sql_rel) →
    Option sql_rel → Option sql_rel → Option sql_rel → Option sql_rel →
    Option sql_rel × Option sql_rel × Option sql_rel × Option sql_rel
  | some lrel :: ln, some rrel :: rn, some rrel2 :: rn2, _, _, _, p =>
    if rel_is_ref lrel || rel_is_ref rrel || rel_is_ref rrel2 || is_processed lrel ||
        is_processed rrel then (some lrel, some rrel, some rrel2, p)
    else if decide (lrel.addr ≠ rrel.addr) || decide (lrel.addr ≠ rrel2.addr) ||
        push_blocked lrel then (some lrel, some rrel, some rrel2, p)
    else if left_head_blocked lrel ln then (some lrel, some rrel, some rrel2, p)
    else push_join_loop3 ln rn rn2 (some lrel) (some rrel) (some rrel2) (some lrel)
  | [], _, _, lrel, rrel, rrel2, p => (lrel, rrel, rrel2, p)
  | _ :: _, [], _, lrel, rrel, rrel2, p => (lrel, rrel, rrel2, p)
  | _ :: _, _ :: _, [], lrel, rrel, rrel2, p => (lrel, rrel, rrel2, p)
  | _ :: _, _ :: _, _ :: _, _, _, _, p => (none, none, none, p)

/-- The end of `rel_push_join` for a filter on the columns of one relation:
`if (lrel->op == op_select && !rel_is_ref(lrel)) rel_select_add_exp(sa, lrel,
e); else if (p && p->op == op_select && !rel_is_ref(p)) rel_select_add_exp(sa,
p, e); else { n = rel_select(sa, lrel, e); if (p && p != lrel) { if (p->l ==
lrel) p->l = n; else p->r = n; } else rel = n; } return rel;`. -/
def push_join_filter (sql : mvc) (rel : Option sql_rel) (lrel : sql_rel) (p : Option sql_rel)
    (e : sql_exp) : Option sql_rel × mvc :=
  if lrel.d.op = .op_select ∧ !rel_is_ref lrel then
    let l1 := rel_select_add_exp sql.sa lrel e
    (rel.map (rel_replace lrel.addr l1.1), { sql with sa := l1.2 })
  else
    match p with
    | some p =>
      if p.d.op = .op_select ∧ !rel_is_ref p then
        let p1 := rel_select_add_exp sql.sa p e
        (rel.map (rel_replace p.addr p1.1), { sql with sa := p1.2 })
      else
        let n := rel_select sql.sa (some lrel) (some e)
        if p.addr ≠ lrel.addr then
          let p1 : sql_rel :=
            if (match p.l with
                | .rel x => decide (x.addr = lrel.addr)
                | _ => false) then .mk p.addr p.d (.rel n.1) p.r p.exps
            else .mk p.addr p.d p.l (.rel n.1) p.exps
          (rel.map (rel_replace p.addr p1), { sql with sa := n.2 })
        else (some n.1, { sql with sa := n.2 })
    | none =>
      let n := rel_select sql.sa (some lrel) (some e)
      (some n.1, { sql with sa := n.2 })

/-- `rel_push_join(sql, rel, ls, rs, rs2, e)`, entered with `stk` frames
left: the three paths are bound; without push-down the call is
`rel_push_select(sql, rel, ls, e)`; the loop goes down as long as the paths
agree; a condition on the columns of one relation (or below a shared node)
becomes a filter, any other is added to the expressions of `p`. The result is
the plan returned (none for NULL), as it is after the changes made in place,
and the session. -/
def rel_push_join (sql : mvc) (stk : Nat) (rel : Option sql_rel) (ls rs : sql_exp)
    (rs2 : Option sql_exp) (e : sql_exp) : Option sql_rel × mvc :=
  let bl := rel_bind_path sql stk rel ls
  let br := rel_bind_path bl.2 stk rel rs
  match bl.1, br.1, rs2 with
  | some l, some r, none =>
    if !br.2.pushdown then rel_push_select br.2 stk rel ls e
    else
      let lp := push_join_loop l r none none rel
      match lp.1, lp.2.1 with
      | some lrel, some rrel =>
        if (decide (lrel.addr = rrel.addr) && decide (lrel.d.op ≠ .op_join)) ||
            (match lp.2.2 with
              | some p => rel_is_ref p
              | none => false) then push_join_filter br.2 rel lrel lp.2.2 e
        else
          match lp.2.2 with
          | some p => (rel.map (rel_replace p.addr (rel_join_add_exp p e)), br.2)
          | none => (rel, br.2)
      | _, _ => (none, br.2)
  | some l, some r, some x =>
    let br2 := rel_bind_path br.2 stk rel x
    match br2.1 with
    | some r2 =>
      if !br2.2.pushdown then rel_push_select br2.2 stk rel ls e
      else
        let lp := push_join_loop3 l r r2 none none none rel
        match lp.1, lp.2.1, lp.2.2.1 with
        | some lrel, some rrel, some rrel2 =>
          if (decide (lrel.addr = rrel.addr) && decide (lrel.addr = rrel2.addr) &&
                decide (lrel.d.op ≠ .op_join)) ||
              (match lp.2.2.2 with
                | some p => rel_is_ref p
                | none => false) then push_join_filter br2.2 rel lrel lp.2.2.2 e
          else
            match lp.2.2.2 with
            | some p => (rel.map (rel_replace p.addr (rel_join_add_exp p e)), br2.2)
            | none => (rel, br2.2)
        | _, _, _ => (none, br2.2)
    | none => (none, br2.2)
  | _, _, some x => (none, (rel_bind_path br.2 stk rel x).2)
  | _, _, none => (none, br.2)

/-- The address, the operator and the addresses of the expressions of a plan
node. -/
def sql_rel.shape (r : sql_rel) : Nat × operator_type × List Nat :=
  (r.addr, r.d.op, r.exps_addrs)

/-- The left child of a plan node, none when the field holds no plan node. -/
def sql_rel.left (r : sql_rel) : Option sql_rel := r.l.rel_val

/-- The right child of a plan node, none when the field holds no plan
node. -/
def sql_rel.right (r : sql_rel) : Option sql_rel := r.r.rel_val

/-! ## Disjunctions (`rel_or`) -/

/-- Modelled from the spec: `list_merge(l, data, dup)` of `sql_list.c` without
a copy function: the elements of `data` are appended to `l`, none for NULL. -/
def list_merge (l : exp_list) (data : slot) : exp_list :=
  match data with
  | .list es => es.toList.foldl exp_list.append l
  | _ => l

/-- The address of the plan node a field points to, none for NULL (and for a
field that holds no plan node): what the pointer comparisons of `rel_or`
look at. -/
def slot.rel_addr : slot → Option Nat
  | .rel r => some r.addr
  | _ => none

mutual
/-- The loop of `rel_or` that merges the selections below `l`, started at the
node `ll`: `while (ll && ll->op == op_select && !rel_is_ref(ll)) {
list_merge(l->exps, ll->exps, NULL); l->l = ll->l; ll->l = NULL;
rel_destroy(ll); ll = l->l; }`. The state is the list `l->exps` and the
decrements of reference counts made so far, through which the count of `ll`
is read; the result is the list, the field `l->l` and the decrements at the
end. -/
def rel_merge_selects : sql_rel → exp_list → List Nat → exp_list × slot × List Nat
  | .mk a d l r exps, acc, decs =>
    if d.op = .op_select ∧ ¬ (d.refcnt > decs.count a + 1) then
      slot_merge_selects l (list_merge acc exps) (rel_destroy (.mk a d .null r exps) decs)
    else (acc, .rel (.mk a d l r exps), decs)
termination_by structural r => r
/-- The loop `rel_merge_selects` on the field `l->l`: it ends at NULL. -/
def slot_merge_selects : slot → exp_list → List Nat → exp_list × slot × List Nat
  | .rel r, acc, decs => rel_merge_selects r acc decs
  | s, acc, decs => (acc, s, decs)
termination_by structural s => s
end

/-- `rel_or(sql, rel, l, r, oexps, lexps, rexps)`. With `l == r` and `lexps`
the two lists become one `cmp_or` expression appended to `oexps`, which
becomes the list of `l` (or of a new selection over `l` for a processed outer
join). Two selections with one reference each over the same node `rel` become
the selection `l` with the single expression `exp_or(l->exps, r->exps)`,
into which the selections below are merged; `r` is destroyed. Any other pair
becomes a union: that part of the function (`rel_projections`,
`rel_setop_check_types`, `rel_distinct`, `exps_fix_card`) is the parameter
`union_or`. The result is the plan returned (none for NULL), the session and
the decrements of reference counts made in place: the count fields of the
plan returned are those before the call. For `rexps` NULL, which the source
reads only when `lexps` is empty, the model builds the expression with no
right list; two selections of which one has no list, for which the source has
no defined behaviour, give none. -/
def rel_or (union_or : mvc → Option sql_rel → sql_rel → sql_rel → Option sql_rel × mvc)
    (sql : mvc) (rel : Option sql_rel) (l r : sql_rel) (oexps lexps rexps : Option exp_list) :
    Option sql_rel × mvc × List Nat :=
  match decide (l.addr = r.addr), lexps with
  | true, some lx =>
    let e0 := exp_or sql.sa lx (rexps.getD .nil) false
    let e : sql_exp :=
      match rexps with
      | some _ => e0.1
      | none => .mk e0.1.addr e0.1.d e0.1.l .null e0.1.f
    let nl : exp_list := (oexps.getD .nil).append e
    let decs := rel_destroy r []
    if is_outerjoin l.d.op ∧ is_processed l then
      let s := rel_select e0.2 (some l) none
      (some (.mk s.1.addr s.1.d s.1.l s.1.r (.list nl)), { sql with sa := s.2 }, decs)
    else (some (.mk l.addr l.d l.l l.r (.list nl)), { sql with sa := e0.2 }, decs)
  | _, _ =>
    if l.d.op = r.d.op ∧ l.d.op = .op_select ∧ l.l.rel_addr = r.l.rel_addr ∧
        l.l.rel_addr = rel.map sql_rel.addr ∧ !rel_is_ref l ∧ !rel_is_ref r then
      match l.exps, r.exps with
      | .list lx, .list rx =>
        let e := exp_or sql.sa lx rx false
        let m := slot_merge_selects l.l (.cons e.1 .nil) (rel_destroy r [])
        (some (.mk l.addr l.d m.2.1 l.r (.list m.1)), { sql with sa := e.2 }, m.2.2)
      | _, _ => (none, sql, [])
    else
      let u := union_or sql rel l r
      (u.1, u.2, [])

/-- The list of expressions with the given elements. -/
def exp_list.ofList : List sql_exp → exp_list
  | [] => .nil
  | e :: t => .cons e (exp_list.ofList t)

/-- A chain of selections over `base`, the topmost first: each one is given
by its address, its scalar fields and its filter list, has the next one (at
the end `base`) as its only child. -/
def select_tower : List (Nat × rel_fields × exp_list) → slot → slot
  | [], base => base
  | n :: t, base => .rel (.mk n.1 n.2.1 (select_tower t base) .null (.list n.2.2))

/-- The filters of a chain of selections, from the topmost down. -/
def chain_filters : List (Nat × rel_fields × exp_list) → List sql_exp
  | [] => []
  | n :: t => n.2.2.toList ++ chain_filters t

/-- The node `base` ends a chain of selections that are merged when the
decrements `decs` were made: it is NULL, or not a selection, or a selection
that still has more than one reference. -/
def ends_chain (base : slot) (decs : List Nat) : Prop :=
  ∀ b, base = .rel b → b.d.op ≠ .op_select ∨ b.d.refcnt > decs.count b.addr + 1

/-! ## Binding a column name in a plan (`rel_bind_column`) -/

/-- Modelled from the spec: `ERR_AMBIGUOUS` of `sql_mvc.h` (octal 050000). -/
def ERR_AMBIGUOUS : Nat := 20480

/-- The message `SQLSTATE(42000) "SELECT: identifier '%s' ambiguous"` for the
name `cname`. -/
def ambiguous_message (cname : String) : String :=
  "42000!SELECT: identifier " ++ String.singleton (Char.ofNat 39) ++ cname ++
    String.singleton (Char.ofNat 39) ++ " ambiguous"

/-- The call `sql_error(sql, ERR_AMBIGUOUS, ...)` on the name `cname`. -/
def ambiguous_error (sql : mvc) (cname : String) : mvc :=
  sql_error sql ERR_AMBIGUOUS (ambiguous_message cname)

/-- Modelled from the spec: `is_dependent(rel)` of `sql_relation.h`. -/
def is_dependent (rel : sql_rel) : Bool := rel.d.dependent

/-- Modelled from the spec: `has_label(e)` of `sql_relation.h`. -/
def has_label (e : sql_exp) : Bool := decide (e.d.label > 0)

/-- The list a field points to, none for NULL (and for a field that holds no
list). -/
def slot.list_val : slot → Option exp_list
  | .list es => some es
  | _ => none

mutual
/-- `rel_issubquery(r)`: `if (!r->subquery) { if (is_select(r->op)) return
rel_issubquery(r->l); } return r->subquery;`. -/
def rel_issubquery : sql_rel → Bool
  | .mk _ d l _ _ =>
    if !d.subquery then
      if is_select d.op then slot_issubquery l else d.subquery
    else d.subquery
termination_by structural r => r
/-- The call `rel_issubquery(r->l)` on the child of a selection (NULL, for
which the source has no defined behaviour, gives false). -/
def slot_issubquery : slot → Bool
  | .rel r => rel_issubquery r
  | _ => false
termination_by structural s => s
end

/-- The end of the join case of `rel_bind_column_`: `if
(sql->session->status == -ERR_AMBIGUOUS) return NULL; if (l && !r) return l;
return r;`. -/
def bind_join_result (l r p : Option sql_rel) (sql : mvc) :
    Option sql_rel × Option sql_rel × mvc :=
  if sql.status = -(ERR_AMBIGUOUS : Int) then (none, p, sql)
  else if l.isSome ∧ r.isNone then (l, p, sql)
  else (r, p, sql)

/-- The switch of `rel_bind_column_(sql, p, rel, cname)` on the operator of
the node `self`; `bl` and `br` stand for the recursive calls on `rel->l` and
`rel->r`, which take and give `*p` and the session. The result is the node
that binds the name (none for NULL), `*p` and the session. -/
def rel_bind_column_body (cname : String) (self : sql_rel)
    (bl br : Option sql_rel → mvc → Option sql_rel × Option sql_rel × mvc)
    (p : Option sql_rel) (sql : mvc) : Option sql_rel × Option sql_rel × mvc :=
  match self.d.op with
  | .op_join | .op_left | .op_right | .op_full =>
    let rr := br (some self) sql
    if rr.1.isNone ∨ !slot_issubquery self.r then
      let e : Option sql_exp :=
        match rr.1 with
        | some r => (exps_bind_column r.exps.list_val r.d.ht (some cname) (some false)).1
        | none => none
      if rr.1.isNone ∨ e.isNone ∨ !(match e with
          | some e => is_freevar e
          | none => false) then
        let ll := bl (some self) rr.2.2
        if ll.1.isSome ∧ rr.1.isSome ∧
            !(match rr.1 with
              | some r => rel_issubquery r
              | none => false) ∧ !is_dependent self then
          (none, ll.2.1, ambiguous_error ll.2.2 cname)
        else bind_join_result ll.1 rr.1 ll.2.1 ll.2.2
      else bind_join_result none rr.1 rr.2.1 rr.2.2
    else bind_join_result none rr.1 rr.2.1 rr.2.2
  | .op_union | .op_except | .op_inter | .op_groupby | .op_project | .op_table
  | .op_basetable =>
    let b := exps_bind_column self.exps.list_val self.d.ht (some cname) (some false)
    if !self.exps.is_null ∧ b.1.isSome then (some self, p, sql)
    else if !self.exps.is_null ∧ b.2 = some true then (none, p, ambiguous_error sql cname)
    else if is_processed self then (none, some self, sql)
    else if !self.l.is_null ∧ !is_base self.d.op then bl (some self) sql
    else (none, some self, sql)
  | .op_semi | .op_anti | .op_select | .op_topn | .op_sample =>
    if !self.l.is_null then bl (some self) sql else (none, some self, sql)
  | .op_insert | .op_update | .op_delete | .op_truncate | .op_ddl => (none, p, sql)

mutual
/-- `rel_bind_column_(sql, p, rel, cname)` on a plan node, entered with `stk`
frames left: the node whose expressions bind the name (none for NULL), the
node `*p` and the session. -/
def rel_bind_column_ (cname : String) : Nat → sql_rel → Option sql_rel → mvc →
    Option sql_rel × Option sql_rel × mvc
  | stk, .mk a d l r exps, p, sql =>
    if THRhighwater stk then (none, p, sql_error sql 10 too_complex)
    else
      rel_bind_column_body cname (.mk a d l r exps) (slot_bind_column cname (stk - 1) l)
        (slot_bind_column cname (stk - 1) r) p sql
termination_by structural _ r => r
/-- The call `rel_bind_column_(sql, p, c, cname)` on a field. A field that
holds no plan node (for which the source has no defined behaviour) gives
NULL. -/
def slot_bind_column (cname : String) : Nat → slot → Option sql_rel → mvc →
    Option sql_rel × Option sql_rel × mvc
  | stk, .rel r, p, sql => rel_bind_column_ cname stk r p sql
  | _, _, p, sql => (none, p, sql)
termination_by structural _ s => s
end

/-- `number2name(s, len, i)`: the letter `L` followed by the octal digits of
`i`, none for `i = 0`. -/
def number2name (i : Nat) : String :=
  if i = 0 then "L" else "L" ++ String.mk (Nat.toDigits 8 i)

/-- `exp_setname(sa, e, rname, name)`: the label is cleared, the name is set
when one is given, the relation name is set or cleared. -/
def exp_setname (e : sql_exp) (rname name : Option String) : sql_exp :=
  .mk e.addr
    { e.d with
      label := 0,
      name := (match name with
        | some n => some n
        | none => e.d.name),
      rname := rname }
    e.l e.r e.f

/-- `exp_alias_or_copy(sql, tname, cname, orel, old)`: a new column reference
to `old` under the name `tname.cname` (the relation name of `old`, or the
field `l` of a column, when `tname` is NULL); without `cname` the reference
takes the name of `old`, which gets a fresh label name when it has none. The
result is the reference, `old` after the call and the session. -/
def exp_alias_or_copy (sql : mvc) (tname cname : Option String) (orel : Option sql_rel)
    (old : sql_exp) : sql_exp × sql_exp × mvc :=
  let tname1 : Option String :=
    match tname with
    | some t => some t
    | none => old.d.rname
  let tname2 : Option String :=
    match tname1 with
    | some t => some t
    | none => if old.d.type = .e_column then old.l.str_val else none
  let card : Nat :=
    match orel with
    | some r => r.d.card
    | none => CARD_ATOM
  match cname with
  | none =>
    if (exp_name old).isSome ∧ has_label old then
      let ne := exp_column sql.sa (exp_relname old) ((exp_name old).getD "") (exp_subtype old)
        card (has_nil old) (is_intern old)
      (exp_propagate ne.1 old, old, { sql with sa := ne.2 })
    else
      let nme := number2name (sql.label + 1)
      let old1 := exp_setname old (some nme) (some nme)
      let ne := exp_column sql.sa (exp_relname old1) ((exp_name old1).getD "")
        (exp_subtype old1) card (has_nil old1) (is_intern old1)
      (exp_propagate ne.1 old1, old1, { sql with sa := ne.2, label := sql.label + 1 })
  | some c =>
    let old1 := if old.d.name.isNone then exp_setname old tname2 (some c) else old
    let ne := exp_column sql.sa tname2 c (exp_subtype old1) card (has_nil old1) (is_intern old1)
    (exp_propagate ne.1 old1, old1, { sql with sa := ne.2 })

/-- `rel_bind_column(sql, rel, cname, f)`, entered with `stk` frames left.
The tests `is_sql_sel(f)` and `is_sql_orderby(f)` on the flag are the
booleans `sel` and `orderby`: with `sel` the search starts below a
projection that is not processed. The node that binds the name is looked for
by `rel_bind_column_`; when it is a projection, group by, set operation or
base table with expressions, the result is a reference (built by
`exp_alias_or_copy`) to the expression its list binds, which in an ORDER BY
is added to the projection `p` that is not processed: that call,
`rel_project_add_exp(sql, p, e)`, is the parameter `project_add`. The
expression found has an alias name, so that `exp_alias_or_copy` leaves it as
it is. The result is the expression (none for NULL) and the session. -/
def rel_bind_column (project_add : mvc → sql_rel → sql_exp → Option sql_exp × mvc) (sql : mvc)
    (stk : Nat) (rel : Option sql_rel) (cname : String) (sel orderby : Bool) :
    Option sql_exp × mvc :=
  let rel1 : Option sql_rel :=
    match rel with
    | some r => if sel ∧ is_simple_project r.d.op ∧ !is_processed r then r.l.rel_val else some r
    | none => none
  match rel1 with
  | none => (none, sql)
  | some r0 =>
    let res := rel_bind_column_ cname (stk - 1) r0 none sql
    match res.1 with
    | none => (none, res.2.2)
    | some rf =>
      if (is_project rf.d.op ∨ is_base rf.d.op) ∧ !rf.exps.is_null then
        match (exps_bind_column rf.exps.list_val rf.d.ht (some cname) none).1 with
        | some e =>
          let c := exp_alias_or_copy res.2.2 (exp_relname e) (some cname) (some rf) e
          match res.2.1 with
          | some p =>
            if is_simple_project p.d.op ∧ !is_processed p ∧ orderby ∧
                rel.map sql_rel.addr ≠ some rf.addr then project_add c.2.2 p c.1
            else (some c.1, c.2.2)
          | none => (some c.1, c.2.2)
        | none => (none, res.2.2)
      else (none, res.2.2)

/-- The list `exps` exports the name `c` once, through the expression `e`:
`e` is in the list under the alias name `c` and no other element has that
alias name. -/
def exports_once (exps : exp_list) (c : String) (e : sql_exp) : Prop :=
  ∃ pre post : List sql_exp, exps.toList = pre ++ e :: post ∧ e.d.name = some c ∧
    (∀ x ∈ pre, x.d.name ≠ some c) ∧ (∀ x ∈ post, x.d.name ≠ some c)

/-- The alias names of the expressions in the list of a plan node, in
order. -/
def sql_rel.exps_names (r : sql_rel) : List (Option String) :=
  match r.exps with
  | .list es => es.toList.map (fun e => e.d.name)
  | _ => []

/-! ## Example expressions -/

/-- The column `t.a`, allocated at address 10. -/
def colA : sql_exp := (exp_column ⟨10⟩ (some "t") "a" none CARD_MULTI true false).1

/-- The column `t.b`, allocated at address 11. -/
def colB : sql_exp := (exp_column ⟨11⟩ (some "t") "b" none CARD_MULTI true false).1

/-- The literal 1 of a 32-bit integer type. -/
def litOne : atom :=
  { tpe := { type := some 7, digits := 32, scale := 0 }, isnull := false, data := 1, sval := "" }

/-- A chain of `n` nested conversions around `e`, each built by `exp_convert`
with the type `t` on both sides, the innermost first. -/
def convert_chain (t : sql_subtype) : Nat → sql_allocator → sql_exp → sql_exp × sql_allocator
  | 0, sa, e => (e, sa)
  | n + 1, sa, e =>
    exp_convert (convert_chain t n sa e).2 (convert_chain t n sa e).1 t t

/-- A catalog function `f` with id 3001. -/
def fnA : sql_subfunc := { id := 3001, name := "f", side_effect := false, res := [] }

/-- A catalog function `g` with id 3002. -/
def fnB : sql_subfunc := { id := 3002, name := "g", side_effect := false, res := [] }

/-- A session with push-down enabled, no pending error, no parameters and an
allocator at address 100. -/
def sql0 : mvc :=
  { sa := ⟨100⟩, pushdown := true, label := 0, status := 0, errstr := "", params := [],
    sequences := [] }

/-- The statement `if t.a then f(t.a) else g(t.b)`, built by `exp_if`. -/
def exIf : sql_exp :=
  (exp_if ⟨40⟩ colA (.cons (exp_op ⟨41⟩ (.list (.cons colA .nil)) (.func fnA)).1 .nil)
    (some (.cons (exp_op ⟨42⟩ (.list (.cons colB .nil)) (.func fnB)).1 .nil))).1

/-- A projection (at address 50, one reference) of the two calls `f(t.a)` and
`f(t.b)`, without a child. -/
def exProject : sql_rel :=
  .mk 50
    { refcnt := 1, op := .op_project, nrcols := 2, flag := 0, card := CARD_MULTI,
      processed := false, single := false, dependent := false, subquery := false, ht := false }
    .null .null
    (.list (.cons (exp_op ⟨41⟩ (.list (.cons colA .nil)) (.func fnA)).1
      (.cons (exp_op ⟨42⟩ (.list (.cons colB .nil)) (.func fnA)).1 .nil)))

/-- The column `x.c` of unknown type that stands for parameter number 5, at
address 60. -/
def colParam : sql_exp :=
  .mk 60
    { type := .e_column, label := 0, name := some "c", rname := some "x", flag := 5,
      card := CARD_MULTI, freevar := false, intern := false, anti := false, base := false,
      used := false, has_no_nil := false, tpe := { type := none, digits := 0, scale := 0 } }
    (.str "x") (.str "c") .null

/-- A selection (at address 51, one reference) whose only expression is
`colParam`, without a child. -/
def exSelect : sql_rel :=
  .mk 51
    { refcnt := 1, op := .op_select, nrcols := 1, flag := 0, card := CARD_MULTI,
      processed := false, single := false, dependent := false, subquery := false, ht := false }
    .null .null (.list (.cons colParam .nil))


/-- The column `s.a`, allocated at address 12. -/
def colSA : sql_exp := (exp_column ⟨12⟩ (some "s") "a" none CARD_MULTI true false).1

/-- The base table `s` (at address 70, one reference) with the column `s.a`. -/
def exBaseS : sql_rel :=
  .mk 70
    { refcnt := 1, op := .op_basetable, nrcols := 1, flag := 0, card := CARD_MULTI,
      processed := false, single := false, dependent := false, subquery := false, ht := false }
    .null .null (.list (.cons colSA .nil))

/-- The base table `t` (at address 71, one reference) with the column `t.b`. -/
def exBaseT : sql_rel :=
  .mk 71
    { refcnt := 1, op := .op_basetable, nrcols := 1, flag := 0, card := CARD_MULTI,
      processed := false, single := false, dependent := false, subquery := false, ht := false }
    .null .null (.list (.cons colB .nil))

/-- The fields of an inner join with one reference. -/
def exJoinFields : rel_fields :=
  { refcnt := 1, op := .op_join, nrcols := 2, flag := 0, card := CARD_MULTI,
    processed := false, single := false, dependent := false, subquery := false, ht := false }

/-- The inner join (at address 72, one reference) of `s` and `t`, without a
condition. -/
def exJoin : sql_rel := .mk 72 exJoinFields (.rel exBaseS) (.rel exBaseT) (.list .nil)

/-- The comparison `t.b = 1`, allocated from address 80. -/
def exCmp : sql_exp :=
  (exp_compare (exp_atom ⟨80⟩ litOne).2 colB (exp_atom ⟨80⟩ litOne).1 cmp_equal).1

/-- The comparison `s.a = t.b`, allocated at address 90. -/
def exJoinCmp : sql_exp := (exp_compare ⟨90⟩ colSA colB cmp_equal).1

/-- The fields of a left join with one reference that is not processed. -/
def exLeftFields : rel_fields :=
  { refcnt := 1, op := .op_left, nrcols := 2, flag := 0, card := CARD_MULTI,
    processed := false, single := false, dependent := false, subquery := false, ht := false }

/-- The left join (at address 73, one reference) of `s` and `t`, without a
condition. -/
def exLeft : sql_rel := .mk 73 exLeftFields (.rel exBaseS) (.rel exBaseT) (.list .nil)

/-- The column `u.c`, allocated at address 13. -/
def colUC : sql_exp := (exp_column ⟨13⟩ (some "u") "c" none CARD_MULTI true false).1

/-- The base table `u` (at address 75, one reference) with the column `u.c`. -/
def exBaseU : sql_rel :=
  .mk 75
    { refcnt := 1, op := .op_basetable, nrcols := 1, flag := 0, card := CARD_MULTI,
      processed := false, single := false, dependent := false, subquery := false, ht := false }
    .null .null (.list (.cons colUC .nil))

/-- The inner join (at address 76, one reference) of `s` and `u`. -/
def exJoinSU : sql_rel := .mk 76 exJoinFields (.rel exBaseS) (.rel exBaseU) (.list .nil)

/-- The left join (at address 77, one reference) of the inner join of `s` and
`u` with `t`. -/
def exLeftDeep : sql_rel := .mk 77 exLeftFields (.rel exJoinSU) (.rel exBaseT) (.list .nil)

/-- The comparison `s.a = 1`, allocated from address 82. -/
def exCmpS : sql_exp :=
  (exp_compare (exp_atom ⟨82⟩ litOne).2 colSA (exp_atom ⟨82⟩ litOne).1 cmp_equal).1

/-- The left join of `s` and `t` at address 78 with two references, not
processed. -/
def exLeftShared : sql_rel :=
  .mk 78 { exLeftFields with refcnt := 2 } (.rel exBaseS) (.rel exBaseT) (.list .nil)

/-- The session `sql0` with push-down disabled. -/
def sql0_nopush : mvc :=
  { sa := ⟨100⟩, pushdown := false, label := 0, status := 0, errstr := "", params := [],
    sequences := [] }

/-- A selection at address 79 with two references over the base table `t`,
with the filter `t.b = 1`. -/
def exSelShared : sql_rel :=
  .mk 79
    { refcnt := 2, op := .op_select, nrcols := 1, flag := 0, card := CARD_MULTI,
      processed := false, single := false, dependent := false, subquery := false, ht := false }
    (.rel exBaseT) .null (.list (.cons exCmp .nil))

/-- The fields of a selection with `n` references. -/
def exSelFields (n : Nat) : rel_fields :=
  { refcnt := n, op := .op_select, nrcols := 1, flag := 0, card := CARD_MULTI,
    processed := false, single := false, dependent := false, subquery := false, ht := false }

/-- A chain of one selection, at address 84 with two references and the
filter `t.b = 1`. -/
def exOrChain : List (Nat × rel_fields × exp_list) := [(84, exSelFields 2, .cons exCmp .nil)]

/-- The column `x.c`, allocated at address 14. -/
def colXC : sql_exp := (exp_column ⟨14⟩ (some "x") "c" none CARD_MULTI true false).1

/-- The column `y.c`, allocated at address 15. -/
def colYC : sql_exp := (exp_column ⟨15⟩ (some "y") "c" none CARD_MULTI true false).1

/-- The base table `x` (at address 87, one reference) with the column `x.c`. -/
def exBaseX : sql_rel :=
  .mk 87
    { refcnt := 1, op := .op_basetable, nrcols := 1, flag := 0, card := CARD_MULTI,
      processed := false, single := false, dependent := false, subquery := false, ht := false }
    .null .null (.list (.cons colXC .nil))

/-- The base table `y` (at address 88, one reference) with the column `y.c`. -/
def exBaseY : sql_rel :=
  .mk 88
    { refcnt := 1, op := .op_basetable, nrcols := 1, flag := 0, card := CARD_MULTI,
      processed := false, single := false, dependent := false, subquery := false, ht := false }
    .null .null (.list (.cons colYC .nil))

/-- The inner join (at address 89) of `x` and `y`. -/
def exJoinXY : sql_rel := .mk 89 exJoinFields (.rel exBaseX) (.rel exBaseY) (.list .nil)

/-- A projection (at address 93) over the base table `x` that is not
processed and exports the column `s.a` only. -/
def exProjOverX : sql_rel :=
  .mk 93
    { refcnt := 1, op := .op_project, nrcols := 1, flag := 0, card := CARD_MULTI,
      processed := false, single := false, dependent := false, subquery := false, ht := false }
    (.rel exBaseX) .null (.list (.cons colSA .nil))

/-- The inner join (at address 94) of the projection over `x` with `y`. -/
def exJoinPY : sql_rel := .mk 94 exJoinFields (.rel exProjOverX) (.rel exBaseY) (.list .nil)

/-- The session `sql0` with an ambiguity pending. -/
def sql0_ambiguous : mvc :=
  { sa := ⟨100⟩, pushdown := true, label := 0, status := -20480, errstr := "pending",
    params := [], sequences := [] }
end SQL

namespace GDK

/-! # Properties

## Storage -/

@[simp] theorem store_eq {α : Type} (h : Heap α) (k : Int) (v : α) : store h k v k = v := by
  simp [store]

theorem store_ne {α : Type} (h : Heap α) (k x : Int) (v : α) (hx : x ≠ k) :
    store h k v x = h x := by
  simp [store, hx]

theorem store_store {α : Type} (h : Heap α) (k : Int) (u v : α) :
    store (store h k u) k v = store h k v := by
  funext x
  by_cases hx : x = k
  · subst hx; simp
  · rw [store_ne _ _ _ _ hx, store_ne _ _ _ _ hx, store_ne _ _ _ _ hx]

/-! ## `GDKanalyticaldiff` -/

/-- A test that is symmetric and transitive in its negation keeps telling the
same about a value and about any value it does not tell apart from it. -/
theorem differs_congr {α : Type} (differs : α → α → Bool)
    (hsym : ∀ x y, differs x y = differs y x)
    (htr : ∀ x y z, differs x y = false → differs y z = false → differs x z = false)
    (u v : α) (huv : differs u v = false) (y : α) : differs y v = differs y u := by
  cases hy : differs y u with
  | false => exact htr y u v hy huv
  | true =>
    cases hy2 : differs y v with
    | true => rfl
    | false =>
      have := htr y v u hy2 (by rw [hsym]; exact huv)
      rw [this] at hy; exact absurd hy (by simp)

theorem diff_loop_np_spec {α : Type} (differs : α → α → Bool) (b : Heap α) (np : Heap Bool)
    (hsym : ∀ x y, differs x y = differs y x)
    (htr : ∀ x y z, differs x y = false → differs y z = false → differs x z = false) :
    ∀ (n : Nat) (i : Int) (prev c : α) (rb : Heap Bool), (∀ x, differs x prev = differs x c) →
      ∀ x : Int, diff_loop_np differs b np n i prev rb x =
        if i ≤ x ∧ x < i + n then
          (np x || differs (b x) (if x = i then c else b (x - 1)))
        else rb x := by
  intro n
  induction n with
  | zero =>
    intro i prev c rb _ x
    have : ¬ (i ≤ x ∧ x < i + ((0 : Nat) : Int)) := by omega
    rw [if_neg this]; rfl
  | succ n ih =>
    intro i prev c rb hc x
    have hstep : ∀ (p c2 : α) (rb2 : Heap Bool), (∀ y, differs y p = differs y c2) →
        c2 = b i → rb2 i = (np i || differs (b i) c) → (∀ y, y ≠ i → rb2 y = rb y) →
        diff_loop_np differs b np n (i + 1) p rb2 x =
          if i ≤ x ∧ x < i + ((n + 1 : Nat) : Int) then
            (np x || differs (b x) (if x = i then c else b (x - 1)))
          else rb x := by
      intro p c2 rb2 hp hc2 hrb hfr
      rw [ih (i + 1) p c2 rb2 hp x]
      by_cases hx : x = i
      · subst hx
        have h1 : ¬ (x + 1 ≤ x ∧ x < x + 1 + (n : Int)) := by omega
        have h2 : (x ≤ x ∧ x < x + ((n + 1 : Nat) : Int)) := by push_cast; omega
        rw [if_neg h1, if_pos h2, hrb, if_pos rfl]
      · by_cases hr : (i ≤ x ∧ x < i + ((n + 1 : Nat) : Int))
        · have h1 : (i + 1 ≤ x ∧ x < i + 1 + (n : Int)) := by push_cast at hr; omega
          rw [if_pos h1, if_pos hr, if_neg hx]
          by_cases hx1 : x = i + 1
          · subst hx1
            rw [if_pos rfl, hc2]; simp
          · rw [if_neg hx1]
        · have h1 : ¬ (i + 1 ≤ x ∧ x < i + 1 + (n : Int)) := by push_cast at hr; omega
          rw [if_neg h1, if_neg hr, hfr x hx]
    by_cases hd : differs (b i) prev = true
    · simp only [diff_loop_np, hd, if_true]
      apply hstep (b i) (b i) _ (fun _ => rfl) rfl
      · simp [← hc, hd]
      · intro y hy; rw [store_ne _ _ _ _ hy, store_ne _ _ _ _ hy]
    · have hd' : differs (b i) prev = false := by simpa using hd
      simp only [diff_loop_np, hd', Bool.false_eq_true, if_false]
      apply hstep prev (b i) _ (differs_congr differs hsym htr (b i) prev hd') rfl
      · simp [← hc, hd']
      · intro y hy; rw [store_ne _ _ _ _ hy]

theorem diff_loop_spec {α : Type} (same : α → α → Bool) (b : Heap α)
    (hsym : ∀ x y, same x y = same y x)
    (htr : ∀ x y z, same x y = true → same y z = true → same x z = true) :
    ∀ (n : Nat) (i : Int) (prev c : α) (rb : Heap Bool), (∀ x, same x prev = same x c) →
      ∀ x : Int, diff_loop same b n i prev rb x =
        if i ≤ x ∧ x < i + n then
          !same (b x) (if x = i then c else b (x - 1))
        else rb x := by
  intro n i prev c rb hc x
  have h := diff_loop_np_spec (fun u v => !same u v) b (fun _ => false)
    (by intro u v; simp [hsym u v])
    (by intro u v w h1 h2; simp at h1 h2 ⊢; exact htr u v w h1 h2)
    n i prev c rb (by intro y; simp [hc y]) x
  have he : ∀ (n : Nat) (i : Int) (prev : α) (rb : Heap Bool),
      diff_loop same b n i prev rb =
        diff_loop_np (fun u v => !same u v) b (fun _ => false) n i prev rb := by
    intro n
    induction n with
    | zero => intro i prev rb; rfl
    | succ n ih =>
      intro i prev rb
      by_cases hs : same (b i) prev = true
      · simp only [diff_loop, diff_loop_np, hs, if_true, Bool.not_true, Bool.false_eq_true,
          if_false]
        rw [ih]
      · have hs' : same (b i) prev = false := by simpa using hs
        simp only [diff_loop, diff_loop_np, hs', Bool.false_eq_true, if_false, Bool.not_false,
          if_true]
        rw [ih, store_store]
  rw [he, h]
  simp


theorem Atom.Lawful.same_symm {α : Type} {T : Atom α} (hT : T.Lawful) (x y : α) :
    T.same x y = T.same y x := by
  unfold Atom.same
  rw [hT.eq_symm x y, Bool.and_comm]

theorem Atom.Lawful.same_trans {α : Type} {T : Atom α} (hT : T.Lawful) (x y z : α)
    (h1 : T.same x y = true) (h2 : T.same y z = true) : T.same x z = true := by
  unfold Atom.same at *
  simp only [Bool.or_eq_true, Bool.and_eq_true] at *
  rcases h1 with h1 | ⟨hx, hy⟩
  · rcases h2 with h2 | ⟨hy, hz⟩
    · exact Or.inl (hT.eq_trans x y z h1 h2)
    · exact Or.inr ⟨by rw [hT.eq_nil x y h1]; exact hy, hz⟩
  · rcases h2 with h2 | ⟨_, hz⟩
    · exact Or.inr ⟨hx, by rw [← hT.eq_nil y z h2]; exact hy⟩
    · exact Or.inr ⟨hx, hz⟩

theorem Atom.Lawful.same_refl {α : Type} {T : Atom α} (hT : T.Lawful) (x : α) :
    T.same x x = true := by
  unfold Atom.same
  cases hx : T.is_nil x with
  | true => simp
  | false => simp [hT.eq_refl x hx]

/-- Both loops of the diff kernel, run from row 0 with `prev = b[0]` and a
symmetric, transitive test: row `x` is marked when its marker is set or the
test tells `b[x]` apart from its predecessor (from itself for row 0). -/
theorem diff_rows {α : Type} (tst : α → α → Bool)
    (hsym : ∀ x y, tst x y = tst y x)
    (htr : ∀ x y z, tst x y = true → tst y z = true → tst x z = true)
    (cnt : Nat) (b : Heap α) (p : Option (BAT Bool)) (rb : Heap Bool) (x : Int)
    (h0 : 0 ≤ x) (hx : x < cnt) :
    (match p.map (fun (q : BAT Bool) => q.tloc) with
      | some np => diff_loop_np (fun x p => !tst x p) b np cnt 0 (b 0) rb
      | none => diff_loop tst b cnt 0 (b 0) rb) x =
      (marker p x || !tst (b x) (if x = 0 then b 0 else b (x - 1))) := by
  have hr : (0 : Int) ≤ x ∧ x < 0 + (cnt : Int) := by omega
  cases p with
  | none =>
    simp only [Option.map, marker]
    rw [diff_loop_spec tst b hsym htr cnt 0 (b 0) (b 0) rb (fun _ => rfl) x, if_pos hr]
    simp
  | some p =>
    simp only [Option.map, marker]
    rw [diff_loop_np_spec (fun x p => !tst x p) b p.tloc
      (by intro u v; simp [hsym u v])
      (by intro u v w h1 h2; simp at h1 h2 ⊢; exact htr u v w h1 h2)
      cnt 0 (b 0) (b 0) rb (fun _ => rfl) x, if_pos hr]

/-- Row `x` of the result of `GDKanalyticaldiff`: the marker of the row, or,
from row 1 on, whether the value differs from the one of the row before. -/
theorem GDKanalyticaldiff_row {α : Type} (T : Atom α) (hT : T.Lawful) (r : BAT Bool)
    (b : BAT α) (p : Option (BAT Bool)) (tpe : TYPE)
    (hfix : tpe ≠ .flt → tpe ≠ .dbl → tpe ≠ .other → T.floating = false)
    (hnonil : b.tnonil = true →
      ∀ k : Int, 0 ≤ k → k < b.count → T.is_nil (b.tloc k) = false)
    (x : Int) (h0 : 0 ≤ x) (hx : x < b.count) :
    (GDKanalyticaldiff T r b p tpe).tloc x =
      (marker p x || (decide (x ≠ 0) && !T.same (b.tloc x) (b.tloc (x - 1)))) := by
  -- the three tests in use
  have hsame := diff_rows (fun x p => T.eq x p || (T.is_nil x && T.is_nil p))
    (fun u v => hT.same_symm u v) (fun u v w => hT.same_trans u v w)
    b.count b.tloc p r.tloc x h0 hx
  have heq := diff_rows (fun x p => T.eq x p) hT.eq_symm hT.eq_trans
    b.count b.tloc p r.tloc x h0 hx
  have hcmp := diff_rows (fun next v => !decide (T.cmp v next ≠ 0))
    (by
      intro u v
      have h1 := hT.cmp_zero v u
      have h2 := hT.cmp_zero u v
      rw [hT.same_symm u v] at h2
      by_cases hc : T.cmp v u = 0
      · have := h2.2 (h1.1 hc); simp [hc, this]
      · have : ¬ T.cmp u v = 0 := fun h => hc (h1.2 (h2.1 h)); simp [hc, this])
    (by
      intro u v w h1 h2
      simp only [ne_eq, decide_not, Bool.not_not, decide_eq_true_eq] at h1 h2 ⊢
      have a := (hT.cmp_zero v u).1 h1
      have c := (hT.cmp_zero w v).1 h2
      exact (hT.cmp_zero w u).2 (hT.same_trans w v u c a))
    b.count b.tloc p r.tloc x h0 hx
  beta_reduce at hsame heq hcmp
  have hfloatfun : (fun x p => !T.eq x p && (!T.is_nil x || !T.is_nil p)) =
      (fun x p => !(T.eq x p || (T.is_nil x && T.is_nil p))) := by
    funext u v
    cases T.eq u v <;> cases T.is_nil u <;> cases T.is_nil v <;> rfl
  have hdeffun : (fun (next v : α) => decide (T.cmp v next ≠ 0)) =
      (fun next v => !(!decide (T.cmp v next ≠ 0))) := by
    funext u v; simp
  -- what each of the three bodies computes
  have hFLOAT : ANALYTICAL_DIFF_FLOAT_IMP T b.count b.tloc (p.map (fun (q : BAT Bool) => q.tloc)) r.tloc x
      = (marker p x || (decide (x ≠ 0) && !T.same (b.tloc x) (b.tloc (x - 1)))) := by
    unfold ANALYTICAL_DIFF_FLOAT_IMP
    simp only [hfloatfun]
    rw [hsame]
    by_cases hx0 : x = 0
    · subst hx0
      have hs := hT.same_refl (b.tloc 0)
      unfold Atom.same at hs
      simp only [↓reduceIte, hs]
      simp
    · simp [hx0, Atom.same]
  have hDEF : diff_default T b.count b.tloc (p.map (fun (q : BAT Bool) => q.tloc)) r.tloc x
      = (marker p x || (decide (x ≠ 0) && !T.same (b.tloc x) (b.tloc (x - 1)))) := by
    unfold diff_default
    simp only [hdeffun]
    rw [hcmp]
    by_cases hx0 : x = 0
    · subst hx0
      have hs := (hT.cmp_zero (b.tloc 0) (b.tloc 0)).2 (hT.same_refl (b.tloc 0))
      simp only [↓reduceIte, hs]
      simp
    · have hz := hT.cmp_zero (b.tloc (x - 1)) (b.tloc x)
      rw [hT.same_symm] at hz
      by_cases hc : T.cmp (b.tloc (x - 1)) (b.tloc x) = 0
      · simp [hx0, hc, hz.1 hc]
      · have : T.same (b.tloc x) (b.tloc (x - 1)) = false := by
          cases hs : T.same (b.tloc x) (b.tloc (x - 1)) with
          | false => rfl
          | true => exact absurd (hz.2 hs) hc
        simp [hx0, hc, this]
  have hIMP : (∀ u v : Int, 0 ≤ u → u < b.count → 0 ≤ v → v < b.count →
        T.eq (b.tloc u) (b.tloc v) = T.same (b.tloc u) (b.tloc v)) →
      ANALYTICAL_DIFF_IMP T b.count b.tloc (p.map (fun (q : BAT Bool) => q.tloc)) r.tloc x
      = (marker p x || (decide (x ≠ 0) && !T.same (b.tloc x) (b.tloc (x - 1)))) := by
    intro hag
    unfold ANALYTICAL_DIFF_IMP
    rw [heq]
    by_cases hx0 : x = 0
    · subst hx0
      have hs := hT.same_refl (b.tloc 0)
      rw [← hag 0 0 h0 hx h0 hx] at hs
      simp only [↓reduceIte, hs]
      simp
    · simp [hx0, hag x (x - 1) h0 hx (by omega) (by omega)]
  have hagfix : T.floating = false → ∀ u v : α, T.eq u v = T.same u v := by
    intro hf u v
    unfold Atom.same
    cases hu : T.is_nil u <;> cases hv : T.is_nil v <;> simp
    exact hT.fixed_nil hf u v hu hv
  have hagnonil : b.tnonil = true → ∀ u v : Int, 0 ≤ u → u < b.count → 0 ≤ v → v < b.count →
        T.eq (b.tloc u) (b.tloc v) = T.same (b.tloc u) (b.tloc v) := by
    intro ht u v hu0 hu _ _
    unfold Atom.same
    simp [hnonil ht u hu0 hu]
  cases tpe <;> simp only [GDKanalyticaldiff]
  case other => exact hDEF
  case flt =>
    by_cases ht : b.tnonil = true
    · rw [if_pos ht]; exact hIMP (hagnonil ht)
    · rw [if_neg ht]; exact hFLOAT
  case dbl =>
    by_cases ht : b.tnonil = true
    · rw [if_pos ht]; exact hIMP (hagnonil ht)
    · rw [if_neg ht]; exact hFLOAT
  all_goals
    exact hIMP (fun u v _ _ _ _ => hagfix (hfix (by simp) (by simp) (by simp)) _ _)

theorem intAtom_lawful (w : Nat) : (intAtom w).Lawful where
  nil_is_nil := by simp [intAtom]
  eq_symm := by intro x y; simp [intAtom, eq_comm]
  eq_trans := by intro x y z h1 h2; simp [intAtom] at *; omega
  eq_nil := by intro x y h; simp [intAtom] at *; rw [h]
  eq_refl := by intro x _; simp [intAtom]
  fixed_nil := by intro _ x y hx hy; simp [intAtom] at *; rw [hx, hy]
  cmp_zero := by
    intro x y
    simp only [intAtom, Atom.same]
    by_cases h : x = y
    · subst h; simp
    · have : ¬ (x = -(2 ^ (w - 1)) ∧ y = -(2 ^ (w - 1))) := by
        rintro ⟨a, b⟩; exact h (by rw [a, b])
      by_cases hlt : x < y
      · simp [h, hlt, this]
      · simp [h, hlt, this]

theorem fpAtom_lawful : fpAtom.Lawful where
  nil_is_nil := rfl
  eq_symm := by
    intro x y
    cases x <;> cases y <;> simp only [fpAtom, Fp.ceq]
    rw [decide_eq_decide]
    constructor
    · rintro ⟨rfl, h⟩; exact ⟨rfl, h.imp_left Eq.symm⟩
    · rintro ⟨rfl, h⟩; exact ⟨rfl, h.imp_left Eq.symm⟩
  eq_trans := by
    intro x y z h1 h2
    match x, y, z, h1, h2 with
    | .num s m, .num t n, .num u k, h1, h2 =>
      simp only [fpAtom, Fp.ceq, decide_eq_true_eq] at *
      obtain ⟨rfl, b⟩ := h1
      obtain ⟨rfl, d⟩ := h2
      refine ⟨rfl, ?_⟩
      rcases b with b | b
      · rcases d with d | d
        · left; rw [b, d]
        · right; exact d
      · right; exact b
    | .nan _, _, _, h1, _ => simp [fpAtom, Fp.ceq] at h1
    | .num _ _, .nan _, _, h1, _ => simp [fpAtom, Fp.ceq] at h1
    | .num _ _, .num _ _, .nan _, _, h2 => simp [fpAtom, Fp.ceq] at h2
  eq_nil := by
    intro x y h
    match x, y, h with
    | .num _ _, .num _ _, _ => rfl
    | .nan _, _, h => simp [fpAtom, Fp.ceq] at h
    | .num _ _, .nan _, h => simp [fpAtom, Fp.ceq] at h
  eq_refl := by
    intro x h
    cases x with
    | nan _ => exact absurd h (by simp [fpAtom])
    | num s m => simp [fpAtom, Fp.ceq]
  fixed_nil := by intro h; simp [fpAtom] at h
  cmp_zero := by
    intro x y
    match x, y with
    | .num s m, .num t n =>
      by_cases h : (m = n ∧ (s = t ∨ m = 0))
      · have hd : decide (m = n ∧ (s = t ∨ m = 0)) = true := decide_eq_true h
        simp only [fpAtom, Fp.ceq, Atom.same, hd]
        simp
      · have hd : decide (m = n ∧ (s = t ∨ m = 0)) = false := decide_eq_false h
        simp only [fpAtom, Fp.ceq, Atom.same, hd]
        simp
    | .nan _, .nan _ => simp [fpAtom, Fp.ceq, Atom.same]
    | .nan _, .num _ _ => simp [fpAtom, Fp.ceq, Atom.same]
    | .num _ _, .nan _ => simp [fpAtom, Fp.ceq, Atom.same]

/-- C5: in the result of `GDKanalyticaldiff`, for every row `i >= 1` the output
bit is the marker of the row (FALSE without a marker column) or-ed with
"`b[i]` is not the same as `b[i-1]`", where the same means equal under `==` or
both NIL (for `flt`/`dbl` as well); hence without markers the output marks
exactly the rows whose value differs from the one before. -/
theorem diff_marks_exactly_changes {α : Type} (T : Atom α) (hT : T.Lawful) (r : BAT Bool)
    (b : BAT α) (p : Option (BAT Bool)) (tpe : TYPE)
    (hfix : tpe ≠ .flt → tpe ≠ .dbl → tpe ≠ .other → T.floating = false)
    (hnonil : b.tnonil = true →
      ∀ k : Int, 0 ≤ k → k < b.count → T.is_nil (b.tloc k) = false)
    (i : Nat) (h1 : 1 ≤ i) (hi : i < b.count) :
    (GDKanalyticaldiff T r b p tpe).tloc i =
        (marker p i || !T.same (b.tloc i) (b.tloc (i - 1))) ∧
      (p = none → ((GDKanalyticaldiff T r b p tpe).tloc i = true ↔
        T.same (b.tloc i) (b.tloc (i - 1)) = false)) := by
  have h := GDKanalyticaldiff_row T hT r b p tpe hfix hnonil i (by omega) (by omega)
  have hne : ((i : Int) ≠ 0) := by omega
  simp only [hne, ne_eq, not_false_eq_true, decide_True, Bool.true_and] at h
  refine ⟨h, ?_⟩
  intro hp
  subst hp
  rw [h]
  simp [marker]

/-- Witness of C5: an `int` column 1, 1, 2 without markers, row 2. -/
theorem diff_marks_exactly_changes_witness :
    (GDKanalyticaldiff (intAtom 32) (BAT.ofList false []) (BAT.ofList 0 [1, 1, 2]) none
        TYPE.int).tloc (2 : Nat) =
        (marker none (2 : Nat) || !(intAtom 32).same ((BAT.ofList 0 [1, 1, 2]).tloc (2 : Nat))
          ((BAT.ofList (0 : Int) [1, 1, 2]).tloc ((2 : Nat) - 1))) ∧
      ((none : Option (BAT Bool)) = none →
        ((GDKanalyticaldiff (intAtom 32) (BAT.ofList false []) (BAT.ofList 0 [1, 1, 2]) none
          TYPE.int).tloc (2 : Nat) = true ↔
        (intAtom 32).same ((BAT.ofList 0 [1, 1, 2]).tloc (2 : Nat))
          ((BAT.ofList (0 : Int) [1, 1, 2]).tloc ((2 : Nat) - 1)) = false)) :=
  diff_marks_exactly_changes (intAtom 32) (intAtom_lawful 32) (BAT.ofList false [])
    (BAT.ofList 0 [1, 1, 2]) none TYPE.int (fun _ _ _ => rfl)
    (fun h => absurd h (by simp [BAT.ofList])) 2 (by decide) (by decide)

/-- Counterexample to C4 as stated: on the one-row `int` column holding 5,
without markers, the first output row is not TRUE. -/
theorem diff_first_row_true_counterexample :
    ¬ ((GDKanalyticaldiff (intAtom 32) (BAT.ofList false []) (BAT.ofList 0 [5]) none
        TYPE.int).tloc 0 = true) := by
  decide

/-- C4 (amended): for every non-empty input column, the first output row of
`GDKanalyticaldiff` is the marker of row 0 when a marker column is given and
FALSE when none is given; and with markers every row whose marker is set (the
first row of every partition the markers announce) is TRUE. -/
theorem diff_first_row {α : Type} (T : Atom α) (hT : T.Lawful) (r : BAT Bool)
    (b : BAT α) (p : Option (BAT Bool)) (tpe : TYPE)
    (hfix : tpe ≠ .flt → tpe ≠ .dbl → tpe ≠ .other → T.floating = false)
    (hnonil : b.tnonil = true →
      ∀ k : Int, 0 ≤ k → k < b.count → T.is_nil (b.tloc k) = false)
    (hcnt : 0 < b.count) :
    (GDKanalyticaldiff T r b p tpe).tloc 0 = marker p 0 ∧
      (p = none → (GDKanalyticaldiff T r b p tpe).tloc 0 = false) ∧
      (∀ i : Nat, i < b.count → marker p i = true →
        (GDKanalyticaldiff T r b p tpe).tloc i = true) := by
  have h0 := GDKanalyticaldiff_row T hT r b p tpe hfix hnonil 0 (by omega) (by omega)
  simp only [ne_eq, not_true_eq_false, decide_False, Bool.false_and, Bool.or_false] at h0
  refine ⟨h0, ?_, ?_⟩
  · intro hp; subst hp; rw [h0]; rfl
  · intro i hi hm
    rw [GDKanalyticaldiff_row T hT r b p tpe hfix hnonil i (by omega) (by omega), hm]
    rfl

/-- Witness of C4 (amended): a `dbl` column NaN, NaN with the markers TRUE,
FALSE. -/
theorem diff_first_row_witness :
    (GDKanalyticaldiff fpAtom (BAT.ofList false []) (BAT.ofList (Fp.nan 0) [Fp.nan 0, Fp.nan 1])
        (some (BAT.ofList false [true, false])) TYPE.dbl).tloc 0
        = marker (some (BAT.ofList false [true, false])) 0 ∧
      ((some (BAT.ofList false [true, false]) : Option (BAT Bool)) = none →
        (GDKanalyticaldiff fpAtom (BAT.ofList false [])
          (BAT.ofList (Fp.nan 0) [Fp.nan 0, Fp.nan 1])
          (some (BAT.ofList false [true, false])) TYPE.dbl).tloc 0 = false) ∧
      (∀ i : Nat, i < (BAT.ofList (Fp.nan 0) [Fp.nan 0, Fp.nan 1]).count →
        marker (some (BAT.ofList false [true, false])) i = true →
        (GDKanalyticaldiff fpAtom (BAT.ofList false [])
          (BAT.ofList (Fp.nan 0) [Fp.nan 0, Fp.nan 1])
          (some (BAT.ofList false [true, false])) TYPE.dbl).tloc i = true) :=
  diff_first_row fpAtom fpAtom_lawful (BAT.ofList false [])
    (BAT.ofList (Fp.nan 0) [Fp.nan 0, Fp.nan 1]) (some (BAT.ofList false [true, false]))
    TYPE.dbl (fun _ h _ => absurd rfl h) (fun h => absurd h (by simp [BAT.ofList]))
    (by decide)


/-! ## `GDKanalyticalnthvalue` and `GDKanalyticalntile` -/

theorem row_loop_val {α : Type} (T : Atom α) (f : Int → α) :
    ∀ (n : Nat) (i : Int) (s : Heap α × Bool) (x : Int),
      (row_loop T f n i s).1 x = if i ≤ x ∧ x < i + n then f x else s.1 x := by
  intro n
  induction n with
  | zero =>
    intro i s x
    have : ¬ (i ≤ x ∧ x < i + ((0 : Nat) : Int)) := by omega
    rw [if_neg this]; rfl
  | succ n ih =>
    intro i s x
    obtain ⟨rb, hn⟩ := s
    simp only [row_loop]
    rw [ih]
    by_cases hx : x = i
    · subst hx
      have h1 : ¬ (x + 1 ≤ x ∧ x < x + 1 + (n : Int)) := by omega
      have h2 : (x ≤ x ∧ x < x + ((n + 1 : Nat) : Int)) := by push_cast; omega
      rw [if_neg h1, if_pos h2]; simp
    · by_cases hr : (i ≤ x ∧ x < i + ((n + 1 : Nat) : Int))
      · have h1 : (i + 1 ≤ x ∧ x < i + 1 + (n : Int)) := by push_cast at hr; omega
        rw [if_pos h1, if_pos hr]
      · have h1 : ¬ (i + 1 ≤ x ∧ x < i + 1 + (n : Int)) := by push_cast at hr; omega
        rw [if_neg h1, if_neg hr]
        exact store_ne _ _ _ _ hx

theorem intAtom_pos_not_nil (w : Nat) (n : Int) (h : 1 ≤ n) : (intAtom w).is_nil n = false := by
  have hp : (0 : Int) < 2 ^ (w - 1) := by positivity
  simp only [intAtom, decide_eq_false_iff_not]
  omega

theorem wrap_id (w : Nat) (hw : 1 ≤ w) (x : Int) (h1 : -(2 ^ (w - 1)) ≤ x)
    (h2 : x < 2 ^ (w - 1)) : wrap w x = x := by
  unfold wrap
  have hp : (2 : Int) ^ w = 2 * 2 ^ (w - 1) := by
    obtain ⟨k, rfl⟩ : ∃ k, w = k + 1 := ⟨w - 1, by omega⟩
    simp [pow_succ, mul_comm]
  rw [hp]
  rw [Int.emod_eq_of_lt (by omega) (by omega)]
  omega

/-- C6: `GDKanalyticalnthvalue`, in the constant-bound mode and in the per-row
mode: for every row `i` whose frame is not empty and whose bound `n` satisfies
`1 <= n <= end[i] - start[i]`, the call succeeds and output row `i` is the
input element at position `start[i] + n - 1`. (The frame length is a value of
`lng`, the type in which the code computes it.) -/
theorem nthvalue_in_frame {α : Type} (T : Atom α) (r b : BAT α) (s e : BAT Int)
    (arg : NthArg) (tp1 tp2 : TYPE) (w2 : Nat) (htp2 : tp2.bits = some w2)
    (i : Nat) (hi : i < b.count)
    (hne : s.tloc i < e.tloc i) (h1 : 1 ≤ arg.at i) (h2 : arg.at i ≤ e.tloc i - s.tloc i)
    (hlen : e.tloc i - s.tloc i < 2 ^ 63) :
    ∃ r', GDKanalyticalnthvalue T r b s e arg tp1 tp2 = .ok r' ∧
      r'.tloc i = b.tloc (s.tloc i + arg.at i - 1) := by
  have hr : (0 : Int) ≤ i ∧ (i : Int) < 0 + (b.count : Int) := by omega
  cases arg with
  | perRow l =>
    simp only [NthArg.at] at h1 h2 ⊢
    simp only [GDKanalyticalnthvalue, htp2]
    refine ⟨_, rfl, ?_⟩
    simp only [nthvalue_multi_loop]
    rw [row_loop_val, if_pos hr]
    have hc : ¬ ((intAtom w2).is_nil (l.tloc i) = true ∨ e.tloc i ≤ s.tloc i ∨
        l.tloc i - 1 > e.tloc i - s.tloc i) := by
      rw [intAtom_pos_not_nil w2 _ h1]
      simp only [Bool.false_eq_true, false_or]
      omega
    rw [if_neg hc]
  | bound val =>
    simp only [NthArg.at] at h1 h2 ⊢
    have hnth : nth_of_bound tp2 val = .ok val := by
      have hm : ¬ val > GDK_max 64 := by unfold GDK_max; norm_num; omega
      have hwr : wrap 64 val = val :=
        wrap_id 64 (by norm_num) val (by norm_num; omega) (by norm_num; omega)
      cases tp2 with
      | bit => simp [TYPE.bits] at htp2
      | flt => simp [TYPE.bits] at htp2
      | dbl => simp [TYPE.bits] at htp2
      | other => simp [TYPE.bits] at htp2
      | bte => simp only [nth_of_bound, intAtom_pos_not_nil _ _ h1, Bool.not_false, if_true]
      | sht => simp only [nth_of_bound, intAtom_pos_not_nil _ _ h1, Bool.not_false, if_true]
      | int => simp only [nth_of_bound, intAtom_pos_not_nil _ _ h1, Bool.not_false, if_true]
      | lng => rfl
      | hge =>
        simp only [nth_of_bound, intAtom_pos_not_nil _ _ h1, Bool.false_eq_true, if_false,
          if_neg hm, hwr]
    simp only [GDKanalyticalnthvalue, hnth]
    refine ⟨_, rfl, ?_⟩
    simp only [ANALYTICAL_NTHVALUE_IMP_SINGLE_FIXED, intAtom_pos_not_nil _ _ h1,
      Bool.false_eq_true, if_false, nthvalue_single_loop]
    rw [row_loop_val, if_pos hr]
    have hc : (e.tloc i > s.tloc i ∧ val - 1 < e.tloc i - s.tloc i) := by omega
    rw [if_pos hc]
    congr 1
    omega

/-- Witness of C6: an `int` column 5, 7, 9, every frame `[0, 2)`, per-row
bounds 2, 2, 2, row 1. -/
theorem nthvalue_in_frame_witness :
    ∃ r', GDKanalyticalnthvalue (intAtom 32) (BAT.ofList 0 []) (BAT.ofList 0 [5, 7, 9])
        (BAT.ofList 0 [0, 0, 0]) (BAT.ofList 0 [2, 2, 2])
        (NthArg.perRow (BAT.ofList 0 [2, 2, 2])) TYPE.int TYPE.lng = .ok r' ∧
      r'.tloc (1 : Nat) = (BAT.ofList (0 : Int) [5, 7, 9]).tloc
        ((BAT.ofList (0 : Int) [0, 0, 0]).tloc (1 : Nat) +
          (NthArg.perRow (BAT.ofList 0 [2, 2, 2])).at (1 : Nat) - 1) :=
  nthvalue_in_frame (intAtom 32) (BAT.ofList 0 []) (BAT.ofList 0 [5, 7, 9])
    (BAT.ofList 0 [0, 0, 0]) (BAT.ofList 0 [2, 2, 2])
    (NthArg.perRow (BAT.ofList 0 [2, 2, 2])) TYPE.int TYPE.lng 64 rfl 1
    (by decide) (by decide) (by decide) (by decide) (by decide)

/-- C2 at the failing input: `ntile(3)` over one partition of 5 rows (type
`bte`, no markers) writes the labels 1, 1, 2, 3, 4: the last label is 4, above
`min(3, 5) = 3`. -/
theorem ntile_label_above_bucket_count :
    (GDKanalyticalntile (BAT.ofList 0 []) (BAT.ofList (0 : Int) [0, 0, 0, 0, 0]) none
        TYPE.bte 3).map BAT.rows = .ok [1, 1, 2, 3, 4] := by
  decide

/-- C3 at the failing input: `ntile(3)` over one partition of 11 rows (type
`bte`, no markers) writes 1, 1, 1, 1, 2, 2, 2, 3, 3, 3, 4: bucket 1 holds four
rows and bucket 4 holds one. -/
theorem ntile_bucket_sizes_apart :
    (GDKanalyticalntile (BAT.ofList 0 [])
        (BAT.ofList (0 : Int) [0, 0, 0, 0, 0, 0, 0, 0, 0, 0, 0]) none
        TYPE.bte 3).map BAT.rows = .ok [1, 1, 1, 1, 2, 2, 2, 3, 3, 3, 4] := by
  decide

/-- C7 at the failing input: constant bound `n = 0` (type `lng`) over the `int`
column 5, 7 with both frames `[1, 2)`: the output rows are 5, 5, the element at
position 0, which lies before the frame, and not NIL. -/
theorem nthvalue_bound_zero_reads_before_frame :
    (GDKanalyticalnthvalue (intAtom 32) (BAT.ofList 0 []) (BAT.ofList (0 : Int) [5, 7])
        (BAT.ofList 0 [1, 1]) (BAT.ofList 0 [2, 2]) (NthArg.bound 0)
        TYPE.int TYPE.lng).map BAT.rows = .ok [5, 5] := by
  decide

/-- C8 at the failing input: per-row bounds 3, 3, 3 (type `lng`) over the `int`
column 5, 7, 9 with every frame `[0, 2)`, so that each bound is the frame
length plus one: the output rows are 9, 9, 9, the element at position 2 just
behind the frame, and not NIL. -/
theorem nthvalue_row_bound_length_plus_one :
    (GDKanalyticalnthvalue (intAtom 32) (BAT.ofList 0 []) (BAT.ofList (0 : Int) [5, 7, 9])
        (BAT.ofList 0 [0, 0, 0]) (BAT.ofList 0 [2, 2, 2])
        (NthArg.perRow (BAT.ofList 0 [3, 3, 3])) TYPE.int TYPE.lng).map BAT.rows
      = .ok [9, 9, 9] := by
  decide

/-! ## `GDKanalyticallag` -/

theorem fill_val {α : Type} (v : α) :
    ∀ (n : Nat) (rb : Int) (r : Heap α) (x : Int),
      fill v n rb r x = if rb ≤ x ∧ x < rb + n then v else r x := by
  intro n
  induction n with
  | zero =>
    intro rb r x
    have : ¬ (rb ≤ x ∧ x < rb + ((0 : Nat) : Int)) := by omega
    rw [if_neg this]; rfl
  | succ n ih =>
    intro rb r x
    simp only [fill]
    rw [ih]
    by_cases hx : x = rb
    · subst hx
      have h1 : ¬ (x + 1 ≤ x ∧ x < x + 1 + (n : Int)) := by omega
      have h2 : (x ≤ x ∧ x < x + ((n + 1 : Nat) : Int)) := by push_cast; omega
      rw [if_neg h1, if_pos h2]; simp
    · by_cases hr : (rb ≤ x ∧ x < rb + ((n + 1 : Nat) : Int))
      · have h1 : (rb + 1 ≤ x ∧ x < rb + 1 + (n : Int)) := by push_cast at hr; omega
        rw [if_pos h1, if_pos hr]
      · have h1 : ¬ (rb + 1 ≤ x ∧ x < rb + 1 + (n : Int)) := by push_cast at hr; omega
        rw [if_neg h1, if_neg hr]
        exact store_ne _ _ _ _ hx

theorem shift_copy_spec {α : Type} (T : Atom α) (b : Heap α) :
    ∀ (n : Nat) (s : ShiftSt α),
      (shift_copy T b n s).rb = s.rb + n ∧ (shift_copy T b n s).bp = s.bp + n ∧
      ∀ x, (shift_copy T b n s).r x =
        if s.rb ≤ x ∧ x < s.rb + n then b (s.bp + (x - s.rb)) else s.r x := by
  intro n
  induction n with
  | zero =>
    intro s
    refine ⟨by simp [shift_copy], by simp [shift_copy], ?_⟩
    intro x
    have : ¬ (s.rb ≤ x ∧ x < s.rb + ((0 : Nat) : Int)) := by omega
    rw [if_neg this]; rfl
  | succ n ih =>
    intro s
    simp only [shift_copy]
    obtain ⟨h1, h2, h3⟩ := ih
      { rb := s.rb + 1, bp := s.bp + 1, r := store s.r s.rb (b s.bp),
        has_nils := s.has_nils || T.is_nil (b s.bp) }
    refine ⟨by rw [h1]; push_cast; ring, by rw [h2]; push_cast; ring, ?_⟩
    intro x
    rw [h3]
    simp only
    by_cases hx : x = s.rb
    · subst hx
      have h1 : ¬ (s.rb + 1 ≤ s.rb ∧ s.rb < s.rb + 1 + (n : Int)) := by omega
      have h2 : (s.rb ≤ s.rb ∧ s.rb < s.rb + ((n + 1 : Nat) : Int)) := by push_cast; omega
      rw [if_neg h1, if_pos h2]; simp
    · by_cases hr : (s.rb ≤ x ∧ x < s.rb + ((n + 1 : Nat) : Int))
      · have h1 : (s.rb + 1 ≤ x ∧ x < s.rb + 1 + (n : Int)) := by push_cast at hr; omega
        rw [if_pos h1, if_pos hr]
        congr 1; ring
      · have h1 : ¬ (s.rb + 1 ≤ x ∧ x < s.rb + 1 + (n : Int)) := by push_cast at hr; omega
        rw [if_neg h1, if_neg hr]
        exact store_ne _ _ _ _ hx

theorem lag_fill_spec {α : Type} (def_ : α) (lag : Nat) (rp : Int) :
    ∀ (f i : Nat) (rb : Int) (r : Heap α), (rp - rb).toNat ≤ f →
      (lag_fill def_ lag rp f i rb r).1 = rb + min (lag - i) (rp - rb).toNat ∧
      ∀ x, (lag_fill def_ lag rp f i rb r).2 x =
        if rb ≤ x ∧ x < rb + min (lag - i) (rp - rb).toNat then def_ else r x := by
  intro f
  induction f with
  | zero =>
    intro i rb r hf
    have h0 : (rp - rb).toNat = 0 := by omega
    refine ⟨by simp [lag_fill, h0], ?_⟩
    intro x
    have : ¬ (rb ≤ x ∧ x < rb + ((min (lag - i) (rp - rb).toNat : Nat) : Int)) := by
      rw [h0]; simp
    rw [if_neg this]; rfl
  | succ f ih =>
    intro i rb r hf
    by_cases hc : i < lag ∧ rb < rp
    · simp only [lag_fill, if_pos hc]
      obtain ⟨h1, h2⟩ := ih (i + 1) (rb + 1) (store r rb def_) (by omega)
      have hm : ((min (lag - i) (rp - rb).toNat : Nat) : Int) =
          1 + ((min (lag - (i + 1)) (rp - (rb + 1)).toNat : Nat) : Int) := by omega
      refine ⟨by rw [h1, hm]; ring, ?_⟩
      intro x
      rw [h2, hm]
      by_cases hx : x = rb
      · subst hx
        have a1 : ¬ (x + 1 ≤ x ∧ x < x + 1 + ((min (lag - (i + 1)) (rp - (x + 1)).toNat : Nat) : Int)) := by
          omega
        have a2 : (x ≤ x ∧ x < x + (1 + ((min (lag - (i + 1)) (rp - (x + 1)).toNat : Nat) : Int))) := by
          omega
        rw [if_neg a1, if_pos a2]; simp
      · by_cases hr : (rb ≤ x ∧ x < rb + (1 + ((min (lag - (i + 1)) (rp - (rb + 1)).toNat : Nat) : Int)))
        · have a1 : (rb + 1 ≤ x ∧ x < rb + 1 + ((min (lag - (i + 1)) (rp - (rb + 1)).toNat : Nat) : Int)) := by
            omega
          rw [if_pos a1, if_pos hr]
        · have a1 : ¬ (rb + 1 ≤ x ∧ x < rb + 1 + ((min (lag - (i + 1)) (rp - (rb + 1)).toNat : Nat) : Int)) := by
            omega
          rw [if_neg a1, if_neg hr]
          exact store_ne _ _ _ _ hx
    · simp only [lag_fill, if_neg hc]
      have hm : min (lag - i) (rp - rb).toNat = 0 := by omega
      refine ⟨by rw [hm]; simp, ?_⟩
      intro x
      have : ¬ (rb ≤ x ∧ x < rb + ((min (lag - i) (rp - rb).toNat : Nat) : Int)) := by
        rw [hm]; simp
      rw [if_neg this]

theorem parts_loop_inv {σ : Type} (np : Heap Bool) (body : Int → Int → σ → σ) (cnt : Nat)
    (P : Int → σ → Prop)
    (hstep : ∀ pnp t s, Seg np cnt pnp t → t < cnt → np t = true → P pnp s →
      P t (body pnp t s)) :
    ∀ (n : Nat) (t pnp : Int) (s : σ), t + n = cnt → Seg np cnt pnp t → P pnp s →
      Seg np cnt (parts_loop np body n t (pnp, s)).1 cnt ∧
        P (parts_loop np body n t (pnp, s)).1 (parts_loop np body n t (pnp, s)).2 := by
  intro n
  induction n with
  | zero =>
    intro t pnp s ht hseg hP
    have : t = cnt := by simpa using ht
    subst this
    exact ⟨hseg, hP⟩
  | succ n ih =>
    intro t pnp s ht hseg hP
    obtain ⟨h0, h1, h2, h3, h4⟩ := hseg
    have htc : t < cnt := by push_cast at ht; omega
    by_cases hm : np t = true
    · simp only [parts_loop, hm, if_true]
      apply ih (t + 1) t _ (by push_cast at ht; omega)
      · exact ⟨by omega, by omega, by omega, Or.inr hm, fun u hu1 hu2 => by omega⟩
      · exact hstep pnp t s ⟨h0, h1, h2, h3, h4⟩ htc hm hP
    · have hm' : np t = false := by simpa using hm
      simp only [parts_loop, hm', Bool.false_eq_true, if_false]
      apply ih (t + 1) pnp _ (by push_cast at ht; omega) _ hP
      refine ⟨h0, by omega, by omega, h3, ?_⟩
      intro u hu1 hu2
      by_cases hut : u = t
      · rw [hut]; exact hm'
      · exact h4 u hu1 (by omega)

theorem part_of_seg (p : Option (BAT Bool)) (cnt : Nat) (pnp t q e : Int)
    (hseg : Seg (marker p) cnt pnp t) (ht : t = cnt ∨ marker p t = true)
    (hpart : IsPartition p cnt q e) (h1 : pnp < e) (h2 : e ≤ t) : q = pnp ∧ e = t := by
  obtain ⟨s0, s1, s2, s3, s4⟩ := hseg
  obtain ⟨p0, p1, p2, p3, p4, p5⟩ := hpart
  have he : e = t := by
    by_contra hne
    have hlt : e < t := by omega
    rcases p4 with p4 | p4
    · omega
    · rw [s4 e h1 hlt] at p4; exact absurd p4 (by simp)
  subst he
  refine ⟨?_, rfl⟩
  by_contra hne
  rcases lt_or_gt_of_ne hne with hlt | hgt
  · rcases s3 with s3 | s3
    · omega
    · rw [p5 pnp hlt h1] at s3; exact absurd s3 (by simp)
  · rcases p3 with p3 | p3
    · omega
    · rw [s4 q hgt p1] at p3; exact absurd p3 (by simp)

theorem lag_calc_spec {α : Type} (T : Atom α) (b : Heap α) (def_ : α) (lag : Nat) (rp : Int)
    (s : ShiftSt α) (h : s.rb ≤ rp) :
    (ANALYTICAL_LAG_CALC T b def_ lag rp s).rb = rp ∧
    ∀ x, (ANALYTICAL_LAG_CALC T b def_ lag rp s).r x =
      if s.rb ≤ x ∧ x < rp then
        (if x - s.rb < lag then def_ else b (s.bp + (x - s.rb - lag)))
      else s.r x := by
  obtain ⟨f1, f2⟩ := lag_fill_spec def_ lag rp (rp - s.rb).toNat 0 s.rb s.r (le_refl _)
  simp only [ANALYTICAL_LAG_CALC]
  obtain ⟨c1, _, c3⟩ := shift_copy_spec T b
    (rp - (lag_fill def_ lag rp (rp - s.rb).toNat 0 s.rb s.r).1).toNat
    { rb := (lag_fill def_ lag rp (rp - s.rb).toNat 0 s.rb s.r).1, bp := s.bp,
      r := (lag_fill def_ lag rp (rp - s.rb).toNat 0 s.rb s.r).2,
      has_nils := if lag > 0 ∧ T.is_nil def_ = true then true else s.has_nils }
  simp only at c1 c3
  refine ⟨by rw [c1, f1]; omega, ?_⟩
  intro x
  rw [c3, f2, f1]
  by_cases hr : s.rb ≤ x ∧ x < rp
  · rw [if_pos hr]
    by_cases hl : x - s.rb < lag
    · have a1 : ¬ (s.rb + ((min (lag - 0) (rp - s.rb).toNat : Nat) : Int) ≤ x ∧
          x < s.rb + ((min (lag - 0) (rp - s.rb).toNat : Nat) : Int) +
            ((rp - (s.rb + ((min (lag - 0) (rp - s.rb).toNat : Nat) : Int))).toNat : Int)) := by
        omega
      have a2 : (s.rb ≤ x ∧ x < s.rb + ((min (lag - 0) (rp - s.rb).toNat : Nat) : Int)) := by
        omega
      rw [if_neg a1, if_pos a2, if_pos hl]
    · have a1 : (s.rb + ((min (lag - 0) (rp - s.rb).toNat : Nat) : Int) ≤ x ∧
          x < s.rb + ((min (lag - 0) (rp - s.rb).toNat : Nat) : Int) +
            ((rp - (s.rb + ((min (lag - 0) (rp - s.rb).toNat : Nat) : Int))).toNat : Int)) := by
        omega
      rw [if_pos a1, if_neg hl]
      congr 1
      omega
  · have a1 : ¬ (s.rb + ((min (lag - 0) (rp - s.rb).toNat : Nat) : Int) ≤ x ∧
          x < s.rb + ((min (lag - 0) (rp - s.rb).toNat : Nat) : Int) +
            ((rp - (s.rb + ((min (lag - 0) (rp - s.rb).toNat : Nat) : Int))).toNat : Int)) := by
        omega
    have a2 : ¬ (s.rb ≤ x ∧ x < s.rb + ((min (lag - 0) (rp - s.rb).toNat : Nat) : Int)) := by
        omega
    rw [if_neg a1, if_neg a2, if_neg hr]

theorem partition_none (cnt : Nat) (q e : Int) (h : IsPartition none cnt q e) :
    q = 0 ∧ e = cnt := by
  obtain ⟨_, _, _, p3, p4, _⟩ := h
  simp only [marker, Bool.false_eq_true, or_false] at p3 p4
  exact ⟨p3, p4⟩

/-- The fixed-width branch of lag: inside the partition `[q, e)` the first
`lag` rows get the default and row `x` beyond them gets `b[x - lag]`. -/
theorem lag_imp_spec {α : Type} (T : Atom α) (cnt : Nat) (b : Heap α) (p : Option (BAT Bool))
    (lag : Nat) (def_ : α) (r : Heap α) (hlag : lag ≠ BUN_NONE) (q e : Int)
    (hpart : IsPartition p cnt q e) (x : Int) (hq : q ≤ x) (he : x < e) :
    (ANALYTICAL_LAG_IMP T cnt b p lag def_ r).1 x =
      if x - q < lag then def_ else b (x - lag) := by
  simp only [ANALYTICAL_LAG_IMP, if_neg hlag]
  cases p with
  | none =>
    obtain ⟨rfl, rfl⟩ := partition_none cnt q e hpart
    simp only
    rw [(lag_calc_spec T b def_ lag cnt _ (by simp)).2 x]
    simp only [sub_zero, zero_add]
    rw [if_pos ⟨hq, he⟩]
  | some pp =>
    simp only
    let P : Int → Int × ShiftSt α → Prop := fun m s =>
      s.1 = m ∧ s.2.rb = m ∧ s.2.bp = m ∧
        ∀ q e, IsPartition (some pp) cnt q e → e ≤ m → ∀ x, q ≤ x → x < e →
          s.2.r x = if x - q < lag then def_ else b (x - lag)
    have hbody : ∀ pnp t s, Seg (marker (some pp)) cnt pnp t →
        (t = cnt ∨ marker (some pp) t = true) → P pnp s →
        (∀ q e, IsPartition (some pp) cnt q e → e ≤ t → ∀ x, q ≤ x → x < e →
          (ANALYTICAL_LAG_CALC T b def_ lag (s.1 + (t - pnp)) s.2).r x =
            if x - q < lag then def_ else b (x - lag)) ∧
        (ANALYTICAL_LAG_CALC T b def_ lag (s.1 + (t - pnp)) s.2).rb = t := by
      intro pnp t s hseg ht ⟨e1, e2, e3, e4⟩
      have hrp : s.1 + (t - pnp) = t := by omega
      obtain ⟨c1, c2⟩ := lag_calc_spec T b def_ lag t s.2 (by rw [e2]; exact hseg.2.1)
      rw [hrp]
      refine ⟨?_, c1⟩
      intro q e hp hle x hx1 hx2
      rw [c2 x, e2, e3]
      by_cases hlt : pnp < e
      · obtain ⟨rfl, rfl⟩ := part_of_seg (some pp) cnt pnp t q e hseg ht hp hlt hle
        rw [if_pos ⟨hx1, hx2⟩]
        by_cases hl : x - q < lag
        · rw [if_pos hl, if_pos hl]
        · rw [if_neg hl, if_neg hl]
          congr 1
          omega
      · have : ¬ (pnp ≤ x ∧ x < t) := by omega
        rw [if_neg this]
        exact e4 q e hp (by omega) x hx1 hx2
    have hloop := parts_loop_inv pp.tloc (lag_part T b def_ lag) cnt P
      (by
        intro pnp t s hseg htc hm hP
        obtain ⟨h1, h2⟩ := hbody pnp t s hseg (Or.inr hm) hP
        obtain ⟨e1, e2, e3, e4⟩ := hP
        refine ⟨by simp only [lag_part]; omega, h2, by simp only [lag_part]; omega, ?_⟩
        intro q e hp hle x hx1 hx2
        exact h1 q e hp hle x hx1 hx2)
      cnt 0 0 (0, { rb := 0, bp := 0, r := r, has_nils := false }) (by simp)
      ⟨le_refl _, le_refl _, by omega, Or.inl rfl, fun u h1 h2 => by omega⟩
      ⟨rfl, rfl, rfl, fun q e hp hle x hx1 hx2 => by
        have h1 := hp.2.1
        have h2 := hp.1
        omega⟩
    generalize parts_loop pp.tloc (lag_part T b def_ lag) cnt 0
      (0, (0, { rb := 0, bp := 0, r := r, has_nils := false })) = res at hloop ⊢
    obtain ⟨pnp, s⟩ := res
    obtain ⟨hseg, hP⟩ := hloop
    exact (hbody pnp cnt s hseg (Or.inl rfl) hP).1 q e hpart hpart.2.2.1 x hq he

theorem lag_others_fill_spec {α : Type} (def_ : α) (lag : Nat) :
    ∀ (f i : Nat) (s : AppendSt α), (s.j - s.k).toNat ≤ f →
      (lag_others_fill def_ lag f i s).j = s.j ∧
      (lag_others_fill def_ lag f i s).k = s.k + min (lag - i) (s.j - s.k).toNat ∧
      ((lag_others_fill def_ lag f i s).count : Int) =
        s.count + min (lag - i) (s.j - s.k).toNat ∧
      ∀ x, (lag_others_fill def_ lag f i s).r x =
        if (s.count : Int) ≤ x ∧ x < s.count + min (lag - i) (s.j - s.k).toNat then def_
        else s.r x := by
  intro f
  induction f with
  | zero =>
    intro i s hf
    have h0 : (s.j - s.k).toNat = 0 := by omega
    refine ⟨rfl, by simp [lag_others_fill, h0], by simp [lag_others_fill, h0], ?_⟩
    intro x
    have : ¬ ((s.count : Int) ≤ x ∧
        x < s.count + ((min (lag - i) (s.j - s.k).toNat : Nat) : Int)) := by
      rw [h0]; simp
    rw [if_neg this]; rfl
  | succ f ih =>
    intro i s hf
    by_cases hc : i < lag ∧ s.k < s.j
    · simp only [lag_others_fill, if_pos hc, AppendSt.BUNappend]
      obtain ⟨h0, h1, h2, h3⟩ := ih (i + 1) { s.BUNappend def_ with k := s.k + 1 }
        (by simp only [AppendSt.BUNappend]; omega)
      simp only [AppendSt.BUNappend] at h0 h1 h2 h3
      have hm : ((min (lag - i) (s.j - s.k).toNat : Nat) : Int) =
          1 + ((min (lag - (i + 1)) (s.j - (s.k + 1)).toNat : Nat) : Int) := by omega
      refine ⟨h0, by rw [h1, hm]; ring, by rw [h2, hm]; push_cast; ring, ?_⟩
      intro x
      rw [h3, hm]
      by_cases hx : x = s.count
      · subst hx
        have a1 : ¬ (((s.count + 1 : Nat) : Int) ≤ (s.count : Int) ∧ (s.count : Int) <
            ((s.count + 1 : Nat) : Int) +
              ((min (lag - (i + 1)) (s.j - (s.k + 1)).toNat : Nat) : Int)) := by
          omega
        have a2 : ((s.count : Int) ≤ s.count ∧ (s.count : Int) < s.count +
            (1 + ((min (lag - (i + 1)) (s.j - (s.k + 1)).toNat : Nat) : Int))) := by
          omega
        rw [if_neg a1, if_pos a2]; simp
      · by_cases hr : ((s.count : Int) ≤ x ∧ x < s.count +
            (1 + ((min (lag - (i + 1)) (s.j - (s.k + 1)).toNat : Nat) : Int)))
        · have a1 : (((s.count + 1 : Nat) : Int) ≤ x ∧ x < ((s.count + 1 : Nat) : Int) +
              ((min (lag - (i + 1)) (s.j - (s.k + 1)).toNat : Nat) : Int)) := by
            omega
          rw [if_pos a1, if_pos hr]
        · have a1 : ¬ (((s.count + 1 : Nat) : Int) ≤ x ∧ x < ((s.count + 1 : Nat) : Int) +
              ((min (lag - (i + 1)) (s.j - (s.k + 1)).toNat : Nat) : Int)) := by
            omega
          rw [if_neg a1, if_neg hr]
          exact store_ne _ _ _ _ hx
    · simp only [lag_others_fill, if_neg hc]
      have hm : min (lag - i) (s.j - s.k).toNat = 0 := by omega
      refine ⟨trivial, by rw [hm]; simp, by rw [hm]; simp, ?_⟩
      intro x
      have : ¬ ((s.count : Int) ≤ x ∧
          x < s.count + ((min (lag - i) (s.j - s.k).toNat : Nat) : Int)) := by
        rw [hm]; simp
      rw [if_neg this]

theorem lag_others_copy_spec {α : Type} (T : Atom α) (b : Heap α) :
    ∀ (n : Nat) (l : Int) (s : AppendSt α),
      (lag_others_copy T b n l s).j = s.j ∧
      (lag_others_copy T b n l s).k = s.k + n ∧
      ((lag_others_copy T b n l s).count : Int) = s.count + n ∧
      ∀ x, (lag_others_copy T b n l s).r x =
        if (s.count : Int) ≤ x ∧ x < s.count + n then b (l + (x - s.count)) else s.r x := by
  intro n
  induction n with
  | zero =>
    intro l s
    refine ⟨rfl, by simp [lag_others_copy], by simp [lag_others_copy], ?_⟩
    intro x
    have : ¬ ((s.count : Int) ≤ x ∧ x < s.count + ((0 : Nat) : Int)) := by omega
    rw [if_neg this]; rfl
  | succ n ih =>
    intro l s
    simp only [lag_others_copy, AppendSt.BUNappend]
    obtain ⟨h0, h1, h2, h3⟩ := ih (l + 1)
      { s.BUNappend (b l) with
        k := s.k + 1, has_nils := s.has_nils || decide (T.cmp (b l) T.nil = 0) }
    simp only [AppendSt.BUNappend] at h0 h1 h2 h3
    refine ⟨h0, by rw [h1]; push_cast; ring, by rw [h2]; push_cast; ring, ?_⟩
    intro x
    rw [h3]
    by_cases hx : x = s.count
    · subst hx
      have a1 : ¬ (((s.count + 1 : Nat) : Int) ≤ (s.count : Int) ∧
          (s.count : Int) < ((s.count + 1 : Nat) : Int) + (n : Int)) := by omega
      have a2 : ((s.count : Int) ≤ s.count ∧
          (s.count : Int) < s.count + ((n + 1 : Nat) : Int)) := by push_cast; omega
      rw [if_neg a1, if_pos a2]; simp
    · by_cases hr : ((s.count : Int) ≤ x ∧ x < s.count + ((n + 1 : Nat) : Int))
      · have a1 : (((s.count + 1 : Nat) : Int) ≤ x ∧
            x < ((s.count + 1 : Nat) : Int) + (n : Int)) := by push_cast at hr ⊢; omega
        rw [if_pos a1, if_pos hr]
        congr 1; push_cast; ring
      · have a1 : ¬ (((s.count + 1 : Nat) : Int) ≤ x ∧
            x < ((s.count + 1 : Nat) : Int) + (n : Int)) := by push_cast at hr ⊢; omega
        rw [if_neg a1, if_neg hr]
        exact store_ne _ _ _ _ hx

theorem lag_others_spec {α : Type} (T : Atom α) (b : Heap α) (def_ : α) (lag : Nat)
    (s : AppendSt α) (h : s.k ≤ s.j) :
    (ANALYTICAL_LAG_OTHERS T b def_ lag s).j = s.j ∧
    (ANALYTICAL_LAG_OTHERS T b def_ lag s).k = s.j ∧
    ((ANALYTICAL_LAG_OTHERS T b def_ lag s).count : Int) = s.count + (s.j - s.k) ∧
    ∀ x, (ANALYTICAL_LAG_OTHERS T b def_ lag s).r x =
      if (s.count : Int) ≤ x ∧ x < s.count + (s.j - s.k) then
        (if x - s.count < lag then def_ else b (s.k + (x - s.count - lag)))
      else s.r x := by
  obtain ⟨f0, f1, f2, f3⟩ := lag_others_fill_spec def_ lag (s.j - s.k).toNat 0 s (le_refl _)
  generalize hs1 : lag_others_fill def_ lag (s.j - s.k).toNat 0 s = s1 at f0 f1 f2 f3
  have hs2 : ∀ s2 : AppendSt α, s2 = (if lag > 0 ∧ T.cmp def_ T.nil = 0 then
      { s1 with has_nils := true } else s1) →
      s2.j = s1.j ∧ s2.k = s1.k ∧ s2.count = s1.count ∧ s2.r = s1.r := by
    intro s2 h2
    by_cases hc : lag > 0 ∧ T.cmp def_ T.nil = 0
    · rw [if_pos hc] at h2; subst h2; exact ⟨rfl, rfl, rfl, rfl⟩
    · rw [if_neg hc] at h2; subst h2; exact ⟨rfl, rfl, rfl, rfl⟩
  simp only [ANALYTICAL_LAG_OTHERS, hs1]
  generalize hs2' : (if lag > 0 ∧ T.cmp def_ T.nil = 0 then
      { s1 with has_nils := true } else s1) = s2
  obtain ⟨g0, g1, g2, g3⟩ := hs2 s2 hs2'.symm
  obtain ⟨c0, c1, c2, c3⟩ := lag_others_copy_spec T b (s2.j - s2.k).toNat (s2.k - lag) s2
  refine ⟨by rw [c0, g0, f0], by rw [c1, g0, g1, f0, f1]; omega,
    by rw [c2, g2, f2, g0, g1, f0, f1]; omega, ?_⟩
  intro x
  rw [c3, g3, g2, f2, g0, g1, f0, f1, f3]
  split_ifs <;> first | rfl | omega | (congr 1; omega)

/-- The `default:` branch of lag: the row appended for row `x` of the
partition `[q, e)` is the default for the first `lag` rows and `b[x - lag]`
beyond them. -/
theorem lag_default_spec {α : Type} (T : Atom α) (cnt : Nat) (b : Heap α)
    (p : Option (BAT Bool)) (lag : Nat) (def_ : α) (r0 : Heap α) (count0 : Nat)
    (hlag : lag ≠ BUN_NONE) (q e : Int)
    (hpart : IsPartition p cnt q e) (x : Int) (hq : q ≤ x) (he : x < e) :
    (lag_default T cnt b p lag def_ r0 count0).1 (count0 + x) =
      if x - q < lag then def_ else b (x - lag) := by
  simp only [lag_default, if_neg hlag]
  let P : Int → AppendSt α → Prop := fun m s =>
    s.j = m ∧ s.k = m ∧ (s.count : Int) = count0 + m ∧
      ∀ q e, IsPartition p cnt q e → e ≤ m → ∀ x, q ≤ x → x < e →
        s.r (count0 + x) = if x - q < lag then def_ else b (x - lag)
  have hbody : ∀ pnp t s, Seg (marker p) cnt pnp t →
      (t = cnt ∨ marker p t = true) → P pnp s → P t (lag_others_part T b def_ lag pnp t s) := by
    intro pnp t s hseg ht ⟨e1, e2, e3, e4⟩
    obtain ⟨c0, c1, c2, c3⟩ := lag_others_spec T b def_ lag { s with j := s.j + (t - pnp) }
      (by simp only; have := hseg.2.1; omega)
    simp only at c0 c1 c2 c3
    refine ⟨by simp only [lag_others_part]; rw [c0]; omega,
      by simp only [lag_others_part]; rw [c1]; omega,
      by simp only [lag_others_part]; rw [c2]; omega, ?_⟩
    intro q e hp hle x hx1 hx2
    simp only [lag_others_part]
    rw [c3]
    by_cases hlt : pnp < e
    · obtain ⟨rfl, rfl⟩ := part_of_seg p cnt pnp t q e hseg ht hp hlt hle
      split_ifs <;> first | rfl | omega | (congr 1; omega)
    · have hn : ¬ ((s.count : Int) ≤ count0 + x ∧ count0 + x < s.count + (s.j + (t - pnp) - s.k)) := by
        omega
      rw [if_neg hn]
      exact e4 q e hp (by omega) x hx1 hx2
  have hP0 : P 0 { j := 0, k := 0, r := r0, count := count0, has_nils := false } :=
    ⟨rfl, rfl, by simp, fun q e hp hle x hx1 hx2 => by
      have h1 := hp.2.1
      have h2 := hp.1
      omega⟩
  cases p with
  | none =>
    obtain ⟨rfl, rfl⟩ := partition_none cnt q e hpart
    have h := hbody 0 cnt _ ⟨le_refl _, by omega, le_refl _, Or.inl rfl, fun u _ _ => rfl⟩
      (Or.inl rfl) hP0
    simp only [lag_others_part, sub_zero] at h
    simp only
    exact h.2.2.2 0 cnt hpart (le_refl _) x hq he
  | some pp =>
    simp only
    have hloop := parts_loop_inv pp.tloc (lag_others_part T b def_ lag) cnt P
      (fun pnp t s hseg _ hm hP => hbody pnp t s hseg (Or.inr hm) hP)
      cnt 0 0 _ (by simp)
      ⟨le_refl _, le_refl _, by omega, Or.inl rfl, fun u h1 h2 => by omega⟩ hP0
    generalize parts_loop pp.tloc (lag_others_part T b def_ lag) cnt 0
      (0, { j := 0, k := 0, r := r0, count := count0, has_nils := false }) = res at hloop ⊢
    obtain ⟨pnp, s⟩ := res
    obtain ⟨hseg, hP⟩ := hloop
    exact (hbody pnp cnt s hseg (Or.inl rfl) hP).2.2.2 q e hpart hpart.2.2.1 x hq he

/-- C9: `GDKanalyticallag` with an offset `lag` other than the none sentinel:
for every column `b`, every partitioning `p` (or none) and default `d`, the
row at offset `k` inside a partition `[q, e)` receives `d` when `k < lag` and
`b[q + k - lag]` when `k >= lag`, and that position lies inside the same
partition. (In the branch for the other types the rows are appended to the
result column, which is empty at the call.) -/
theorem lag_shifts_within_partition {α : Type} (T : Atom α) (r b : BAT α)
    (p : Option (BAT Bool)) (lag : Nat) (d : α) (tpe : TYPE)
    (hlag : lag ≠ BUN_NONE) (hr : tpe = TYPE.other → r.count = 0)
    (q e : Int) (hpart : IsPartition p b.count q e) (k : Nat) (hk : q + k < e) :
    (GDKanalyticallag T r b p lag d tpe).tloc (q + k) =
        (if k < lag then d else b.tloc (q + k - lag)) ∧
      (lag ≤ k → q ≤ q + k - lag ∧ q + (k : Int) - lag < e) := by
  refine ⟨?_, fun h => by omega⟩
  have hfix := lag_imp_spec T b.count b.tloc p lag d r.tloc hlag q e hpart (q + k)
    (by omega) hk
  have hoth := lag_default_spec T b.count b.tloc p lag d r.tloc r.count hlag q e hpart (q + k)
    (by omega) hk
  have hc : (q + (k : Int) - q < (lag : Int)) ↔ k < lag := by omega
  simp only [hc] at hfix hoth
  cases tpe
  case other =>
    have h0 := hr rfl
    simp only [GDKanalyticallag]
    rw [h0] at hoth ⊢
    simpa using hoth
  all_goals exact hfix

/-- Witness of C9: the `int` column 1..7 with partitions starting at rows 0, 3
and 4, lag 2, default -1: row 2 of the partition `[4, 7)`. -/
theorem lag_shifts_within_partition_witness :
    (GDKanalyticallag (intAtom 32) (BAT.ofList 0 []) (BAT.ofList 0 [1, 2, 3, 4, 5, 6, 7])
        (some (BAT.ofList false [false, false, false, true, true, false, false])) 2 (-1)
        TYPE.int).tloc (4 + (2 : Nat)) =
        (if 2 < 2 then -1 else (BAT.ofList (0 : Int) [1, 2, 3, 4, 5, 6, 7]).tloc
          (4 + (2 : Nat) - (2 : Nat))) ∧
      (2 ≤ 2 → (4 : Int) ≤ 4 + (2 : Nat) - (2 : Nat) ∧ (4 : Int) + (2 : Nat) - (2 : Nat) < 7) :=
  lag_shifts_within_partition (intAtom 32) (BAT.ofList 0 [])
    (BAT.ofList 0 [1, 2, 3, 4, 5, 6, 7])
    (some (BAT.ofList false [false, false, false, true, true, false, false])) 2 (-1)
    TYPE.int (by decide) (by decide) 4 7
    ⟨by decide, by decide, by decide, Or.inr (by decide), Or.inl (by decide), by
      intro u h1 h2
      have : u = 5 ∨ u = 6 := by omega
      rcases this with rfl | rfl <;> decide⟩
    2 (by decide)

/-! ## `GDKanalyticallead` -/

theorem lead_calc_spec {α : Type} (T : Atom α) (b : Heap α) (def_ : α) (lead ncnt : Nat)
    (rp : Int) (s : ShiftSt α) (h : s.rb + ncnt = rp) :
    (LEAD_CALC T b def_ lead ncnt rp s).rb = rp ∧
    (LEAD_CALC T b def_ lead ncnt rp s).bp = s.bp + ncnt ∧
    ∀ x, (LEAD_CALC T b def_ lead ncnt rp s).r x =
      if s.rb ≤ x ∧ x < rp then
        (if x - s.rb + lead < ncnt then b (s.bp + lead + (x - s.rb)) else def_)
      else s.r x := by
  by_cases hl : lead < ncnt
  · obtain ⟨c1, c2, c3⟩ := shift_copy_spec T b (ncnt - lead) { s with bp := s.bp + lead }
    simp only at c1 c2 c3
    simp only [LEAD_CALC, if_pos hl]
    refine ⟨by rw [c1]; omega, by rw [c2]; omega, ?_⟩
    intro x
    rw [fill_val, c1, c3]
    split_ifs <;> first | rfl | omega
  · simp only [LEAD_CALC, if_neg hl]
    refine ⟨by omega, trivial, ?_⟩
    intro x
    rw [fill_val]
    split_ifs <;> first | rfl | omega

/-- The fixed-width branch of lead: inside the partition `[q, e)` row `x` gets
`b[x + lead]` when that row is still in the partition, and the default
otherwise. -/
theorem lead_imp_spec {α : Type} (T : Atom α) (cnt : Nat) (b : Heap α) (p : Option (BAT Bool))
    (lead : Nat) (def_ : α) (r : Heap α) (hlead : lead ≠ BUN_NONE) (q e : Int)
    (hpart : IsPartition p cnt q e) (x : Int) (hq : q ≤ x) (he : x < e) :
    (ANALYTICAL_LEAD_IMP T cnt b p lead def_ r).1 x =
      if x + lead < e then b (x + lead) else def_ := by
  simp only [ANALYTICAL_LEAD_IMP, if_neg hlead]
  let P : Int → Int × ShiftSt α → Prop := fun m s =>
    s.1 = m ∧ s.2.rb = m ∧ s.2.bp = m ∧
      ∀ q e, IsPartition p cnt q e → e ≤ m → ∀ x, q ≤ x → x < e →
        s.2.r x = if x + lead < e then b (x + lead) else def_
  have hbody : ∀ pnp t s, Seg (marker p) cnt pnp t →
      (t = cnt ∨ marker p t = true) → P pnp s → P t (lead_part T b def_ lead pnp t s) := by
    intro pnp t s hseg ht ⟨e1, e2, e3, e4⟩
    have hle := hseg.2.1
    obtain ⟨c1, c2, c3⟩ := lead_calc_spec T b def_ lead (t - pnp).toNat
      (s.1 + ((t - pnp).toNat : Int)) s.2 (by omega)
    refine ⟨by simp only [lead_part]; omega, by simp only [lead_part]; rw [c1]; omega,
      by simp only [lead_part]; rw [c2]; omega, ?_⟩
    intro q e hp hle x hx1 hx2
    simp only [lead_part]
    rw [c3]
    by_cases hlt : pnp < e
    · obtain ⟨rfl, rfl⟩ := part_of_seg p cnt pnp t q e hseg ht hp hlt hle
      split_ifs <;> first | rfl | omega | (congr 1; omega)
    · have hn : ¬ (s.2.rb ≤ x ∧ x < s.1 + ((t - pnp).toNat : Int)) := by omega
      rw [if_neg hn]
      exact e4 q e hp (by omega) x hx1 hx2
  have hP0 : P 0 (0, { rb := 0, bp := 0, r := r, has_nils := false }) :=
    ⟨rfl, rfl, rfl, fun q e hp hle x hx1 hx2 => by
      have h1 := hp.2.1
      have h2 := hp.1
      omega⟩
  cases p with
  | none =>
    obtain ⟨rfl, rfl⟩ := partition_none cnt q e hpart
    have h := hbody 0 cnt _ ⟨le_refl _, by omega, le_refl _, Or.inl rfl, fun u _ _ => rfl⟩
      (Or.inl rfl) hP0
    simp only [lead_part, sub_zero, Int.toNat_ofNat, zero_add] at h
    simp only
    exact h.2.2.2 0 cnt hpart (le_refl _) x hq he
  | some pp =>
    simp only
    have hloop := parts_loop_inv pp.tloc (lead_part T b def_ lead) cnt P
      (fun pnp t s hseg _ hm hP => hbody pnp t s hseg (Or.inr hm) hP)
      cnt 0 0 _ (by simp)
      ⟨le_refl _, le_refl _, by omega, Or.inl rfl, fun u h1 h2 => by omega⟩ hP0
    generalize parts_loop pp.tloc (lead_part T b def_ lead) cnt 0
      (0, (0, { rb := 0, bp := 0, r := r, has_nils := false })) = res at hloop ⊢
    obtain ⟨pnp, s⟩ := res
    obtain ⟨hseg, hP⟩ := hloop
    exact (hbody pnp cnt s hseg (Or.inl rfl) hP).2.2.2 q e hpart hpart.2.2.1 x hq he

theorem lead_others_copy_spec {α : Type} (T : Atom α) (b : Heap α) :
    ∀ (m : Nat) (n : Int) (s : AppendSt α),
      (lead_others_copy T b m n s).j = s.j ∧
      (lead_others_copy T b m n s).k = s.k ∧
      ((lead_others_copy T b m n s).count : Int) = s.count + m ∧
      ∀ x, (lead_others_copy T b m n s).r x =
        if (s.count : Int) ≤ x ∧ x < s.count + m then b (n + (x - s.count)) else s.r x := by
  intro m
  induction m with
  | zero =>
    intro n s
    refine ⟨rfl, rfl, by simp [lead_others_copy], ?_⟩
    intro x
    have : ¬ ((s.count : Int) ≤ x ∧ x < s.count + ((0 : Nat) : Int)) := by omega
    rw [if_neg this]; rfl
  | succ m ih =>
    intro n s
    simp only [lead_others_copy, AppendSt.BUNappend]
    obtain ⟨h0, h1, h2, h3⟩ := ih (n + 1)
      { s.BUNappend (b n) with has_nils := s.has_nils || decide (T.cmp (b n) T.nil = 0) }
    simp only [AppendSt.BUNappend] at h0 h1 h2 h3
    refine ⟨h0, h1, by rw [h2]; push_cast; ring, ?_⟩
    intro x
    rw [h3]
    by_cases hx : x = s.count
    · subst hx
      have a1 : ¬ (((s.count + 1 : Nat) : Int) ≤ (s.count : Int) ∧
          (s.count : Int) < ((s.count + 1 : Nat) : Int) + (m : Int)) := by omega
      have a2 : ((s.count : Int) ≤ s.count ∧
          (s.count : Int) < s.count + ((m + 1 : Nat) : Int)) := by push_cast; omega
      rw [if_neg a1, if_pos a2]; simp
    · by_cases hr : ((s.count : Int) ≤ x ∧ x < s.count + ((m + 1 : Nat) : Int))
      · have a1 : (((s.count + 1 : Nat) : Int) ≤ x ∧
            x < ((s.count + 1 : Nat) : Int) + (m : Int)) := by push_cast at hr ⊢; omega
        rw [if_pos a1, if_pos hr]
        congr 1; push_cast; ring
      · have a1 : ¬ (((s.count + 1 : Nat) : Int) ≤ x ∧
            x < ((s.count + 1 : Nat) : Int) + (m : Int)) := by push_cast at hr ⊢; omega
        rw [if_neg a1, if_neg hr]
        exact store_ne _ _ _ _ hx

theorem lead_others_fill_spec {α : Type} (def_ : α) :
    ∀ (n : Nat) (s : AppendSt α),
      (lead_others_fill def_ n s).j = s.j ∧
      (lead_others_fill def_ n s).k = s.k + n ∧
      ((lead_others_fill def_ n s).count : Int) = s.count + n ∧
      ∀ x, (lead_others_fill def_ n s).r x =
        if (s.count : Int) ≤ x ∧ x < s.count + n then def_ else s.r x := by
  intro n
  induction n with
  | zero =>
    intro s
    refine ⟨rfl, by simp [lead_others_fill], by simp [lead_others_fill], ?_⟩
    intro x
    have : ¬ ((s.count : Int) ≤ x ∧ x < s.count + ((0 : Nat) : Int)) := by omega
    rw [if_neg this]; rfl
  | succ n ih =>
    intro s
    simp only [lead_others_fill, AppendSt.BUNappend]
    obtain ⟨h0, h1, h2, h3⟩ := ih { s.BUNappend def_ with k := s.k + 1 }
    simp only [AppendSt.BUNappend] at h0 h1 h2 h3
    refine ⟨h0, by rw [h1]; push_cast; ring, by rw [h2]; push_cast; ring, ?_⟩
    intro x
    rw [h3]
    by_cases hx : x = s.count
    · subst hx
      have a1 : ¬ (((s.count + 1 : Nat) : Int) ≤ (s.count : Int) ∧
          (s.count : Int) < ((s.count + 1 : Nat) : Int) + (n : Int)) := by omega
      have a2 : ((s.count : Int) ≤ s.count ∧
          (s.count : Int) < s.count + ((n + 1 : Nat) : Int)) := by push_cast; omega
      rw [if_neg a1, if_pos a2]; simp
    · by_cases hr : ((s.count : Int) ≤ x ∧ x < s.count + ((n + 1 : Nat) : Int))
      · have a1 : (((s.count + 1 : Nat) : Int) ≤ x ∧
            x < ((s.count + 1 : Nat) : Int) + (n : Int)) := by push_cast at hr ⊢; omega
        rw [if_pos a1, if_pos hr]
      · have a1 : ¬ (((s.count + 1 : Nat) : Int) ≤ x ∧
            x < ((s.count + 1 : Nat) : Int) + (n : Int)) := by push_cast at hr ⊢; omega
        rw [if_neg a1, if_neg hr]
        exact store_ne _ _ _ _ hx

theorem lead_others_spec {α : Type} (T : Atom α) (b : Heap α) (def_ : α) (lead ncnt : Nat)
    (s : AppendSt α) (h : s.k = s.j) :
    (ANALYTICAL_LEAD_OTHERS T b def_ lead ncnt s).j = s.j + ncnt ∧
    (ANALYTICAL_LEAD_OTHERS T b def_ lead ncnt s).k = s.j + ncnt ∧
    ((ANALYTICAL_LEAD_OTHERS T b def_ lead ncnt s).count : Int) = s.count + ncnt ∧
    ∀ x, (ANALYTICAL_LEAD_OTHERS T b def_ lead ncnt s).r x =
      if (s.count : Int) ≤ x ∧ x < s.count + ncnt then
        (if x - s.count + lead < ncnt then b (s.k + lead + (x - s.count)) else def_)
      else s.r x := by
  -- the state behind the copy loop
  have h1 : ∀ s1 : AppendSt α, s1 = (if lead < ncnt then
        { lead_others_copy T b (ncnt - lead) (s.k + lead) { s with j := s.j + ncnt } with
          k := (lead_others_copy T b (ncnt - lead) (s.k + lead) { s with j := s.j + ncnt }).k +
            ((ncnt - lead : Nat) : Int) }
      else { s with j := s.j + ncnt }) →
      s1.j = s.j + ncnt ∧ s1.k = s.k + ((ncnt - lead : Nat) : Int) ∧
      (s1.count : Int) = s.count + ((ncnt - lead : Nat) : Int) ∧
      ∀ x, s1.r x = if (s.count : Int) ≤ x ∧ x < s.count + ((ncnt - lead : Nat) : Int) then
        b (s.k + lead + (x - s.count)) else s.r x := by
    intro s1 hs1
    by_cases hl : lead < ncnt
    · rw [if_pos hl] at hs1
      obtain ⟨c0, c1, c2, c3⟩ := lead_others_copy_spec T b (ncnt - lead) (s.k + lead)
        { s with j := s.j + ncnt }
      subst hs1
      exact ⟨c0, by simp only; rw [c1], c2, c3⟩
    · rw [if_neg hl] at hs1
      subst hs1
      have h0 : ncnt - lead = 0 := by omega
      refine ⟨rfl, by rw [h0]; simp, by rw [h0]; simp, ?_⟩
      intro x
      have : ¬ ((s.count : Int) ≤ x ∧ x < s.count + ((ncnt - lead : Nat) : Int)) := by
        rw [h0]; simp
      rw [if_neg this]
  simp only [ANALYTICAL_LEAD_OTHERS]
  generalize hs1 : (if lead < ncnt then
        { lead_others_copy T b (ncnt - lead) (s.k + lead) { s with j := s.j + ncnt } with
          k := (lead_others_copy T b (ncnt - lead) (s.k + lead) { s with j := s.j + ncnt }).k +
            ((ncnt - lead : Nat) : Int) }
      else { s with j := s.j + ncnt }) = s1
  obtain ⟨a0, a1, a2, a3⟩ := h1 s1 hs1.symm
  obtain ⟨f0, f1, f2, f3⟩ := lead_others_fill_spec def_ (s1.j - s1.k).toNat s1
  have hfin : ∀ s3 : AppendSt α, s3 = (if lead > 0 ∧ T.cmp def_ T.nil = 0 then
      { lead_others_fill def_ (s1.j - s1.k).toNat s1 with has_nils := true }
      else lead_others_fill def_ (s1.j - s1.k).toNat s1) →
      s3.j = (lead_others_fill def_ (s1.j - s1.k).toNat s1).j ∧
      s3.k = (lead_others_fill def_ (s1.j - s1.k).toNat s1).k ∧
      s3.count = (lead_others_fill def_ (s1.j - s1.k).toNat s1).count ∧
      s3.r = (lead_others_fill def_ (s1.j - s1.k).toNat s1).r := by
    intro s3 h3
    by_cases hc : lead > 0 ∧ T.cmp def_ T.nil = 0
    · rw [if_pos hc] at h3; subst h3; exact ⟨rfl, rfl, rfl, rfl⟩
    · rw [if_neg hc] at h3; subst h3; exact ⟨rfl, rfl, rfl, rfl⟩
  generalize hs3 : (if lead > 0 ∧ T.cmp def_ T.nil = 0 then
      { lead_others_fill def_ (s1.j - s1.k).toNat s1 with has_nils := true }
      else lead_others_fill def_ (s1.j - s1.k).toNat s1) = s3
  obtain ⟨g0, g1, g2, g3⟩ := hfin s3 hs3.symm
  refine ⟨by rw [g0, f0, a0], by rw [g1, f1, a0, a1]; omega,
    by rw [g2, f2, a0, a1, a2]; omega, ?_⟩
  intro x
  rw [g3, f3, a0, a1, a2, a3]
  split_ifs <;> first | rfl | omega

/-- The `default:` branch of lead: the row appended for row `x` of the
partition `[q, e)` is `b[x + lead]` when that row is still in the partition,
and the default otherwise. -/
theorem lead_default_spec {α : Type} (T : Atom α) (cnt : Nat) (b : Heap α)
    (p : Option (BAT Bool)) (lead : Nat) (def_ : α) (r0 : Heap α) (count0 : Nat)
    (hlead : lead ≠ BUN_NONE) (q e : Int)
    (hpart : IsPartition p cnt q e) (x : Int) (hq : q ≤ x) (he : x < e) :
    (lead_default T cnt b p lead def_ r0 count0).1 (count0 + x) =
      if x + lead < e then b (x + lead) else def_ := by
  simp only [lead_default, if_neg hlead]
  let P : Int → AppendSt α → Prop := fun m s =>
    s.j = m ∧ s.k = m ∧ (s.count : Int) = count0 + m ∧
      ∀ q e, IsPartition p cnt q e → e ≤ m → ∀ x, q ≤ x → x < e →
        s.r (count0 + x) = if x + lead < e then b (x + lead) else def_
  have hbody : ∀ pnp t s, Seg (marker p) cnt pnp t →
      (t = cnt ∨ marker p t = true) → P pnp s →
      P t (lead_others_part T b def_ lead pnp t s) := by
    intro pnp t s hseg ht ⟨e1, e2, e3, e4⟩
    have hle := hseg.2.1
    obtain ⟨c0, c1, c2, c3⟩ := lead_others_spec T b def_ lead (t - pnp).toNat s (by omega)
    refine ⟨by simp only [lead_others_part]; rw [c0]; omega,
      by simp only [lead_others_part]; rw [c1]; omega,
      by simp only [lead_others_part]; rw [c2]; omega, ?_⟩
    intro q e hp hle x hx1 hx2
    simp only [lead_others_part]
    rw [c3]
    by_cases hlt : pnp < e
    · obtain ⟨rfl, rfl⟩ := part_of_seg p cnt pnp t q e hseg ht hp hlt hle
      split_ifs <;> first | rfl | omega | (congr 1; omega)
    · have hn : ¬ ((s.count : Int) ≤ count0 + x ∧
          count0 + x < s.count + ((t - pnp).toNat : Int)) := by omega
      rw [if_neg hn]
      exact e4 q e hp (by omega) x hx1 hx2
  have hP0 : P 0 { j := 0, k := 0, r := r0, count := count0, has_nils := false } :=
    ⟨rfl, rfl, by simp, fun q e hp hle x hx1 hx2 => by
      have h1 := hp.2.1
      have h2 := hp.1
      omega⟩
  cases p with
  | none =>
    obtain ⟨rfl, rfl⟩ := partition_none cnt q e hpart
    have h := hbody 0 cnt _ ⟨le_refl _, by omega, le_refl _, Or.inl rfl, fun u _ _ => rfl⟩
      (Or.inl rfl) hP0
    simp only [lead_others_part, sub_zero, Int.toNat_ofNat] at h
    simp only
    exact h.2.2.2 0 cnt hpart (le_refl _) x hq he
  | some pp =>
    simp only
    have hloop := parts_loop_inv pp.tloc (lead_others_part T b def_ lead) cnt P
      (fun pnp t s hseg _ hm hP => hbody pnp t s hseg (Or.inr hm) hP)
      cnt 0 0 _ (by simp)
      ⟨le_refl _, le_refl _, by omega, Or.inl rfl, fun u h1 h2 => by omega⟩ hP0
    generalize parts_loop pp.tloc (lead_others_part T b def_ lead) cnt 0
      (0, { j := 0, k := 0, r := r0, count := count0, has_nils := false }) = res at hloop ⊢
    obtain ⟨pnp, s⟩ := res
    obtain ⟨hseg, hP⟩ := hloop
    exact (hbody pnp cnt s hseg (Or.inl rfl) hP).2.2.2 q e hpart hpart.2.2.1 x hq he

/-- C10: `GDKanalyticallead` with an offset `lead` other than the none
sentinel: for every column `b`, every partitioning `p` (or none) and default
`d`, the row at offset `k` inside a partition `[q, e)` of size `e - q`
receives `b[q + k + lead]` when `k + lead < e - q`, a position of the same
partition, and `d` otherwise. (In the branch for the other types the rows are
appended to the result column, which is empty at the call.) -/
theorem lead_shifts_within_partition {α : Type} (T : Atom α) (r b : BAT α)
    (p : Option (BAT Bool)) (lead : Nat) (d : α) (tpe : TYPE)
    (hlead : lead ≠ BUN_NONE) (hr : tpe = TYPE.other → r.count = 0)
    (q e : Int) (hpart : IsPartition p b.count q e) (k : Nat) (hk : q + k < e) :
    (GDKanalyticallead T r b p lead d tpe).tloc (q + k) =
        (if (k : Int) + lead < e - q then b.tloc (q + k + lead) else d) ∧
      ((k : Int) + lead < e - q → q ≤ q + k + lead ∧ q + (k : Int) + lead < e) := by
  refine ⟨?_, fun h => by omega⟩
  have hfix := lead_imp_spec T b.count b.tloc p lead d r.tloc hlead q e hpart (q + k)
    (by omega) hk
  have hoth := lead_default_spec T b.count b.tloc p lead d r.tloc r.count hlead q e hpart
    (q + k) (by omega) hk
  have hc : (q + (k : Int) + (lead : Int) < e) ↔ ((k : Int) + lead < e - q) := by omega
  simp only [hc] at hfix hoth
  cases tpe
  case other =>
    have h0 := hr rfl
    simp only [GDKanalyticallead]
    rw [h0] at hoth ⊢
    simpa using hoth
  all_goals exact hfix

/-- Witness of C10: the `int` column 1..7 with partitions starting at rows 0, 3
and 4, lead 2, default -1: row 0 of the partition `[4, 7)`. -/
theorem lead_shifts_within_partition_witness :
    (GDKanalyticallead (intAtom 32) (BAT.ofList 0 []) (BAT.ofList 0 [1, 2, 3, 4, 5, 6, 7])
        (some (BAT.ofList false [false, false, false, true, true, false, false])) 2 (-1)
        TYPE.int).tloc (4 + (0 : Nat)) =
        (if ((0 : Nat) : Int) + (2 : Nat) < 7 - 4 then
            (BAT.ofList (0 : Int) [1, 2, 3, 4, 5, 6, 7]).tloc (4 + (0 : Nat) + (2 : Nat))
          else -1) ∧
      (((0 : Nat) : Int) + (2 : Nat) < 7 - 4 →
        (4 : Int) ≤ 4 + (0 : Nat) + (2 : Nat) ∧ (4 : Int) + (0 : Nat) + (2 : Nat) < 7) :=
  lead_shifts_within_partition (intAtom 32) (BAT.ofList 0 [])
    (BAT.ofList 0 [1, 2, 3, 4, 5, 6, 7])
    (some (BAT.ofList false [false, false, false, true, true, false, false])) 2 (-1)
    TYPE.int (by decide) (by decide) 4 7
    ⟨by decide, by decide, by decide, Or.inr (by decide), Or.inl (by decide), by
      intro u h1 h2
      have : u = 5 ∨ u = 6 := by omega
      rcases this with rfl | rfl <;> decide⟩
    0 (by decide)

/-! ## `GDKanalyticalsum` -/

theorem intAtom_is_nil_iff (w : Nat) (v : Int) :
    (intAtom w).is_nil v = true ↔ v = -(2 ^ (w - 1)) := by
  simp [intAtom]

theorem GDK_max_eq (w : Nat) : GDK_max w = 2 ^ (w - 1) - 1 := rfl

theorem pow_le_of_width (w1 w2 : Nat) (h : w1 ≤ w2) :
    (2 : Int) ^ (w1 - 1) ≤ 2 ^ (w2 - 1) :=
  pow_le_pow_right₀ (by norm_num) (by omega)

/-- The inner loop of sum started on an accumulator that is not NIL. -/
theorem sum_frame_acc (w1 w2 : Nat) (b : Heap Int) :
    ∀ (n : Nat) (bs acc : Int), -(GDK_max w2) ≤ acc →
      ((∀ m, m ≤ ((frame_values b n bs).filter (fun v => !(intAtom w1).is_nil v)).length →
          -(GDK_max w2) ≤ acc +
            (((frame_values b n bs).filter (fun v => !(intAtom w1).is_nil v)).take m).sum ∧
          acc + (((frame_values b n bs).filter (fun v => !(intAtom w1).is_nil v)).take m).sum
            ≤ GDK_max w2) →
        sum_frame w1 w2 b n bs acc = .ok (acc +
          ((frame_values b n bs).filter (fun v => !(intAtom w1).is_nil v)).sum)) ∧
      ((¬ ∀ m, m ≤ ((frame_values b n bs).filter (fun v => !(intAtom w1).is_nil v)).length →
          -(GDK_max w2) ≤ acc +
            (((frame_values b n bs).filter (fun v => !(intAtom w1).is_nil v)).take m).sum ∧
          acc + (((frame_values b n bs).filter (fun v => !(intAtom w1).is_nil v)).take m).sum
            ≤ GDK_max w2) →
        acc ≤ GDK_max w2 →
        sum_frame w1 w2 b n bs acc = .error .calc_overflow) := by
  intro n
  induction n with
  | zero =>
    intro bs acc hlo
    refine ⟨fun _ => by simp [sum_frame, frame_values], ?_⟩
    intro hbad hhi
    exfalso
    apply hbad
    intro m _
    simp [frame_values]
    exact ⟨hlo, hhi⟩
  | succ n ih =>
    intro bs acc hlo
    have hnn : (intAtom w2).is_nil acc = false := by
      cases h : (intAtom w2).is_nil acc with
      | false => rfl
      | true =>
        rw [intAtom_is_nil_iff] at h
        rw [GDK_max_eq] at hlo
        omega
    by_cases hv : (intAtom w1).is_nil (b bs) = true
    · -- a NIL element is skipped
      simp only [sum_frame, frame_values, hv, Bool.not_true, Bool.false_eq_true, if_false,
        List.filter_cons_of_neg, not_false_eq_true]
      exact ih (bs + 1) acc hlo
    · have hv' : (intAtom w1).is_nil (b bs) = false := by simpa using hv
      simp only [sum_frame, frame_values, hv', Bool.not_false, if_true, hnn,
        Bool.false_eq_true, if_false, List.filter_cons_of_pos]
      by_cases hadd : -(GDK_max w2) ≤ b bs + acc ∧ b bs + acc ≤ GDK_max w2
      · simp only [ADD_WITH_CHECK, if_pos hadd]
        obtain ⟨ih1, ih2⟩ := ih (bs + 1) (b bs + acc) hadd.1
        constructor
        · intro hok
          rw [ih1]
          · simp only [List.sum_cons]
            congr 1; ring
          · intro m hm
            have := hok (m + 1) (by simp only [List.length_cons]; omega)
            simp only [List.take_succ_cons, List.sum_cons] at this
            constructor <;> omega
        · intro hbad _
          apply ih2 _ hadd.2
          intro hall
          apply hbad
          intro m hm
          cases m with
          | zero =>
            simp only [List.take_zero, List.sum_nil, add_zero]
            omega
          | succ m =>
            have := hall m (by simp only [List.length_cons] at hm; omega)
            simp only [List.take_succ_cons, List.sum_cons]
            omega
      · simp only [ADD_WITH_CHECK, if_neg hadd]
        constructor
        · intro hok
          exfalso
          apply hadd
          have := hok 1 (by simp only [List.length_cons]; omega)
          simp only [List.take_succ_cons, List.take_zero, List.sum_cons, List.sum_nil,
            add_zero] at this
          omega
        · intro _ _
          trivial

/-- A non-NIL value of the narrower type is a non-NIL value of the wider
type, unchanged by the cast. -/
theorem widen_value (w1 w2 : Nat) (h1 : 1 ≤ w1) (h12 : w1 ≤ w2) (v : Int)
    (hty : in_type w1 v) (hv : (intAtom w1).is_nil v = false) :
    wrap w2 v = v ∧ -(GDK_max w2) ≤ v ∧ v ≤ GDK_max w2 := by
  have hp := pow_le_of_width w1 w2 h12
  have hne : v ≠ -(2 ^ (w1 - 1)) := by
    intro h
    rw [← intAtom_is_nil_iff] at h
    rw [h] at hv
    exact absurd hv (by simp)
  obtain ⟨a, c⟩ := hty
  rw [GDK_max_eq]
  refine ⟨wrap_id w2 (by omega) v (by omega) (by omega), by omega, by omega⟩

/-- The inner loop of sum started on the NIL accumulator. -/
theorem sum_frame_nil (w1 w2 : Nat) (h1 : 1 ≤ w1) (h12 : w1 ≤ w2) (b : Heap Int) :
    ∀ (n : Nat) (bs : Int), (∀ x, bs ≤ x → x < bs + n → in_type w1 (b x)) →
      (running_sums_in_range (GDK_max w2)
          ((frame_values b n bs).filter (fun v => !(intAtom w1).is_nil v)) →
        sum_frame w1 w2 b n bs (intAtom w2).nil = .ok
          (if (frame_values b n bs).filter (fun v => !(intAtom w1).is_nil v) = []
            then (intAtom w2).nil
            else ((frame_values b n bs).filter (fun v => !(intAtom w1).is_nil v)).sum)) ∧
      (¬ running_sums_in_range (GDK_max w2)
          ((frame_values b n bs).filter (fun v => !(intAtom w1).is_nil v)) →
        sum_frame w1 w2 b n bs (intAtom w2).nil = .error .calc_overflow) := by
  have hM : (0 : Int) ≤ GDK_max w2 := by
    rw [GDK_max_eq]
    have : (0 : Int) < 2 ^ (w2 - 1) := by positivity
    omega
  intro n
  induction n with
  | zero =>
    intro bs _
    refine ⟨fun _ => by simp [sum_frame, frame_values], ?_⟩
    intro hbad
    exfalso
    apply hbad
    intro m _
    simp only [frame_values, List.filter_nil, List.take_nil, List.sum_nil]
    omega
  | succ n ih =>
    intro bs hty
    have hnil : (intAtom w2).is_nil (intAtom w2).nil = true := by simp [intAtom]
    by_cases hv : (intAtom w1).is_nil (b bs) = true
    · simp only [sum_frame, frame_values, hv, Bool.not_true, Bool.false_eq_true, if_false,
        List.filter_cons_of_neg, not_false_eq_true]
      exact ih (bs + 1) (fun x hx1 hx2 => hty x (by omega) (by push_cast; omega))
    · have hv' : (intAtom w1).is_nil (b bs) = false := by simpa using hv
      obtain ⟨hw, hlo, hhi⟩ := widen_value w1 w2 h1 h12 (b bs)
        (hty bs (le_refl _) (by push_cast; omega)) hv'
      simp only [sum_frame, frame_values, hv', Bool.not_false, if_true, hnil,
        List.filter_cons_of_pos, hw]
      obtain ⟨a1, a2⟩ := sum_frame_acc w1 w2 b n (bs + 1) (b bs) hlo
      constructor
      · intro hok
        rw [a1]
        · simp
        · intro m hm
          have := hok (m + 1) (by simp only [List.length_cons]; omega)
          simpa only [List.take_succ_cons, List.sum_cons] using this
      · intro hbad
        apply a2 _ hhi
        intro hall
        apply hbad
        intro m hm
        cases m with
        | zero =>
          simp only [List.take_zero, List.sum_nil]
          omega
        | succ m =>
          have := hall m (by simp only [List.length_cons] at hm; omega)
          simpa only [List.take_succ_cons, List.sum_cons] using this

/-- The row loop of sum, entered with the NIL accumulator: when every frame
keeps its partial sums in range the loop ends normally, having written the
frame sums, otherwise it leaves through `calc_overflow`. -/
theorem sum_rows_spec (w1 w2 : Nat) (h1 : 1 ≤ w1) (h12 : w1 ≤ w2) (b start end_ : Heap Int) :
    ∀ (n : Nat) (i : Int) (st : Heap Int × Bool),
      (∀ y, i ≤ y → y < i + n → ∀ x, start y ≤ x → x < end_ y → in_type w1 (b x)) →
      ((∀ y, i ≤ y → y < i + n →
          running_sums_in_range (GDK_max w2) (non_nil_values w1 b (start y) (end_ y))) →
        ∃ res, sum_rows w1 w2 b start end_ n i (intAtom w2).nil st = .ok res ∧
          ∀ y, res.1 y =
            if i ≤ y ∧ y < i + n then frame_sum w1 w2 b (start y) (end_ y) else st.1 y) ∧
      ((¬ ∀ y, i ≤ y → y < i + n →
          running_sums_in_range (GDK_max w2) (non_nil_values w1 b (start y) (end_ y))) →
        sum_rows w1 w2 b start end_ n i (intAtom w2).nil st = .error .calc_overflow) := by
  intro n
  induction n with
  | zero =>
    intro i st _
    constructor
    · intro _
      refine ⟨st, rfl, ?_⟩
      intro y
      have : ¬ (i ≤ y ∧ y < i + ((0 : Nat) : Int)) := by omega
      rw [if_neg this]
    · intro hbad
      exfalso
      apply hbad
      intro y hy1 hy2
      omega
  | succ n ih =>
    intro i st hty
    obtain ⟨rb, hn⟩ := st
    obtain ⟨f1, f2⟩ := sum_frame_nil w1 w2 h1 h12 b (end_ i - start i).toNat (start i)
      (fun x hx1 hx2 => hty i (le_refl _) (by push_cast; omega) x hx1 (by omega))
    have htail : ∀ y, i + 1 ≤ y → y < i + 1 + n →
        ∀ x, start y ≤ x → x < end_ y → in_type w1 (b x) :=
      fun y hy1 hy2 => hty y (by omega) (by push_cast; omega)
    by_cases hrow : running_sums_in_range (GDK_max w2) (non_nil_values w1 b (start i) (end_ i))
    · have hf := f1 hrow
      have hval : (if (frame_values b (end_ i - start i).toNat (start i)).filter
            (fun v => !(intAtom w1).is_nil v) = [] then (intAtom w2).nil
          else ((frame_values b (end_ i - start i).toNat (start i)).filter
            (fun v => !(intAtom w1).is_nil v)).sum) = frame_sum w1 w2 b (start i) (end_ i) := rfl
      rw [hval] at hf
      have hstep : ∀ st', st'.1 = store rb i (frame_sum w1 w2 b (start i) (end_ i)) →
          ((∀ y, i ≤ y → y < i + ((n + 1 : Nat) : Int) →
              running_sums_in_range (GDK_max w2) (non_nil_values w1 b (start y) (end_ y))) →
            ∃ res, sum_rows w1 w2 b start end_ n (i + 1) (intAtom w2).nil st' = .ok res ∧
              ∀ y, res.1 y =
                if i ≤ y ∧ y < i + ((n + 1 : Nat) : Int) then
                  frame_sum w1 w2 b (start y) (end_ y)
                else rb y) ∧
          ((¬ ∀ y, i ≤ y → y < i + ((n + 1 : Nat) : Int) →
              running_sums_in_range (GDK_max w2) (non_nil_values w1 b (start y) (end_ y))) →
            sum_rows w1 w2 b start end_ n (i + 1) (intAtom w2).nil st' =
              .error .calc_overflow) := by
        intro st' hst'
        obtain ⟨g1, g2⟩ := ih (i + 1) st' htail
        constructor
        · intro hall
          obtain ⟨res, hres, hv⟩ := g1 (fun y hy1 hy2 => hall y (by omega) (by push_cast; omega))
          refine ⟨res, hres, ?_⟩
          intro y
          rw [hv y, hst']
          by_cases hy : y = i
          · subst hy
            have a1 : ¬ (y + 1 ≤ y ∧ y < y + 1 + (n : Int)) := by omega
            have a2 : (y ≤ y ∧ y < y + ((n + 1 : Nat) : Int)) := by push_cast; omega
            rw [if_neg a1, if_pos a2]; simp
          · by_cases hr : (i ≤ y ∧ y < i + ((n + 1 : Nat) : Int))
            · have a1 : (i + 1 ≤ y ∧ y < i + 1 + (n : Int)) := by push_cast at hr; omega
              rw [if_pos a1, if_pos hr]
            · have a1 : ¬ (i + 1 ≤ y ∧ y < i + 1 + (n : Int)) := by push_cast at hr; omega
              rw [if_neg a1, if_neg hr]
              exact store_ne _ _ _ _ hy
        · intro hbad
          apply g2
          intro hall
          apply hbad
          intro y hy1 hy2
          by_cases hy : y = i
          · subst hy; exact hrow
          · exact hall y (by omega) (by push_cast at hy2; omega)
      simp only [sum_rows, hf]
      by_cases hc : (intAtom w2).is_nil (frame_sum w1 w2 b (start i) (end_ i)) = true
      · rw [if_pos hc]
        have hcn : frame_sum w1 w2 b (start i) (end_ i) = (intAtom w2).nil := by
          rw [intAtom_is_nil_iff] at hc
          rw [hc]; rfl
        rw [hcn]
        have := hstep (store rb i (intAtom w2).nil, true) (by rw [hcn])
        exact this
      · rw [if_neg hc]
        exact hstep (store rb i (frame_sum w1 w2 b (start i) (end_ i)), hn) rfl
    · have hf := f2 hrow
      simp only [sum_rows, hf]
      constructor
      · intro hall
        exact absurd (hall i (le_refl _) (by push_cast; omega)) hrow
      · intro _
        trivial

theorem sum_types_widths (tp1 tp2 : TYPE) (w1 w2 : Nat)
    (h : sum_types tp1 tp2 = some (w1, w2)) : 1 ≤ w1 ∧ w1 ≤ w2 := by
  cases tp1 <;> cases tp2 <;> simp [sum_types] at h <;> omega

/-- C1: `GDKanalyticalsum` over a supported integer pair (`sum_types` gives
the widths, the input type no wider than the result type), on a column whose
frame elements are values of the input type: if in every frame each running
partial sum of the non-NIL elements, taken in row order, stays inside
`[-max, max]` of the result type, the call succeeds and output row `i` is NIL
when frame `i` has no non-NIL element and otherwise the mathematical sum of the
non-NIL elements at the positions `start[i] .. end[i]-1`; and if in some frame
a running partial sum leaves that range, the whole call fails with the overflow
error. -/
theorem sum_exact_or_overflow (r b s e : BAT Int) (tp1 tp2 : TYPE) (w1 w2 : Nat)
    (hty : sum_types tp1 tp2 = some (w1, w2))
    (hval : ∀ i : Nat, i < b.count →
      ∀ x, s.tloc i ≤ x → x < e.tloc i → in_type w1 (b.tloc x)) :
    ((∀ i : Nat, i < b.count →
        running_sums_in_range (GDK_max w2) (non_nil_values w1 b.tloc (s.tloc i) (e.tloc i))) →
      ∃ r', GDKanalyticalsum r b s e tp1 tp2 = .ok r' ∧
        ∀ i : Nat, i < b.count → r'.tloc i =
          if non_nil_values w1 b.tloc (s.tloc i) (e.tloc i) = [] then (intAtom w2).nil
          else (non_nil_values w1 b.tloc (s.tloc i) (e.tloc i)).sum) ∧
    ((∃ i : Nat, i < b.count ∧
        ¬ running_sums_in_range (GDK_max w2)
          (non_nil_values w1 b.tloc (s.tloc i) (e.tloc i))) →
      GDKanalyticalsum r b s e tp1 tp2 = .error .calc_overflow) := by
  obtain ⟨h1, h12⟩ := sum_types_widths tp1 tp2 w1 w2 hty
  obtain ⟨g1, g2⟩ := sum_rows_spec w1 w2 h1 h12 b.tloc s.tloc e.tloc b.count 0 (r.tloc, false)
    (by
      intro y hy1 hy2 x hx1 hx2
      have := hval y.toNat (by omega) x
      rw [Int.toNat_of_nonneg hy1] at this
      exact this hx1 hx2)
  constructor
  · intro hall
    obtain ⟨res, hres, hv⟩ := g1 (by
      intro y hy1 hy2
      have := hall y.toNat (by omega)
      rw [Int.toNat_of_nonneg hy1] at this
      exact this)
    obtain ⟨rb, hn⟩ := res
    simp only [GDKanalyticalsum, hty, hres]
    refine ⟨_, rfl, ?_⟩
    intro i hi
    have h := hv i
    simp only at h
    show rb i = _
    rw [h, if_pos ⟨by omega, by omega⟩]
    rfl
  · rintro ⟨i, hi, hbad⟩
    have := g2 (fun hall => hbad (hall i (by omega) (by omega)))
    simp only [GDKanalyticalsum, hty, this]

/-- Witness of C1: the `bte` column 1, 2, 3 summed into `int` with every frame
`[0, 3)`. -/
theorem sum_exact_or_overflow_witness :
    ((∀ i : Nat, i < (BAT.ofList (0 : Int) [1, 2, 3]).count →
        running_sums_in_range (GDK_max 32) (non_nil_values 8 (BAT.ofList (0 : Int) [1, 2, 3]).tloc
          ((BAT.ofList (0 : Int) [0, 0, 0]).tloc i) ((BAT.ofList (0 : Int) [3, 3, 3]).tloc i))) →
      ∃ r', GDKanalyticalsum (BAT.ofList 0 []) (BAT.ofList 0 [1, 2, 3]) (BAT.ofList 0 [0, 0, 0])
          (BAT.ofList 0 [3, 3, 3]) TYPE.bte TYPE.int = .ok r' ∧
        ∀ i : Nat, i < (BAT.ofList (0 : Int) [1, 2, 3]).count → r'.tloc i =
          if non_nil_values 8 (BAT.ofList (0 : Int) [1, 2, 3]).tloc
              ((BAT.ofList (0 : Int) [0, 0, 0]).tloc i)
              ((BAT.ofList (0 : Int) [3, 3, 3]).tloc i) = [] then (intAtom 32).nil
          else (non_nil_values 8 (BAT.ofList (0 : Int) [1, 2, 3]).tloc
              ((BAT.ofList (0 : Int) [0, 0, 0]).tloc i)
              ((BAT.ofList (0 : Int) [3, 3, 3]).tloc i)).sum) ∧
    ((∃ i : Nat, i < (BAT.ofList (0 : Int) [1, 2, 3]).count ∧
        ¬ running_sums_in_range (GDK_max 32)
          (non_nil_values 8 (BAT.ofList (0 : Int) [1, 2, 3]).tloc
            ((BAT.ofList (0 : Int) [0, 0, 0]).tloc i)
            ((BAT.ofList (0 : Int) [3, 3, 3]).tloc i))) →
      GDKanalyticalsum (BAT.ofList 0 []) (BAT.ofList 0 [1, 2, 3]) (BAT.ofList 0 [0, 0, 0])
        (BAT.ofList 0 [3, 3, 3]) TYPE.bte TYPE.int = .error .calc_overflow) :=
  sum_exact_or_overflow (BAT.ofList 0 []) (BAT.ofList 0 [1, 2, 3]) (BAT.ofList 0 [0, 0, 0])
    (BAT.ofList 0 [3, 3, 3]) TYPE.bte TYPE.int 8 32 rfl (by
      intro i hi x hx1 hx2
      have hi3 : i < 3 := hi
      have hx : x = 0 ∨ x = 1 ∨ x = 2 := by
        interval_cases i <;> simp [BAT.ofList] at hx1 hx2 <;> omega
      rcases hx with rfl | rfl | rfl <;> simp [BAT.ofList, in_type])

/-- The first example of the specification: `sum` over `[bte] -> int` of the
values 1, 2, 3 with the frame `[0, 3)` on every row yields 6. -/
theorem sum_bte_int_example :
    (GDKanalyticalsum (BAT.ofList 0 []) (BAT.ofList 0 [1, 2, 3]) (BAT.ofList 0 [0, 0, 0])
      (BAT.ofList 0 [3, 3, 3]) TYPE.bte TYPE.int).map BAT.rows = .ok [6, 6, 6] := by
  decide

/-- The second example of the specification: `sum` over `[bte] -> bte` of 127
and 127 is rejected with the overflow error. -/
theorem sum_bte_bte_overflow_example :
    (GDKanalyticalsum (BAT.ofList 0 []) (BAT.ofList 0 [127, 127]) (BAT.ofList 0 [0, 0])
      (BAT.ofList 0 [2, 2]) TYPE.bte TYPE.bte).map BAT.rows = .error .calc_overflow := by
  decide

/-! ## Degenerate parameters -/

theorem nth_of_bound_nil (tp2 : TYPE) (w2 : Nat) (h2 : tp2.bits = some w2) :
    nth_of_bound tp2 (intAtom w2).nil = .ok (intAtom 64).nil := by
  cases tp2 <;> simp [TYPE.bits] at h2 <;> subst h2 <;> simp [nth_of_bound, intAtom]

/-- C18: a degenerate parameter gives an all-NIL result. `GDKanalyticallag`
and `GDKanalyticallead` called with the none sentinel as offset,
`GDKanalyticalntile` called with the NIL of its type as bucket count, and
`GDKanalyticalnthvalue` called in constant mode with the NIL of the bound type
each succeed with a result of `cnt` rows, every one of them NIL, whatever the
input values, the default and the partition markers are. (In the branch of lag
and lead for the other types the rows are appended to the result column, which
is empty at the call.) -/
theorem degenerate_parameter_all_nil {α : Type} (T : Atom α) (r b : BAT α)
    (p : Option (BAT Bool)) (d : α) (tpe : TYPE) (hr : tpe = TYPE.other → r.count = 0)
    (rn : BAT Int) (tpn : TYPE) (wn : Nat) (hn : tpn.bits = some wn)
    (s e : BAT Int) (tp1 tp2 : TYPE) (w2 : Nat) (h2 : tp2.bits = some w2) :
    ((GDKanalyticallag T r b p BUN_NONE d tpe).count = b.count ∧
      ∀ i : Nat, i < b.count → (GDKanalyticallag T r b p BUN_NONE d tpe).tloc i = T.nil) ∧
    ((GDKanalyticallead T r b p BUN_NONE d tpe).count = b.count ∧
      ∀ i : Nat, i < b.count → (GDKanalyticallead T r b p BUN_NONE d tpe).tloc i = T.nil) ∧
    (∃ r', GDKanalyticalntile rn b p tpn (intAtom wn).nil = .ok r' ∧ r'.count = b.count ∧
      ∀ i : Nat, i < b.count → r'.tloc i = (intAtom wn).nil) ∧
    (∃ r', GDKanalyticalnthvalue T r b s e (NthArg.bound (intAtom w2).nil) tp1 tp2 = .ok r' ∧
      r'.count = b.count ∧ ∀ i : Nat, i < b.count → r'.tloc i = T.nil) := by
  have hfill : ∀ (r0 : Heap α) (i : Nat), i < b.count → fill T.nil b.count 0 r0 i = T.nil := by
    intro r0 i hi
    rw [fill_val, if_pos ⟨by omega, by omega⟩]
  refine ⟨⟨rfl, ?_⟩, ⟨rfl, ?_⟩, ?_, ?_⟩
  · intro i hi
    cases tpe
    case other =>
      simp only [GDKanalyticallag, lag_default, if_true, hr rfl]
      exact hfill _ i hi
    all_goals
      simp only [GDKanalyticallag, ANALYTICAL_LAG_IMP, if_true]
      exact hfill _ i hi
  · intro i hi
    cases tpe
    case other =>
      simp only [GDKanalyticallead, lead_default, if_true, hr rfl]
      exact hfill _ i hi
    all_goals
      simp only [GDKanalyticallead, ANALYTICAL_LEAD_IMP, if_true]
      exact hfill _ i hi
  · have hnil : (intAtom wn).is_nil (intAtom wn).nil = true := by simp [intAtom]
    simp only [GDKanalyticalntile, hn, ANALYTICAL_NTILE_IMP, hnil, if_true]
    refine ⟨_, rfl, rfl, ?_⟩
    intro i hi
    show fill (intAtom wn).nil b.count 0 rn.tloc i = (intAtom wn).nil
    rw [fill_val, if_pos ⟨by omega, by omega⟩]
  · have hnil : (intAtom 64).is_nil (intAtom 64).nil = true := by simp [intAtom]
    simp only [GDKanalyticalnthvalue, nth_of_bound_nil tp2 w2 h2,
      ANALYTICAL_NTHVALUE_IMP_SINGLE_FIXED, hnil, if_true]
    refine ⟨_, rfl, rfl, ?_⟩
    intro i hi
    exact hfill _ i hi

/-- Witness of C18: an `int` column of three rows with markers, a `bte` bucket
count and an `sht` bound. -/
theorem degenerate_parameter_all_nil_witness :
    ((GDKanalyticallag (intAtom 32) (BAT.ofList 0 []) (BAT.ofList 0 [1, 2, 3])
        (some (BAT.ofList false [false, true, false])) BUN_NONE 7 TYPE.int).count =
        (BAT.ofList (0 : Int) [1, 2, 3]).count ∧
      ∀ i : Nat, i < (BAT.ofList (0 : Int) [1, 2, 3]).count →
        (GDKanalyticallag (intAtom 32) (BAT.ofList 0 []) (BAT.ofList 0 [1, 2, 3])
          (some (BAT.ofList false [false, true, false])) BUN_NONE 7 TYPE.int).tloc i =
          (intAtom 32).nil) ∧
    ((GDKanalyticallead (intAtom 32) (BAT.ofList 0 []) (BAT.ofList 0 [1, 2, 3])
        (some (BAT.ofList false [false, true, false])) BUN_NONE 7 TYPE.int).count =
        (BAT.ofList (0 : Int) [1, 2, 3]).count ∧
      ∀ i : Nat, i < (BAT.ofList (0 : Int) [1, 2, 3]).count →
        (GDKanalyticallead (intAtom 32) (BAT.ofList 0 []) (BAT.ofList 0 [1, 2, 3])
          (some (BAT.ofList false [false, true, false])) BUN_NONE 7 TYPE.int).tloc i =
          (intAtom 32).nil) ∧
    (∃ r', GDKanalyticalntile (BAT.ofList 0 []) (BAT.ofList (0 : Int) [1, 2, 3])
        (some (BAT.ofList false [false, true, false])) TYPE.bte (intAtom 8).nil = .ok r' ∧
      r'.count = (BAT.ofList (0 : Int) [1, 2, 3]).count ∧
      ∀ i : Nat, i < (BAT.ofList (0 : Int) [1, 2, 3]).count → r'.tloc i = (intAtom 8).nil) ∧
    (∃ r', GDKanalyticalnthvalue (intAtom 32) (BAT.ofList 0 []) (BAT.ofList 0 [1, 2, 3])
        (BAT.ofList 0 [0, 0, 0]) (BAT.ofList 0 [3, 3, 3])
        (NthArg.bound (intAtom 16).nil) TYPE.int TYPE.sht = .ok r' ∧
      r'.count = (BAT.ofList (0 : Int) [1, 2, 3]).count ∧
      ∀ i : Nat, i < (BAT.ofList (0 : Int) [1, 2, 3]).count → r'.tloc i = (intAtom 32).nil) :=
  degenerate_parameter_all_nil (intAtom 32) (BAT.ofList 0 []) (BAT.ofList 0 [1, 2, 3])
    (some (BAT.ofList false [false, true, false])) 7 TYPE.int (by decide)
    (BAT.ofList 0 []) TYPE.bte 8 rfl (BAT.ofList 0 [0, 0, 0]) (BAT.ofList 0 [3, 3, 3])
    TYPE.int TYPE.sht 16 rfl

/-! ## Lag followed by lead -/

/-- Row `x` of the result of lag, inside the partition `[q, e)`. -/
theorem GDKanalyticallag_row {α : Type} (T : Atom α) (r b : BAT α)
    (p : Option (BAT Bool)) (lag : Nat) (d : α) (tpe : TYPE)
    (hlag : lag ≠ BUN_NONE) (hr : tpe = TYPE.other → r.count = 0)
    (q e : Int) (hpart : IsPartition p b.count q e) (x : Int) (hq : q ≤ x) (he : x < e) :
    (GDKanalyticallag T r b p lag d tpe).tloc x =
      if x - q < lag then d else b.tloc (x - lag) := by
  have hfix := lag_imp_spec T b.count b.tloc p lag d r.tloc hlag q e hpart x hq he
  have hoth := lag_default_spec T b.count b.tloc p lag d r.tloc r.count hlag q e hpart x hq he
  cases tpe
  case other =>
    have h0 := hr rfl
    simp only [GDKanalyticallag]
    rw [h0] at hoth ⊢
    simpa using hoth
  all_goals exact hfix

/-- Row `x` of the result of lead, inside the partition `[q, e)`. -/
theorem GDKanalyticallead_row {α : Type} (T : Atom α) (r b : BAT α)
    (p : Option (BAT Bool)) (lead : Nat) (d : α) (tpe : TYPE)
    (hlead : lead ≠ BUN_NONE) (hr : tpe = TYPE.other → r.count = 0)
    (q e : Int) (hpart : IsPartition p b.count q e) (x : Int) (hq : q ≤ x) (he : x < e) :
    (GDKanalyticallead T r b p lead d tpe).tloc x =
      if x + lead < e then b.tloc (x + lead) else d := by
  have hfix := lead_imp_spec T b.count b.tloc p lead d r.tloc hlead q e hpart x hq he
  have hoth := lead_default_spec T b.count b.tloc p lead d r.tloc r.count hlead q e hpart x hq he
  cases tpe
  case other =>
    have h0 := hr rfl
    simp only [GDKanalyticallead]
    rw [h0] at hoth ⊢
    simpa using hoth
  all_goals exact hfix

/-- Counterexample to C11 as stated: on the `int` column 1, 2, 3, 4, 5 (one
partition), lag by 2 followed by lead by 2 with the default -1 does not give
back row 4, a row beyond index 2: it holds the default. -/
theorem lag_then_lead_counterexample :
    ¬ ((GDKanalyticallead (intAtom 32) (BAT.ofList 0 [])
          (GDKanalyticallag (intAtom 32) (BAT.ofList 0 []) (BAT.ofList 0 [1, 2, 3, 4, 5])
            none 2 (-1) TYPE.int)
          none 2 (-1) TYPE.int).tloc 4 = (BAT.ofList (0 : Int) [1, 2, 3, 4, 5]).tloc 4) := by
  decide

/-- C11 (amended): for every column `b`, partition markers `p` (or none),
offset `n` other than the none sentinel and default `d`, applying lag(n, d) to
`b` and then lead(n, d) to the result, with the same markers, gives back `b`
at every row `x` of a partition `[q, e)` with `x + n < e` (the first
`e - q - n` rows of the partition) and the default `d` at the last `n` rows of
the partition. -/
theorem lag_then_lead {α : Type} (T : Atom α) (r1 r2 b : BAT α)
    (p : Option (BAT Bool)) (n : Nat) (d : α) (tpe : TYPE)
    (hn : n ≠ BUN_NONE) (hr1 : tpe = TYPE.other → r1.count = 0)
    (hr2 : tpe = TYPE.other → r2.count = 0)
    (q e : Int) (hpart : IsPartition p b.count q e) (x : Int) (hq : q ≤ x) (he : x < e) :
    (GDKanalyticallead T r2 (GDKanalyticallag T r1 b p n d tpe) p n d tpe).tloc x =
      if x + n < e then b.tloc x else d := by
  have hcount : (GDKanalyticallag T r1 b p n d tpe).count = b.count := rfl
  rw [GDKanalyticallead_row T r2 _ p n d tpe hn hr2 q e (by rw [hcount]; exact hpart) x hq he]
  by_cases hx : x + n < e
  · rw [if_pos hx, if_pos hx,
      GDKanalyticallag_row T r1 b p n d tpe hn hr1 q e hpart (x + n) (by omega) hx]
    have h1 : ¬ (x + (n : Int) - q < (n : Int)) := by omega
    rw [if_neg h1]
    congr 1
    omega
  · rw [if_neg hx, if_neg hx]

/-- Witness of C11 (amended): the `int` column 1..7 with partitions starting at
rows 0, 3 and 4, offset 2, default -1, row 4 of the partition `[4, 7)`. -/
theorem lag_then_lead_witness :
    (GDKanalyticallead (intAtom 32) (BAT.ofList 0 [])
        (GDKanalyticallag (intAtom 32) (BAT.ofList 0 []) (BAT.ofList 0 [1, 2, 3, 4, 5, 6, 7])
          (some (BAT.ofList false [false, false, false, true, true, false, false])) 2 (-1)
          TYPE.int)
        (some (BAT.ofList false [false, false, false, true, true, false, false])) 2 (-1)
        TYPE.int).tloc 4 =
      if (4 : Int) + (2 : Nat) < 7 then (BAT.ofList (0 : Int) [1, 2, 3, 4, 5, 6, 7]).tloc 4
      else -1 :=
  lag_then_lead (intAtom 32) (BAT.ofList 0 []) (BAT.ofList 0 [])
    (BAT.ofList 0 [1, 2, 3, 4, 5, 6, 7])
    (some (BAT.ofList false [false, false, false, true, true, false, false])) 2 (-1)
    TYPE.int (by decide) (by decide) (by decide) 4 7
    ⟨by decide, by decide, by decide, Or.inr (by decide), Or.inl (by decide), by
      intro u h1 h2
      have : u = 5 ∨ u = 6 := by omega
      rcases this with rfl | rfl <;> decide⟩
    4 (by decide) (by decide)

/-! ## `GDKanalyticalfirst` and `GDKanalyticallast` -/

theorem GDKanalyticalfirst_row {α : Type} (T : Atom α) (r b : BAT α) (s e : BAT Int)
    (tpe : TYPE) (i : Nat) (hi : i < b.count) :
    (GDKanalyticalfirst T r b s e tpe).tloc i =
      if e.tloc i > s.tloc i then b.tloc (s.tloc i) else T.nil := by
  simp only [GDKanalyticalfirst, ANALYTICAL_FIRST_IMP]
  rw [row_loop_val, if_pos ⟨by omega, by omega⟩]

theorem GDKanalyticallast_row {α : Type} (T : Atom α) (r b : BAT α) (s e : BAT Int)
    (tpe : TYPE) (i : Nat) (hi : i < b.count) :
    (GDKanalyticallast T r b s e tpe).tloc i =
      if e.tloc i > s.tloc i then b.tloc (e.tloc i - 1) else T.nil := by
  simp only [GDKanalyticallast, ANALYTICAL_LAST_IMP]
  rw [row_loop_val, if_pos ⟨by omega, by omega⟩]

/-- C12: `GDKanalyticalfirst` and `GDKanalyticallast`: for every row `i`, if
`end[i] > start[i]` the output is the input element at `start[i]` (first)
respectively at `end[i] - 1` (last); if `end[i] <= start[i]` (empty or
negative frame) the output is NIL, and it is so for every content of the input
column: no input element has a part in it. -/
theorem first_last_of_frame {α : Type} (T : Atom α) (r1 r2 b : BAT α) (s e : BAT Int)
    (tpe : TYPE) (i : Nat) (hi : i < b.count) :
    (e.tloc i > s.tloc i →
      (GDKanalyticalfirst T r1 b s e tpe).tloc i = b.tloc (s.tloc i) ∧
      (GDKanalyticallast T r2 b s e tpe).tloc i = b.tloc (e.tloc i - 1)) ∧
    (e.tloc i ≤ s.tloc i →
      ∀ b' : BAT α, b'.count = b.count →
        (GDKanalyticalfirst T r1 b' s e tpe).tloc i = T.nil ∧
        (GDKanalyticallast T r2 b' s e tpe).tloc i = T.nil) := by
  constructor
  · intro h
    rw [GDKanalyticalfirst_row T r1 b s e tpe i hi, GDKanalyticallast_row T r2 b s e tpe i hi,
      if_pos h, if_pos h]
    exact ⟨rfl, rfl⟩
  · intro h b' hb'
    have h' : ¬ e.tloc i > s.tloc i := by omega
    rw [GDKanalyticalfirst_row T r1 b' s e tpe i (by omega),
      GDKanalyticallast_row T r2 b' s e tpe i (by omega), if_neg h', if_neg h']
    exact ⟨rfl, rfl⟩

/-- Witness of C12: the `int` column 5, 7, 9 with the frames `[0, 3)`, `[1, 1)`
and `[2, 3)`, row 0. -/
theorem first_last_of_frame_witness :
    ((BAT.ofList (0 : Int) [3, 1, 3]).tloc (0 : Nat) > (BAT.ofList (0 : Int) [0, 1, 2]).tloc (0 : Nat) →
      (GDKanalyticalfirst (intAtom 32) (BAT.ofList 0 []) (BAT.ofList 0 [5, 7, 9])
          (BAT.ofList 0 [0, 1, 2]) (BAT.ofList 0 [3, 1, 3]) TYPE.int).tloc (0 : Nat) =
        (BAT.ofList (0 : Int) [5, 7, 9]).tloc ((BAT.ofList (0 : Int) [0, 1, 2]).tloc (0 : Nat)) ∧
      (GDKanalyticallast (intAtom 32) (BAT.ofList 0 []) (BAT.ofList 0 [5, 7, 9])
          (BAT.ofList 0 [0, 1, 2]) (BAT.ofList 0 [3, 1, 3]) TYPE.int).tloc (0 : Nat) =
        (BAT.ofList (0 : Int) [5, 7, 9]).tloc
          ((BAT.ofList (0 : Int) [3, 1, 3]).tloc (0 : Nat) - 1)) ∧
    ((BAT.ofList (0 : Int) [3, 1, 3]).tloc (0 : Nat) ≤ (BAT.ofList (0 : Int) [0, 1, 2]).tloc (0 : Nat) →
      ∀ b' : BAT Int, b'.count = (BAT.ofList (0 : Int) [5, 7, 9]).count →
        (GDKanalyticalfirst (intAtom 32) (BAT.ofList 0 []) b'
          (BAT.ofList 0 [0, 1, 2]) (BAT.ofList 0 [3, 1, 3]) TYPE.int).tloc (0 : Nat) =
            (intAtom 32).nil ∧
        (GDKanalyticallast (intAtom 32) (BAT.ofList 0 []) b'
          (BAT.ofList 0 [0, 1, 2]) (BAT.ofList 0 [3, 1, 3]) TYPE.int).tloc (0 : Nat) =
            (intAtom 32).nil) :=
  first_last_of_frame (intAtom 32) (BAT.ofList 0 []) (BAT.ofList 0 []) (BAT.ofList 0 [5, 7, 9])
    (BAT.ofList 0 [0, 1, 2]) (BAT.ofList 0 [3, 1, 3]) TYPE.int 0 (by decide)

/-! ## `GDKanalyticalmin` and `GDKanalyticalmax` -/

/-- The inner loop of min/max on an integer column, started on an accumulator
that is not NIL; `le` is the order the operation `OP` selects by. -/
theorem minmax_frame_acc (w : Nat) (OP : Int → Int → Int) (le : Int → Int → Prop)
    (hsel : ∀ v c, OP v c = v ∨ OP v c = c) (hle1 : ∀ v c, le (OP v c) v)
    (hle2 : ∀ v c, le (OP v c) c) (htrans : ∀ x y z, le x y → le y z → le x z)
    (hrefl : ∀ x, le x x) (b : Heap Int) :
    ∀ (n : Nat) (bs acc : Int), (intAtom w).is_nil acc = false →
      (intAtom w).is_nil (minmax_frame (intAtom w) OP b n bs acc) = false ∧
      (minmax_frame (intAtom w) OP b n bs acc = acc ∨
        minmax_frame (intAtom w) OP b n bs acc ∈
          (frame_values b n bs).filter (fun v => !(intAtom w).is_nil v)) ∧
      le (minmax_frame (intAtom w) OP b n bs acc) acc ∧
      ∀ v ∈ (frame_values b n bs).filter (fun v => !(intAtom w).is_nil v),
        le (minmax_frame (intAtom w) OP b n bs acc) v := by
  intro n
  induction n with
  | zero =>
    intro bs acc hacc
    simp only [minmax_frame, frame_values, List.filter_nil, List.not_mem_nil, or_false]
    exact ⟨hacc, trivial, hrefl acc, fun v hv => absurd hv (by simp)⟩
  | succ n ih =>
    intro bs acc hacc
    by_cases hv : (intAtom w).is_nil (b bs) = true
    · simp only [minmax_frame, frame_values, hv, Bool.not_true, Bool.false_eq_true, if_false,
        List.filter_cons_of_neg, not_false_eq_true]
      exact ih (bs + 1) acc hacc
    · have hv' : (intAtom w).is_nil (b bs) = false := by simpa using hv
      have hop : (intAtom w).is_nil (OP (b bs) acc) = false := by
        rcases hsel (b bs) acc with h | h <;> rw [h] <;> assumption
      simp only [minmax_frame, frame_values, hv', Bool.not_false, if_true, hacc,
        Bool.false_eq_true, if_false, List.filter_cons_of_pos]
      obtain ⟨a1, a2, a3, a4⟩ := ih (bs + 1) (OP (b bs) acc) hop
      refine ⟨a1, ?_, htrans _ _ _ a3 (hle2 _ _), ?_⟩
      · rcases a2 with a2 | a2
        · rcases hsel (b bs) acc with h | h
          · right; rw [a2, h]; exact List.mem_cons_self _ _
          · left; rw [a2, h]
        · right; exact List.mem_cons_of_mem _ a2
      · intro u hu
        rcases List.mem_cons.1 hu with rfl | hu
        · exact htrans _ _ _ a3 (hle1 _ _)
        · exact a4 u hu

/-- The inner loop of min/max on an integer column, started on the NIL. -/
theorem minmax_frame_nil (w : Nat) (OP : Int → Int → Int) (le : Int → Int → Prop)
    (hsel : ∀ v c, OP v c = v ∨ OP v c = c) (hle1 : ∀ v c, le (OP v c) v)
    (hle2 : ∀ v c, le (OP v c) c) (htrans : ∀ x y z, le x y → le y z → le x z)
    (hrefl : ∀ x, le x x) (b : Heap Int) :
    ∀ (n : Nat) (bs : Int),
      ((frame_values b n bs).filter (fun v => !(intAtom w).is_nil v) = [] →
        minmax_frame (intAtom w) OP b n bs (intAtom w).nil = (intAtom w).nil) ∧
      ((frame_values b n bs).filter (fun v => !(intAtom w).is_nil v) ≠ [] →
        minmax_frame (intAtom w) OP b n bs (intAtom w).nil ∈
          (frame_values b n bs).filter (fun v => !(intAtom w).is_nil v) ∧
        ∀ v ∈ (frame_values b n bs).filter (fun v => !(intAtom w).is_nil v),
          le (minmax_frame (intAtom w) OP b n bs (intAtom w).nil) v) := by
  have hnil : (intAtom w).is_nil (intAtom w).nil = true := by simp [intAtom]
  intro n
  induction n with
  | zero =>
    intro bs
    simp [minmax_frame, frame_values]
  | succ n ih =>
    intro bs
    by_cases hv : (intAtom w).is_nil (b bs) = true
    · simp only [minmax_frame, frame_values, hv, Bool.not_true, Bool.false_eq_true, if_false,
        List.filter_cons_of_neg, not_false_eq_true]
      exact ih (bs + 1)
    · have hv' : (intAtom w).is_nil (b bs) = false := by simpa using hv
      simp only [minmax_frame, frame_values, hv', Bool.not_false, if_true, hnil,
        List.filter_cons_of_pos]
      obtain ⟨_, a2, a3, a4⟩ := minmax_frame_acc w OP le hsel hle1 hle2 htrans hrefl b n
        (bs + 1) (b bs) hv'
      refine ⟨fun h => absurd h (by simp), fun _ => ⟨?_, ?_⟩⟩
      · rcases a2 with a2 | a2
        · rw [a2]; exact List.mem_cons_self _ _
        · exact List.mem_cons_of_mem _ a2
      · intro u hu
        rcases List.mem_cons.1 hu with rfl | hu
        · exact a3
        · exact a4 u hu

theorem minmax_rows_val (w : Nat) (OP : Int → Int → Int) (b start end_ : Heap Int) :
    ∀ (n : Nat) (i : Int) (st : Heap Int × Bool) (x : Int),
      (minmax_rows (intAtom w) OP b start end_ n i (intAtom w).nil st).1 x =
        if i ≤ x ∧ x < i + n then
          minmax_frame (intAtom w) OP b (end_ x - start x).toNat (start x) (intAtom w).nil
        else st.1 x := by
  intro n
  induction n with
  | zero =>
    intro i st x
    have : ¬ (i ≤ x ∧ x < i + ((0 : Nat) : Int)) := by omega
    rw [if_neg this]; rfl
  | succ n ih =>
    intro i st x
    obtain ⟨rb, hn⟩ := st
    have hstep : ∀ st' : Heap Int × Bool,
        st'.1 = store rb i (minmax_frame (intAtom w) OP b (end_ i - start i).toNat (start i)
          (intAtom w).nil) →
        (minmax_rows (intAtom w) OP b start end_ n (i + 1) (intAtom w).nil st').1 x =
          if i ≤ x ∧ x < i + ((n + 1 : Nat) : Int) then
            minmax_frame (intAtom w) OP b (end_ x - start x).toNat (start x) (intAtom w).nil
          else rb x := by
      intro st' hst'
      rw [ih, hst']
      by_cases hx : x = i
      · subst hx
        have a1 : ¬ (x + 1 ≤ x ∧ x < x + 1 + (n : Int)) := by omega
        have a2 : (x ≤ x ∧ x < x + ((n + 1 : Nat) : Int)) := by push_cast; omega
        rw [if_neg a1, if_pos a2]; simp
      · by_cases hr : (i ≤ x ∧ x < i + ((n + 1 : Nat) : Int))
        · have a1 : (i + 1 ≤ x ∧ x < i + 1 + (n : Int)) := by push_cast at hr; omega
          rw [if_pos a1, if_pos hr]
        · have a1 : ¬ (i + 1 ≤ x ∧ x < i + 1 + (n : Int)) := by push_cast at hr; omega
          rw [if_neg a1, if_neg hr]
          exact store_ne _ _ _ _ hx
    simp only [minmax_rows]
    by_cases hc : (intAtom w).is_nil (minmax_frame (intAtom w) OP b (end_ i - start i).toNat
        (start i) (intAtom w).nil) = true
    · rw [if_pos hc]
      have hcn : minmax_frame (intAtom w) OP b (end_ i - start i).toNat (start i)
          (intAtom w).nil = (intAtom w).nil := by
        rw [intAtom_is_nil_iff] at hc
        rw [hc]; rfl
      rw [hcn]
      exact hstep (store rb i (intAtom w).nil, true) (by rw [hcn])
    · rw [if_neg hc]
      exact hstep _ rfl

/-- On an integer type the `default:` inner loop is the fixed-width one with
the operation `atomcmp(next, curval) SIGN_OP 0 ? curval : next`. -/
theorem minmax_default_frame_eq (w : Nat) (sign_op : Int → Bool) (b : Heap Int) :
    ∀ (n : Nat) (j curval : Int),
      minmax_default_frame (intAtom w) sign_op b n j curval =
        minmax_frame (intAtom w)
          (fun next c => if sign_op ((intAtom w).cmp next c) then c else next) b n j curval := by
  have hcmp : ∀ x : Int, ((intAtom w).cmp x (intAtom w).nil = 0) ↔ (intAtom w).is_nil x = true := by
    intro x
    rw [(intAtom_lawful w).cmp_zero]
    simp [Atom.same, intAtom]
  intro n
  induction n with
  | zero => intro j curval; rfl
  | succ n ih =>
    intro j curval
    simp only [minmax_default_frame, minmax_frame, ih]
    by_cases h1 : (intAtom w).is_nil (b j) = true
    · have h1' := (hcmp (b j)).2 h1
      simp [h1, h1']
    · have h1' : ¬ (intAtom w).cmp (b j) (intAtom w).nil = 0 := fun h => h1 ((hcmp _).1 h)
      have h1b : (intAtom w).is_nil (b j) = false := by simpa using h1
      by_cases h2 : (intAtom w).is_nil curval = true
      · have h2' := (hcmp curval).2 h2
        simp [h1b, h1', h2, h2']
      · have h2' : ¬ (intAtom w).cmp curval (intAtom w).nil = 0 := fun h => h2 ((hcmp _).1 h)
        have h2b : (intAtom w).is_nil curval = false := by simpa using h2
        simp [h1b, h1', h2b, h2']

theorem minmax_default_rows_val (w : Nat) (sign_op : Int → Bool) (b start end_ : Heap Int) :
    ∀ (n : Nat) (i : Int) (st : Heap Int × Bool) (x : Int),
      (minmax_default_rows (intAtom w) sign_op b start end_ n i st).1 x =
        if i ≤ x ∧ x < i + n then
          minmax_default_frame (intAtom w) sign_op b (end_ x - start x).toNat (start x)
            (intAtom w).nil
        else st.1 x := by
  intro n
  induction n with
  | zero =>
    intro i st x
    have : ¬ (i ≤ x ∧ x < i + ((0 : Nat) : Int)) := by omega
    rw [if_neg this]; rfl
  | succ n ih =>
    intro i st x
    obtain ⟨rb, hn⟩ := st
    simp only [minmax_default_rows]
    rw [ih]
    by_cases hx : x = i
    · subst hx
      have a1 : ¬ (x + 1 ≤ x ∧ x < x + 1 + (n : Int)) := by omega
      have a2 : (x ≤ x ∧ x < x + ((n + 1 : Nat) : Int)) := by push_cast; omega
      rw [if_neg a1, if_pos a2]; simp
    · by_cases hr : (i ≤ x ∧ x < i + ((n + 1 : Nat) : Int))
      · have a1 : (i + 1 ≤ x ∧ x < i + 1 + (n : Int)) := by push_cast at hr; omega
        rw [if_pos a1, if_pos hr]
      · have a1 : ¬ (i + 1 ≤ x ∧ x < i + 1 + (n : Int)) := by push_cast at hr; omega
        rw [if_neg a1, if_neg hr]
        exact store_ne _ _ _ _ hx

/-- Row `i` of min or max on an integer column, for an operation `IMP` and a
test `sign_op` that select by the order `le`. -/
theorem minmax_row (w : Nat) (IMP : Int → Int → Int) (sign_op : Int → Bool)
    (le : Int → Int → Prop)
    (hsel : ∀ v c, IMP v c = v ∨ IMP v c = c) (hle1 : ∀ v c, le (IMP v c) v)
    (hle2 : ∀ v c, le (IMP v c) c)
    (hle1' : ∀ v c : Int, le (if sign_op ((intAtom w).cmp v c) then c else v) v)
    (hle2' : ∀ v c : Int, le (if sign_op ((intAtom w).cmp v c) then c else v) c)
    (htrans : ∀ x y z, le x y → le y z → le x z)
    (hrefl : ∀ x, le x x) (r b s e : BAT Int) (tpe : TYPE) (i : Nat) (hi : i < b.count) :
    ((ANALYTICAL_MIN_MAX (intAtom w) IMP sign_op r b s e tpe).tloc i = (intAtom w).nil ↔
        frame_non_nil (intAtom w) b.tloc (s.tloc i) (e.tloc i) = []) ∧
    (frame_non_nil (intAtom w) b.tloc (s.tloc i) (e.tloc i) ≠ [] →
      (ANALYTICAL_MIN_MAX (intAtom w) IMP sign_op r b s e tpe).tloc i ∈
        frame_non_nil (intAtom w) b.tloc (s.tloc i) (e.tloc i) ∧
      ∀ v ∈ frame_non_nil (intAtom w) b.tloc (s.tloc i) (e.tloc i),
        le ((ANALYTICAL_MIN_MAX (intAtom w) IMP sign_op r b s e tpe).tloc i) v) := by
  have hr : (0 : Int) ≤ i ∧ (i : Int) < 0 + (b.count : Int) := by omega
  have key : ∀ (OP : Int → Int → Int), (∀ v c, OP v c = v ∨ OP v c = c) →
      (∀ v c, le (OP v c) v) → (∀ v c, le (OP v c) c) →
      ∀ c, c = minmax_frame (intAtom w) OP b.tloc (e.tloc i - s.tloc i).toNat (s.tloc i)
        (intAtom w).nil →
      (c = (intAtom w).nil ↔ frame_non_nil (intAtom w) b.tloc (s.tloc i) (e.tloc i) = []) ∧
      (frame_non_nil (intAtom w) b.tloc (s.tloc i) (e.tloc i) ≠ [] →
        c ∈ frame_non_nil (intAtom w) b.tloc (s.tloc i) (e.tloc i) ∧
        ∀ v ∈ frame_non_nil (intAtom w) b.tloc (s.tloc i) (e.tloc i), le c v) := by
    intro OP h1 h2 h3 c hc
    obtain ⟨f1, f2⟩ := minmax_frame_nil w OP le h1 h2 h3 htrans hrefl b.tloc
      (e.tloc i - s.tloc i).toNat (s.tloc i)
    rw [← hc] at f1 f2
    refine ⟨⟨?_, f1⟩, f2⟩
    intro hcn
    by_contra hne
    have hmem := (f2 hne).1
    rw [hcn] at hmem
    have := (List.mem_filter.1 hmem).2
    simp [intAtom] at this
  cases tpe
  case other =>
    apply key _ (fun v c => by split_ifs <;> simp) hle1' hle2'
    simp only [ANALYTICAL_MIN_MAX]
    rw [minmax_default_rows_val, if_pos hr, minmax_default_frame_eq]
  all_goals
    apply key IMP hsel hle1 hle2
    simp only [ANALYTICAL_MIN_MAX]
    rw [minmax_rows_val, if_pos hr]

/-- `MIN` and `MAX` on integers return one of their arguments, the one that is
below respectively above both. -/
theorem MIN_MAX_select (_w : Nat) :
    (∀ v c : Int, MIN int_lt v c = v ∨ MIN int_lt v c = c) ∧
    (∀ v c : Int, MIN int_lt v c ≤ v) ∧ (∀ v c : Int, MIN int_lt v c ≤ c) ∧
    (∀ v c : Int, MAX int_lt v c = v ∨ MAX int_lt v c = c) ∧
    (∀ v c : Int, v ≤ MAX int_lt v c) ∧ (∀ v c : Int, c ≤ MAX int_lt v c) := by
  refine ⟨?_, ?_, ?_, ?_, ?_, ?_⟩ <;> intro v c
  · by_cases h : v < c
    · left; simp [MIN, int_lt, h]
    · right; simp [MIN, int_lt, h]
  · by_cases h : v < c
    · simp [MIN, int_lt, h]
    · simp only [MIN, int_lt, h, decide_False, Bool.false_eq_true, if_false]; omega
  · by_cases h : v < c
    · simp only [MIN, int_lt, h, decide_True, if_true]; omega
    · simp [MIN, int_lt, h]
  · by_cases h : c < v
    · left; simp [MAX, int_lt, h]
    · right; simp [MAX, int_lt, h]
  · by_cases h : c < v
    · simp [MAX, int_lt, h]
    · simp only [MAX, int_lt, h, decide_False, Bool.false_eq_true, if_false]; omega
  · by_cases h : c < v
    · simp only [MAX, int_lt, h, decide_True, if_true]; omega
    · simp [MAX, int_lt, h]

/-- The selections `atomcmp(next, curval) > 0 ? curval : next` and
`atomcmp(next, curval) < 0 ? curval : next` of the `default:` branch, on an
integer type: the smaller respectively the larger of the two. -/
theorem default_select (w : Nat) (v c : Int) :
    ((if decide ((intAtom w).cmp v c > 0) then c else v) ≤ v ∧
      (if decide ((intAtom w).cmp v c > 0) then c else v) ≤ c) ∧
    (v ≤ (if decide ((intAtom w).cmp v c < 0) then c else v) ∧
      c ≤ (if decide ((intAtom w).cmp v c < 0) then c else v)) := by
  have hc : (intAtom w).cmp v c = if v < c then -1 else if v = c then 0 else 1 := rfl
  rw [hc]
  by_cases h1 : v < c
  · simp only [h1, if_true]
    norm_num
    omega
  · by_cases h2 : v = c
    · subst h2; simp
    · simp only [h1, h2, if_false]
      norm_num
      omega

/-- C13: `GDKanalyticalmin` / `GDKanalyticalmax` on an integer column (type of
`w` bits, C comparison `<`): for every row `i` the output is NIL exactly when
the frame `[start[i], end[i])` contains no non-NIL element (empty, negative or
all-NIL frame); otherwise it is one of the non-NIL elements of the frame and
is `<=` (min) respectively `>=` (max) every non-NIL element of that frame; the
statement involves the frame of row `i` alone, not the earlier rows. -/
theorem min_max_of_frame (w : Nat) (r1 r2 b s e : BAT Int) (tpe : TYPE)
    (i : Nat) (hi : i < b.count) :
    (((GDKanalyticalmin (intAtom w) int_lt r1 b s e tpe).tloc i = (intAtom w).nil ↔
        frame_non_nil (intAtom w) b.tloc (s.tloc i) (e.tloc i) = []) ∧
      (frame_non_nil (intAtom w) b.tloc (s.tloc i) (e.tloc i) ≠ [] →
        (GDKanalyticalmin (intAtom w) int_lt r1 b s e tpe).tloc i ∈
          frame_non_nil (intAtom w) b.tloc (s.tloc i) (e.tloc i) ∧
        ∀ v ∈ frame_non_nil (intAtom w) b.tloc (s.tloc i) (e.tloc i),
          (GDKanalyticalmin (intAtom w) int_lt r1 b s e tpe).tloc i ≤ v)) ∧
    (((GDKanalyticalmax (intAtom w) int_lt r2 b s e tpe).tloc i = (intAtom w).nil ↔
        frame_non_nil (intAtom w) b.tloc (s.tloc i) (e.tloc i) = []) ∧
      (frame_non_nil (intAtom w) b.tloc (s.tloc i) (e.tloc i) ≠ [] →
        (GDKanalyticalmax (intAtom w) int_lt r2 b s e tpe).tloc i ∈
          frame_non_nil (intAtom w) b.tloc (s.tloc i) (e.tloc i) ∧
        ∀ v ∈ frame_non_nil (intAtom w) b.tloc (s.tloc i) (e.tloc i),
          v ≤ (GDKanalyticalmax (intAtom w) int_lt r2 b s e tpe).tloc i)) := by
  constructor
  · exact minmax_row w (MIN int_lt) (fun c => decide (c > 0)) (fun x y => x ≤ y)
      (MIN_MAX_select w).1 (MIN_MAX_select w).2.1 (MIN_MAX_select w).2.2.1
      (fun v c => ((default_select w v c).1).1) (fun v c => ((default_select w v c).1).2)
      (fun x y z h1 h2 => le_trans h1 h2) (fun x => le_refl x) r1 b s e tpe i hi
  · exact minmax_row w (MAX int_lt) (fun c => decide (c < 0)) (fun x y => y ≤ x)
      (MIN_MAX_select w).2.2.2.1 (MIN_MAX_select w).2.2.2.2.1 (MIN_MAX_select w).2.2.2.2.2
      (fun v c => ((default_select w v c).2).1) (fun v c => ((default_select w v c).2).2)
      (fun x y z h1 h2 => le_trans h2 h1) (fun x => le_refl x) r2 b s e tpe i hi

/-- Witness of C13: the `int` column 5, NIL, 3, 9 with the frames `[0, 4)`,
`[1, 2)`, `[2, 1)` and `[1, 4)`, row 3. -/
theorem min_max_of_frame_witness :
    (((GDKanalyticalmin (intAtom 32) int_lt exOut exCol exStart exEnd TYPE.int).tloc (3 : Nat) =
          (intAtom 32).nil ↔
        frame_non_nil (intAtom 32) exCol.tloc (exStart.tloc (3 : Nat)) (exEnd.tloc (3 : Nat)) = []) ∧
      (frame_non_nil (intAtom 32) exCol.tloc (exStart.tloc (3 : Nat)) (exEnd.tloc (3 : Nat)) ≠ [] →
        (GDKanalyticalmin (intAtom 32) int_lt exOut exCol exStart exEnd TYPE.int).tloc (3 : Nat) ∈
          frame_non_nil (intAtom 32) exCol.tloc (exStart.tloc (3 : Nat)) (exEnd.tloc (3 : Nat)) ∧
        ∀ v ∈ frame_non_nil (intAtom 32) exCol.tloc (exStart.tloc (3 : Nat))
            (exEnd.tloc (3 : Nat)),
          (GDKanalyticalmin (intAtom 32) int_lt exOut exCol exStart exEnd TYPE.int).tloc (3 : Nat)
            ≤ v)) ∧
    (((GDKanalyticalmax (intAtom 32) int_lt exOut exCol exStart exEnd TYPE.int).tloc (3 : Nat) =
          (intAtom 32).nil ↔
        frame_non_nil (intAtom 32) exCol.tloc (exStart.tloc (3 : Nat)) (exEnd.tloc (3 : Nat)) = []) ∧
      (frame_non_nil (intAtom 32) exCol.tloc (exStart.tloc (3 : Nat)) (exEnd.tloc (3 : Nat)) ≠ [] →
        (GDKanalyticalmax (intAtom 32) int_lt exOut exCol exStart exEnd TYPE.int).tloc (3 : Nat) ∈
          frame_non_nil (intAtom 32) exCol.tloc (exStart.tloc (3 : Nat)) (exEnd.tloc (3 : Nat)) ∧
        ∀ v ∈ frame_non_nil (intAtom 32) exCol.tloc (exStart.tloc (3 : Nat))
            (exEnd.tloc (3 : Nat)),
          v ≤ (GDKanalyticalmax (intAtom 32) int_lt exOut exCol exStart exEnd TYPE.int).tloc
            (3 : Nat))) :=
  min_max_of_frame 32 exOut exOut exCol exStart exEnd TYPE.int 3 (by decide)

/-- The rows that min and max give on the example column. -/
theorem min_max_example :
    (GDKanalyticalmin (intAtom 32) int_lt exOut exCol exStart exEnd TYPE.int).rows =
        [3, (intAtom 32).nil, (intAtom 32).nil, 3] ∧
      (GDKanalyticalmax (intAtom 32) int_lt exOut exCol exStart exEnd TYPE.int).rows =
        [9, (intAtom 32).nil, (intAtom 32).nil, 9] := by
  decide

/-! ## `GDKanalyticalcount` -/

theorem count_frame_spec {α : Type} (notnil : α → Bool) (b : Heap α) :
    ∀ (n : Nat) (bs curval : Int),
      count_frame notnil b n bs curval =
        curval + (((frame_values b n bs).filter notnil).length : Int) := by
  intro n
  induction n with
  | zero => intro bs curval; simp [count_frame, frame_values]
  | succ n ih =>
    intro bs curval
    simp only [count_frame, frame_values]
    rw [ih]
    by_cases h : notnil (b bs) = true
    · simp only [h, if_true, List.filter_cons_of_pos, List.length_cons]
      push_cast; ring
    · have h' : notnil (b bs) = false := by simpa using h
      simp only [h', Bool.false_eq_true, if_false, List.filter_cons_of_neg, not_false_eq_true]
      ring

theorem count_rows_val {α : Type} (notnil : α → Bool) (b : Heap α) (start end_ : Heap Int) :
    ∀ (n : Nat) (i : Int) (rb : Heap Int) (x : Int),
      count_rows notnil b start end_ n i 0 rb x =
        if i ≤ x ∧ x < i + n then
          (((frame_values b (end_ x - start x).toNat (start x)).filter notnil).length : Int)
        else rb x := by
  intro n
  induction n with
  | zero =>
    intro i rb x
    have : ¬ (i ≤ x ∧ x < i + ((0 : Nat) : Int)) := by omega
    rw [if_neg this]; rfl
  | succ n ih =>
    intro i rb x
    simp only [count_rows]
    rw [ih, count_frame_spec, zero_add]
    by_cases hx : x = i
    · subst hx
      have a1 : ¬ (x + 1 ≤ x ∧ x < x + 1 + (n : Int)) := by omega
      have a2 : (x ≤ x ∧ x < x + ((n + 1 : Nat) : Int)) := by push_cast; omega
      rw [if_neg a1, if_pos a2]; simp
    · by_cases hr : (i ≤ x ∧ x < i + ((n + 1 : Nat) : Int))
      · have a1 : (i + 1 ≤ x ∧ x < i + 1 + (n : Int)) := by push_cast at hr; omega
        rw [if_pos a1, if_pos hr]
      · have a1 : ¬ (i + 1 ≤ x ∧ x < i + 1 + (n : Int)) := by push_cast at hr; omega
        rw [if_neg a1, if_neg hr]
        exact store_ne _ _ _ _ hx

theorem count_all_rows_val (start end_ : Heap Int) :
    ∀ (n : Nat) (i : Int) (rb : Heap Int) (x : Int),
      count_all_rows start end_ n i rb x =
        if i ≤ x ∧ x < i + n then (if end_ x > start x then end_ x - start x else 0)
        else rb x := by
  intro n
  induction n with
  | zero =>
    intro i rb x
    have : ¬ (i ≤ x ∧ x < i + ((0 : Nat) : Int)) := by omega
    rw [if_neg this]; rfl
  | succ n ih =>
    intro i rb x
    simp only [count_all_rows]
    rw [ih]
    by_cases hx : x = i
    · subst hx
      have a1 : ¬ (x + 1 ≤ x ∧ x < x + 1 + (n : Int)) := by omega
      have a2 : (x ≤ x ∧ x < x + ((n + 1 : Nat) : Int)) := by push_cast; omega
      rw [if_neg a1, if_pos a2]; simp
    · by_cases hr : (i ≤ x ∧ x < i + ((n + 1 : Nat) : Int))
      · have a1 : (i + 1 ≤ x ∧ x < i + 1 + (n : Int)) := by push_cast at hr; omega
        rw [if_pos a1, if_pos hr]
      · have a1 : ¬ (i + 1 ≤ x ∧ x < i + 1 + (n : Int)) := by push_cast at hr; omega
        rw [if_neg a1, if_neg hr]
        exact store_ne _ _ _ _ hx

theorem frame_values_length {α : Type} (b : Heap α) :
    ∀ (n : Nat) (s : Int), (frame_values b n s).length = n := by
  intro n
  induction n with
  | zero => intro s; rfl
  | succ n ih => intro s; simp [frame_values, ih]

theorem mem_frame_values {α : Type} (b : Heap α) :
    ∀ (n : Nat) (s : Int) (v : α), v ∈ frame_values b n s →
      ∃ x, s ≤ x ∧ x < s + n ∧ v = b x := by
  intro n
  induction n with
  | zero => intro s v hv; simp [frame_values] at hv
  | succ n ih =>
    intro s v hv
    simp only [frame_values, List.mem_cons] at hv
    rcases hv with rfl | hv
    · exact ⟨s, le_refl _, by push_cast; omega, rfl⟩
    · obtain ⟨x, h1, h2, h3⟩ := ih (s + 1) v hv
      exact ⟨x, by omega, by push_cast; omega, h3⟩

/-- A frame without NIL element: every test that is true on non-NIL values
counts all its positions. -/
theorem count_full_frame {α : Type} (T : Atom α) (notnil : α → Bool) (b : Heap α) (s e : Int)
    (hn : ∀ v, T.is_nil v = false → notnil v = true)
    (hfree : ∀ x, s ≤ x → x < e → T.is_nil (b x) = false) :
    (((frame_values b (e - s).toNat s).filter notnil).length : Int) =
      if e > s then e - s else 0 := by
  have hall : (frame_values b (e - s).toNat s).filter notnil = frame_values b (e - s).toNat s := by
    rw [List.filter_eq_self]
    intro v hv
    obtain ⟨x, h1, h2, rfl⟩ := mem_frame_values b _ _ v hv
    exact hn _ (hfree x h1 (by omega))
  rw [hall, frame_values_length]
  split_ifs <;> omega

/-- Row `i` of the result of `GDKanalyticalcount`. -/
theorem GDKanalyticalcount_row {α : Type} (T : Atom α) (r : BAT Int) (b : BAT α)
    (s e : BAT Int) (ignore_nils : Bool) (tpe : TYPE) (i : Nat) (hi : i < b.count) :
    (GDKanalyticalcount T r b s e ignore_nils tpe).tloc i =
      if (!ignore_nils || b.tnonil) = true then
        (if e.tloc i > s.tloc i then e.tloc i - s.tloc i else 0)
      else
        (((frame_values b.tloc (e.tloc i - s.tloc i).toNat (s.tloc i)).filter
          (fun v => if tpe = TYPE.other then decide (T.cmp v T.nil ≠ 0)
            else !T.is_nil v)).length : Int) := by
  have hr : (0 : Int) ≤ i ∧ (i : Int) < 0 + (b.count : Int) := by omega
  by_cases hc : (!ignore_nils || b.tnonil) = true
  · simp only [GDKanalyticalcount, hc, if_true]
    rw [count_all_rows_val, if_pos hr]
  · simp only [GDKanalyticalcount, hc, if_false, Bool.false_eq_true]
    cases tpe <;> simp only [count_rows_val, if_pos hr, if_true, if_false, reduceCtorEq]

/-- Counterexample to C14 as stated: on the `int` column 1, 2, 3 (no NIL, flag
not set) with the negative frame `[2, 1)` on row 0, the count excluding NILs
is not `end - start`. -/
theorem count_negative_frame_counterexample :
    ¬ ((GDKanalyticalcount (intAtom 32) (BAT.ofList 0 []) (BAT.ofList 0 [1, 2, 3])
          (BAT.ofList 0 [2, 0, 0]) (BAT.ofList 0 [1, 3, 3]) true TYPE.int).tloc 0 =
        (BAT.ofList (0 : Int) [1, 3, 3]).tloc 0 - (BAT.ofList (0 : Int) [2, 0, 0]).tloc 0) := by
  decide

/-- C14 (amended): `GDKanalyticalcount`: for every column and every row `i`
whose frame holds no NIL value, the count excluding NILs equals the count
including NILs equals `max(end[i] - start[i], 0)`, that is `end[i] - start[i]`
for a frame with `start[i] <= end[i]` and 0 for a negative frame, whether the
no-nil flag of the column is set (`flag`, the fast path) or not (the path that
scans the elements). -/
theorem count_without_nils {α : Type} (T : Atom α) (hT : T.Lawful) (r1 r2 : BAT Int)
    (b : BAT α) (s e : BAT Int) (tpe : TYPE) (flag : Bool) (i : Nat) (hi : i < b.count)
    (hfree : ∀ x, s.tloc i ≤ x → x < e.tloc i → T.is_nil (b.tloc x) = false) :
    (GDKanalyticalcount T r1 { b with tnonil := flag } s e true tpe).tloc i =
        max (e.tloc i - s.tloc i) 0 ∧
      (GDKanalyticalcount T r2 { b with tnonil := flag } s e false tpe).tloc i =
        max (e.tloc i - s.tloc i) 0 := by
  have hmax : (if e.tloc i > s.tloc i then e.tloc i - s.tloc i else 0) =
      max (e.tloc i - s.tloc i) 0 := by
    split_ifs <;> omega
  have hcmp : ∀ v, T.is_nil v = false → decide (T.cmp v T.nil ≠ 0) = true := by
    intro v hv
    simp only [ne_eq, decide_not, Bool.not_eq_true', decide_eq_false_iff_not]
    intro h
    have hs := (hT.cmp_zero v T.nil).1 h
    unfold Atom.same at hs
    rw [hv] at hs
    simp only [Bool.false_and, Bool.or_false] at hs
    have := hT.eq_nil v T.nil hs
    rw [hv, hT.nil_is_nil] at this
    exact absurd this (by simp)
  have hi' : i < (BAT.mk b.count b.tloc flag b.tnil).count := hi
  constructor
  · rw [GDKanalyticalcount_row T r1 _ s e true tpe i hi']
    by_cases hf : flag = true
    · subst hf
      simp only [Bool.not_true, Bool.false_or, if_true]
      exact hmax
    · have hf' : flag = false := by simpa using hf
      subst hf'
      simp only [Bool.not_true, Bool.or_false, Bool.false_eq_true, if_false]
      rw [count_full_frame T _ b.tloc (s.tloc i) (e.tloc i) _ hfree]
      · exact hmax
      · intro v hv
        by_cases ht : tpe = TYPE.other
        · simp only [ht, if_true]; exact hcmp v hv
        · simp only [ht, if_false, hv, Bool.not_false]
  · rw [GDKanalyticalcount_row T r2 _ s e false tpe i hi']
    simp only [Bool.not_false, Bool.true_or, if_true]
    exact hmax

/-- Witness of C14 (amended): the `int` column 1, 2, 3 with the frame `[0, 3)`
on row 1, flag not set. -/
theorem count_without_nils_witness :
    (GDKanalyticalcount (intAtom 32) exOut
          { BAT.ofList (0 : Int) [1, 2, 3] with tnonil := false }
          (BAT.ofList 0 [2, 0, 0]) (BAT.ofList 0 [1, 3, 3]) true TYPE.int).tloc (1 : Nat) =
        max ((BAT.ofList (0 : Int) [1, 3, 3]).tloc (1 : Nat) -
          (BAT.ofList (0 : Int) [2, 0, 0]).tloc (1 : Nat)) 0 ∧
      (GDKanalyticalcount (intAtom 32) exOut
          { BAT.ofList (0 : Int) [1, 2, 3] with tnonil := false }
          (BAT.ofList 0 [2, 0, 0]) (BAT.ofList 0 [1, 3, 3]) false TYPE.int).tloc (1 : Nat) =
        max ((BAT.ofList (0 : Int) [1, 3, 3]).tloc (1 : Nat) -
          (BAT.ofList (0 : Int) [2, 0, 0]).tloc (1 : Nat)) 0 :=
  count_without_nils (intAtom 32) (intAtom_lawful 32) exOut exOut (BAT.ofList 0 [1, 2, 3])
    (BAT.ofList 0 [2, 0, 0]) (BAT.ofList 0 [1, 3, 3]) TYPE.int false 1 (by decide) (by
      intro x hx1 hx2
      have hx : x = 0 ∨ x = 1 ∨ x = 2 := by
        simp [BAT.ofList] at hx1 hx2; omega
      rcases hx with rfl | rfl | rfl <;> decide)

/-- C15: `GDKanalyticalcount` on a fixed-width column (`tpe` is not the
variable-sized case) whose no-nil flag, when set, is truthful on the frame of
row `i`: the output of row `i` is `max(end[i] - start[i], 0)` when NILs are not
excluded, and the number of positions of `[start[i], end[i])` holding a
non-NIL element when NILs are excluded; neither is the `lng` NIL, and both
depend on the frame of row `i` only (nothing is carried over from the other
rows). -/
theorem count_of_frame {α : Type} (T : Atom α) (r1 r2 : BAT Int) (b : BAT α) (s e : BAT Int)
    (tpe : TYPE) (i : Nat) (hi : i < b.count) (htpe : tpe ≠ TYPE.other)
    (hflag : b.tnonil = true →
      ∀ x, s.tloc i ≤ x → x < e.tloc i → T.is_nil (b.tloc x) = false) :
    (GDKanalyticalcount T r1 b s e false tpe).tloc i = max (e.tloc i - s.tloc i) 0 ∧
      (GDKanalyticalcount T r2 b s e true tpe).tloc i =
        ((frame_non_nil T b.tloc (s.tloc i) (e.tloc i)).length : Int) ∧
      (GDKanalyticalcount T r1 b s e false tpe).tloc i ≠ (intAtom 64).nil ∧
      (GDKanalyticalcount T r2 b s e true tpe).tloc i ≠ (intAtom 64).nil := by
  have hmax : (if e.tloc i > s.tloc i then e.tloc i - s.tloc i else 0) =
      max (e.tloc i - s.tloc i) 0 := by
    split_ifs <;> omega
  have h1 : (GDKanalyticalcount T r1 b s e false tpe).tloc i = max (e.tloc i - s.tloc i) 0 := by
    rw [GDKanalyticalcount_row T r1 b s e false tpe i hi]
    simp only [Bool.not_false, Bool.true_or, if_true]
    exact hmax
  have h2 : (GDKanalyticalcount T r2 b s e true tpe).tloc i =
      ((frame_non_nil T b.tloc (s.tloc i) (e.tloc i)).length : Int) := by
    rw [GDKanalyticalcount_row T r2 b s e true tpe i hi]
    unfold frame_non_nil
    by_cases hf : b.tnonil = true
    · simp only [hf, Bool.not_true, Bool.false_or, if_true]
      rw [count_full_frame T (fun v => !T.is_nil v) b.tloc (s.tloc i) (e.tloc i)
        (fun v hv => by simp [hv]) (hflag hf)]
    · have hf' : b.tnonil = false := by simpa using hf
      simp only [hf', Bool.not_true, Bool.or_false, Bool.false_eq_true, if_false, htpe]
  have hnil : (intAtom 64).nil < 0 := by decide
  refine ⟨h1, h2, ?_, ?_⟩
  · rw [h1]
    have : (0 : Int) ≤ max (e.tloc i - s.tloc i) 0 := le_max_right _ _
    omega
  · rw [h2]
    have : (0 : Int) ≤ ((frame_non_nil T b.tloc (s.tloc i) (e.tloc i)).length : Int) :=
      Int.natCast_nonneg _
    omega

/-- Witness of C15: the example column 5, NIL, 3, 9 with the frame `[1, 4)` on
row 3. -/
theorem count_of_frame_witness :
    (GDKanalyticalcount (intAtom 32) exOut exCol exStart exEnd false TYPE.int).tloc (3 : Nat) =
        max (exEnd.tloc (3 : Nat) - exStart.tloc (3 : Nat)) 0 ∧
      (GDKanalyticalcount (intAtom 32) exOut exCol exStart exEnd true TYPE.int).tloc (3 : Nat) =
        ((frame_non_nil (intAtom 32) exCol.tloc (exStart.tloc (3 : Nat))
          (exEnd.tloc (3 : Nat))).length : Int) ∧
      (GDKanalyticalcount (intAtom 32) exOut exCol exStart exEnd false TYPE.int).tloc (3 : Nat) ≠
        (intAtom 64).nil ∧
      (GDKanalyticalcount (intAtom 32) exOut exCol exStart exEnd true TYPE.int).tloc (3 : Nat) ≠
        (intAtom 64).nil :=
  count_of_frame (intAtom 32) exOut exOut exCol exStart exEnd TYPE.int 3 (by decide)
    (by decide) (by intro h; exact absurd h (by decide))

/-- The counts of the example column: including NILs 4, 1, 0, 3 and excluding
NILs 3, 0, 0, 2. -/
theorem count_example :
    (GDKanalyticalcount (intAtom 32) exOut exCol exStart exEnd false TYPE.int).rows =
        [4, 1, 0, 3] ∧
      (GDKanalyticalcount (intAtom 32) exOut exCol exStart exEnd true TYPE.int).rows =
        [3, 0, 0, 2] := by
  decide

/-! ## `GDKanalyticalprod` -/

/-- The product of a value of the narrower type and an accumulator within
`[-max, max]` of the result type is formed exactly in the wider type: the
check of `MUL4_WITH_CHECK` is the mathematical one. -/
theorem MUL4_WITH_CHECK_exact (w1 w2 w3 : Nat) (h1 : 1 ≤ w1) (h12 : w1 ≤ w2)
    (h3 : w1 + w2 ≤ w3) (v c : Int) (hv : in_type w1 v)
    (hc1 : -(GDK_max w2) ≤ c) (hc2 : c ≤ GDK_max w2) :
    MUL4_WITH_CHECK v c w2 (GDK_max w2) w3 =
      if -(GDK_max w2) ≤ v * c ∧ v * c ≤ GDK_max w2 then .ok (v * c)
      else .error .calc_overflow := by
  obtain ⟨hv1, hv2⟩ := hv
  rw [GDK_max_eq] at hc1 hc2
  have hA : (0 : Int) < 2 ^ (w1 - 1) := by positivity
  have hB : (0 : Int) < 2 ^ (w2 - 1) := by positivity
  have hp12 := pow_le_of_width w1 w2 h12
  have hp23 : (2 : Int) ^ (w2 - 1) ≤ 2 ^ (w3 - 1) := pow_le_of_width w2 w3 (by omega)
  have hAB : (2 : Int) ^ (w1 - 1) * 2 ^ (w2 - 1) ≤ 2 ^ (w3 - 2) := by
    rw [← pow_add]
    exact pow_le_pow_right₀ (by norm_num) (by omega)
  have hdouble : (2 : Int) ^ (w3 - 1) = 2 * 2 ^ (w3 - 2) := by
    obtain ⟨k, rfl⟩ : ∃ k, w3 = k + 2 := ⟨w3 - 2, by omega⟩
    simp [pow_succ, mul_comm]
  have hC : (0 : Int) < 2 ^ (w3 - 2) := by positivity
  have habs : |v * c| ≤ 2 ^ (w1 - 1) * 2 ^ (w2 - 1) := by
    rw [abs_mul]
    exact mul_le_mul (abs_le.2 ⟨by omega, by omega⟩) (abs_le.2 ⟨by omega, by omega⟩)
      (abs_nonneg _) (le_of_lt hA)
  obtain ⟨hx1, hx2⟩ := abs_le.1 habs
  have e1 : wrap w3 v = v := wrap_id w3 (by omega) v (by omega) (by omega)
  have e2 : wrap w3 (v * c) = v * c := wrap_id w3 (by omega) _ (by omega) (by omega)
  have e3 : wrap w3 (GDK_max w2) = GDK_max w2 := by
    rw [GDK_max_eq]; exact wrap_id w3 (by omega) _ (by omega) (by omega)
  have e4 : wrap w3 (-(GDK_max w2)) = -(GDK_max w2) := by
    rw [GDK_max_eq]; exact wrap_id w3 (by omega) _ (by omega) (by omega)
  simp only [MUL4_WITH_CHECK, e1, e2, e3, e4]
  by_cases h : -(GDK_max w2) ≤ v * c ∧ v * c ≤ GDK_max w2
  · have hn : ¬ (v * c < -(GDK_max w2) ∨ v * c > GDK_max w2) := by omega
    rw [if_neg hn, if_pos h]
    rw [GDK_max_eq] at h
    rw [wrap_id w2 (by omega) _ (by omega) (by omega)]
  · have hn : (v * c < -(GDK_max w2) ∨ v * c > GDK_max w2) := by omega
    rw [if_pos hn, if_neg h]

theorem prod_types_widths (tp1 tp2 : TYPE) (w1 w2 w3 : Nat)
    (h : prod_types tp1 tp2 = some (w1, w2, some w3)) :
    1 ≤ w1 ∧ w1 ≤ w2 ∧ w1 + w2 ≤ w3 := by
  cases tp1 <;> cases tp2 <;> simp [prod_types] at h <;> omega

/-- The inner loop of prod started on an accumulator that is not NIL, for a
checked multiplication `mul` that is exact on the values of the column. -/
theorem prod_frame_acc (w1 w2 : Nat) (mul : Int → Int → Except gdk_err Int)
    (hmul : ∀ v c, in_type w1 v → -(GDK_max w2) ≤ c → c ≤ GDK_max w2 →
      mul v c = if -(GDK_max w2) ≤ v * c ∧ v * c ≤ GDK_max w2 then .ok (v * c)
        else .error .calc_overflow)
    (b : Heap Int) :
    ∀ (n : Nat) (bs acc : Int), (∀ x, bs ≤ x → x < bs + n → in_type w1 (b x)) →
      -(GDK_max w2) ≤ acc → acc ≤ GDK_max w2 →
      ((∀ m, m ≤ ((frame_values b n bs).filter (fun v => !(intAtom w1).is_nil v)).length →
          -(GDK_max w2) ≤ acc *
            (((frame_values b n bs).filter (fun v => !(intAtom w1).is_nil v)).take m).prod ∧
          acc * (((frame_values b n bs).filter (fun v => !(intAtom w1).is_nil v)).take m).prod
            ≤ GDK_max w2) →
        prod_frame w1 w2 mul b n bs acc = .ok (acc *
          ((frame_values b n bs).filter (fun v => !(intAtom w1).is_nil v)).prod)) ∧
      ((¬ ∀ m, m ≤ ((frame_values b n bs).filter (fun v => !(intAtom w1).is_nil v)).length →
          -(GDK_max w2) ≤ acc *
            (((frame_values b n bs).filter (fun v => !(intAtom w1).is_nil v)).take m).prod ∧
          acc * (((frame_values b n bs).filter (fun v => !(intAtom w1).is_nil v)).take m).prod
            ≤ GDK_max w2) →
        prod_frame w1 w2 mul b n bs acc = .error .calc_overflow) := by
  intro n
  induction n with
  | zero =>
    intro bs acc _ hlo hhi
    refine ⟨fun _ => by simp [prod_frame, frame_values], ?_⟩
    intro hbad
    exfalso
    apply hbad
    intro m _
    simp [frame_values]
    exact ⟨hlo, hhi⟩
  | succ n ih =>
    intro bs acc hty hlo hhi
    have hnn : (intAtom w2).is_nil acc = false := by
      cases h : (intAtom w2).is_nil acc with
      | false => rfl
      | true =>
        rw [intAtom_is_nil_iff] at h
        rw [GDK_max_eq] at hlo
        omega
    have htail : ∀ x, bs + 1 ≤ x → x < bs + 1 + n → in_type w1 (b x) :=
      fun x hx1 hx2 => hty x (by omega) (by push_cast; omega)
    by_cases hv : (intAtom w1).is_nil (b bs) = true
    · simp only [prod_frame, frame_values, hv, Bool.not_true, Bool.false_eq_true, if_false,
        List.filter_cons_of_neg, not_false_eq_true]
      exact ih (bs + 1) acc htail hlo hhi
    · have hv' : (intAtom w1).is_nil (b bs) = false := by simpa using hv
      have hm := hmul (b bs) acc (hty bs (le_refl _) (by push_cast; omega)) hlo hhi
      simp only [prod_frame, frame_values, hv', Bool.not_false, if_true, hnn,
        Bool.false_eq_true, if_false, List.filter_cons_of_pos, hm]
      by_cases hadd : -(GDK_max w2) ≤ b bs * acc ∧ b bs * acc ≤ GDK_max w2
      · simp only [if_pos hadd]
        obtain ⟨ih1, ih2⟩ := ih (bs + 1) (b bs * acc) htail hadd.1 hadd.2
        have hre : ∀ P : Int, acc * (b bs * P) = b bs * acc * P := fun P => by ring
        constructor
        · intro hok
          rw [ih1]
          · simp only [List.prod_cons, hre]
          · intro m hm
            have := hok (m + 1) (by simp only [List.length_cons]; omega)
            simp only [List.take_succ_cons, List.prod_cons, hre] at this
            exact this
        · intro hbad
          apply ih2
          intro hall
          apply hbad
          intro m hm
          cases m with
          | zero =>
            simp only [List.take_zero, List.prod_nil, mul_one]
            exact ⟨hlo, hhi⟩
          | succ m =>
            have := hall m (by simp only [List.length_cons] at hm; omega)
            simp only [List.take_succ_cons, List.prod_cons, hre]
            exact this
      · simp only [if_neg hadd]
        constructor
        · intro hok
          exfalso
          apply hadd
          have := hok 1 (by simp only [List.length_cons]; omega)
          simp only [List.take_succ_cons, List.take_zero, List.prod_cons, List.prod_nil,
            mul_one] at this
          rw [mul_comm]
          exact this
        · intro _
          trivial

/-- The inner loop of prod started on the NIL accumulator. -/
theorem prod_frame_nil (w1 w2 : Nat) (h1 : 1 ≤ w1) (h12 : w1 ≤ w2)
    (mul : Int → Int → Except gdk_err Int)
    (hmul : ∀ v c, in_type w1 v → -(GDK_max w2) ≤ c → c ≤ GDK_max w2 →
      mul v c = if -(GDK_max w2) ≤ v * c ∧ v * c ≤ GDK_max w2 then .ok (v * c)
        else .error .calc_overflow)
    (b : Heap Int) :
    ∀ (n : Nat) (bs : Int), (∀ x, bs ≤ x → x < bs + n → in_type w1 (b x)) →
      (running_prods_in_range (GDK_max w2)
          ((frame_values b n bs).filter (fun v => !(intAtom w1).is_nil v)) →
        prod_frame w1 w2 mul b n bs (intAtom w2).nil = .ok
          (if (frame_values b n bs).filter (fun v => !(intAtom w1).is_nil v) = []
            then (intAtom w2).nil
            else ((frame_values b n bs).filter (fun v => !(intAtom w1).is_nil v)).prod)) ∧
      (¬ running_prods_in_range (GDK_max w2)
          ((frame_values b n bs).filter (fun v => !(intAtom w1).is_nil v)) →
        prod_frame w1 w2 mul b n bs (intAtom w2).nil = .error .calc_overflow) := by
  intro n
  induction n with
  | zero =>
    intro bs _
    refine ⟨fun _ => by simp [prod_frame, frame_values], ?_⟩
    intro hbad
    exfalso
    apply hbad
    intro m hm1 hm2
    simp only [frame_values, List.filter_nil, List.length_nil] at hm2
    omega
  | succ n ih =>
    intro bs hty
    have hnil : (intAtom w2).is_nil (intAtom w2).nil = true := by simp [intAtom]
    have htail : ∀ x, bs + 1 ≤ x → x < bs + 1 + n → in_type w1 (b x) :=
      fun x hx1 hx2 => hty x (by omega) (by push_cast; omega)
    by_cases hv : (intAtom w1).is_nil (b bs) = true
    · simp only [prod_frame, frame_values, hv, Bool.not_true, Bool.false_eq_true, if_false,
        List.filter_cons_of_neg, not_false_eq_true]
      exact ih (bs + 1) htail
    · have hv' : (intAtom w1).is_nil (b bs) = false := by simpa using hv
      obtain ⟨hw, hlo, hhi⟩ := widen_value w1 w2 h1 h12 (b bs)
        (hty bs (le_refl _) (by push_cast; omega)) hv'
      simp only [prod_frame, frame_values, hv', Bool.not_false, if_true, hnil,
        List.filter_cons_of_pos, hw]
      obtain ⟨a1, a2⟩ := prod_frame_acc w1 w2 mul hmul b n (bs + 1) (b bs) htail hlo hhi
      constructor
      · intro hok
        rw [a1]
        · simp
        · intro m hm
          have := hok (m + 1) (by omega) (by simp only [List.length_cons]; omega)
          simpa only [List.take_succ_cons, List.prod_cons] using this
      · intro hbad
        apply a2
        intro hall
        apply hbad
        intro m hm1 hm
        cases m with
        | zero => omega
        | succ m =>
          have := hall m (by simp only [List.length_cons] at hm; omega)
          simpa only [List.take_succ_cons, List.prod_cons] using this
/-- The row loop of prod, entered with the NIL accumulator: when every frame
keeps its running products in range the loop ends normally, having written the
frame products, otherwise it leaves through `calc_overflow`. -/
theorem prod_rows_spec (w1 w2 : Nat) (h1 : 1 ≤ w1) (h12 : w1 ≤ w2)
    (mul : Int → Int → Except gdk_err Int)
    (hmul : ∀ v c, in_type w1 v → -(GDK_max w2) ≤ c → c ≤ GDK_max w2 →
      mul v c = if -(GDK_max w2) ≤ v * c ∧ v * c ≤ GDK_max w2 then .ok (v * c)
        else .error .calc_overflow)
    (b start end_ : Heap Int) :
    ∀ (n : Nat) (i : Int) (st : Heap Int × Bool),
      (∀ y, i ≤ y → y < i + n → ∀ x, start y ≤ x → x < end_ y → in_type w1 (b x)) →
      ((∀ y, i ≤ y → y < i + n →
          running_prods_in_range (GDK_max w2) (non_nil_values w1 b (start y) (end_ y))) →
        ∃ res, prod_rows w1 w2 mul b start end_ n i (intAtom w2).nil st = .ok res ∧
          ∀ y, res.1 y =
            if i ≤ y ∧ y < i + n then frame_prod w1 w2 b (start y) (end_ y) else st.1 y) ∧
      ((¬ ∀ y, i ≤ y → y < i + n →
          running_prods_in_range (GDK_max w2) (non_nil_values w1 b (start y) (end_ y))) →
        prod_rows w1 w2 mul b start end_ n i (intAtom w2).nil st = .error .calc_overflow) := by
  intro n
  induction n with
  | zero =>
    intro i st _
    constructor
    · intro _
      refine ⟨st, rfl, ?_⟩
      intro y
      have : ¬ (i ≤ y ∧ y < i + ((0 : Nat) : Int)) := by omega
      rw [if_neg this]
    · intro hbad
      exfalso
      apply hbad
      intro y hy1 hy2
      omega
  | succ n ih =>
    intro i st hty
    obtain ⟨rb, hn⟩ := st
    obtain ⟨f1, f2⟩ := prod_frame_nil w1 w2 h1 h12 mul hmul b (end_ i - start i).toNat (start i)
      (fun x hx1 hx2 => hty i (le_refl _) (by push_cast; omega) x hx1 (by omega))
    have htail : ∀ y, i + 1 ≤ y → y < i + 1 + n →
        ∀ x, start y ≤ x → x < end_ y → in_type w1 (b x) :=
      fun y hy1 hy2 => hty y (by omega) (by push_cast; omega)
    by_cases hrow : running_prods_in_range (GDK_max w2) (non_nil_values w1 b (start i) (end_ i))
    · have hf := f1 hrow
      have hval : (if (frame_values b (end_ i - start i).toNat (start i)).filter
            (fun v => !(intAtom w1).is_nil v) = [] then (intAtom w2).nil
          else ((frame_values b (end_ i - start i).toNat (start i)).filter
            (fun v => !(intAtom w1).is_nil v)).prod) = frame_prod w1 w2 b (start i) (end_ i) := rfl
      rw [hval] at hf
      have hstep : ∀ st', st'.1 = store rb i (frame_prod w1 w2 b (start i) (end_ i)) →
          ((∀ y, i ≤ y → y < i + ((n + 1 : Nat) : Int) →
              running_prods_in_range (GDK_max w2) (non_nil_values w1 b (start y) (end_ y))) →
            ∃ res, prod_rows w1 w2 mul b start end_ n (i + 1) (intAtom w2).nil st' = .ok res ∧
              ∀ y, res.1 y =
                if i ≤ y ∧ y < i + ((n + 1 : Nat) : Int) then
                  frame_prod w1 w2 b (start y) (end_ y)
                else rb y) ∧
          ((¬ ∀ y, i ≤ y → y < i + ((n + 1 : Nat) : Int) →
              running_prods_in_range (GDK_max w2) (non_nil_values w1 b (start y) (end_ y))) →
            prod_rows w1 w2 mul b start end_ n (i + 1) (intAtom w2).nil st' =
              .error .calc_overflow) := by
        intro st' hst'
        obtain ⟨g1, g2⟩ := ih (i + 1) st' htail
        constructor
        · intro hall
          obtain ⟨res, hres, hv⟩ := g1 (fun y hy1 hy2 => hall y (by omega) (by push_cast; omega))
          refine ⟨res, hres, ?_⟩
          intro y
          rw [hv y, hst']
          by_cases hy : y = i
          · subst hy
            have a1 : ¬ (y + 1 ≤ y ∧ y < y + 1 + (n : Int)) := by omega
            have a2 : (y ≤ y ∧ y < y + ((n + 1 : Nat) : Int)) := by push_cast; omega
            rw [if_neg a1, if_pos a2]; simp
          · by_cases hr : (i ≤ y ∧ y < i + ((n + 1 : Nat) : Int))
            · have a1 : (i + 1 ≤ y ∧ y < i + 1 + (n : Int)) := by push_cast at hr; omega
              rw [if_pos a1, if_pos hr]
            · have a1 : ¬ (i + 1 ≤ y ∧ y < i + 1 + (n : Int)) := by push_cast at hr; omega
              rw [if_neg a1, if_neg hr]
              exact store_ne _ _ _ _ hy
        · intro hbad
          apply g2
          intro hall
          apply hbad
          intro y hy1 hy2
          by_cases hy : y = i
          · subst hy; exact hrow
          · exact hall y (by omega) (by push_cast at hy2; omega)
      simp only [prod_rows, hf]
      by_cases hc : (intAtom w2).is_nil (frame_prod w1 w2 b (start i) (end_ i)) = true
      · rw [if_pos hc]
        have hcn : frame_prod w1 w2 b (start i) (end_ i) = (intAtom w2).nil := by
          rw [intAtom_is_nil_iff] at hc
          rw [hc]; rfl
        rw [hcn]
        have := hstep (store rb i (intAtom w2).nil, true) (by rw [hcn])
        exact this
      · rw [if_neg hc]
        exact hstep (store rb i (frame_prod w1 w2 b (start i) (end_ i)), hn) rfl
    · have hf := f2 hrow
      simp only [prod_rows, hf]
      constructor
      · intro hall
        exact absurd (hall i (le_refl _) (by push_cast; omega)) hrow
      · intro _
        trivial

theorem GDKanalyticalprod_spec (r b s e : BAT Int) (tp1 tp2 : TYPE) (w1 w2 w3 : Nat)
    (hty : prod_types tp1 tp2 = some (w1, w2, some w3))
    (hval : ∀ i : Nat, i < b.count →
      ∀ x, s.tloc i ≤ x → x < e.tloc i → in_type w1 (b.tloc x)) :
    ((∀ i : Nat, i < b.count →
        running_prods_in_range (GDK_max w2) (non_nil_values w1 b.tloc (s.tloc i) (e.tloc i))) →
      ∃ r', GDKanalyticalprod r b s e tp1 tp2 = .ok r' ∧
        ∀ i : Nat, i < b.count → r'.tloc i = frame_prod w1 w2 b.tloc (s.tloc i) (e.tloc i)) ∧
    ((¬ ∀ i : Nat, i < b.count →
        running_prods_in_range (GDK_max w2) (non_nil_values w1 b.tloc (s.tloc i) (e.tloc i))) →
      GDKanalyticalprod r b s e tp1 tp2 = .error .calc_overflow) := by
  obtain ⟨h1, h12, h3⟩ := prod_types_widths tp1 tp2 w1 w2 w3 hty
  obtain ⟨g1, g2⟩ := prod_rows_spec w1 w2 h1 h12 (prod_mul w2 (some w3))
    (fun v c hv hc1 hc2 => MUL4_WITH_CHECK_exact w1 w2 w3 h1 h12 h3 v c hv hc1 hc2)
    b.tloc s.tloc e.tloc b.count 0 (r.tloc, false)
    (by
      intro y hy1 hy2 x hx1 hx2
      have := hval y.toNat (by omega) x
      rw [Int.toNat_of_nonneg hy1] at this
      exact this hx1 hx2)
  constructor
  · intro hall
    obtain ⟨res, hres, hv⟩ := g1 (by
      intro y hy1 hy2
      have := hall y.toNat (by omega)
      rw [Int.toNat_of_nonneg hy1] at this
      exact this)
    obtain ⟨rb, hn⟩ := res
    simp only [GDKanalyticalprod, hty, hres]
    refine ⟨_, rfl, ?_⟩
    intro i hi
    have h := hv i
    simp only at h
    show rb i = _
    rw [h, if_pos ⟨by omega, by omega⟩]
  · intro hbad
    have := g2 (fun hall => hbad (fun i hi => hall i (by omega) (by omega)))
    simp only [GDKanalyticalprod, hty, this]

/-- C16: `GDKanalyticalprod` over an integer pair whose product is checked in a
wider type (`prod_types` gives the widths of the input, the result and the
wider type: `bte -> bte`, `bte`/`sht -> sht`, `bte`/`sht`/`int -> int`, and
with 128-bit integers the pairs into `lng`), on a column whose frame elements
are values of the input type: the call fails with the overflow error exactly
when in some frame a running product of the non-NIL elements, taken in row
order, falls outside `[-max, max]` of the result type; otherwise it succeeds,
and output row `i` is NIL when frame `i` has no non-NIL element and the
mathematical product of its non-NIL elements otherwise. -/
theorem prod_exact_or_overflow (r b s e : BAT Int) (tp1 tp2 : TYPE) (w1 w2 w3 : Nat)
    (hty : prod_types tp1 tp2 = some (w1, w2, some w3))
    (hval : ∀ i : Nat, i < b.count →
      ∀ x, s.tloc i ≤ x → x < e.tloc i → in_type w1 (b.tloc x)) :
    (GDKanalyticalprod r b s e tp1 tp2 = .error .calc_overflow ↔
      ∃ i : Nat, i < b.count ∧
        ¬ running_prods_in_range (GDK_max w2)
          (non_nil_values w1 b.tloc (s.tloc i) (e.tloc i))) ∧
    ((¬ ∃ i : Nat, i < b.count ∧
        ¬ running_prods_in_range (GDK_max w2)
          (non_nil_values w1 b.tloc (s.tloc i) (e.tloc i))) →
      ∃ r', GDKanalyticalprod r b s e tp1 tp2 = .ok r' ∧
        ∀ i : Nat, i < b.count → r'.tloc i =
          if non_nil_values w1 b.tloc (s.tloc i) (e.tloc i) = [] then (intAtom w2).nil
          else (non_nil_values w1 b.tloc (s.tloc i) (e.tloc i)).prod) := by
  obtain ⟨g1, g2⟩ := GDKanalyticalprod_spec r b s e tp1 tp2 w1 w2 w3 hty hval
  refine ⟨⟨?_, ?_⟩, ?_⟩
  · intro herr
    by_contra hno
    have hall : ∀ i : Nat, i < b.count →
        running_prods_in_range (GDK_max w2)
          (non_nil_values w1 b.tloc (s.tloc i) (e.tloc i)) := by
      intro i hi
      by_contra hbad
      exact hno ⟨i, hi, hbad⟩
    obtain ⟨r', hr', _⟩ := g1 hall
    rw [hr'] at herr
    exact absurd herr (by simp)
  · rintro ⟨i, hi, hbad⟩
    exact g2 (fun hall => hbad (hall i hi))
  · intro hno
    have hall : ∀ i : Nat, i < b.count →
        running_prods_in_range (GDK_max w2)
          (non_nil_values w1 b.tloc (s.tloc i) (e.tloc i)) := by
      intro i hi
      by_contra hbad
      exact hno ⟨i, hi, hbad⟩
    obtain ⟨r', hr', hv⟩ := g1 hall
    exact ⟨r', hr', hv⟩

/-- Witness of C16: the `bte` column 2, 3, 4 multiplied into `bte` with every
frame `[0, 3)`. -/
theorem prod_exact_or_overflow_witness :
    (GDKanalyticalprod exOut (BAT.ofList 0 [2, 3, 4]) (BAT.ofList 0 [0, 0, 0])
        (BAT.ofList 0 [3, 3, 3]) TYPE.bte TYPE.bte = .error .calc_overflow ↔
      ∃ i : Nat, i < (BAT.ofList (0 : Int) [2, 3, 4]).count ∧
        ¬ running_prods_in_range (GDK_max 8)
          (non_nil_values 8 (BAT.ofList (0 : Int) [2, 3, 4]).tloc
            ((BAT.ofList (0 : Int) [0, 0, 0]).tloc i)
            ((BAT.ofList (0 : Int) [3, 3, 3]).tloc i))) ∧
    ((¬ ∃ i : Nat, i < (BAT.ofList (0 : Int) [2, 3, 4]).count ∧
        ¬ running_prods_in_range (GDK_max 8)
          (non_nil_values 8 (BAT.ofList (0 : Int) [2, 3, 4]).tloc
            ((BAT.ofList (0 : Int) [0, 0, 0]).tloc i)
            ((BAT.ofList (0 : Int) [3, 3, 3]).tloc i))) →
      ∃ r', GDKanalyticalprod exOut (BAT.ofList 0 [2, 3, 4]) (BAT.ofList 0 [0, 0, 0])
          (BAT.ofList 0 [3, 3, 3]) TYPE.bte TYPE.bte = .ok r' ∧
        ∀ i : Nat, i < (BAT.ofList (0 : Int) [2, 3, 4]).count → r'.tloc i =
          if non_nil_values 8 (BAT.ofList (0 : Int) [2, 3, 4]).tloc
              ((BAT.ofList (0 : Int) [0, 0, 0]).tloc i)
              ((BAT.ofList (0 : Int) [3, 3, 3]).tloc i) = [] then (intAtom 8).nil
          else (non_nil_values 8 (BAT.ofList (0 : Int) [2, 3, 4]).tloc
              ((BAT.ofList (0 : Int) [0, 0, 0]).tloc i)
              ((BAT.ofList (0 : Int) [3, 3, 3]).tloc i)).prod) :=
  prod_exact_or_overflow exOut (BAT.ofList 0 [2, 3, 4]) (BAT.ofList 0 [0, 0, 0])
    (BAT.ofList 0 [3, 3, 3]) TYPE.bte TYPE.bte 8 8 16 rfl (by
      intro i hi x hx1 hx2
      have hi3 : i < 3 := hi
      have hx : x = 0 ∨ x = 1 ∨ x = 2 := by
        interval_cases i <;> simp [BAT.ofList] at hx1 hx2 <;> omega
      rcases hx with rfl | rfl | rfl <;> simp [BAT.ofList, in_type])

/-- Products by evaluation: the `bte` column 2, 3, NIL, 4 into `bte` with the
frames `[0, 4)`, `[2, 3)` (the NIL alone), `[0, 2)` and `[3, 3)` (empty) gives
24, NIL, 6, NIL; 16 * 8 * 2 overflows `bte` and is rejected, and gives 256 in
`sht`. -/
theorem prod_example :
    (GDKanalyticalprod exOut (BAT.ofList 0 [2, 3, (intAtom 8).nil, 4]) (BAT.ofList 0 [0, 2, 0, 3])
        (BAT.ofList 0 [4, 3, 2, 3]) TYPE.bte TYPE.bte).map BAT.rows =
        .ok [24, (intAtom 8).nil, 6, (intAtom 8).nil] ∧
      (GDKanalyticalprod exOut (BAT.ofList 0 [16, 8, 2]) (BAT.ofList 0 [0, 0, 0])
        (BAT.ofList 0 [1, 1, 3]) TYPE.bte TYPE.bte).map BAT.rows = .error .calc_overflow ∧
      (GDKanalyticalprod exOut (BAT.ofList 0 [16, 8, 2]) (BAT.ofList 0 [0, 0, 0])
        (BAT.ofList 0 [1, 1, 3]) TYPE.bte TYPE.sht).map BAT.rows = .ok [16, 16, 256] := by
  decide

/-! ## `GDKanalyticalavg` -/

theorem ratDbl_lawful : ratDbl.Lawful where
  nil_is_nil := rfl
  div_not_nil := fun _ _ _ => rfl
  add_div_not_nil := fun _ _ _ _ => rfl

theorem AVERAGE_ITER_count (w : Nat) (x a : Int) (r n : Nat) :
    (AVERAGE_ITER w x a r n).2.2 = n + 1 := by
  unfold AVERAGE_ITER
  simp only
  split_ifs <;> rfl

/-- The running-mean loop never lowers the count, and raises it when it starts
on a non-NIL element. -/
theorem avg_iter_loop_count (w : Nat) (b : Heap Int) :
    ∀ (k : Nat) (bs a : Int) (rr n : Nat),
      n ≤ (avg_iter_loop w b k bs a rr n).2.2 ∧
      (0 < k → (intAtom w).is_nil (b bs) = false →
        n + 1 ≤ (avg_iter_loop w b k bs a rr n).2.2) := by
  intro k
  induction k with
  | zero =>
    intro bs a rr n
    exact ⟨le_refl _, fun h => absurd h (by omega)⟩
  | succ k ih =>
    intro bs a rr n
    by_cases hv : (intAtom w).is_nil (b bs) = true
    · simp only [avg_iter_loop, hv, if_true]
      exact ⟨(ih (bs + 1) a rr n).1, fun _ h => absurd h (by simp)⟩
    · have hv' : (intAtom w).is_nil (b bs) = false := by simpa using hv
      simp only [avg_iter_loop, hv', Bool.false_eq_true, if_false]
      have h := (ih (bs + 1) (AVERAGE_ITER w (b bs) a rr n).1
        (AVERAGE_ITER w (b bs) a rr n).2.1 (AVERAGE_ITER w (b bs) a rr n).2.2).1
      have hc := AVERAGE_ITER_count w (b bs) a rr n
      exact ⟨by omega, fun _ _ => by omega⟩

/-- The final count of a frame is zero exactly when the frame is entered with
the count zero and holds no non-NIL element, and the value written is the NIL
exactly when the final count is zero. -/
theorem avg_frame_nil {D : Type} (F : DblOps D) (hF : F.Lawful) (w wacc : Nat) (b : Heap Int) :
    ∀ (k : Nat) (bs sum : Int) (n : Nat),
      ((avg_frame F w wacc b k bs sum n).2 = 0 ↔
        n = 0 ∧ (frame_values b k bs).filter (fun v => !(intAtom w).is_nil v) = []) ∧
      (F.is_nil (avg_frame F w wacc b k bs sum n).1 = true ↔
        (avg_frame F w wacc b k bs sum n).2 = 0) := by
  intro k
  induction k with
  | zero =>
    intro bs sum n
    simp only [avg_frame, frame_values, List.filter_nil, and_true, true_and]
    by_cases hn : n > 0
    · rw [if_pos hn, hF.div_not_nil sum n hn]
      simp only [Bool.false_eq_true, false_iff]
      omega
    · rw [if_neg hn, hF.nil_is_nil]
      simp only [true_iff]
      omega
  | succ k ih =>
    intro bs sum n
    by_cases hv : (intAtom w).is_nil (b bs) = true
    · simp only [avg_frame, frame_values, hv, Bool.not_true, Bool.false_eq_true, if_false,
        List.filter_cons_of_neg, not_false_eq_true]
      exact ih (bs + 1) sum n
    · have hv' : (intAtom w).is_nil (b bs) = false := by simpa using hv
      simp only [avg_frame, frame_values, hv', Bool.not_false, if_true,
        List.filter_cons_of_pos]
      cases hadd : ADD_WITH_CHECK (b bs) sum (GDK_max wacc) with
      | ok c =>
        simp only
        obtain ⟨i1, i2⟩ := ih (bs + 1) c (n + 1)
        refine ⟨?_, i2⟩
        constructor
        · intro h
          have := i1.1 h
          omega
        · intro h
          exact absurd h.2 (by simp)
      | error err =>
        simp only [avg_overflow, avg_switch]
        have hcount := (avg_iter_loop_count w b (k + 1) bs
          (if sum ≥ 0 then (wrap w (sum / (n : Int)), (sum % (n : Int)).toNat)
            else (wrap w (wrap w (-(wrap w (wrap wacc (-sum) / (n : Int)))) - 1),
              n - (wrap wacc (-sum) % (n : Int)).toNat)).1
          (if sum ≥ 0 then (wrap w (sum / (n : Int)), (sum % (n : Int)).toNat)
            else (wrap w (wrap w (-(wrap w (wrap wacc (-sum) / (n : Int)))) - 1),
              n - (wrap wacc (-sum) % (n : Int)).toNat)).2 n).2 (by omega) hv'
        refine ⟨?_, ?_⟩
        · constructor
          · intro h
            omega
          · intro h
            exact absurd h.2 (by simp)
        · rw [hF.add_div_not_nil _ _ _ (by omega)]
          simp only [Bool.false_eq_true, false_iff]
          omega

/-- The first inner loop of avg while the sum stays in the range of the
accumulator: the sum and the count of the non-NIL elements are added to the
ones the loop is entered with. -/
theorem avg_frame_exact {D : Type} (F : DblOps D) (w wacc : Nat) (b : Heap Int) :
    ∀ (k : Nat) (bs sum : Int) (n : Nat),
      (∀ m, m ≤ ((frame_values b k bs).filter (fun v => !(intAtom w).is_nil v)).length →
        -(GDK_max wacc) ≤ sum +
          (((frame_values b k bs).filter (fun v => !(intAtom w).is_nil v)).take m).sum ∧
        sum + (((frame_values b k bs).filter (fun v => !(intAtom w).is_nil v)).take m).sum
          ≤ GDK_max wacc) →
      avg_frame F w wacc b k bs sum n =
        (if n + ((frame_values b k bs).filter (fun v => !(intAtom w).is_nil v)).length > 0 then
            F.div (F.ofInt (sum +
                ((frame_values b k bs).filter (fun v => !(intAtom w).is_nil v)).sum))
              (F.ofInt ((n +
                ((frame_values b k bs).filter (fun v => !(intAtom w).is_nil v)).length : Nat)))
          else F.nil,
          n + ((frame_values b k bs).filter (fun v => !(intAtom w).is_nil v)).length) := by
  intro k
  induction k with
  | zero =>
    intro bs sum n _
    simp [avg_frame, frame_values]
  | succ k ih =>
    intro bs sum n hok
    by_cases hv : (intAtom w).is_nil (b bs) = true
    · simp only [avg_frame, frame_values, hv, Bool.not_true, Bool.false_eq_true, if_false,
        List.filter_cons_of_neg, not_false_eq_true] at hok ⊢
      exact ih (bs + 1) sum n hok
    · have hv' : (intAtom w).is_nil (b bs) = false := by simpa using hv
      simp only [frame_values, hv', Bool.not_false, List.filter_cons_of_pos] at hok
      simp only [avg_frame, frame_values, hv', Bool.not_false, if_true,
        List.filter_cons_of_pos]
      have h1 := hok 1 (by simp only [List.length_cons]; omega)
      simp only [List.take_succ_cons, List.take_zero, List.sum_cons, List.sum_nil,
        add_zero] at h1
      have hadd : -(GDK_max wacc) ≤ b bs + sum ∧ b bs + sum ≤ GDK_max wacc := by omega
      simp only [ADD_WITH_CHECK, if_pos hadd]
      rw [ih (bs + 1) (b bs + sum) (n + 1)]
      · simp only [List.length_cons, List.sum_cons]
        have e1 : n + 1 + ((frame_values b k (bs + 1)).filter
            (fun v => !(intAtom w).is_nil v)).length =
            n + (((frame_values b k (bs + 1)).filter
              (fun v => !(intAtom w).is_nil v)).length + 1) := by omega
        have e2 : b bs + sum + ((frame_values b k (bs + 1)).filter
            (fun v => !(intAtom w).is_nil v)).sum =
            sum + (b bs + ((frame_values b k (bs + 1)).filter
              (fun v => !(intAtom w).is_nil v)).sum) := by ring
        rw [e1, e2]
      · intro m hm
        have := hok (m + 1) (by simp only [List.length_cons]; omega)
        simp only [List.take_succ_cons, List.sum_cons] at this
        constructor <;> omega

theorem avg_rows_val {D : Type} (F : DblOps D) (w wacc : Nat) (b start end_ : Heap Int) :
    ∀ (k : Nat) (i : Int) (st : Heap D × Bool) (x : Int),
      (avg_rows F w wacc b start end_ k i st).1 x =
        if i ≤ x ∧ x < i + k then
          (avg_frame F w wacc b (end_ x - start x).toNat (start x) 0 0).1
        else st.1 x := by
  intro k
  induction k with
  | zero =>
    intro i st x
    have : ¬ (i ≤ x ∧ x < i + ((0 : Nat) : Int)) := by omega
    rw [if_neg this]; rfl
  | succ k ih =>
    intro i st x
    obtain ⟨rb, hn⟩ := st
    simp only [avg_rows]
    rw [ih]
    by_cases hx : x = i
    · subst hx
      have a1 : ¬ (x + 1 ≤ x ∧ x < x + 1 + (k : Int)) := by omega
      have a2 : (x ≤ x ∧ x < x + ((k + 1 : Nat) : Int)) := by push_cast; omega
      rw [if_neg a1, if_pos a2]; simp
    · by_cases hr : (i ≤ x ∧ x < i + ((k + 1 : Nat) : Int))
      · have a1 : (i + 1 ≤ x ∧ x < i + 1 + (k : Int)) := by push_cast at hr; omega
        rw [if_pos a1, if_pos hr]
      · have a1 : ¬ (i + 1 ≤ x ∧ x < i + 1 + (k : Int)) := by push_cast at hr; omega
        rw [if_neg a1, if_neg hr]
        exact store_ne _ _ _ _ hx

/-- C17: `GDKanalyticalavg` on an integer column (`tpe` one of `bte` .. `hge`,
of `w` bits), for a `dbl` arithmetic in which a quotient by a positive count is
a number: the call succeeds, and for every row `i` the output is NIL exactly
when frame `i` has no non-NIL element (it is empty, negative or all NIL);
otherwise, when the running sums of the frame stay within the range of the
128-bit accumulator, the output is `(dbl) sum / n` for the mathematical sum of
the non-NIL elements of the frame and their number `n`: nothing of the sum or
of the count of another frame enters it. -/
theorem avg_of_frame {D : Type} (F : DblOps D) (hF : F.Lawful) (r : BAT D) (b s e : BAT Int)
    (tpe : TYPE) (w : Nat) (htpe : tpe.bits = some w) :
    ∃ r', GDKanalyticalavg F r b s e tpe = .ok r' ∧ r'.count = b.count ∧
      ∀ i : Nat, i < b.count →
        (F.is_nil (r'.tloc i) = true ↔ non_nil_values w b.tloc (s.tloc i) (e.tloc i) = []) ∧
        (non_nil_values w b.tloc (s.tloc i) (e.tloc i) ≠ [] →
          running_sums_in_range (GDK_max 128)
            (non_nil_values w b.tloc (s.tloc i) (e.tloc i)) →
          r'.tloc i = F.div (F.ofInt (non_nil_values w b.tloc (s.tloc i) (e.tloc i)).sum)
            (F.ofInt ((non_nil_values w b.tloc (s.tloc i) (e.tloc i)).length : Nat))) := by
  simp only [GDKanalyticalavg, htpe]
  refine ⟨_, rfl, rfl, ?_⟩
  intro i hi
  show (F.is_nil ((avg_rows F w 128 b.tloc s.tloc e.tloc b.count 0 (r.tloc, false)).1 i) = true ↔ _)
    ∧ (_ → _ → (avg_rows F w 128 b.tloc s.tloc e.tloc b.count 0 (r.tloc, false)).1 i = _)
  rw [avg_rows_val, if_pos ⟨by omega, by omega⟩]
  obtain ⟨n1, n2⟩ := avg_frame_nil F hF w 128 b.tloc (e.tloc i - s.tloc i).toNat (s.tloc i) 0 0
  constructor
  · rw [n2, n1]
    unfold non_nil_values
    simp only [true_and]
  · intro hne hrange
    unfold non_nil_values at hne hrange ⊢
    rw [avg_frame_exact F w 128 b.tloc (e.tloc i - s.tloc i).toNat (s.tloc i) 0 0
      (fun m hm => by
        have := hrange m hm
        simp only [zero_add]
        exact this)]
    have hlen : 0 + ((frame_values b.tloc (e.tloc i - s.tloc i).toNat (s.tloc i)).filter
        (fun v => !(intAtom w).is_nil v)).length > 0 := by
      have := List.length_pos_of_ne_nil hne
      omega
    simp only [zero_add] at hlen ⊢
    rw [if_pos hlen]

/-- Witness of C17: the `int` column 1, 2, 3 with the frame `[0, 3)` on every
row, in exact arithmetic. -/
theorem avg_of_frame_witness :
    ∃ r', GDKanalyticalavg ratDbl (BAT.ofList none []) (BAT.ofList 0 [1, 2, 3])
        (BAT.ofList 0 [0, 0, 0]) (BAT.ofList 0 [3, 3, 3]) TYPE.int = .ok r' ∧
      r'.count = (BAT.ofList (0 : Int) [1, 2, 3]).count ∧
      ∀ i : Nat, i < (BAT.ofList (0 : Int) [1, 2, 3]).count →
        (ratDbl.is_nil (r'.tloc i) = true ↔
          non_nil_values 32 (BAT.ofList (0 : Int) [1, 2, 3]).tloc
            ((BAT.ofList (0 : Int) [0, 0, 0]).tloc i)
            ((BAT.ofList (0 : Int) [3, 3, 3]).tloc i) = []) ∧
        (non_nil_values 32 (BAT.ofList (0 : Int) [1, 2, 3]).tloc
            ((BAT.ofList (0 : Int) [0, 0, 0]).tloc i)
            ((BAT.ofList (0 : Int) [3, 3, 3]).tloc i) ≠ [] →
          running_sums_in_range (GDK_max 128)
            (non_nil_values 32 (BAT.ofList (0 : Int) [1, 2, 3]).tloc
              ((BAT.ofList (0 : Int) [0, 0, 0]).tloc i)
              ((BAT.ofList (0 : Int) [3, 3, 3]).tloc i)) →
          r'.tloc i = ratDbl.div (ratDbl.ofInt (non_nil_values 32
              (BAT.ofList (0 : Int) [1, 2, 3]).tloc
              ((BAT.ofList (0 : Int) [0, 0, 0]).tloc i)
              ((BAT.ofList (0 : Int) [3, 3, 3]).tloc i)).sum)
            (ratDbl.ofInt ((non_nil_values 32 (BAT.ofList (0 : Int) [1, 2, 3]).tloc
              ((BAT.ofList (0 : Int) [0, 0, 0]).tloc i)
              ((BAT.ofList (0 : Int) [3, 3, 3]).tloc i)).length : Nat))) :=
  avg_of_frame ratDbl ratDbl_lawful (BAT.ofList none []) (BAT.ofList 0 [1, 2, 3])
    (BAT.ofList 0 [0, 0, 0]) (BAT.ofList 0 [3, 3, 3]) TYPE.int 32 rfl

/-- The example of the specification: `avg` over the `int` values 1, 2, 3 with
the frame `[0, 3)` gives 2; and the column 1, NIL, 4 with the frames `[0, 3)`,
`[1, 2)` (the NIL alone) and `[2, 2)` (empty) gives 5/2, NIL, NIL. -/
theorem avg_example :
    (GDKanalyticalavg ratDbl (BAT.ofList none []) (BAT.ofList 0 [1, 2, 3])
        (BAT.ofList 0 [0, 0, 0]) (BAT.ofList 0 [3, 3, 3]) TYPE.int).map BAT.rows =
        .ok [some 2, some 2, some 2] ∧
      (GDKanalyticalavg ratDbl (BAT.ofList none []) (BAT.ofList 0 [1, (intAtom 32).nil, 4])
        (BAT.ofList 0 [0, 1, 2]) (BAT.ofList 0 [3, 2, 2]) TYPE.int).map BAT.rows =
        .ok [some (5 / 2), none, none] := by
  constructor
  · simp [GDKanalyticalavg, TYPE.bits, avg_rows, avg_frame, BAT.ofList, ADD_WITH_CHECK, GDK_max,
      intAtom, ratDbl]
    norm_num
    simp [Except.map, BAT.rows, store, List.range, List.range.loop]
  · simp [GDKanalyticalavg, TYPE.bits, avg_rows, avg_frame, BAT.ofList, ADD_WITH_CHECK, GDK_max,
      intAtom, ratDbl]
    norm_num
    simp [Except.map, BAT.rows, store, List.range, List.range.loop]

/-! ## The NIL flags of the result -/

set_option maxRecDepth 100000 in
/-- C19 at the failing input: `ntile(100)` over one partition of 129 rows
(type `bte`, no markers) succeeds with 129 rows and the no-nil flag set (the
has-nil flag clear), yet its last row holds the NIL of `bte`: the labels run
1, 1, 2, 3, .. past the bucket count, row 127 gets 127, and the next `j++`
wraps to -128, the NIL, without `has_nils` being set. -/
theorem ntile_nil_row_with_no_nil_flag :
    (GDKanalyticalntile (BAT.ofList 0 []) (BAT.ofList (0 : Int) (List.replicate 129 0)) none
        TYPE.bte 100).map
      (fun r => (r.count, r.tnonil, r.tnil, r.tloc 127, r.tloc 128,
        (intAtom 8).is_nil (r.tloc 128))) =
    .ok (129, true, false, 127, -128, true) := by
  decide

/-! ## The switch to the running mean -/

set_option maxRecDepth 100000 in
/-- C40 at the failing input: the `hge` column `-2^126 + 1, -2^126 + 1, -2`
summed over the frame of its three rows. The first two elements give the sum
`-(2^127 - 2)` with `n = 2`, the third would take the sum below `-GDK_hge_max`,
and the average switches to the running mean with that sum, a negative
multiple of `n`. The adjustment `a--; rr = n - rr` is guarded by `if (r)`,
where `r` is the result column and not the remainder `rr`, so that it is made
although the remainder is 0: the pair is `(-2^126, 2)`, with `a * n + rr =
sum` but `rr = n`. The same happens for the sum -6 of 3 elements; for the sum
-7 of 2 elements, no multiple, the pair `(-4, 1)` is as the claim says. -/
theorem avg_switch_remainder_reaches_count :
    ADD_WITH_CHECK (-2) (-(2 ^ 127 - 2)) (GDK_max 128) = .error .calc_overflow ∧
    avg_frame ratDbl 128 128 (BAT.ofList 0 [-(2 ^ 126) + 1, -(2 ^ 126) + 1, -2]).tloc 3 0 0 0 =
      avg_overflow ratDbl 128 128 (BAT.ofList 0 [-(2 ^ 126) + 1, -(2 ^ 126) + 1, -2]).tloc 1 2
        (-(2 ^ 127 - 2)) 2 ∧
    avg_switch 128 128 (-(2 ^ 127 - 2)) 2 = (-(2 ^ 126), 2) ∧
    avg_switch 128 128 (-6) 3 = (-3, 3) ∧
    avg_switch 128 128 (-7) 2 = (-4, 1) := by
  refine ⟨by decide, ?_, by decide, by decide, by decide⟩
  rfl

/-! ## `GDKanalyticalntile` in the evenly divisible cases -/

theorem ntile_loop1_frame (w : Nat) :
    ∀ (m : Nat) (s : NtileSt), (ntile_loop1 w m s).rb = s.rb + m ∧
      ∀ x, ¬ (s.rb ≤ x ∧ x < s.rb + m) → (ntile_loop1 w m s).r x = s.r x := by
  intro m
  induction m with
  | zero => intro s; simp [ntile_loop1]
  | succ m ih =>
    intro s
    simp only [ntile_loop1]
    refine ⟨by rw [(ih _).1]; dsimp only; push_cast; omega, ?_⟩
    intro x hx
    rw [(ih _).2 x (by push_cast at hx; dsimp only; omega)]
    exact store_ne _ _ _ _ (by push_cast at hx; omega)

theorem ntile_loop2_frame (w B : Nat) :
    ∀ (m : Nat) (s : NtileSt), (ntile_loop2 w B m s).rb = s.rb + m ∧
      ∀ x, ¬ (s.rb ≤ x ∧ x < s.rb + m) → (ntile_loop2 w B m s).r x = s.r x := by
  intro m
  induction m with
  | zero => intro s; simp [ntile_loop2]
  | succ m ih =>
    intro s
    simp only [ntile_loop2]
    split_ifs with hi
    · refine ⟨by rw [(ih _).1]; dsimp only; push_cast; omega, ?_⟩
      intro x hx
      rw [(ih _).2 x (by push_cast at hx; dsimp only; omega)]
      exact store_ne _ _ _ _ (by push_cast at hx; dsimp only; omega)
    · refine ⟨by rw [(ih _).1]; dsimp only; push_cast; omega, ?_⟩
      intro x hx
      rw [(ih _).2 x (by push_cast at hx; dsimp only; omega)]
      exact store_ne _ _ _ _ (by push_cast at hx; omega)

theorem ntile_loop3_frame (w B : Nat) :
    ∀ (m : Nat) (s : NtileSt), (ntile_loop3 w B m s).rb = s.rb + m ∧
      ∀ x, ¬ (s.rb ≤ x ∧ x < s.rb + m) → (ntile_loop3 w B m s).r x = s.r x := by
  intro m
  induction m with
  | zero => intro s; simp [ntile_loop3]
  | succ m ih =>
    intro s
    simp only [ntile_loop3]
    split_ifs with hi
    · refine ⟨by rw [(ih _).1]; dsimp only; push_cast; omega, ?_⟩
      intro x hx
      rw [(ih _).2 x (by push_cast at hx; dsimp only; omega)]
      exact store_ne _ _ _ _ (by push_cast at hx; omega)
    · refine ⟨by rw [(ih _).1]; dsimp only; push_cast; omega, ?_⟩
      intro x hx
      rw [(ih _).2 x (by push_cast at hx; dsimp only; omega)]
      exact store_ne _ _ _ _ (by push_cast at hx; omega)

/-- The first loop of `NTILE_CALC` writes consecutive labels from `j` on, as
long as they are values of the type. -/
theorem ntile_loop1_val (w : Nat) (hw : 1 ≤ w) :
    ∀ (m : Nat) (s : NtileSt), 1 ≤ s.j → s.j + m ≤ 2 ^ (w - 1) →
      ∀ u : Nat, u < m → (ntile_loop1 w m s).r (s.rb + u) = s.j + u := by
  intro m
  induction m with
  | zero => intro s _ _ u hu; omega
  | succ m ih =>
    intro s hj hb u hu
    simp only [ntile_loop1]
    cases u with
    | zero =>
      rw [(ntile_loop1_frame w m _).2 _ (by dsimp only; push_cast; omega)]
      simp [store]
    | succ u =>
      have hm : 1 ≤ m := by omega
      have hwj : wrap w (s.j + 1) = s.j + 1 :=
        wrap_id w hw _ (by have : (0 : Int) < 2 ^ (w - 1) := by positivity
                           omega) (by push_cast at hb; omega)
      have := ih { s with r := store s.r s.rb s.j, j := wrap w (s.j + 1), rb := s.rb + 1 }
        (by dsimp only; rw [hwj]; omega) (by dsimp only; rw [hwj]; push_cast at hb; omega) u
        (by omega)
      dsimp only at this
      rw [hwj] at this
      have e1 : s.rb + ((u + 1 : Nat) : Int) = s.rb + 1 + (u : Int) := by push_cast; omega
      rw [e1, hwj, this]
      push_cast
      omega

/-- The second loop of `NTILE_CALC` with buckets of `B` rows: entered with
the counter `i` and the label `j`, row `u` gets the label `j + (i + u) / B`,
as long as the labels are values of the type. -/
theorem ntile_loop2_val (w : Nat) (hw : 1 ≤ w) (B : Nat) (hB : 1 ≤ B) :
    ∀ (m : Nat) (s : NtileSt), s.i ≤ B → 1 ≤ s.j →
      (∀ u : Nat, u < m → s.j + (((s.i + u) / B : Nat) : Int) < 2 ^ (w - 1)) →
      ∀ u : Nat, u < m →
        (ntile_loop2 w B m s).r (s.rb + u) = s.j + (((s.i + u) / B : Nat) : Int) := by
  intro m
  induction m with
  | zero => intro s _ _ _ u hu; omega
  | succ m ih =>
    intro s hi hj hb u hu
    have hp : (0 : Int) < 2 ^ (w - 1) := by positivity
    simp only [ntile_loop2]
    by_cases hiB : s.i = B
    · have hb0 := hb 0 (by omega)
      have hdiv : (s.i + 0) / B = 1 := by rw [hiB, Nat.add_zero]; exact Nat.div_self hB
      rw [hdiv] at hb0
      have hwj : wrap w (s.j + 1) = s.j + 1 :=
        wrap_id w hw _ (by omega) (by push_cast at hb0; omega)
      rw [if_pos hiB]
      dsimp only
      cases u with
      | zero =>
        rw [(ntile_loop2_frame w B m _).2 _ (by dsimp only; push_cast; omega), hdiv]
        simp only [Nat.cast_zero, add_zero, store, if_true, hwj, Nat.cast_one]
      | succ u =>
        have := ih { i := 0 + 1, j := wrap w (s.j + 1), rb := s.rb + 1,
                     r := store s.r s.rb (wrap w (s.j + 1)) }
          (by dsimp only; omega) (by dsimp only; rw [hwj]; omega)
          (by
            intro v hv
            dsimp only
            rw [hwj]
            have := hb (v + 1) (by omega)
            have e : (s.i + (v + 1)) / B = 1 + (0 + 1 + v) / B := by
              rw [hiB, show B + (v + 1) = (0 + 1 + v) + B by omega, Nat.add_div_right _ hB]
              omega
            rw [e] at this
            push_cast at this ⊢
            omega) u (by omega)
        dsimp only at this
        have e1 : s.rb + ((u + 1 : Nat) : Int) = s.rb + 1 + (u : Int) := by push_cast; omega
        rw [e1, this, hwj]
        have e : (s.i + (u + 1)) / B = 1 + (0 + 1 + u) / B := by
          rw [hiB, show B + (u + 1) = (0 + 1 + u) + B by omega, Nat.add_div_right _ hB]
          omega
        rw [e]
        push_cast
        omega
    · rw [if_neg hiB]
      have hlt : s.i < B := by omega
      cases u with
      | zero =>
        rw [(ntile_loop2_frame w B m _).2 _ (by dsimp only; push_cast; omega)]
        simp only [Nat.cast_zero, add_zero, store, if_true]
        rw [Nat.div_eq_of_lt hlt]
        simp
      | succ u =>
        have := ih { i := s.i + 1, j := s.j, rb := s.rb + 1, r := store s.r s.rb s.j }
          (by dsimp only; omega) (by dsimp only; omega)
          (by
            intro v hv
            dsimp only
            have := hb (v + 1) (by omega)
            rw [show s.i + 1 + v = s.i + (v + 1) by omega]
            exact this) u (by omega)
        dsimp only at this
        have e1 : s.rb + ((u + 1 : Nat) : Int) = s.rb + 1 + (u : Int) := by push_cast; omega
        rw [e1, this, show s.i + 1 + u = s.i + (u + 1) by omega]

/-- `NTILE_CALC` on a partition of `ncnt` rows with `n` buckets, entered with
`i = 0` and `j = 1`: only the rows of the partition are written; for `ncnt <=
n` row `u` gets the label `u + 1`, and when `n` divides `ncnt` it gets the
label `u / (ncnt / n) + 1`. -/
theorem ntile_calc_spec (w : Nat) (hw : 1 ≤ w) (n ncnt : Nat) (rp : Int) (s : NtileSt)
    (hn : 1 ≤ n) (hmax : (n : Int) ≤ GDK_max w) (hi : s.i = 0) (hj : s.j = 1)
    (hrp : rp = s.rb + ncnt) :
    (NTILE_CALC w n ncnt rp s).rb = rp ∧
    (∀ x, ¬ (s.rb ≤ x ∧ x < rp) → (NTILE_CALC w n ncnt rp s).r x = s.r x) ∧
    (ncnt ≤ n → ∀ u : Nat, u < ncnt → (NTILE_CALC w n ncnt rp s).r (s.rb + u) = (u : Int) + 1) ∧
    (n ∣ ncnt → ∀ u : Nat, u < ncnt →
      (NTILE_CALC w n ncnt rp s).r (s.rb + u) = ((u / (ncnt / n) : Nat) : Int) + 1) := by
  have hiter : (rp - s.rb).toNat = ncnt := by rw [hrp]; simp
  have hg : (n : Int) + 1 ≤ 2 ^ (w - 1) := by rw [GDK_max_eq] at hmax; omega
  unfold NTILE_CALC
  rw [hiter]
  by_cases h1 : n ≥ ncnt
  · rw [if_pos h1]
    have hf := ntile_loop1_frame w ncnt { s with j := 1 }
    have hv := ntile_loop1_val w hw ncnt { s with j := 1 } (by simp)
      (by dsimp only; have : (ncnt : Int) ≤ n := by exact_mod_cast h1
          omega)
    dsimp only at hf hv
    refine ⟨by rw [hf.1, hrp], fun x hx => hf.2 x (by rw [hrp] at hx; exact hx), ?_, ?_⟩
    · intro _ u hu
      rw [hv u hu]
      omega
    · intro hd u hu
      have hpos : 0 < ncnt := by omega
      have heq : ncnt = n := Nat.le_antisymm h1 (Nat.le_of_dvd hpos hd)
      rw [hv u hu, heq, Nat.div_self (by omega), Nat.div_one]
      omega
  · rw [if_neg h1]
    by_cases h2 : ncnt % n = 0
    · rw [if_pos h2]
      have hmul : ncnt = (ncnt / n) * n := (Nat.div_mul_cancel (Nat.dvd_of_mod_eq_zero h2)).symm
      have hB : 1 ≤ ncnt / n := by
        rcases Nat.eq_zero_or_pos (ncnt / n) with h0 | h0
        · rw [h0] at hmul; omega
        · exact h0
      have hf := ntile_loop2_frame w (ncnt / n) ncnt s
      have hlt : ∀ u : Nat, u < ncnt → u / (ncnt / n) < n := by
        intro u hu
        rw [Nat.div_lt_iff_lt_mul hB, Nat.mul_comm]
        omega
      have hv := ntile_loop2_val w hw (ncnt / n) hB ncnt s (by omega) (by omega)
        (by
          intro u hu
          rw [hi, hj, Nat.zero_add]
          have := hlt u hu
          have : ((u / (ncnt / n) : Nat) : Int) < n := by exact_mod_cast this
          omega)
      refine ⟨by rw [hf.1, hrp], fun x hx => hf.2 x (by rw [hrp] at hx; exact hx), ?_, ?_⟩
      · intro hle; omega
      · intro _ u hu
        rw [hv u hu, hi, hj, Nat.zero_add]
        omega
    · rw [if_neg h2]
      have hf := ntile_loop3_frame w (ncnt / n) ncnt s
      refine ⟨by rw [hf.1, hrp], fun x hx => hf.2 x (by rw [hrp] at hx; exact hx), ?_, ?_⟩
      · intro hle; omega
      · intro hd
        exact absurd (Nat.mod_eq_zero_of_dvd hd) h2

/-- The conversion `(BUN) val` of a bucket count that fits the row-count
type. -/
theorem toBUN_natCast (n : Nat) (h : (n : Int) < 2 ^ 64) : toBUN (n : Int) = n := by
  unfold toBUN
  rw [Int.emod_eq_of_lt (by omega) h]
  simp

/-- The labels of `ANALYTICAL_NTILE_IMP` in the partition `[q, e)` for a
bucket count `n` that is at least the size of the partition or divides it. -/
theorem ntile_imp_spec (w : Nat) (hw : 1 ≤ w) (cnt : Nat) (p : Option (BAT Bool)) (n : Nat)
    (hn : 1 ≤ n) (hmax : (n : Int) ≤ GDK_max w) (hbun : (n : Int) < 2 ^ 64) (r : Heap Int)
    (q e : Int) (hpart : IsPartition p cnt q e) (k : Nat) (hk : q + k < e) :
    ((e - q).toNat ≤ n → (ANALYTICAL_NTILE_IMP w cnt p n r).1 (q + k) = (k : Int) + 1) ∧
    (n ∣ (e - q).toNat →
      (ANALYTICAL_NTILE_IMP w cnt p n r).1 (q + k) =
        ((k / ((e - q).toNat / n) : Nat) : Int) + 1) := by
  have hnil : (intAtom w).is_nil (n : Int) = false :=
    intAtom_pos_not_nil w n (by exact_mod_cast hn)
  simp only [ANALYTICAL_NTILE_IMP, hnil, Bool.false_eq_true, if_false, toBUN_natCast n hbun]
  cases p with
  | none =>
    obtain ⟨rfl, rfl⟩ := partition_none cnt q e hpart
    simp only
    obtain ⟨_, _, c3, c4⟩ := ntile_calc_spec w hw n cnt cnt { i := 0, j := 1, rb := 0, r := r }
      hn hmax rfl rfl (by simp)
    simp only [zero_add, sub_zero, Int.toNat_ofNat] at c3 c4 hk ⊢
    have hkc : k < cnt := by exact_mod_cast hk
    exact ⟨fun h => c3 h k hkc, fun h => c4 h k hkc⟩
  | some pp =>
    simp only
    let good : Heap Int → Int → Int → Nat → Prop := fun rr q e k =>
      ((e - q).toNat ≤ n → rr (q + k) = (k : Int) + 1) ∧
      (n ∣ (e - q).toNat → rr (q + k) = ((k / ((e - q).toNat / n) : Nat) : Int) + 1)
    let P : Int → Int × NtileSt → Prop := fun m s =>
      s.1 = m ∧ s.2.rb = m ∧
        ∀ q e, IsPartition (some pp) cnt q e → e ≤ m → ∀ k : Nat, q + k < e → good s.2.r q e k
    have hbody : ∀ pnp t s, Seg (marker (some pp)) cnt pnp t →
        (t = cnt ∨ marker (some pp) t = true) → P pnp s → P t (ntile_part w n pnp t s) := by
      intro pnp t s hseg ht ⟨e1, e2, e4⟩
      have hle : pnp ≤ t := hseg.2.1
      have hn1 : ((t - pnp).toNat : Int) = t - pnp := Int.toNat_of_nonneg (by omega)
      obtain ⟨c1, c2, c3, c4⟩ := ntile_calc_spec w hw n (t - pnp).toNat
        (s.1 + ((t - pnp).toNat : Int)) { s.2 with i := 0, j := 1 } hn hmax rfl rfl
        (by dsimp only; rw [e1, e2])
      dsimp only at c1 c2 c3 c4
      refine ⟨by simp only [ntile_part]; omega, by simp only [ntile_part]; rw [c1]; omega, ?_⟩
      intro q e hp hle2 k hk
      simp only [ntile_part]
      by_cases hlt : pnp < e
      · obtain ⟨rfl, rfl⟩ := part_of_seg (some pp) cnt pnp t q e hseg ht hp hlt hle2
        have hku : k < (e - q).toNat := by omega
        exact ⟨fun h => by simpa only [e2] using c3 h k hku,
          fun h => by simpa only [e2] using c4 h k hku⟩
      · have hx : ¬ (s.2.rb ≤ q + k ∧ q + k < s.1 + ((t - pnp).toNat : Int)) := by omega
        have := e4 q e hp (by omega) k hk
        exact ⟨fun h => by rw [c2 _ hx]; exact this.1 h, fun h => by rw [c2 _ hx]; exact this.2 h⟩
    have hloop := parts_loop_inv pp.tloc (ntile_part w n) cnt P
      (fun pnp t s hseg _ hm hP => hbody pnp t s hseg (Or.inr hm) hP)
      cnt 0 0 (0, { i := 0, j := 1, rb := 0, r := r }) (by simp)
      ⟨le_refl _, le_refl _, by omega, Or.inl rfl, fun u h1 h2 => by omega⟩
      ⟨rfl, rfl, fun q e hp hle k hk => by
        have h1 := hp.2.1
        have h2 := hp.1
        omega⟩
    generalize parts_loop pp.tloc (ntile_part w n) cnt 0
      (0, (0, { i := 0, j := 1, rb := 0, r := r })) = res at hloop ⊢
    obtain ⟨pnp, s⟩ := res
    obtain ⟨hseg, hP⟩ := hloop
    exact (hbody pnp cnt s hseg (Or.inl rfl) hP).2.2 q e hpart hpart.2.2.1 k hk

/-- The evenly divisible cases of `GDKanalyticalntile` for a bucket count
that the conversion `(BUN) val` keeps. For every partition `[q, e)` of `s`
rows and every bucket count `n >= 1` of the type `tpe` with `n < 2^64`, the
call succeeds; if `s <= n`, row `k` of the partition gets the label `k + 1`
(the labels 1, 2, ..., `s` in row order), and if `n` divides `s` it gets the
label `k / (s / n) + 1` (the labels 1 to `n` in non-decreasing order, `s / n`
rows each); in both cases row 0 of the partition gets the label 1 again. -/
theorem ntile_evenly_divisible {α : Type} (r : BAT Int) (b : BAT α) (p : Option (BAT Bool))
    (tpe : TYPE) (w n s : Nat) (htpe : tpe.bits = some w) (hn : 1 ≤ n)
    (hmax : (n : Int) ≤ GDK_max w) (hbun : (n : Int) < 2 ^ 64) (q e : Int)
    (hpart : IsPartition p b.count q e) (hs : e - q = s) (k : Nat) (hk : k < s) :
    ∃ out, GDKanalyticalntile r b p tpe (n : Int) = .ok out ∧
      (s ≤ n → out.tloc (q + k) = (k : Int) + 1) ∧
      (n ∣ s → out.tloc (q + k) = ((k / (s / n) : Nat) : Int) + 1) := by
  have hw : 1 ≤ w := by
    cases tpe <;> simp [TYPE.bits] at htpe <;> omega
  have hsn : (e - q).toNat = s := by rw [hs]; simp
  have h := ntile_imp_spec w hw b.count p n hn hmax hbun r.tloc q e hpart k (by omega)
  rw [hsn] at h
  simp only [GDKanalyticalntile, htpe]
  exact ⟨_, rfl, h⟩

/-- Example of the evenly divisible cases: the `int` column of nine rows with
partitions starting at the rows 0 and 3 and `ntile(3)`: row 4 of the
partition `[3, 9)` of six rows gets the label `4 / (6 / 3) + 1 = 3`. -/
theorem ntile_evenly_divisible_witness :
    ∃ out, GDKanalyticalntile (BAT.ofList 0 []) (BAT.ofList (0 : Int) [0, 0, 0, 0, 0, 0, 0, 0, 0])
        (some (BAT.ofList false [false, false, false, true, false, false, false, false, false]))
        TYPE.int ((3 : Nat) : Int) = .ok out ∧
      (6 ≤ 3 → out.tloc (3 + (4 : Nat)) = ((4 : Nat) : Int) + 1) ∧
      (3 ∣ 6 → out.tloc (3 + (4 : Nat)) = ((4 / (6 / 3) : Nat) : Int) + 1) :=
  ntile_evenly_divisible (BAT.ofList 0 []) (BAT.ofList (0 : Int) [0, 0, 0, 0, 0, 0, 0, 0, 0])
    (some (BAT.ofList false [false, false, false, true, false, false, false, false, false]))
    TYPE.int 32 3 6 rfl (by decide) (by decide) (by decide) 3 9
    ⟨by decide, by decide, by decide, Or.inr (by decide), Or.inl (by decide), by
      intro u h1 h2
      have : u = 4 ∨ u = 5 ∨ u = 6 ∨ u = 7 ∨ u = 8 := by omega
      rcases this with rfl | rfl | rfl | rfl | rfl <;> decide⟩
    (by decide) 4 (by decide)

/-- C37 at the failing input: `ntile(2^64 + 1)` with a bucket count of the
type `hge`, which is no NIL and within the range of the type, over a column
of two rows in one partition. `BUN bval = (BUN) val` narrows the count to 1
without a test, the branch `bval >= ncnt` for a partition that is not larger
than the bucket count is not taken, and both rows get the label 1, where the
claim says 1 and 2 (partition size 2 is at most `n`). The bucket count 3 of
the same type over the same column gives the labels 1 and 2. -/
theorem ntile_bucket_count_truncated :
    (intAtom 128).is_nil (2 ^ 64 + 1) = false ∧ (2 ^ 64 + 1 : Int) ≤ GDK_max 128 ∧
    toBUN (2 ^ 64 + 1) = 1 ∧
    (GDKanalyticalntile (BAT.ofList 0 []) (BAT.ofList (0 : Int) [0, 0]) none
        TYPE.hge (2 ^ 64 + 1)).map BAT.rows = .ok [1, 1] ∧
    (GDKanalyticalntile (BAT.ofList 0 []) (BAT.ofList (0 : Int) [0, 0]) none
        TYPE.hge 3).map BAT.rows = .ok [1, 2] := by
  decide

end GDK

namespace SQL

/-! # Properties of the expression trees

## Structural match -/

/-- A node matches itself: `exp_cmp` finds the two pointers equal. -/
theorem exp_match_exp_self (e : sql_exp) : exp_match_exp e e = true := by
  cases e with
  | mk a d l r f => simp [exp_match_exp, exp_match, exp_cmp]

/-- Two nodes at different addresses that are comparisons are not matched by
`exp_match`, which only looks into columns and calls of `identity`. -/
theorem exp_match_cmp (e1 e2 : sql_exp) (haddr : e1.addr ≠ e2.addr)
    (h1 : e1.d.type = expression_type.e_cmp) : exp_match e1 e2 = false := by
  cases e1 with
  | mk a d l r f =>
    simp only [sql_exp.addr, sql_exp.d] at haddr h1
    simp [exp_match, exp_cmp, sql_exp.addr, haddr, h1]

/-- The node built by `exp_compare`: a comparison at the next free address
with the given flag, the two operands in `l` and `r`, and nothing in `f`. -/
theorem exp_compare_node (sa : sql_allocator) (l r : sql_exp) (cmptype : Nat) :
    ∃ d : exp_fields, (exp_compare sa l r cmptype).1 = .mk sa.next d (.exp l) (.exp r) .null ∧
      d.type = expression_type.e_cmp ∧ d.flag = cmptype ∧
      (exp_compare sa l r cmptype).2 = { next := sa.next + 1 } :=
  ⟨_, rfl, rfl, rfl, rfl⟩

/-- The match of a comparison `a op b` with the swapped comparison `b op a`,
both built by `exp_compare` one after the other, for two operands that do not
match each other and a flag that is not a complex one: it succeeds exactly
for `cmp_equal` and `cmp_notequal`. -/
theorem exp_match_exp_swapped (sa : sql_allocator) (a b : sql_exp) (cmptype : Nat)
    (hab : exp_match_exp a b = false) (hc : is_complex_exp cmptype = false) :
    exp_match_exp (exp_compare sa a b cmptype).1
        (exp_compare (exp_compare sa a b cmptype).2 b a cmptype).1 =
      decide (cmptype = cmp_equal ∨ cmptype = cmp_notequal) := by
  obtain ⟨d1, e1, t1, f1, s1⟩ := exp_compare_node sa a b cmptype
  obtain ⟨d2, e2, t2, f2, _⟩ := exp_compare_node (exp_compare sa a b cmptype).2 b a cmptype
  rw [s1] at e2
  rw [s1, e1, e2]
  show exp_match_exp (.mk sa.next d1 (.exp a) (.exp b) .null)
      (.mk (sa.next + 1) d2 (.exp b) (.exp a) .null) = _
  have hm : exp_match (.mk sa.next d1 (.exp a) (.exp b) .null)
      (.mk (sa.next + 1) d2 (.exp b) (.exp a) .null) = false :=
    exp_match_cmp _ _ (by simp [sql_exp.addr]) t1
  have hor : cmptype ≠ cmp_or := by
    intro h
    rw [h] at hc
    exact absurd hc (by decide)
  have haa := exp_match_exp_self a
  have hbb := exp_match_exp_self b
  rw [exp_match_exp, hm]
  simp [sql_exp.d, sql_exp.l, sql_exp.r, sql_exp.f, t1, t2, f1, f2, slot_match_exp, hab, haa,
    hbb, hc, hor, slot.is_null]

/-- C20: `exp_match_exp` is reflective for `=` and `<>` only: for all
expressions `a` and `b` (column expressions in particular) that do not match
each other, and the comparison nodes built by `exp_compare` from any state of
the allocator, `exp_match_exp(a = b, b = a)` and `exp_match_exp(a <> b,
b <> a)` return true, while `exp_match_exp(a < b, b < a)` and
`exp_match_exp(a <= b, b <= a)` return false. -/
theorem exp_match_exp_reflective (sa : sql_allocator) (a b : sql_exp)
    (hab : exp_match_exp a b = false) :
    exp_match_exp (exp_compare sa a b cmp_equal).1
        (exp_compare (exp_compare sa a b cmp_equal).2 b a cmp_equal).1 = true ∧
      exp_match_exp (exp_compare sa a b cmp_notequal).1
        (exp_compare (exp_compare sa a b cmp_notequal).2 b a cmp_notequal).1 = true ∧
      exp_match_exp (exp_compare sa a b cmp_lt).1
        (exp_compare (exp_compare sa a b cmp_lt).2 b a cmp_lt).1 = false ∧
      exp_match_exp (exp_compare sa a b cmp_lte).1
        (exp_compare (exp_compare sa a b cmp_lte).2 b a cmp_lte).1 = false := by
  refine ⟨?_, ?_, ?_, ?_⟩
  · rw [exp_match_exp_swapped sa a b cmp_equal hab (by decide)]; decide
  · rw [exp_match_exp_swapped sa a b cmp_notequal hab (by decide)]; decide
  · rw [exp_match_exp_swapped sa a b cmp_lt hab (by decide)]; decide
  · rw [exp_match_exp_swapped sa a b cmp_lte hab (by decide)]; decide

/-- Witness of C20: the columns `t.a` and `t.b`, the comparisons allocated
from address 20 on. -/
theorem exp_match_exp_reflective_witness :
    exp_match_exp colA colB = false ∧
      exp_match_exp (exp_compare ⟨20⟩ colA colB cmp_equal).1
        (exp_compare (exp_compare ⟨20⟩ colA colB cmp_equal).2 colB colA cmp_equal).1 = true ∧
      exp_match_exp (exp_compare ⟨20⟩ colA colB cmp_notequal).1
        (exp_compare (exp_compare ⟨20⟩ colA colB cmp_notequal).2 colB colA cmp_notequal).1 =
          true ∧
      exp_match_exp (exp_compare ⟨20⟩ colA colB cmp_lt).1
        (exp_compare (exp_compare ⟨20⟩ colA colB cmp_lt).2 colB colA cmp_lt).1 = false ∧
      exp_match_exp (exp_compare ⟨20⟩ colA colB cmp_lte).1
        (exp_compare (exp_compare ⟨20⟩ colA colB cmp_lte).2 colB colA cmp_lte).1 = false :=
  ⟨by decide, exp_match_exp_reflective ⟨20⟩ colA colB (by decide)⟩

/-- The example of the specification by evaluation: `t.a = t.b` matches
`t.b = t.a`, `t.a < t.b` does not match `t.b < t.a`, and two columns with the
same names match whatever their addresses. -/
theorem exp_match_exp_example :
    exp_match_exp (exp_compare ⟨20⟩ colA colB cmp_equal).1
        (exp_compare ⟨21⟩ colB colA cmp_equal).1 = true ∧
      exp_match_exp (exp_compare ⟨20⟩ colA colB cmp_lt).1
        (exp_compare ⟨21⟩ colB colA cmp_lt).1 = false ∧
      exp_match_exp colA (exp_column ⟨12⟩ (some "t") "a" none CARD_MULTI true false).1 =
        true := by
  decide

/-! ## Matching of two lists -/

/-- Induction on a list of expressions. -/
theorem exp_list.induction {P : exp_list → Prop} (hnil : P .nil)
    (hcons : ∀ e t, P t → P (.cons e t)) : ∀ l, P l
  | .nil => hnil
  | .cons e t => hcons e t (exp_list.induction hnil hcons t)

theorem list_length_toList (l : exp_list) : l.toList.length = list_length l := by
  induction l using exp_list.induction with
  | hnil => rfl
  | hcons e t ih => simp [exp_list.toList, list_length, ih]

/-- The inner loop of `exp_match_list` keeps the length of `ru`, never clears
a mark, and when its body ran it has set the mark of a position that was
unmarked and whose element passes the test. -/
theorem match_row_spec (m : sql_exp → Bool) :
    ∀ (r : exp_list) (ru : List Bool),
      (match_row m r ru).1.length = ru.length ∧
      (∀ p : Nat, ru[p]? = some true → (match_row m r ru).1[p]? = some true) ∧
      ((match_row m r ru).2 = true →
        ∃ (p : Nat) (re : sql_exp), ru[p]? = some false ∧ (match_row m r ru).1[p]? = some true ∧
          (exp_list.toList r)[p]? = some re ∧ m re = true) := by
  intro r
  induction r using exp_list.induction with
  | hnil =>
    intro ru
    refine ⟨rfl, fun p h => h, ?_⟩
    intro h
    simp [match_row] at h
  | hcons re t ih =>
    intro ru
    cases ru with
    | nil =>
      refine ⟨rfl, fun p h => h, ?_⟩
      intro h
      simp [match_row] at h
    | cons u us =>
      obtain ⟨i1, i2, i3⟩ := ih us
      by_cases hc : (!u && m re) = true
      · have hu : u = false := by
          cases u
          · rfl
          · simp at hc
        have hm : m re = true := by
          rw [hu] at hc
          simpa using hc
        simp only [match_row, hc, if_true]
        refine ⟨by simp [i1], ?_, ?_⟩
        · intro p hp
          cases p with
          | zero => simp
          | succ p =>
            simp only [List.getElem?_cons_succ] at hp ⊢
            exact i2 p hp
        · intro _
          exact ⟨0, re, by simp [hu], by simp, by simp [exp_list.toList], hm⟩
      · simp only [match_row, hc, Bool.false_eq_true, if_false]
        refine ⟨by simp [i1], ?_, ?_⟩
        · intro p hp
          cases p with
          | zero => simpa using hp
          | succ p =>
            simp only [List.getElem?_cons_succ] at hp ⊢
            exact i2 p hp
        · intro h
          obtain ⟨p, x, h1, h2, h3, h4⟩ := i3 h
          exact ⟨p + 1, x, by simpa using h1, by simpa using h2,
            by simpa [exp_list.toList] using h3, h4⟩

/-- The marking loops of `exp_match_list`: when every element of the left list
got its mark, the elements of the left list have hit pairwise different
positions of the right list, unmarked before, whose elements they match. -/
theorem match_rows_spec :
    ∀ (l r : exp_list) (ru : List Bool) (mtch : Bool),
      (match_rows l r ru mtch).1.all id = true →
      ∃ ps : List Nat, ps.Nodup ∧ (∀ p : Nat, p ∈ ps → ru[p]? = some false) ∧
        List.Forall₂ (fun le p => ∃ re, (exp_list.toList r)[p]? = some re ∧ exp_match_exp le re = true)
          l.toList ps := by
  intro l
  induction l using exp_list.induction with
  | hnil =>
    intro r ru mtch _
    exact ⟨[], List.nodup_nil, by simp, by simp [exp_list.toList]⟩
  | hcons le t ih =>
    intro r ru mtch h
    simp only [match_rows, List.all_cons, id_eq, Bool.and_eq_true] at h
    obtain ⟨hhit, hrest⟩ := h
    obtain ⟨_, hmono, hrow⟩ := match_row_spec (fun re => exp_match_exp le re) r ru
    obtain ⟨p, re, hp1, hp2, hp3, hp4⟩ := hrow hhit
    obtain ⟨ps, hnd, hfree, hall⟩ := ih r _ _ hrest
    refine ⟨p :: ps, ?_, ?_, ?_⟩
    · rw [List.nodup_cons]
      refine ⟨?_, hnd⟩
      intro hmem
      have := hfree p hmem
      rw [hp2] at this
      simp at this
    · intro q hq
      rcases List.mem_cons.1 hq with rfl | hq
      · exact hp1
      · have hq1 := hfree q hq
        cases hru : ru[q]? with
        | none =>
          exfalso
          have hlen := (match_row_spec (fun re => exp_match_exp le re) r ru).1
          have h1 : q < (match_row (fun re => exp_match_exp le re) r ru).1.length := by
            by_contra hge
            rw [List.getElem?_eq_none (by omega)] at hq1
            simp at hq1
          rw [List.getElem?_eq_none_iff] at hru
          omega
        | some b =>
          cases b with
          | false => rfl
          | true =>
            have := hmono q hru
            rw [hq1] at this
            simp at this
    · simp only [exp_list.toList]
      exact List.Forall₂.cons ⟨re, hp3, hp4⟩ hall

/-- A list of pairwise different positions of a list `R`, as long as `R`,
enumerates `R` up to the order. -/
theorem positions_perm (R : List sql_exp) (ps : List Nat) (hnd : ps.Nodup)
    (hlen : ps.length = R.length) (hlt : ∀ p ∈ ps, p < R.length) (d : sql_exp) :
    List.Perm (ps.map (fun p => R.getD p d)) R := by
  have hperm : List.Perm ps (List.range R.length) := by
    apply List.Subperm.perm_of_length_le
    · apply List.subperm_of_subset hnd
      intro p hp
      exact List.mem_range.2 (hlt p hp)
    · simp [hlen]
  have hmap : (List.range R.length).map (fun p => R.getD p d) = R := by
    apply List.ext_getElem
    · simp
    · intro i h1 h2
      simp [List.getD_eq_getElem?_getD, List.getElem?_eq_getElem h2]
  have := hperm.map (fun p => R.getD p d)
  rw [hmap] at this
  exact this

/-- C21: `exp_match_list` is sound: for all expression lists `l` and `r` (not
NULL), if `exp_match_list(l, r)` returns true then `l` and `r` have the same
length and the elements of `r` can be put in an order `r'` (a one-to-one
pairing of the positions of `l` with the positions of `r`) in which every
element of `l` satisfies `exp_match_exp` with the element of `r'` at its
position. -/
theorem exp_match_list_sound (l r : exp_list) (h : exp_match_list l r = true) :
    list_length l = list_length r ∧
      ∃ r' : List sql_exp, List.Perm r' r.toList ∧
        List.Forall₂ (fun le re => exp_match_exp le re = true) l.toList r' := by
  simp only [exp_match_list, slot_match_list] at h
  by_cases hlen : list_length l = list_length r
  · refine ⟨hlen, ?_⟩
    simp only [hlen, ne_eq, not_true_eq_false, if_false, match_done, Bool.and_eq_true] at h
    obtain ⟨⟨_, hlu⟩, _⟩ := h
    obtain ⟨ps, hnd, hfree, hall⟩ := match_rows_spec l r _ _ hlu
    have hpl : ps.length = r.toList.length := by
      rw [← List.Forall₂.length_eq hall, list_length_toList, list_length_toList, hlen]
    have hlt : ∀ p ∈ ps, p < r.toList.length := by
      intro p hp
      have := hfree p hp
      by_contra hge
      rw [List.getElem?_eq_none (by simp; rw [list_length_toList] at hge; omega)] at this
      simp at this
    cases hl : l.toList with
    | nil =>
      rw [hl] at hall
      cases hall
      refine ⟨[], ?_, List.Forall₂.nil⟩
      have : r.toList.length = 0 := by rw [← hpl]; rfl
      rw [List.length_eq_zero] at this
      rw [this]
    | cons d _ =>
      rw [← hl]
      refine ⟨ps.map (fun p => r.toList.getD p d), positions_perm _ ps hnd hpl hlt d, ?_⟩
      rw [List.forall₂_map_right_iff]
      refine hall.imp ?_
      intro le p ⟨re, h1, h2⟩
      simp only [List.getD_eq_getElem?_getD, h1, Option.getD_some]
      exact h2
  · simp [hlen] at h

/-- Witness of C21: the lists `t.a, t.b` and `t.b, t.a`. -/
theorem exp_match_list_sound_witness :
    list_length (.cons colA (.cons colB .nil)) = list_length (.cons colB (.cons colA .nil)) ∧
      ∃ r' : List sql_exp,
        List.Perm r' (exp_list.cons colB (.cons colA .nil)).toList ∧
        List.Forall₂ (fun le re => exp_match_exp le re = true)
          (exp_list.cons colA (.cons colB .nil)).toList r' :=
  exp_match_list_sound (.cons colA (.cons colB .nil)) (.cons colB (.cons colA .nil))
    (by decide)

/-- C22 at the failing input: the list `t.a, t.a` (two column nodes with the
same names) against itself. Every element of the one matches every element of
the other, so that the elements can be paired one to one, yet
`exp_match_list` returns false: the inner loop does not stop at its first hit,
the first element marks both elements of the right list and the second finds
none left. Two empty lists are not matched either, `match` being 0 when no
loop body runs. -/
theorem exp_match_list_misses_pairing :
    exp_match_exp colA (exp_column ⟨12⟩ (some "t") "a" none CARD_MULTI true false).1 = true ∧
      exp_match_exp (exp_column ⟨12⟩ (some "t") "a" none CARD_MULTI true false).1 colA = true ∧
      exp_match_list
        (.cons colA (.cons (exp_column ⟨12⟩ (some "t") "a" none CARD_MULTI true false).1 .nil))
        (.cons colA (.cons (exp_column ⟨12⟩ (some "t") "a" none CARD_MULTI true false).1 .nil)) =
        false ∧
      exp_match_list .nil .nil = false := by
  decide

/-! ## Binding a column name -/

/-- C23 at the failing input: a list of five expressions whose first three
have the alias name `c` with the relation aliases `x`, none and `y`. The list
is longer than `HASH_MIN_SIZE`, the lookup goes through the hash table, whose
chain holds the three candidates with the one without relation alias in the
middle: each candidate is compared with the one before it only, no conflict
is seen, and the lookup returns the expression at address 1 (`x.c`) with the
ambiguity flag untouched. The same three expressions in a list of three,
searched by the linear scan, are reported as ambiguous. -/
theorem exps_bind_column_hash_misses_ambiguity :
    ((exps_bind_column
        (some (.cons (exp_column ⟨1⟩ (some "x") "c" none CARD_MULTI true false).1
          (.cons (exp_column ⟨2⟩ none "c" none CARD_MULTI true false).1
          (.cons (exp_column ⟨3⟩ (some "y") "c" none CARD_MULTI true false).1
          (.cons colA (.cons colB .nil)))))) false (some "c") (some false)).1.map sql_exp.addr,
      (exps_bind_column
        (some (.cons (exp_column ⟨1⟩ (some "x") "c" none CARD_MULTI true false).1
          (.cons (exp_column ⟨2⟩ none "c" none CARD_MULTI true false).1
          (.cons (exp_column ⟨3⟩ (some "y") "c" none CARD_MULTI true false).1
          (.cons colA (.cons colB .nil)))))) false (some "c") (some false)).2) =
      (some 1, some false) ∧
    ((exps_bind_column
        (some (.cons (exp_column ⟨1⟩ (some "x") "c" none CARD_MULTI true false).1
          (.cons (exp_column ⟨2⟩ none "c" none CARD_MULTI true false).1
          (.cons (exp_column ⟨3⟩ (some "y") "c" none CARD_MULTI true false).1 .nil))))
        false (some "c") (some false)).1.map sql_exp.addr,
      (exps_bind_column
        (some (.cons (exp_column ⟨1⟩ (some "x") "c" none CARD_MULTI true false).1
          (.cons (exp_column ⟨2⟩ none "c" none CARD_MULTI true false).1
          (.cons (exp_column ⟨3⟩ (some "y") "c" none CARD_MULTI true false).1 .nil))))
        false (some "c") (some false)).2) =
      (none, some true) := by
  decide

theorem bind_hash_loop_none (cname : String) (ambiguous : Option Bool) :
    ∀ (chain : List sql_exp), (∀ ce ∈ chain, ce.d.name ≠ some cname) →
      bind_hash_loop cname chain none ambiguous = (none, ambiguous) := by
  intro chain
  induction chain with
  | nil => intro _; rfl
  | cons ce t ih =>
    intro h
    have h1 := h ce (List.mem_cons_self _ _)
    simp only [bind_hash_loop, h1, if_false]
    exact ih (fun x hx => h x (List.mem_cons_of_mem _ hx))

theorem bind_linear_loop_none (cname : String) (ambiguous : Option Bool) :
    ∀ (l : exp_list), (∀ ce ∈ l.toList, ce.d.name ≠ some cname) →
      bind_linear_loop cname l none ambiguous = (none, ambiguous) := by
  intro l
  induction l using exp_list.induction with
  | hnil => intro _; rfl
  | hcons ce t ih =>
    intro h
    have h1 := h ce (by simp [exp_list.toList])
    simp only [bind_linear_loop, h1, if_false]
    exact ih (fun x hx => h x (by simp [exp_list.toList, hx]))

/-- The part of C23 that holds: in a list in which no expression has the alias
name `c`, `exps_bind_column` returns no expression and leaves the ambiguity
flag as it was, on the hash path as on the linear path. -/
theorem exps_bind_column_not_found (l : exp_list) (ht : Bool) (c : String)
    (ambiguous : Option Bool) (h : ∀ ce ∈ l.toList, ce.d.name ≠ some c) :
    exps_bind_column (some l) ht (some c) ambiguous = (none, ambiguous) := by
  simp only [exps_bind_column]
  split_ifs
  · apply bind_hash_loop_none
    intro ce hce
    simp only [hash_chain, List.mem_reverse, List.mem_filter] at hce
    exact h ce hce.1
  · exact bind_linear_loop_none c ambiguous l h

/-! ## Copy of an expression -/

/-- C24 at the failing inputs. The atom built by `exp_values` over the list
holding the literal 1 has the cardinality class `CARD_MULTI` and its list in
the field `f`; `exp_copy` takes the branch of an argument reference
(`exp_atom_ref`) and returns an atom of class `CARD_ATOM` whose field `f` is
NULL: the value list is lost. The procedural statements built by `exp_if`,
`exp_while` and `exp_return`, and an assignment built by `exp_set` at a frame
level other than 0, are not copied at all: `exp_copy` returns NULL. -/
theorem exp_copy_loses_value_list_and_statements :
    ((exp_values ⟨20⟩ (.cons (exp_atom ⟨19⟩ litOne).1 .nil)).1.d.card,
        (exp_values ⟨20⟩ (.cons (exp_atom ⟨19⟩ litOne).1 .nil)).1.f.is_null) =
        (CARD_MULTI, false) ∧
      (exp_copy ⟨30⟩ (exp_values ⟨20⟩ (.cons (exp_atom ⟨19⟩ litOne).1 .nil)).1).1.map
        (fun e => (e.d.card, e.f.is_null)) = some (CARD_ATOM, true) ∧
      (exp_copy ⟨30⟩ (exp_if ⟨20⟩ colA (.cons colB .nil) none).1).1.isNone = true ∧
      (exp_copy ⟨30⟩ (exp_while ⟨20⟩ colA (.cons colB .nil)).1).1.isNone = true ∧
      (exp_copy ⟨30⟩ (exp_return ⟨20⟩ colA 0).1).1.isNone = true ∧
      (exp_copy ⟨30⟩ (exp_set ⟨20⟩ (some "v") (some colA) 1).1).1.isNone = true := by
  decide

/-- The end of `exp_copy`: the node keeps its address, its three fields, its
variant and its flag; it takes the alias of the original when that has an
alias name, and each of the bits intern, anti, basecol and freevar is set when
it is set in the original or was set in the node. -/
theorem exp_copy_finish_spec (e ne : sql_exp) :
    ∃ d : exp_fields, exp_copy_finish e (some ne) = some (.mk ne.addr d ne.l ne.r ne.f) ∧
      d.type = ne.d.type ∧ d.flag = ne.d.flag ∧
      (e.d.name.isSome = true →
        d.name = e.d.name ∧ d.rname = e.d.rname ∧ d.label = e.d.label) ∧
      d.intern = (e.d.intern || ne.d.intern) ∧ d.anti = (e.d.anti || ne.d.anti) ∧
      d.base = (e.d.base || ne.d.base) ∧ d.freevar = (e.d.freevar || ne.d.freevar) := by
  cases ne with
  | mk na nd nl nr nf =>
    cases e with
    | mk ea ed el er ef =>
      simp only [sql_exp.addr, sql_exp.d, sql_exp.l, sql_exp.r, sql_exp.f]
      by_cases hn : ed.name.isSome = true <;> by_cases hf : ed.freevar = true <;>
        by_cases hi : ed.intern = true <;> by_cases ha : ed.anti = true <;>
        by_cases hb : ed.base = true <;>
        simp [exp_copy_finish, exp_prop_alias, exp_propagate, is_freevar, is_intern, is_anti,
          is_basecol, sql_exp.addr, sql_exp.d, sql_exp.l, sql_exp.r, sql_exp.f, hn, hf, hi, ha,
          hb]

/-- What is shown of the copy `ne` of `e`. -/
theorem exp_copy_result (e ne0 : sql_exp)
    (hint : ne0.d.intern = false ∨ ne0.d.intern = e.d.intern) (hanti : ne0.d.anti = false)
    (hbase : ne0.d.base = false) (hfree : ne0.d.freevar = false)
    (hmatch : ∀ d : exp_fields, d.type = ne0.d.type → d.flag = ne0.d.flag →
      exp_match_exp e (.mk ne0.addr d ne0.l ne0.r ne0.f) = true) :
    ∃ ne, exp_copy_finish e (some ne0) = some ne ∧ exp_match_exp e ne = true ∧
      (e.d.name.isSome = true →
        ne.d.name = e.d.name ∧ ne.d.rname = e.d.rname ∧ ne.d.label = e.d.label) ∧
      ne.d.intern = e.d.intern ∧ ne.d.anti = e.d.anti ∧ ne.d.base = e.d.base ∧
      ne.d.freevar = e.d.freevar := by
  obtain ⟨d, h1, h2, h3, h4, h5, h6, h7, h8⟩ := exp_copy_finish_spec e ne0
  refine ⟨_, h1, hmatch d h2 h3, ?_, ?_, ?_, ?_, ?_⟩
  · exact h4
  · show d.intern = _
    rw [h5]
    rcases hint with h | h <;> rw [h] <;> simp
  · show d.anti = _
    rw [h6, hanti]; simp
  · show d.base = _
    rw [h7, hbase]; simp
  · show d.freevar = _
    rw [h8, hfree]; simp

theorem is_complex_exp_flags (fl : Nat) (h : is_complex_exp fl = false) :
    fl ≠ cmp_or ∧ fl ≠ cmp_in ∧ fl ≠ cmp_notin ∧ fl ≠ cmp_filter := by
  simp only [is_complex_exp, Bool.or_eq_false_iff, beq_eq_false_iff_ne, ne_eq] at h
  exact ⟨h.1.1.1, h.1.1.2, h.1.2, h.2⟩

/-- C25: a copy matches its original. For every expression `e` built only
from column references, literals, conversions and simple comparisons over
them, and every state of the allocator, `exp_copy(sa, e)` is not NULL,
`exp_match_exp(e, exp_copy(sa, e))` returns true, the copy carries the alias
of `e` when `e` has an alias name, and it has the same intern, anti, basecol
and free-variable bits as `e`. -/
theorem exp_copy_matches_original (e : sql_exp) (h : simple_exp e) :
    ∀ sa : sql_allocator, ∃ ne sa1, exp_copy sa e = (some ne, sa1) ∧
      exp_match_exp e ne = true ∧
      (e.d.name.isSome = true →
        ne.d.name = e.d.name ∧ ne.d.rname = e.d.rname ∧ ne.d.label = e.d.label) ∧
      ne.d.intern = e.d.intern ∧ ne.d.anti = e.d.anti ∧ ne.d.base = e.d.base ∧
      ne.d.freevar = e.d.freevar := by
  induction h with
  | column a d l cname f ht hl =>
    intro sa
    obtain ⟨ne, h1, h2⟩ := exp_copy_result (.mk a d l (.str cname) f)
      (.mk sa.next
        { (exp_column sa l.str_val cname (exp_subtype (.mk a d l (.str cname) f)) d.card
            (has_nil (.mk a d l (.str cname) f)) (is_intern (.mk a d l (.str cname) f))).1.d with
          flag := d.flag }
        l (.str cname) .null)
      (Or.inr rfl) rfl rfl rfl (by
        intro d1 ht1 _
        simp only [sql_exp.d, sql_exp.addr, sql_exp.l, sql_exp.r, sql_exp.f] at ht1 ⊢
        have ht1' : d1.type = expression_type.e_column := ht1
        rcases hl with rfl | ⟨s, rfl⟩ <;>
          simp [exp_match_exp, exp_match, ht, ht1', column_l_match, column_r_match, sql_exp.d,
            sql_exp.l, sql_exp.r])
    refine ⟨ne, (exp_copy sa _).2, Prod.ext ?_ rfl, h2⟩
    show (exp_copy sa _).1 = some ne
    simp only [exp_copy, ht]
    rw [← h1]
    rcases hl with rfl | ⟨s, rfl⟩ <;> rfl
  | atom a d lit r f ht =>
    intro sa
    obtain ⟨ne, h1, h2⟩ := exp_copy_result (.mk a d (.atom lit) r f) (exp_atom sa lit).1
      (Or.inl rfl) rfl rfl rfl (by
        intro d1 ht1 _
        have ht1' : d1.type = expression_type.e_atom := ht1
        simp [exp_match_exp, ht, ht1', sql_exp.d, sql_exp.l, atom_same, atom_cmp, exp_atom,
          exp_create])
    refine ⟨ne, (exp_copy sa _).2, Prod.ext ?_ rfl, h2⟩
    show (exp_copy sa _).1 = some ne
    simp only [exp_copy, ht]
    rw [← h1]
  | convert a d e fromtype totype f ht he hfrom hto ih =>
    intro sa
    obtain ⟨el, sa1, c1, m1, _⟩ := ih sa
    obtain ⟨ne, h1, h2⟩ := exp_copy_result (.mk a d (.exp e) (.types fromtype totype) f)
      (exp_convert sa1 el fromtype totype).1
      (Or.inl rfl) rfl rfl rfl (by
        intro d1 ht1 _
        have ht1' : d1.type = expression_type.e_convert := ht1
        have s1 : subtype_same (some totype) (some totype) = true := by
          simp [subtype_same, subtype_cmp, hto]
        have s2 : subtype_same (some fromtype) (some fromtype) = true := by
          simp [subtype_same, subtype_cmp, hfrom]
        simp [exp_match_exp, ht, ht1', sql_exp.d, sql_exp.l, sql_exp.r, exp_convert, exp_create,
          exp_totype, exp_fromtype, s1, s2, slot_match_exp, m1])
    refine ⟨ne, (exp_copy sa _).2, Prod.ext ?_ rfl, h2⟩
    show (exp_copy sa _).1 = some ne
    simp only [exp_copy, ht, slot_exp_copy, c1]
    rw [← h1]
  | cmp a d l r ht hc hl hr ihl ihr =>
    intro sa
    obtain ⟨hor, hin, hnotin, hfilter⟩ := is_complex_exp_flags d.flag hc
    obtain ⟨el, sa1, c1, m1, _⟩ := ihl sa
    obtain ⟨er, sa2, c2, m2, _⟩ := ihr sa1
    obtain ⟨d0, n1, n2, n3, _⟩ := exp_compare_node sa2 el er d.flag
    obtain ⟨ne, h1, h2⟩ := exp_copy_result (.mk a d (.exp l) (.exp r) .null)
      (exp_compare sa2 el er d.flag).1
      (Or.inl rfl) rfl rfl rfl (by
        intro d1 ht1 hf1
        rw [n1] at ht1 hf1 ⊢
        simp only [sql_exp.d, sql_exp.addr, sql_exp.l, sql_exp.r, sql_exp.f] at ht1 hf1 ⊢
        rw [n2] at ht1
        rw [n3] at hf1
        simp [exp_match_exp, ht, ht1, hf1, hc, sql_exp.d, sql_exp.l, sql_exp.r, sql_exp.f,
          slot_match_exp, m1, m2, slot.is_null])
    refine ⟨ne, (exp_copy sa _).2, Prod.ext ?_ rfl, h2⟩
    show (exp_copy sa _).1 = some ne
    simp only [exp_copy, ht, hor, hfilter, hin, hnotin, or_self, if_false, slot_exp_copy, c1, c2,
      slot.is_null, if_true]
    rw [← h1]
  | range a d l r h ht hc hl hr hh ihl ihr ihh =>
    intro sa
    obtain ⟨hor, hin, hnotin, hfilter⟩ := is_complex_exp_flags d.flag hc
    obtain ⟨el, sa1, c1, m1, _⟩ := ihl sa
    obtain ⟨er, sa2, c2, m2, _⟩ := ihr sa1
    obtain ⟨eh, sa3, c3, m3, _⟩ := ihh sa2
    obtain ⟨ne, h1, h2⟩ := exp_copy_result (.mk a d (.exp l) (.exp r) (.exp h))
      (exp_compare2 sa3 el er (some eh) d.flag).1
      (Or.inl rfl) rfl rfl rfl (by
        intro d1 ht1 hf1
        have ht1' : d1.type = expression_type.e_cmp := ht1
        have hf1' : d1.flag = d.flag := hf1
        simp [exp_match_exp, ht, ht1', hf1', hc, sql_exp.d, sql_exp.l, sql_exp.r, sql_exp.f,
          slot_match_exp, m1, m2, m3, exp_compare2, exp_create, sql_exp.addr])
    refine ⟨ne, (exp_copy sa _).2, Prod.ext ?_ rfl, h2⟩
    show (exp_copy sa _).1 = some ne
    simp only [exp_copy, ht, hor, hfilter, hin, hnotin, or_self, if_false, slot_exp_copy, c1, c2,
      c3, slot.is_null, Bool.false_eq_true]
    rw [← h1]

/-- Witness of C25: the comparison `t.a < t.b`, copied from address 30 on. -/
theorem exp_copy_matches_original_witness :
    ∃ ne sa1, exp_copy ⟨30⟩ (exp_compare ⟨20⟩ colA colB cmp_lt).1 = (some ne, sa1) ∧
      exp_match_exp (exp_compare ⟨20⟩ colA colB cmp_lt).1 ne = true ∧
      ((exp_compare ⟨20⟩ colA colB cmp_lt).1.d.name.isSome = true →
        ne.d.name = (exp_compare ⟨20⟩ colA colB cmp_lt).1.d.name ∧
          ne.d.rname = (exp_compare ⟨20⟩ colA colB cmp_lt).1.d.rname ∧
          ne.d.label = (exp_compare ⟨20⟩ colA colB cmp_lt).1.d.label) ∧
      ne.d.intern = (exp_compare ⟨20⟩ colA colB cmp_lt).1.d.intern ∧
      ne.d.anti = (exp_compare ⟨20⟩ colA colB cmp_lt).1.d.anti ∧
      ne.d.base = (exp_compare ⟨20⟩ colA colB cmp_lt).1.d.base ∧
      ne.d.freevar = (exp_compare ⟨20⟩ colA colB cmp_lt).1.d.freevar :=
  exp_copy_matches_original (exp_compare ⟨20⟩ colA colB cmp_lt).1
    (simple_exp.cmp 20 _ colA colB rfl (by decide)
      (simple_exp.column 10 _ (.str "t") "a" .null rfl (Or.inr ⟨"t", rfl⟩))
      (simple_exp.column 11 _ (.str "t") "b" .null rfl (Or.inr ⟨"t", rfl⟩))) ⟨30⟩

/-- The copy of `t.a < t.b` made from address 30 on: the two columns are
copied to the addresses 30 and 31, the comparison to 32, and it matches the
original. -/
theorem exp_copy_example :
    (exp_copy ⟨30⟩ (exp_compare ⟨20⟩ colA colB cmp_lt).1).1.map
      (fun e => (e.addr, exp_match_exp (exp_compare ⟨20⟩ colA colB cmp_lt).1 e)) =
      some (32, true) := by
  decide

/-! ## Dependencies of a plan -/

/-- Induction on expressions, fields, lists and plan nodes together. -/
theorem sql_induction {P : sql_exp → Prop} {Q : slot → Prop} {R : exp_list → Prop}
    {S : sql_rel → Prop}
    (hexp : ∀ a d l r f, Q l → Q r → Q f → P (.mk a d l r f))
    (hnull : Q .null) (hsexp : ∀ e, P e → Q (.exp e)) (hslist : ∀ es, R es → Q (.list es))
    (hstr : ∀ s, Q (.str s)) (hatom : ∀ a, Q (.atom a)) (hfunc : ∀ f, Q (.func f))
    (htypes : ∀ t1 t2, Q (.types t1 t2)) (hsrel : ∀ r, S r → Q (.rel r))
    (htable : ∀ t, Q (.table t)) (hcolumn : ∀ c, Q (.column c))
    (hnil : R .nil) (hcons : ∀ e t, P e → R t → R (.cons e t))
    (hrel : ∀ a d l r exps, Q l → Q r → Q exps → S (.mk a d l r exps)) :
    (∀ e, P e) ∧ (∀ s, Q s) ∧ (∀ es, R es) ∧ (∀ r, S r) :=
  ⟨fun e => @sql_exp.rec P Q R S hexp hnull hsexp hslist hstr hatom hfunc htypes hsrel htable
      hcolumn hnil hcons hrel e,
    fun s => @slot.rec P Q R S hexp hnull hsexp hslist hstr hatom hfunc htypes hsrel htable
      hcolumn hnil hcons hrel s,
    fun es => @exp_list.rec P Q R S hexp hnull hsexp hslist hstr hatom hfunc htypes hsrel htable
      hcolumn hnil hcons hrel es,
    fun r => @sql_rel.rec P Q R S hexp hnull hsexp hslist hstr hatom hfunc htypes hsrel htable
      hcolumn hnil hcons hrel r⟩

theorem cond_append_ok (l : List Nat) (id : Nat) (h : deps_ok l) : deps_ok (cond_append l id) := by
  unfold cond_append
  split_ifs with hc
  · obtain ⟨h1, h2⟩ := h
    refine ⟨?_, ?_⟩
    · rw [List.nodup_append]
      refine ⟨h1, List.nodup_singleton _, ?_⟩
      intro x hx hx2
      simp only [List.mem_singleton] at hx2
      subst hx2
      exact hc.2 hx
    · intro x hx
      rcases List.mem_append.1 hx with hx | hx
      · exact h2 x hx
      · simp only [List.mem_singleton] at hx
        subst hx
        exact hc.1
  · exact h

theorem basetable_deps_ok (t : sql_table) :
    ∀ (es : exp_list) (l : List Nat), deps_ok l → deps_ok (basetable_deps t es l) := by
  intro es
  induction es using exp_list.induction with
  | hnil => intro l h; exact h
  | hcons e rest ih =>
    intro l h
    simp only [basetable_deps]
    repeat' split
    all_goals first
      | exact ih _ h
      | exact ih _ (cond_append_ok _ _ h)

theorem seq_deps_ok (sql : mvc) (args : slot) (f : sql_subfunc) (l : List Nat)
    (h : deps_ok l) : deps_ok (seq_deps sql args f l) := by
  unfold seq_deps
  repeat' split
  all_goals first
    | exact h
    | exact cond_append_ok _ _ h

theorem exp_deps_body_ok (d : exp_fields) (l f : slot)
    (el er ef xl xr rl : deps_st → Int × deps_st)
    (hel : ∀ st, deps_ok st.l → deps_ok (el st).2.l)
    (her : ∀ st, deps_ok st.l → deps_ok (er st).2.l)
    (hef : ∀ st, deps_ok st.l → deps_ok (ef st).2.l)
    (hxl : ∀ st, deps_ok st.l → deps_ok (xl st).2.l)
    (hxr : ∀ st, deps_ok st.l → deps_ok (xr st).2.l)
    (hrl : ∀ st, deps_ok st.l → deps_ok (rl st).2.l)
    (st : deps_st) (h : deps_ok st.l) :
    deps_ok (exp_deps_body d l f el er ef xl xr rl st).2.l := by
  unfold exp_deps_body
  dsimp only
  repeat' split
  all_goals
    repeat first
      | exact h
      | apply seq_deps_ok
      | apply cond_append_ok
      | apply hel
      | apply her
      | apply hef
      | apply hxl
      | apply hxr
      | apply hrl

theorem rel_deps_switch_ok (d : rel_fields) (l r exps : slot)
    (rl rr : deps_st → Int × deps_st)
    (hrl : ∀ st, deps_ok st.l → deps_ok (rl st).2.l)
    (hrr : ∀ st, deps_ok st.l → deps_ok (rr st).2.l)
    (st : deps_st) (h : deps_ok st.l) :
    deps_ok (rel_deps_switch d l r exps rl rr st).2.1.l := by
  unfold rel_deps_switch
  dsimp only
  repeat' split
  all_goals
    repeat first
      | exact h
      | apply basetable_deps_ok
      | apply cond_append_ok
      | apply hrl
      | apply hrr

theorem rel_deps_body_ok (a : Nat) (d : rel_fields) (l r exps : slot)
    (rl rr xe xr : deps_st → Int × deps_st)
    (hrl : ∀ st, deps_ok st.l → deps_ok (rl st).2.l)
    (hrr : ∀ st, deps_ok st.l → deps_ok (rr st).2.l)
    (hxe : ∀ st, deps_ok st.l → deps_ok (xe st).2.l)
    (hxr : ∀ st, deps_ok st.l → deps_ok (xr st).2.l)
    (st : deps_st) (h : deps_ok st.l) :
    deps_ok (rel_deps_body a d l r exps rl rr xe xr st).2.l := by
  have hsw := rel_deps_switch_ok d l r exps rl rr hrl hrr st h
  unfold rel_deps_body
  dsimp only
  repeat' split
  all_goals
    repeat first
      | exact h
      | exact hsw
      | apply hxe
      | apply hxr

/-- Every routine of the dependency walk keeps the id list without repetition
and without an id below `FUNC_OIDS`: the list is only ever extended through
`cond_append`. -/
theorem deps_walk_ok :
    (∀ e, ∀ stk st, deps_ok st.l → deps_ok (exp_deps stk e st).2.l) ∧
    (∀ s, (∀ stk st, deps_ok st.l → deps_ok (slot_exp_deps stk s st).2.l) ∧
      (∀ stk st, deps_ok st.l → deps_ok (slot_exps_deps stk s st).2.l) ∧
      (∀ stk st, deps_ok st.l → deps_ok (slot_rel_deps stk s st).2.l)) ∧
    (∀ es, ∀ stk st, deps_ok st.l → deps_ok (exps_deps stk es st).2.l) ∧
    (∀ r, ∀ stk st, deps_ok st.l → deps_ok (rel_deps stk r st).2.l) := by
  have hguard : ∀ (stk : Nat) (st : deps_st), deps_ok st.l →
      deps_ok (if THRhighwater stk = true then
        ((-1 : Int), { st with sql := sql_error st.sql 10 too_complex }) else (0, st)).2.l := by
    intro stk st h
    split <;> exact h
  apply sql_induction
  case hexp =>
    intro a d l r f hl hr hf stk st h
    simp only [exp_deps]
    split
    · exact h
    · exact exp_deps_body_ok d l f _ _ _ _ _ _ (hl.1 _) (hr.1 _) (hf.1 _) (hl.2.1 _) (hr.2.1 _)
        (hl.2.2 _) st h
  case hnull => exact ⟨fun stk st h => h, fun stk st h => h, hguard⟩
  case hsexp => exact fun e he => ⟨fun stk st h => he stk st h, fun stk st h => h, hguard⟩
  case hslist => exact fun es hes => ⟨fun stk st h => h, fun stk st h => hes stk st h, hguard⟩
  case hstr => exact fun _ => ⟨fun stk st h => h, fun stk st h => h, hguard⟩
  case hatom => exact fun _ => ⟨fun stk st h => h, fun stk st h => h, hguard⟩
  case hfunc => exact fun _ => ⟨fun stk st h => h, fun stk st h => h, hguard⟩
  case htypes => exact fun _ _ => ⟨fun stk st h => h, fun stk st h => h, hguard⟩
  case hsrel =>
    exact fun r hr => ⟨fun stk st h => h, fun stk st h => h, fun stk st h => hr stk st h⟩
  case htable => exact fun _ => ⟨fun stk st h => h, fun stk st h => h, hguard⟩
  case hcolumn => exact fun _ => ⟨fun stk st h => h, fun stk st h => h, hguard⟩
  case hnil => exact fun stk st h => h
  case hcons =>
    intro e t he ht stk st h
    simp only [exps_deps]
    split
    · exact he _ _ h
    · exact ht _ _ (he _ _ h)
  case hrel =>
    intro a d l r exps hl hr hexps stk st h
    simp only [rel_deps]
    split
    · exact h
    · exact rel_deps_body_ok a d l r exps _ _ _ _ (hl.2.2 _) (hr.2.2 _) (hexps.2.1 _)
        (hr.2.1 _) st h

/-- C26: the dependency list is deduplicated: for every plan `r` (or NULL),
every session and every stack depth at which `rel_dependencies` succeeds, the
id list returned contains no id twice and no id below `FUNC_OIDS`. -/
theorem rel_dependencies_deduplicated (sql : mvc) (stk : Nat) (r : slot) (l : List Nat)
    (h : (rel_dependencies sql stk r).1 = some l) :
    l.Nodup ∧ ∀ id ∈ l, FUNC_OIDS ≤ id := by
  have hok := (deps_walk_ok.2.1 r).2.2 stk { sql := sql, refs := [], l := [] }
    ⟨List.nodup_nil, by simp⟩
  unfold rel_dependencies at h
  dsimp only at h
  split at h
  · simp at h
  · simp only [Option.some.injEq] at h
    rw [← h]
    exact hok

/-- Witness of C26: the projection of `f(t.a)` and `f(t.b)` depends on the
function 3001 once. -/
theorem rel_dependencies_deduplicated_witness :
    (rel_dependencies sql0 100 (.rel exProject)).1 = some [3001] ∧
      ([3001].Nodup ∧ ∀ id ∈ [3001], FUNC_OIDS ≤ id) :=
  ⟨by decide, rel_dependencies_deduplicated sql0 100 (.rel exProject) [3001] (by decide)⟩

/-- C27 at the failing input: the statement `if t.a then f(t.a) else g(t.b)`
built by `exp_if`, with the functions 3001 and 3002. `exp_deps` succeeds and
the id list holds 3001 only: after the condition and the then-branch the
source walks `e->r`, the then-branch, a second time where the else-branch
`e->f` is meant, so that the function called in the else-branch is not
collected. -/
theorem exp_deps_skips_else_branch :
    FUNC_OIDS ≤ fnB.id ∧
      (exp_deps 100 exIf { sql := sql0, refs := [], l := [] }).1 = 0 ∧
      (exp_deps 100 exIf { sql := sql0, refs := [], l := [] }).2.l = [3001] := by
  decide

/-! ## The recursion guard -/

theorem convert_chain_next (t : sql_subtype) (e : sql_exp) (sa : sql_allocator) :
    ∀ n, (convert_chain t n sa e).2.next = sa.next + n := by
  intro n
  induction n with
  | zero => rfl
  | succ n ih =>
    simp only [convert_chain, exp_convert, exp_create, ih]
    omega

/-- The outermost conversion of a chain of `n + 1`. -/
theorem convert_chain_succ (t : sql_subtype) (e : sql_exp) (sa : sql_allocator) (n : Nat) :
    ∃ d : exp_fields, (convert_chain t (n + 1) sa e).1 =
        .mk (sa.next + n) d (.exp (convert_chain t n sa e).1) (.types t t) .null ∧
      d.type = expression_type.e_convert := by
  refine ⟨(convert_chain t (n + 1) sa e).1.d, ?_, rfl⟩
  simp only [convert_chain, exp_convert, exp_create, sql_exp.addr, sql_exp.f, sql_exp.d,
    convert_chain_next]

/-- `exp_match_exp` on two chains of `n` conversions built at different
addresses gives what it gives on the two innermost operands: it walks the `n`
levels down whatever `n` is. -/
theorem exp_match_exp_chain (t : sql_subtype) (ht : t.type.isSome = true) (a b : sql_exp) :
    ∀ (n : Nat) (sa sb : sql_allocator), sa.next ≠ sb.next →
      exp_match_exp (convert_chain t (n + 1) sa a).1 (convert_chain t (n + 1) sb b).1 =
        exp_match_exp (convert_chain t n sa a).1 (convert_chain t n sb b).1 := by
  intro n sa sb hne
  obtain ⟨d1, e1, t1⟩ := convert_chain_succ t a sa n
  obtain ⟨d2, e2, t2⟩ := convert_chain_succ t b sb n
  rw [e1, e2]
  have hs : subtype_same (some t) (some t) = true := by simp [subtype_same, subtype_cmp, ht]
  have hm : exp_match (.mk (sa.next + n) d1 (.exp (convert_chain t n sa a).1) (.types t t) .null)
      (.mk (sb.next + n) d2 (.exp (convert_chain t n sb b).1) (.types t t) .null) = false := by
    have : sa.next + n ≠ sb.next + n := by omega
    simp [exp_match, exp_cmp, sql_exp.addr, sql_exp.d, this, t1, t2]
  rw [exp_match_exp, hm]
  simp [t1, t2, sql_exp.d, sql_exp.l, sql_exp.r, exp_totype, exp_fromtype, hs, slot_match_exp]

/-- `exp_copy` copies a chain of `n` conversions whenever it copies the
innermost operand, whatever `n` is. -/
theorem exp_copy_chain (t : sql_subtype) (e : sql_exp)
    (he : ∀ sc, (exp_copy sc e).1.isSome = true) :
    ∀ (n : Nat) (sa sc : sql_allocator), (exp_copy sc (convert_chain t n sa e).1).1.isSome = true := by
  intro n
  induction n with
  | zero => intro sa sc; exact he sc
  | succ n ih =>
    intro sa sc
    obtain ⟨d1, e1, t1⟩ := convert_chain_succ t e sa n
    rw [e1]
    have h := ih sa sc
    cases hc : (exp_copy sc (convert_chain t n sa e).1).1 with
    | none => rw [hc] at h; simp at h
    | some el =>
      obtain ⟨d, hd, _⟩ := exp_copy_finish_spec
        (.mk (sa.next + n) d1 (.exp (convert_chain t n sa e).1) (.types t t) .null)
        (exp_convert (exp_copy sc (convert_chain t n sa e).1).2 el t t).1
      simp only [exp_copy, t1, slot_exp_copy, hc, hd, Option.isSome_some]

/-- `exp_deps` entered with `stk` frames left on a chain of `stk` conversions
or more stops at the guard: the result is -1 and the failure reported is the
one of a query too complex. -/
theorem exp_deps_chain_guard (t : sql_subtype) (e : sql_exp) (sa : sql_allocator) :
    ∀ (stk n : Nat) (st : deps_st), stk ≤ n → st.sql.errstr = "" →
      (exp_deps stk (convert_chain t n sa e).1 st).1 = -1 ∧
        (exp_deps stk (convert_chain t n sa e).1 st).2.sql.errstr = too_complex := by
  intro stk
  induction stk with
  | zero =>
    intro n st _ herr
    cases hc : (convert_chain t n sa e).1 with
    | mk a d l r f =>
      simp [exp_deps, THRhighwater, sql_error, herr]
  | succ stk ih =>
    intro n st hn herr
    obtain ⟨m, rfl⟩ : ∃ m, n = m + 1 := ⟨n - 1, by omega⟩
    obtain ⟨d1, e1, t1⟩ := convert_chain_succ t e sa m
    rw [e1]
    have := ih m st (by omega) herr
    simp only [exp_deps, THRhighwater, Nat.add_one_ne_zero, beq_iff_eq, if_false,
      exp_deps_body, t1, slot_exp_deps, Nat.add_sub_cancel]
    exact this

/-- C28 at the failing input: a chain of `n` nested conversions around the
column `t.a`, for every `n`. `exp_deps` entered with at most `n` frames left
stops at the guard and reports the query as too complex. `exp_match_exp` and
`exp_copy`, which do not consult the guard, go through the whole chain however
deep it is: the copy is made, and the match with a second chain built at other
addresses is decided by the innermost columns. -/
theorem recursion_guard_missing (n : Nat) :
    ((exp_deps n (convert_chain litOne.tpe n ⟨1000⟩ colA).1
        { sql := sql0, refs := [], l := [] }).1 = -1 ∧
      (exp_deps n (convert_chain litOne.tpe n ⟨1000⟩ colA).1
        { sql := sql0, refs := [], l := [] }).2.sql.errstr = too_complex) ∧
    (exp_copy ⟨5000⟩ (convert_chain litOne.tpe n ⟨1000⟩ colA).1).1.isSome = true ∧
    exp_match_exp (convert_chain litOne.tpe n ⟨1000⟩ colA).1
      (convert_chain litOne.tpe n ⟨3000⟩ colA).1 = true ∧
    exp_match_exp (convert_chain litOne.tpe n ⟨1000⟩ colA).1
      (convert_chain litOne.tpe n ⟨3000⟩ colB).1 = false := by
  refine ⟨exp_deps_chain_guard litOne.tpe colA ⟨1000⟩ n n _ (le_refl _) rfl, ?_, ?_, ?_⟩
  · apply exp_copy_chain
    intro sc
    obtain ⟨d, hd, _⟩ := exp_copy_finish_spec colA
      (.mk sc.next
        { (exp_column sc (some "t") "a" (exp_subtype colA) colA.d.card (has_nil colA)
            (is_intern colA)).1.d with flag := colA.d.flag }
        (.str "t") (.str "a") .null)
    have : (exp_copy sc colA).1 = exp_copy_finish colA (some (.mk sc.next
        { (exp_column sc (some "t") "a" (exp_subtype colA) colA.d.card (has_nil colA)
            (is_intern colA)).1.d with flag := colA.d.flag }
        (.str "t") (.str "a") .null)) := rfl
    rw [this, hd]
    rfl
  · induction n with
    | zero => decide
    | succ n ih =>
      rw [exp_match_exp_chain litOne.tpe rfl colA colA n ⟨1000⟩ ⟨3000⟩ (by decide)]
      exact ih
  · induction n with
    | zero => decide
    | succ n ih =>
      rw [exp_match_exp_chain litOne.tpe rfl colA colB n ⟨1000⟩ ⟨3000⟩ (by decide)]
      exact ih

/-! ## The type-setting traversal -/

/-- C29 at the failing input: a selection whose expression list holds the
column `x.c` of unknown type standing for parameter 5, in a session whose
query has no parameter, with the names `x` and `c` looked for. The nested call
of `exp_set_type_recurse` on the column returns -1 (`set_type_param` fails),
and so does a nested call entered with the guard tripped (one frame left for
the outermost call); in both cases the outermost `rel_set_type_recurse`
returns 0: the loop over `rel->exps` drops the result of the call. -/
theorem rel_set_type_recurse_drops_failure :
    (exp_set_type_recurse litOne.tpe 99 colParam
        { sql := sql0, relname := "x", expname := "c" }).1 = -1 ∧
      (rel_set_type_recurse litOne.tpe 100 exSelect
        { sql := sql0, relname := "x", expname := "c" }).1 = 0 ∧
      (exp_set_type_recurse litOne.tpe 0 colParam
        { sql := sql0, relname := "x", expname := "c" }).1 = -1 ∧
      (rel_set_type_recurse litOne.tpe 1 exSelect
        { sql := sql0, relname := "x", expname := "c" }).1 = 0 ∧
      (rel_set_type_recurse litOne.tpe 1 exSelect
        { sql := sql0, relname := "x", expname := "c" }).2.2.sql.errstr = too_complex := by
  decide

/-! ## Pushing a selection below an inner join -/

/-- The loop of `rel_push_select` over the path of an inner join with one
reference and its operand, a base table or projection with one reference,
stops at the operand with the join as parent. -/
theorem push_select_loop_join (J B : sql_rel) (hJop : J.d.op = .op_join)
    (hJref : J.d.refcnt ≤ 1) (hB : B.d.op = .op_basetable ∨ B.d.op = .op_project)
    (hBref : B.d.refcnt ≤ 1) :
    push_select_loop [some J, some B] none none = (some B, some J) := by
  have hJ : rel_is_ref J = false := by
    cases J; simp only [sql_rel.d] at hJref; simp [rel_is_ref]; omega
  have hBr : rel_is_ref B = false := by
    cases B; simp only [sql_rel.d] at hBref; simp [rel_is_ref]; omega
  rcases hB with hB | hB <;>
    simp [push_select_loop, hJ, hBr, hJop, hB, is_select, is_semi]

/-- The path `rel_bind_path_` finds from an inner join to its right operand,
a base table or projection that binds the column. -/
theorem rel_bind_path_join (sql : mvc) (stk : Nat) (aJ : Nat) (dJ : rel_fields) (A B : sql_rel)
    (exJ : slot) (ls : sql_exp) (hstk : 2 ≤ stk) (hJop : dJ.op = .op_join)
    (hB : B.d.op = .op_basetable ∨ B.d.op = .op_project)
    (hfound : bind_path_found B.exps B.d.ht ls = true) :
    rel_bind_path_ ls stk (.mk aJ dJ (.rel A) (.rel B) exJ) [] sql =
      (true, [.mk aJ dJ (.rel A) (.rel B) exJ, B], sql) := by
  have h1 : THRhighwater stk = false := by simp [THRhighwater]; omega
  have h2 : THRhighwater (stk - 1) = false := by simp [THRhighwater]; omega
  have hBp : rel_bind_path_ ls (stk - 1) B [] sql = (true, [B], sql) := by
    cases B with
    | mk a d l r exps =>
      simp only [sql_rel.d, sql_rel.exps] at hB hfound
      rcases hB with hB | hB <;>
        simp [rel_bind_path_, h2, rel_bind_path_switch, hB, hfound]
  simp [rel_bind_path_, h1, rel_bind_path_switch, hJop, slot_bind_path, hBp]

/-- The selection `rel_select` makes over a base table or projection for a
comparison: a new node at the next free address. -/
theorem rel_select_new (sa : sql_allocator) (B : sql_rel) (e : sql_exp)
    (hB : B.d.op = .op_basetable ∨ B.d.op = .op_project)
    (he : e.d.type = .e_cmp ∨ e.d.card ≤ CARD_ATOM) :
    rel_select sa (some B) (some e) =
      (.mk sa.next
        { refcnt := 1, op := .op_select, nrcols := B.d.nrcols, flag := 0, card := B.d.card,
          processed := false, single := false, dependent := false, subquery := false,
          ht := false }
        (.rel B) .null (.list (.cons e .nil)), { next := sa.next + 1 }) := by
  cases B with
  | mk a d l r x =>
    simp only [sql_rel.d] at hB
    have hw : ¬ (e.d.type ≠ .e_cmp ∧ e.d.card > CARD_ATOM) := by
      rintro ⟨h1, h2⟩
      rcases he with he | he
      · exact h1 he
      · omega
    rcases hB with hB | hB <;>
      simp [rel_select, is_outerjoin, hB, rel_create, rel_select_add_exp, hw, exps_append,
        sql_rel.addr, sql_rel.d, sql_rel.l, sql_rel.r, sql_rel.exps, exp_list.append]

/-- C30, amended: with push-down enabled and the recursion guard not tripped,
`rel_push_select` on an inner join `J` with one reference, whose right operand
`B` is a base table or projection with one reference that binds the column
`ls`, called with a filter `e` that is a comparison or has at most one value,
returns `J` itself: the left operand and the expressions of `J` are unchanged
and the right operand is a new selection (at the next free address, with one
reference) over `B` whose only expression is `e`. -/
theorem rel_push_select_below_inner_join (sql : mvc) (stk : Nat) (aJ : Nat) (dJ : rel_fields)
    (A B : sql_rel) (exJ : slot) (ls e : sql_exp)
    (hpush : sql.pushdown = true) (hstk : 3 ≤ stk)
    (hJop : dJ.op = .op_join) (hJref : dJ.refcnt ≤ 1)
    (hB : B.d.op = .op_basetable ∨ B.d.op = .op_project) (hBref : B.d.refcnt ≤ 1)
    (hJB : aJ ≠ B.addr) (hAB : A.addr ≠ B.addr)
    (hls : ls.d.type = .e_column) (hfound : bind_path_found B.exps B.d.ht ls = true)
    (he : e.d.type = .e_cmp ∨ e.d.card ≤ CARD_ATOM) :
    rel_push_select sql stk (some (.mk aJ dJ (.rel A) (.rel B) exJ)) ls e =
      (some (.mk aJ dJ (.rel A)
        (.rel (.mk sql.sa.next
          { refcnt := 1, op := .op_select, nrcols := B.d.nrcols, flag := 0, card := B.d.card,
            processed := false, single := false, dependent := false, subquery := false,
            ht := false }
          (.rel B) .null (.list (.cons e .nil)))) exJ),
       { sql with sa := { next := sql.sa.next + 1 } }) := by
  have hp : rel_bind_path sql stk (some (.mk aJ dJ (.rel A) (.rel B) exJ)) ls =
      (some [some (.mk aJ dJ (.rel A) (.rel B) exJ), some B], sql) := by
    simp [rel_bind_path, hls, rel_bind_path_join sql (stk - 1) aJ dJ A B exJ ls (by omega) hJop
      hB hfound]
  have hl := push_select_loop_join (.mk aJ dJ (.rel A) (.rel B) exJ) B hJop hJref hB hBref
  have hs := rel_select_new sql.sa B e hB he
  have ha : (sql_rel.mk aJ dJ (.rel A) (.rel B) exJ).addr = aJ := rfl
  have hd : (sql_rel.mk aJ dJ (.rel A) (.rel B) exJ).d = dJ := rfl
  have h1 : (sql_rel.mk aJ dJ (.rel A) (.rel B) exJ).l = .rel A := rfl
  have h2 : (sql_rel.mk aJ dJ (.rel A) (.rel B) exJ).r = .rel B := rfl
  have h3 : (sql_rel.mk aJ dJ (.rel A) (.rel B) exJ).exps = exJ := rfl
  simp [rel_push_select, hp, hpush, hl, hs, ha, hd, h1, h2, h3, hJop, hJB, hAB, rel_replace]

/-- Witness for C30: the inner join of the base tables `s` and `t` and the
comparison `t.b = 1`; the new selection is at address 100. -/
theorem rel_push_select_below_inner_join_witness :
    rel_push_select sql0 10 (some exJoin) colB exCmp =
      (some (.mk 72 exJoinFields (.rel exBaseS)
        (.rel (.mk 100
          { refcnt := 1, op := .op_select, nrcols := 1, flag := 0, card := CARD_MULTI,
            processed := false, single := false, dependent := false, subquery := false,
            ht := false }
          (.rel exBaseT) .null (.list (.cons exCmp .nil)))) (.list .nil)),
       { sql0 with sa := { next := 101 } }) :=
  rel_push_select_below_inner_join sql0 10 72 exJoinFields exBaseS exBaseT (.list .nil) colB exCmp
    rfl (by decide) rfl (by decide) (Or.inl rfl) (by decide) (by decide) (by decide) rfl
    (by decide) (Or.inl rfl)

/-- C30 as stated fails: on the inner join of the base tables `s` and `t`,
both with one reference, the filter `t.b` (the column itself, at address 11)
gives a selection over `t` whose only expression is not the filter but the
new comparison `t.b = true` at address 102; and with the recursion guard
tripped the comparison `t.b = 1` is not pushed down: the result is a new
selection at address 100 over the join. -/
theorem rel_push_select_not_exactly_filter :
    ((rel_push_select sql0 10 (some exJoin) colB colB).1.map
        (fun r => (r.addr, r.r.rel_val.map (fun s => (s.addr, s.d.op, s.exps_addrs)))) =
      some (72, some (100, .op_select, [102]))) ∧
    colB.addr = 11 ∧ colB.d.type = .e_column ∧
    ((rel_push_select sql0 1 (some exJoin) colB exCmp).1.map
        (fun r => (r.addr, r.d.op, r.l.rel_val.map sql_rel.addr, r.exps_addrs)) =
      some (100, .op_select, some 72, [exCmp.addr])) := by
  decide

/-! ## Reference counts -/

/-- A node that still has a reference after the decrement keeps its
children: `rel_destroy` decrements the count of the node alone. -/
theorem rel_destroy_shared (r : sql_rel) (decs : List Nat)
    (h : r.d.refcnt > decs.count r.addr + 1) : rel_destroy r decs = r.addr :: decs := by
  cases r with
  | mk a d l r exps =>
    simp only [sql_rel.d, sql_rel.addr] at h
    have h1 : d.refcnt > (a :: decs).count a := by simp; omega
    simp only [rel_destroy, if_pos h1, sql_rel.addr]

/-- C35: reference counting of plan nodes. `rel_create` yields a node with
count 1; `rel_dup` returns the same node (same address, children and
expressions) with its count increased by one; `rel_destroy` on a node whose
count stays above zero decrements that node alone, and on a node whose count
reaches zero goes on to its children; hence, for every live plan `r` (count at
least 1), `rel_destroy(rel_dup(r))` makes the single decrement that undoes
the increment: the count of `r` is what it was and the count of every other
node is untouched. -/
theorem rel_dup_destroy_refcount (sa : sql_allocator) (r : sql_rel) (h : 1 ≤ r.d.refcnt) :
    (rel_create sa).1.d.refcnt = 1 ∧
    ((rel_dup r).addr = r.addr ∧ (rel_dup r).d.refcnt = r.d.refcnt + 1 ∧
      (rel_dup r).l = r.l ∧ (rel_dup r).r = r.r ∧ (rel_dup r).exps = r.exps) ∧
    (2 ≤ r.d.refcnt → rel_destroy r [] = [r.addr]) ∧
    (r.d.refcnt = 1 →
      (is_join r.d.op || is_semi r.d.op || is_select r.d.op || is_set r.d.op ||
        r.d.op == .op_topn || r.d.op == .op_sample) = true →
      rel_destroy r [] = slot_destroy r.r (slot_destroy r.l [r.addr])) ∧
    rel_destroy (rel_dup r) [] = [r.addr] ∧
    refcnt_after (rel_destroy (rel_dup r) []) (rel_dup r) = r.d.refcnt ∧
    ∀ x : sql_rel, x.addr ≠ r.addr → refcnt_after (rel_destroy (rel_dup r) []) x = x.d.refcnt := by
  have hd : rel_destroy (rel_dup r) [] = [r.addr] := by
    have := rel_destroy_shared (rel_dup r) [] (by
      cases r
      simp only [rel_dup, sql_rel.d, sql_rel.addr] at h ⊢
      simp
      omega)
    simpa [rel_dup, sql_rel.addr] using this
  refine ⟨rfl, ⟨rfl, rfl, rfl, rfl, rfl⟩, ?_, ?_, hd, ?_, ?_⟩
  · intro h2
    exact rel_destroy_shared r [] (by simp; omega)
  · intro h1 hs
    cases r with
    | mk a d l r exps =>
      simp only [sql_rel.d] at h1 hs
      simp [rel_destroy, h1, hs, sql_rel.l, sql_rel.r, sql_rel.addr]
  · rw [hd]
    simp [refcnt_after, rel_dup, sql_rel.addr, sql_rel.d]
  · intro x hx
    rw [hd]
    simp [refcnt_after, hx]

/-- Witness of C35: the inner join of the base tables `s` and `t`, which has
one reference. -/
theorem rel_dup_destroy_refcount_witness :
    1 ≤ exJoin.d.refcnt ∧ rel_destroy (rel_dup exJoin) [] = [72] ∧
      rel_destroy exJoin [] = [71, 70, 72] :=
  ⟨by decide, (rel_dup_destroy_refcount ⟨0⟩ exJoin (by decide)).2.2.2.2.1, by decide⟩

/-! ## Chained selections -/

/-- The selection `rel_select` makes over a node that is neither a selection
nor an outer join that is not processed, for a comparison. -/
theorem rel_select_fresh (sa : sql_allocator) (b : sql_rel) (e : sql_exp)
    (hsel : b.d.op ≠ .op_select) (hout : ¬ (is_outerjoin b.d.op = true ∧ b.d.processed = false))
    (he : e.d.type = .e_cmp) :
    rel_select sa (some b) (some e) =
      (.mk sa.next
        { refcnt := 1, op := .op_select, nrcols := b.d.nrcols, flag := 0, card := b.d.card,
          processed := false, single := false, dependent := false, subquery := false,
          ht := false }
        (.rel b) .null (.list (.cons e .nil)), { next := sa.next + 1 }) := by
  cases b with
  | mk a d l r x =>
    simp only [sql_rel.d] at hsel hout
    have h1 : ¬ (is_outerjoin (sql_rel.mk a d l r x).d.op = true ∧
        (!is_processed (.mk a d l r x)) = true) := by
      simpa [is_processed, sql_rel.d] using hout
    have h2 : ¬ ((sql_rel.mk a d l r x).d.op = .op_select ∧
        (!rel_is_ref (.mk a d l r x)) = true) := fun h => hsel h.1
    simp only [rel_select]
    rw [if_neg h1, if_neg h2]
    simp [rel_create, rel_select_add_exp, he, exps_append,
      sql_rel.addr, sql_rel.d, sql_rel.l, sql_rel.r, sql_rel.exps, exp_list.append]

/-- C33: chained filters coalesce. For every relation `b` that is neither a
selection nor an outer join that is not processed and all comparisons `e1`
and `e2`, the inner call `rel_select(b, e1)` creates a selection over `b`
with one reference, and `rel_select(rel_select(b, e1), e2)` returns that
node with the filter list `[e1, e2]` without allocating a node; when the
inner selection has got a second reference (`rel_dup`), the outer call
creates a new selection above it whose filter list is `[e2]` and whose child
is the shared node with its filter list `[e1]` unchanged. -/
theorem rel_select_chain (sa : sql_allocator) (b : sql_rel) (e1 e2 : sql_exp)
    (hsel : b.d.op ≠ .op_select) (hout : ¬ (is_outerjoin b.d.op = true ∧ b.d.processed = false))
    (he1 : e1.d.type = .e_cmp) (he2 : e2.d.type = .e_cmp) :
    rel_select (rel_select sa (some b) (some e1)).2 (some (rel_select sa (some b) (some e1)).1)
        (some e2) =
      (.mk sa.next
        { refcnt := 1, op := .op_select, nrcols := b.d.nrcols, flag := 0, card := b.d.card,
          processed := false, single := false, dependent := false, subquery := false,
          ht := false }
        (.rel b) .null (.list (.cons e1 (.cons e2 .nil))), { next := sa.next + 1 }) ∧
    (rel_select sa (some b) (some e1)).1.addr = sa.next ∧
    rel_select (rel_select sa (some b) (some e1)).2
        (some (rel_dup (rel_select sa (some b) (some e1)).1)) (some e2) =
      (.mk (sa.next + 1)
        { refcnt := 1, op := .op_select, nrcols := b.d.nrcols, flag := 0, card := b.d.card,
          processed := false, single := false, dependent := false, subquery := false,
          ht := false }
        (.rel (.mk sa.next
          { refcnt := 2, op := .op_select, nrcols := b.d.nrcols, flag := 0, card := b.d.card,
            processed := false, single := false, dependent := false, subquery := false,
            ht := false }
          (.rel b) .null (.list (.cons e1 .nil))))
        .null (.list (.cons e2 .nil)), { next := sa.next + 2 }) := by
  rw [rel_select_fresh sa b e1 hsel hout he1]
  refine ⟨?_, rfl, ?_⟩
  · simp [rel_select, is_outerjoin, rel_is_ref, rel_select_add_exp, he2, exps_append,
      sql_rel.addr, sql_rel.d, sql_rel.l, sql_rel.r, sql_rel.exps, exp_list.append]
  · simp [rel_select, is_outerjoin, rel_is_ref, rel_dup, rel_create, rel_select_add_exp, he2,
      exps_append, sql_rel.addr, sql_rel.d, sql_rel.l, sql_rel.r, sql_rel.exps, exp_list.append]

/-- Witness of C33: the base table `t` and the comparison `t.b = 1` used
twice. -/
theorem rel_select_chain_witness :
    ((rel_select (rel_select ⟨100⟩ (some exBaseT) (some exCmp)).2
        (some (rel_select ⟨100⟩ (some exBaseT) (some exCmp)).1) (some exCmp)).1.addr,
      (rel_select (rel_select ⟨100⟩ (some exBaseT) (some exCmp)).2
        (some (rel_select ⟨100⟩ (some exBaseT) (some exCmp)).1) (some exCmp)).1.exps_addrs) =
      (100, [81, 81]) :=
  (congrArg (fun x => (x.1.addr, x.1.exps_addrs))
    (rel_select_chain ⟨100⟩ exBaseT exCmp exCmp (by decide) (by decide) rfl rfl).1).trans
    (by decide)

/-! ## Pushing a join condition -/

/-- The switch of `rel_bind_path_` leaves the push-down setting of the
session as it is when the calls on the children do. -/
theorem rel_bind_path_switch_pushdown (d : rel_fields) (exps : slot) (e : sql_exp)
    (bl br : List sql_rel → mvc → Bool × List sql_rel × mvc)
    (hl : ∀ path sql, (bl path sql).2.2.pushdown = sql.pushdown)
    (hr : ∀ path sql, (br path sql).2.2.pushdown = sql.pushdown) (path : List sql_rel)
    (sql : mvc) : (rel_bind_path_switch d exps e bl br path sql).2.2.pushdown = sql.pushdown := by
  unfold rel_bind_path_switch
  dsimp only
  repeat' split
  all_goals first
    | rfl
    | exact hl _ _
    | exact hr _ _
    | exact (hl _ _).trans (hr _ _)

/-- The search of a binding path leaves the push-down setting of the session
as it is. -/
theorem rel_bind_path_pushdown_walk :
    (∀ _ : sql_exp, True) ∧
    (∀ s : slot, ∀ (e : sql_exp) (stk : Nat) (path : List sql_rel) (sql : mvc),
      (slot_bind_path e stk s path sql).2.2.pushdown = sql.pushdown) ∧
    (∀ _ : exp_list, True) ∧
    (∀ r : sql_rel, ∀ (e : sql_exp) (stk : Nat) (path : List sql_rel) (sql : mvc),
      (rel_bind_path_ e stk r path sql).2.2.pushdown = sql.pushdown) := by
  apply sql_induction
  case hexp => intros; trivial
  case hnil => trivial
  case hcons => intros; trivial
  case hsrel =>
    intro r ih e stk path sql
    simp only [slot_bind_path]
    exact ih e stk path sql
  case hrel =>
    intro a d l r exps ihl ihr _ e stk path sql
    simp only [rel_bind_path_]
    split
    · rfl
    · have h := rel_bind_path_switch_pushdown d exps e (slot_bind_path e (stk - 1) l)
        (slot_bind_path e (stk - 1) r) (ihl e (stk - 1)) (ihr e (stk - 1)) path sql
      split
      · exact h
      · exact h
  all_goals
    intros
    rfl

/-- `rel_bind_path` leaves the push-down setting of the session as it is. -/
theorem rel_bind_path_pushdown (sql : mvc) (stk : Nat) (rel : Option sql_rel) (e : sql_exp) :
    (rel_bind_path sql stk rel e).2.pushdown = sql.pushdown := by
  unfold rel_bind_path
  dsimp only
  repeat' split
  all_goals first
    | rfl
    | exact rel_bind_path_pushdown_walk.2.2.2 _ _ _ _ _

/-- The loop of `rel_push_join` stops at two path entries that are different
nodes, whatever their state. -/
theorem push_join_loop_differ (A B : sql_rel) (pl pr : List (Option sql_rel))
    (l0 r0 p : Option sql_rel) (hAB : A.addr ≠ B.addr) :
    push_join_loop (some A :: pl) (some B :: pr) l0 r0 p = (some A, some B, p) := by
  simp only [push_join_loop]
  split
  · rfl
  · simp [hAB]

/-- C31: `rel_push_join` with a two-sided predicate. With push-down enabled,
for every inner join `J` with one reference over the distinct children `A`
and `B`, when the binding path of the left expression leads from `J` into `A`
and that of the right expression from `J` into `B`, `rel_push_join(J, ls, rs,
NULL, e)` returns `J` itself with `e` appended to the expressions of `J` (and
the cardinality class of `J` raised to that of `e`), both children unchanged;
no node is created: the allocator is what the two searches left. -/
theorem rel_push_join_two_sided (sql sql1 sql2 : mvc) (stk : Nat) (aJ : Nat) (dJ : rel_fields)
    (A B : sql_rel) (exJ : slot) (ls rs e : sql_exp) (pl pr : List (Option sql_rel))
    (hpush : sql.pushdown = true) (hJop : dJ.op = .op_join) (hJref : dJ.refcnt ≤ 1)
    (hAB : A.addr ≠ B.addr)
    (hl : rel_bind_path sql stk (some (.mk aJ dJ (.rel A) (.rel B) exJ)) ls =
      (some (some (.mk aJ dJ (.rel A) (.rel B) exJ) :: some A :: pl), sql1))
    (hr : rel_bind_path sql1 stk (some (.mk aJ dJ (.rel A) (.rel B) exJ)) rs =
      (some (some (.mk aJ dJ (.rel A) (.rel B) exJ) :: some B :: pr), sql2)) :
    rel_push_join sql stk (some (.mk aJ dJ (.rel A) (.rel B) exJ)) ls rs none e =
      (some (.mk aJ { dJ with card := if e.d.card > dJ.card then e.d.card else dJ.card }
        (.rel A) (.rel B) (exps_append exJ e)), sql2) := by
  have hp1 : sql1.pushdown = true := by
    have := rel_bind_path_pushdown sql stk (some (.mk aJ dJ (.rel A) (.rel B) exJ)) ls
    rw [hl] at this
    exact this.trans hpush
  have hp2 : sql2.pushdown = true := by
    have := rel_bind_path_pushdown sql1 stk (some (.mk aJ dJ (.rel A) (.rel B) exJ)) rs
    rw [hr] at this
    exact this.trans hp1
  have hJ : rel_is_ref (.mk aJ dJ (.rel A) (.rel B) exJ) = false := by
    simp [rel_is_ref]; omega
  have hloop : push_join_loop (some (.mk aJ dJ (.rel A) (.rel B) exJ) :: some A :: pl)
      (some (.mk aJ dJ (.rel A) (.rel B) exJ) :: some B :: pr) none none
      (some (.mk aJ dJ (.rel A) (.rel B) exJ)) =
      (some A, some B, some (.mk aJ dJ (.rel A) (.rel B) exJ)) ∨
    push_join_loop (some (.mk aJ dJ (.rel A) (.rel B) exJ) :: some A :: pl)
      (some (.mk aJ dJ (.rel A) (.rel B) exJ) :: some B :: pr) none none
      (some (.mk aJ dJ (.rel A) (.rel B) exJ)) =
      (some (.mk aJ dJ (.rel A) (.rel B) exJ), some (.mk aJ dJ (.rel A) (.rel B) exJ),
        some (.mk aJ dJ (.rel A) (.rel B) exJ)) := by
    by_cases hproc : dJ.processed = true
    · right
      have hd : (sql_rel.mk aJ dJ (.rel A) (.rel B) exJ).d = dJ := rfl
      rw [push_join_loop]
      simp [hJ, is_processed, hd, hproc]
    · left
      have hproc' : dJ.processed = false := by simpa using hproc
      have hd : (sql_rel.mk aJ dJ (.rel A) (.rel B) exJ).d = dJ := rfl
      rw [push_join_loop]
      simp only [hJ, is_processed, hd, hproc', push_blocked, hJop, left_head_blocked, is_select,
        is_semi]
      simp only [push_join_loop_differ A B pl pr _ _ _ hAB]
      simp
  simp only [rel_push_join, hl, hr, hp2]
  have ha : (sql_rel.mk aJ dJ (.rel A) (.rel B) exJ).addr = aJ := rfl
  have hd : (sql_rel.mk aJ dJ (.rel A) (.rel B) exJ).d = dJ := rfl
  have h1 : (sql_rel.mk aJ dJ (.rel A) (.rel B) exJ).l = .rel A := rfl
  have h2 : (sql_rel.mk aJ dJ (.rel A) (.rel B) exJ).r = .rel B := rfl
  have h3 : (sql_rel.mk aJ dJ (.rel A) (.rel B) exJ).exps = exJ := rfl
  rcases hloop with h | h <;> rw [h] <;>
    simp [hAB, hJ, ha, hd, h1, h2, h3, hJop, rel_replace, rel_join_add_exp]

/-- Witness of C31: the inner join of the base tables `s` and `t` and the
condition `s.a = t.b`. -/
theorem rel_push_join_two_sided_witness :
    rel_push_join sql0 10 (some exJoin) colSA colB none exJoinCmp =
      (some (.mk 72 exJoinFields (.rel exBaseS) (.rel exBaseT) (.list (.cons exJoinCmp .nil))),
        sql0) :=
  rel_push_join_two_sided sql0 sql0 sql0 10 72 exJoinFields exBaseS exBaseT (.list .nil) colSA
    colB exJoinCmp [] [] rfl rfl (by decide) (by decide) rfl rfl

/-! ## Pushing a selection below a left join -/

/-- The loop of `rel_push_select` stops at a left join whose path goes on
into a node that is not its left child: the selection is made on the join. -/
theorem push_select_loop_left_right (J A B : sql_rel) (pl : List (Option sql_rel))
    (hJop : J.d.op = .op_left) (hJl : J.l = .rel A) (hAB : A.addr ≠ B.addr) :
    push_select_loop (some J :: some B :: pl) none none = (some J, none) := by
  by_cases hr : rel_is_ref J = true
  · simp [push_select_loop, hr]
  · have hr' : rel_is_ref J = false := by simpa using hr
    simp [push_select_loop, hr', hJop, hJl, hAB, is_select, is_semi]

/-- The loop of `rel_push_select` passes the left head of a left join with
one reference and stops at a base table or projection below it. -/
theorem push_select_loop_left_head (J A : sql_rel) (pl : List (Option sql_rel))
    (hJop : J.d.op = .op_left) (hJl : J.l = .rel A) (hJref : rel_is_ref J = false)
    (hA : A.d.op = .op_basetable ∨ A.d.op = .op_project) :
    push_select_loop (some J :: some A :: pl) none none = (some A, some J) := by
  by_cases hr : rel_is_ref A = true
  · simp [push_select_loop, hr, hJref, hJop, hJl, is_select, is_semi]
  · have hr' : rel_is_ref A = false := by simpa using hr
    rcases hA with hA | hA <;>
      simp [push_select_loop, hr', hJref, hJop, hJl, hA, is_select, is_semi]

/-- C32, amended. For every left join `J` over the distinct children `A` and
`B`: (1) when the binding path of the filter's column leads from `J` into
`B`, `rel_push_select` acts as `rel_select` on `J` itself: a join that is not
processed takes the filter into its own expressions and a processed one gets
a new selection above it, so that the children of `J` are still `A` and `B`;
(2) with push-down enabled, when `J` has one reference, the binding path
leads from `J` into `A`, `A` is a base table or projection, and the filter is
a comparison or has at most one value, the filter is placed in a new
selection over `A`, which becomes the left child of `J`; the right child is
still `B`. -/
theorem rel_push_select_left_join (sql sql1 : mvc) (stk : Nat) (aJ : Nat) (dJ : rel_fields)
    (A B : sql_rel) (exJ : slot) (ls e : sql_exp) (pl : List (Option sql_rel))
    (hJop : dJ.op = .op_left) (hAB : A.addr ≠ B.addr) :
    (rel_bind_path sql stk (some (.mk aJ dJ (.rel A) (.rel B) exJ)) ls =
        (some (some (.mk aJ dJ (.rel A) (.rel B) exJ) :: some B :: pl), sql1) →
      rel_push_select sql stk (some (.mk aJ dJ (.rel A) (.rel B) exJ)) ls e =
          (some (rel_select sql1.sa (some (.mk aJ dJ (.rel A) (.rel B) exJ)) (some e)).1,
            { sql1 with
              sa := (rel_select sql1.sa (some (.mk aJ dJ (.rel A) (.rel B) exJ)) (some e)).2 }) ∧
        (dJ.processed = false →
          rel_select sql1.sa (some (.mk aJ dJ (.rel A) (.rel B) exJ)) (some e) =
            (.mk aJ dJ (.rel A) (.rel B) (exps_append exJ e), sql1.sa)) ∧
        (dJ.processed = true →
          (rel_select sql1.sa (some (.mk aJ dJ (.rel A) (.rel B) exJ)) (some e)).1.d.op =
              .op_select ∧
            (rel_select sql1.sa (some (.mk aJ dJ (.rel A) (.rel B) exJ)) (some e)).1.l =
              .rel (.mk aJ dJ (.rel A) (.rel B) exJ))) ∧
    (rel_bind_path sql stk (some (.mk aJ dJ (.rel A) (.rel B) exJ)) ls =
        (some (some (.mk aJ dJ (.rel A) (.rel B) exJ) :: some A :: pl), sql1) →
      sql.pushdown = true → dJ.refcnt ≤ 1 → aJ ≠ A.addr →
      (A.d.op = .op_basetable ∨ A.d.op = .op_project) →
      (e.d.type = .e_cmp ∨ e.d.card ≤ CARD_ATOM) →
      rel_push_select sql stk (some (.mk aJ dJ (.rel A) (.rel B) exJ)) ls e =
        (some (.mk aJ dJ
          (.rel (.mk sql1.sa.next
            { refcnt := 1, op := .op_select, nrcols := A.d.nrcols, flag := 0, card := A.d.card,
              processed := false, single := false, dependent := false, subquery := false,
              ht := false }
            (.rel A) .null (.list (.cons e .nil))))
          (.rel B) exJ),
         { sql1 with sa := { next := sql1.sa.next + 1 } })) := by
  have ha : (sql_rel.mk aJ dJ (.rel A) (.rel B) exJ).addr = aJ := rfl
  have hd : (sql_rel.mk aJ dJ (.rel A) (.rel B) exJ).d = dJ := rfl
  have h1 : (sql_rel.mk aJ dJ (.rel A) (.rel B) exJ).l = .rel A := rfl
  have h2 : (sql_rel.mk aJ dJ (.rel A) (.rel B) exJ).r = .rel B := rfl
  have h3 : (sql_rel.mk aJ dJ (.rel A) (.rel B) exJ).exps = exJ := rfl
  constructor
  · intro hl
    refine ⟨?_, ?_, ?_⟩
    · simp only [rel_push_select, hl]
      by_cases hp : sql1.pushdown = true
      · simp [hp, push_select_loop_left_right (.mk aJ dJ (.rel A) (.rel B) exJ) A B pl hJop h1 hAB]
      · have hp' : sql1.pushdown = false := by simpa using hp
        simp [hp']
    · intro hproc
      simp [rel_select, hd, ha, h1, h2, h3, hJop, is_outerjoin, is_processed, hproc]
    · intro hproc
      have c1 : ¬ (is_outerjoin (sql_rel.mk aJ dJ (.rel A) (.rel B) exJ).d.op = true ∧
          (!is_processed (.mk aJ dJ (.rel A) (.rel B) exJ)) = true) := by
        simp [is_processed, hd, hproc]
      have c2 : ¬ ((sql_rel.mk aJ dJ (.rel A) (.rel B) exJ).d.op = .op_select ∧
          (!rel_is_ref (.mk aJ dJ (.rel A) (.rel B) exJ)) = true) := by
        simp [hd, hJop]
      simp only [rel_select]
      rw [if_neg c1, if_neg c2]
      simp [rel_create, rel_select_add_exp, sql_rel.d, sql_rel.l, sql_rel.addr, sql_rel.r,
        sql_rel.exps]
  · intro hl hpush hJref hJA hA he
    have hp1 : sql1.pushdown = true := by
      have := rel_bind_path_pushdown sql stk (some (.mk aJ dJ (.rel A) (.rel B) exJ)) ls
      rw [hl] at this
      exact this.trans hpush
    have hs := rel_select_new sql1.sa A e hA he
    have hJ : rel_is_ref (.mk aJ dJ (.rel A) (.rel B) exJ) = false := by
      simp [rel_is_ref]; omega
    simp [rel_push_select, hl, hp1,
      push_select_loop_left_head (.mk aJ dJ (.rel A) (.rel B) exJ) A pl hJop h1 hJ hA, hs, ha, hd, h1, h2, h3, hJop,
      hJA, rel_replace]

/-- Witness of C32: the left join of the base tables `s` and `t`. The filter
`t.b = 1` on the right side goes into the expressions of the join; the filter
`s.a = 1` on the left side goes into a new selection (at address 100) over
`s`. -/
theorem rel_push_select_left_join_witness :
    rel_push_select sql0 10 (some exLeft) colB exCmp =
      (some (.mk 73 exLeftFields (.rel exBaseS) (.rel exBaseT) (.list (.cons exCmp .nil))),
        sql0) ∧
    rel_push_select sql0 10 (some exLeft) colSA exCmpS =
      (some (.mk 73 exLeftFields
        (.rel (.mk 100
          { refcnt := 1, op := .op_select, nrcols := 1, flag := 0, card := CARD_MULTI,
            processed := false, single := false, dependent := false, subquery := false,
            ht := false }
          (.rel exBaseS) .null (.list (.cons exCmpS .nil))))
        (.rel exBaseT) (.list .nil)),
       { sql0 with sa := { next := 101 } }) :=
  ⟨((rel_push_select_left_join sql0 sql0 10 73 exLeftFields exBaseS exBaseT (.list .nil) colB
      exCmp [] rfl (by decide)).1 rfl).1,
    (rel_push_select_left_join sql0 sql0 10 73 exLeftFields exBaseS exBaseT (.list .nil) colSA
      exCmpS [] rfl (by decide)).2 rfl rfl (by decide) (by decide) (Or.inl rfl) (Or.inl rfl)⟩

/-- C32 as stated fails: for the left join of the inner join of `s` and `u`
with `t` and the filter `s.a = 1`, whose column is resolvable only in the left
child, the left child of the left join is still the inner join (address 76)
and the new selection (address 100) is below it, over `s`; and with push-down
disabled the filter on the left join of `s` and `t` goes into the expressions
of the join, the left child being still the base table. -/
theorem rel_push_select_left_join_deeper :
    (rel_push_select sql0 10 (some exLeftDeep) colSA exCmpS).1.map sql_rel.shape =
      some (77, .op_left, []) ∧
    ((rel_push_select sql0 10 (some exLeftDeep) colSA exCmpS).1.bind sql_rel.left).map
      sql_rel.shape = some (76, .op_join, []) ∧
    (((rel_push_select sql0 10 (some exLeftDeep) colSA exCmpS).1.bind sql_rel.left).bind
      sql_rel.left).map sql_rel.shape = some (100, .op_select, [83]) ∧
    exCmpS.addr = 83 ∧
    (rel_push_select sql0_nopush 10 (some exLeft) colSA exCmpS).1.map sql_rel.shape =
      some (73, .op_left, [83]) ∧
    ((rel_push_select sql0_nopush 10 (some exLeft) colSA exCmpS).1.bind sql_rel.left).map
      sql_rel.shape = some (70, .op_basetable, [12]) := by
  decide

/-! ## Shared nodes under the push-down of a selection -/

/-- C39 at the failing input: the left join of `s` and `t` at address 78 has
two references, is not processed and has no expressions. `rel_push_select`
with the filter `t.b = 1` (address 81) stops at the shared node and hands it
to `rel_select`, whose branch for an outer join that is not processed appends
the filter to the expressions of the node without looking at its reference
count: the shared node is changed in place, with push-down enabled as well as
disabled. A shared selection is treated as the claim says: the selection at
address 79 with two references keeps its filter list and a new selection
(address 100) is made above it. -/
theorem rel_push_select_mutates_shared_outer_join :
    rel_is_ref exLeftShared = true ∧ exLeftShared.shape = (78, .op_left, []) ∧
    (rel_push_select sql0 10 (some exLeftShared) colB exCmp).1.map sql_rel.shape =
      some (78, .op_left, [81]) ∧
    (rel_push_select sql0_nopush 10 (some exLeftShared) colB exCmp).1.map sql_rel.shape =
      some (78, .op_left, [81]) ∧
    rel_is_ref exSelShared = true ∧ exSelShared.shape = (79, .op_select, [81]) ∧
    (rel_push_select sql0 10 (some exSelShared) colB exCmpS).1.map sql_rel.shape =
      some (100, .op_select, [83]) ∧
    ((rel_push_select sql0 10 (some exSelShared) colB exCmpS).1.bind sql_rel.left).map
      sql_rel.shape = some (79, .op_select, [81]) := by
  decide

/-! ## The hash lookup against the linear lookup -/

/-- C38 at the failing input: the list `t.c, t.c, t.a, t.b, s.a`, which holds
the alias `t.c` twice (at the addresses 1 and 2). The list is longer than
`HASH_MIN_SIZE`, so that `exps_bind_column` searches it through the hash
table: the two candidates have the same relation alias, the test for a
conflict is not met, and an expression is returned with the ambiguity flag
untouched. The linear scan over the same list, and `exps_bind_column` on the
list `t.c, t.c` of two entries, find the second candidate while the first is
kept, return no expression and set the flag. -/
theorem exps_bind_column_hash_differs_from_linear :
    ((exps_bind_column
        (some (.cons (exp_column ⟨1⟩ (some "t") "c" none CARD_MULTI true false).1
          (.cons (exp_column ⟨2⟩ (some "t") "c" none CARD_MULTI true false).1
          (.cons colA (.cons colB (.cons colSA .nil)))))) false (some "c") (some false)).1.isSome,
      (exps_bind_column
        (some (.cons (exp_column ⟨1⟩ (some "t") "c" none CARD_MULTI true false).1
          (.cons (exp_column ⟨2⟩ (some "t") "c" none CARD_MULTI true false).1
          (.cons colA (.cons colB (.cons colSA .nil)))))) false (some "c") (some false)).2) =
      (true, some false) ∧
    ((bind_linear_loop "c"
        (.cons (exp_column ⟨1⟩ (some "t") "c" none CARD_MULTI true false).1
          (.cons (exp_column ⟨2⟩ (some "t") "c" none CARD_MULTI true false).1
          (.cons colA (.cons colB (.cons colSA .nil))))) none (some false)).1.isSome,
      (bind_linear_loop "c"
        (.cons (exp_column ⟨1⟩ (some "t") "c" none CARD_MULTI true false).1
          (.cons (exp_column ⟨2⟩ (some "t") "c" none CARD_MULTI true false).1
          (.cons colA (.cons colB (.cons colSA .nil))))) none (some false)).2) =
      (false, some true) ∧
    ((exps_bind_column
        (some (.cons (exp_column ⟨1⟩ (some "t") "c" none CARD_MULTI true false).1
          (.cons (exp_column ⟨2⟩ (some "t") "c" none CARD_MULTI true false).1 .nil)))
        false (some "c") (some false)).1.isSome,
      (exps_bind_column
        (some (.cons (exp_column ⟨1⟩ (some "t") "c" none CARD_MULTI true false).1
          (.cons (exp_column ⟨2⟩ (some "t") "c" none CARD_MULTI true false).1 .nil)))
        false (some "c") (some false)).2) =
      (false, some true) := by
  decide

/-! ## Flattening a disjunction -/

theorem exp_list_append_ofList (xs : List sql_exp) (e : sql_exp) :
    (exp_list.ofList xs).append e = exp_list.ofList (xs ++ [e]) := by
  induction xs with
  | nil => rfl
  | cons x t ih =>
    show exp_list.cons x ((exp_list.ofList t).append e) =
      exp_list.cons x (exp_list.ofList (t ++ [e]))
    rw [ih]

theorem foldl_append_ofList (ys xs : List sql_exp) :
    ys.foldl exp_list.append (exp_list.ofList xs) = exp_list.ofList (xs ++ ys) := by
  induction ys generalizing xs with
  | nil => simp
  | cons y t ih =>
    simp only [List.foldl_cons, exp_list_append_ofList, ih, List.append_assoc,
      List.singleton_append]

/-- The loop of `rel_or` over a chain of selections with at most one
reference each: all of them are merged and destroyed, and the loop ends at
the node below the chain. -/
theorem merge_tower (chain : List (Nat × rel_fields × exp_list)) (base : slot) :
    ∀ (acc : List sql_exp) (decs : List Nat),
      (∀ n ∈ chain, n.2.1.op = .op_select ∧ n.2.1.refcnt ≤ 1) →
      ends_chain base ((chain.map (fun n => n.1)).reverse ++ decs) →
      slot_merge_selects (select_tower chain base) (exp_list.ofList acc) decs =
        (exp_list.ofList (acc ++ chain_filters chain), base,
          (chain.map (fun n => n.1)).reverse ++ decs) := by
  induction chain with
  | nil =>
    intro acc decs _ hb
    simp only [select_tower, chain_filters, List.append_nil, List.map_nil,
      List.reverse_nil, List.nil_append] at hb ⊢
    cases base with
    | rel b =>
      cases b with
      | mk a d l r exps =>
        have h := hb _ rfl
        simp only [sql_rel.d, sql_rel.addr] at h
        have hc : ¬ (d.op = .op_select ∧ ¬ (d.refcnt > decs.count a + 1)) := by
          rintro ⟨h1, h2⟩
          rcases h with h | h
          · exact h h1
          · exact h2 h
        simp only [slot_merge_selects, rel_merge_selects, if_neg hc]
    | _ => simp only [slot_merge_selects]
  | cons n t ih =>
    intro acc decs hn hb
    obtain ⟨hop, hcnt⟩ := hn n (List.mem_cons_self _ _)
    have hc : n.2.1.op = .op_select ∧ ¬ (n.2.1.refcnt > decs.count n.1 + 1) :=
      ⟨hop, by omega⟩
    have hd : rel_destroy (.mk n.1 n.2.1 .null .null (.list n.2.2)) decs = n.1 :: decs := by
      have h1 : ¬ (n.2.1.refcnt > (n.1 :: decs).count n.1) := by
        simp only [List.count_cons_self]; omega
      simp [rel_destroy, h1, hop, is_select, slot_destroy]
    simp only [select_tower, slot_merge_selects, rel_merge_selects, if_pos hc, hd, list_merge,
      foldl_append_ofList]
    rw [ih (acc ++ n.2.2.toList) (n.1 :: decs)
      (fun m hm => hn m (List.mem_cons_of_mem _ hm))
      (by simpa [List.map_cons, List.reverse_cons, List.append_assoc] using hb)]
    simp [chain_filters, List.append_assoc]

/-- The decrements `rel_destroy` makes on a selection `r` with one reference
whose child, when it has one, keeps a reference: the selection and its
child. -/
theorem rel_destroy_select (ar : Nat) (dr : rel_fields) (c : slot) (rex : slot)
    (hr : dr.op = .op_select) (hrref : dr.refcnt ≤ 1)
    (hc : ∀ x, c = .rel x → 2 ≤ x.d.refcnt ∧ x.addr ≠ ar) :
    rel_destroy (.mk ar dr c .null rex) [] = c.rel_addr.toList ++ [ar] := by
  have h1 : ¬ (dr.refcnt > ([ar] : List Nat).count ar) := by
    simp only [List.count_cons_self]; omega
  cases c with
  | rel x =>
    obtain ⟨h2, h3⟩ := hc x rfl
    cases x with
    | mk a d l r exps =>
      simp only [sql_rel.d, sql_rel.addr] at h2 h3
      have h5 : ¬ (1 < dr.refcnt) := by omega
      have h6 : List.count a [ar] = 0 := by simp [List.count_cons, h3.symm]
      have h7 : 1 < d.refcnt := by omega
      simp [rel_destroy, hr, is_select, slot_destroy, h5, h6, h7, slot.rel_addr, sql_rel.addr]
  | _ => simp [rel_destroy, h1, hr, is_select, slot_destroy, slot.rel_addr]

/-- C34: `rel_or` flattens a disjunction. For all distinct selections `l` and
`r` with one reference each over the same child, below which there is a
chain of selections that has no other reference (the topmost carries the
references of `l` and `r`, the others one each) and ends at `base` (NULL, a
node that is no selection, or a selection that keeps more than one
reference), `rel_or(rel, l, r, NULL, NULL, NULL)` returns `l`, still a
selection and not a union: its filter list is the single `cmp_or` expression,
whose left list is the original list of `l` and whose right list is the
original list of `r`, followed by the filters of the chain from the top
down, and its child is `base`, the chain being removed. The decrements are
one for `r`, one for the common child and one for each selection of the
chain. -/
theorem rel_or_flattens
    (union_or : mvc → Option sql_rel → sql_rel → sql_rel → Option sql_rel × mvc) (sql : mvc)
    (al : Nat) (dl : rel_fields) (lr : slot) (lex : exp_list) (ar : Nat) (dr : rel_fields)
    (rex : exp_list) (chain : List (Nat × rel_fields × exp_list)) (base : slot)
    (hl : dl.op = .op_select) (hlref : dl.refcnt ≤ 1) (hr : dr.op = .op_select)
    (hrref : dr.refcnt ≤ 1) (hne : al ≠ ar)
    (hc : ∀ x, select_tower chain base = .rel x → 2 ≤ x.d.refcnt ∧ x.addr ≠ ar)
    (hchain : ∀ n ∈ chain, n.2.1.op = .op_select)
    (hhead : ∀ n ∈ chain.head?, n.2.1.refcnt ≤ 2)
    (htail : ∀ n ∈ chain.tail, n.2.1.refcnt ≤ 1)
    (hbase : ends_chain base ((chain.map (fun n => n.1)).reverse ++
      ((select_tower chain base).rel_addr.toList ++ [ar]))) :
    rel_or union_or sql (select_tower chain base).rel_val
        (.mk al dl (select_tower chain base) lr (.list lex))
        (.mk ar dr (select_tower chain base) .null (.list rex)) none none none =
      (some (.mk al dl base lr
        (.list (exp_list.ofList ((exp_or sql.sa lex rex false).1 :: chain_filters chain)))),
       { sql with sa := (exp_or sql.sa lex rex false).2 },
       (chain.map (fun n => n.1)).reverse ++
         ((select_tower chain base).rel_addr.toList ++ [ar])) ∧
    (exp_or sql.sa lex rex false).1.l = .list lex ∧
    (exp_or sql.sa lex rex false).1.r = .list rex ∧
    (exp_or sql.sa lex rex false).1.d.flag = cmp_or ∧
    (exp_or sql.sa lex rex false).1.d.type = .e_cmp := by
  refine ⟨?_, rfl, rfl, rfl, rfl⟩
  have hd := rel_destroy_select ar dr (select_tower chain base) (.list rex) hr hrref hc
  have hloop : slot_merge_selects (select_tower chain base)
      (exp_list.ofList [(exp_or sql.sa lex rex false).1])
      ((select_tower chain base).rel_addr.toList ++ [ar]) =
      (exp_list.ofList ([(exp_or sql.sa lex rex false).1] ++ chain_filters chain), base,
        (chain.map (fun n => n.1)).reverse ++
          ((select_tower chain base).rel_addr.toList ++ [ar])) := by
    cases chain with
    | nil => exact merge_tower [] base _ _ (fun n hn => by simp at hn) hbase
    | cons n t =>
      obtain ⟨h2, h3⟩ := hc _ rfl
      simp only [sql_rel.d, sql_rel.addr] at h2 h3
      have hn2 : n.2.1.refcnt ≤ 2 := hhead n (by simp)
      have hop := hchain n (List.mem_cons_self _ _)
      simp only [select_tower, slot.rel_addr, sql_rel.addr, Option.toList, List.singleton_append]
        at hbase ⊢
      have hcond : n.2.1.op = .op_select ∧ ¬ (n.2.1.refcnt > [n.1, ar].count n.1 + 1) := by
        refine ⟨hop, ?_⟩
        simp [List.count_cons, h3.symm]
        omega
      have hdn : rel_destroy (.mk n.1 n.2.1 .null .null (.list n.2.2)) [n.1, ar] =
          n.1 :: [n.1, ar] := by
        have h1 : ¬ (n.2.1.refcnt > (n.1 :: [n.1, ar]).count n.1) := by
          simp [List.count_cons, h3.symm]
          omega
        simp [rel_destroy, h1, hop, is_select, slot_destroy]
      simp only [slot_merge_selects, rel_merge_selects, if_pos hcond, hdn, list_merge,
        foldl_append_ofList]
      rw [merge_tower t base _ (n.1 :: [n.1, ar])
        (fun m hm => ⟨hchain m (List.mem_cons_of_mem _ hm), htail m (by simpa using hm)⟩)
        (by simpa [List.map_cons, List.reverse_cons, List.append_assoc] using hbase)]
      simp [chain_filters, List.append_assoc]
  have hJl : rel_is_ref (.mk al dl (select_tower chain base) lr (.list lex)) = false := by
    simp [rel_is_ref]; omega
  have hJr : rel_is_ref (.mk ar dr (select_tower chain base) .null (.list rex)) = false := by
    simp [rel_is_ref]; omega
  have hadr : (select_tower chain base).rel_addr =
      (select_tower chain base).rel_val.map sql_rel.addr := by
    cases select_tower chain base <;> rfl
  have hdec : decide (al = ar) = false := by simpa using hne
  simp only [rel_or, sql_rel.addr, hdec, sql_rel.d, sql_rel.l, sql_rel.exps, sql_rel.r, hl, hr,
    hJl, hJr, hadr, hd]
  have hloop2 : slot_merge_selects (select_tower chain base)
      (.cons (exp_or sql.sa lex rex false).1 .nil)
      ((select_tower chain base).rel_addr.toList ++ [ar]) =
      (exp_list.ofList ([(exp_or sql.sa lex rex false).1] ++ chain_filters chain), base,
        (chain.map (fun n => n.1)).reverse ++
          ((select_tower chain base).rel_addr.toList ++ [ar])) := hloop
  simp only [← hadr, hloop2]
  simp

/-- Witness of C34: the selections at the addresses 85 and 86, with the
filters `s.a = 1` and `s.a = t.b`, over the selection at address 84 with the
filter `t.b = 1`, which is over the base table `t`. The result is the
selection at address 85 over `t` with the new `cmp_or` expression (address
100) and `t.b = 1`. -/
theorem rel_or_flattens_witness :
    rel_or (fun sql _ _ _ => (none, sql)) sql0 (select_tower exOrChain (.rel exBaseT)).rel_val
        (.mk 85 (exSelFields 1) (select_tower exOrChain (.rel exBaseT)) .null
          (.list (.cons exCmpS .nil)))
        (.mk 86 (exSelFields 1) (select_tower exOrChain (.rel exBaseT)) .null
          (.list (.cons exJoinCmp .nil))) none none none =
      (some (.mk 85 (exSelFields 1) (.rel exBaseT) .null
        (.list (.cons (exp_or ⟨100⟩ (.cons exCmpS .nil) (.cons exJoinCmp .nil) false).1
          (.cons exCmp .nil)))),
       { sql0 with sa := ⟨101⟩ }, [84, 84, 86]) :=
  (rel_or_flattens (fun sql _ _ _ => (none, sql)) sql0 85 (exSelFields 1) .null
    (.cons exCmpS .nil) 86 (exSelFields 1) (.cons exJoinCmp .nil) exOrChain (.rel exBaseT)
    rfl (by decide) rfl (by decide) (by decide)
    (by
      intro x hx
      cases hx
      decide)
    (by
      intro n hn
      simp only [exOrChain, List.mem_singleton] at hn
      subst hn
      rfl)
    (by
      intro n hn
      simp only [exOrChain, List.head?, Option.mem_def, Option.some.injEq] at hn
      subst hn
      decide)
    (by
      intro n hn
      simp [exOrChain] at hn)
    (by
      intro b hb
      cases hb
      left
      decide)).1

/-! ## Binding a column name across a join -/

/-- The hash lookup keeps the candidate it has over entries of other
names. -/
theorem bind_hash_loop_skip (cname : String) (ambiguous : Option Bool) :
    ∀ (xs rest : List sql_exp) (e0 : Option sql_exp), (∀ x ∈ xs, x.d.name ≠ some cname) →
      bind_hash_loop cname (xs ++ rest) e0 ambiguous = bind_hash_loop cname rest e0 ambiguous := by
  intro xs
  induction xs with
  | nil => intro rest e0 _; rfl
  | cons x t ih =>
    intro rest e0 h
    have h1 := h x (List.mem_cons_self _ _)
    simp only [List.cons_append, bind_hash_loop, h1, if_false]
    exact ih rest e0 (fun y hy => h y (List.mem_cons_of_mem _ hy))

/-- The linear lookup keeps the candidate it has over entries of other
names. -/
theorem bind_linear_loop_keep (cname : String) (ambiguous : Option Bool) (e0 : Option sql_exp) :
    ∀ (l : exp_list), (∀ x ∈ l.toList, x.d.name ≠ some cname) →
      bind_linear_loop cname l e0 ambiguous = (e0, ambiguous) := by
  intro l
  induction l using exp_list.induction with
  | hnil => intro _; rfl
  | hcons ce t ih =>
    intro h
    have h1 := h ce (by simp [exp_list.toList])
    simp only [bind_linear_loop, h1, if_false]
    exact ih (fun x hx => h x (by simp [exp_list.toList, hx]))

/-- The linear lookup finds the single expression of a name. -/
theorem bind_linear_loop_once (cname : String) (ambiguous : Option Bool) (e : sql_exp)
    (post : List sql_exp) (he : e.d.name = some cname) (hpost : ∀ x ∈ post, x.d.name ≠ some cname) :
    ∀ (pre : List sql_exp) (l : exp_list), l.toList = pre ++ e :: post →
      (∀ x ∈ pre, x.d.name ≠ some cname) →
      bind_linear_loop cname l none ambiguous = (some e, ambiguous) := by
  intro pre
  induction pre with
  | nil =>
    intro l hl _
    cases l with
    | nil => simp [exp_list.toList] at hl
    | cons x t =>
      simp only [exp_list.toList, List.nil_append, List.cons.injEq] at hl
      obtain ⟨rfl, ht⟩ := hl
      simp only [bind_linear_loop, he, if_true, Option.isSome_none, Bool.false_eq_true, if_false]
      exact bind_linear_loop_keep cname ambiguous (some x) t (by rw [ht]; exact hpost)
  | cons y pre ih =>
    intro l hl hpre
    cases l with
    | nil => simp [exp_list.toList] at hl
    | cons x t =>
      simp only [exp_list.toList, List.cons_append, List.cons.injEq] at hl
      obtain ⟨rfl, ht⟩ := hl
      have h1 := hpre x (List.mem_cons_self _ _)
      simp only [bind_linear_loop, h1, if_false]
      exact ih t ht (fun z hz => hpre z (List.mem_cons_of_mem _ hz))

/-- A list that exports a name once binds it to that expression and leaves
the ambiguity flag as it is, on the hash path as on the linear path. -/
theorem exps_bind_column_once (l : exp_list) (ht : Bool) (c : String) (e : sql_exp)
    (ambiguous : Option Bool) (h : exports_once l c e) :
    exps_bind_column (some l) ht (some c) ambiguous = (some e, ambiguous) := by
  obtain ⟨pre, post, hl, he, hpre, hpost⟩ := h
  simp only [exps_bind_column]
  split_ifs
  · have hn : e.d.name.isSome = true := by rw [he]; rfl
    simp only [hash_chain, hl, List.filter_append, List.filter_cons, hn, if_true,
      List.reverse_append, List.reverse_cons, List.append_assoc, List.singleton_append]
    rw [bind_hash_loop_skip c ambiguous _ _ none (by
      intro x hx
      simp only [List.mem_reverse, List.mem_filter] at hx
      exact hpost x hx.1)]
    simp only [bind_hash_loop, he, if_true, bind_conflict, Bool.false_eq_true, if_false]
    have := bind_hash_loop_skip c ambiguous (List.filter (fun e => e.d.name.isSome) pre).reverse []
      (some e) (by
        intro x hx
        simp only [List.mem_reverse, List.mem_filter] at hx
        exact hpre x hx.1)
    simpa [bind_hash_loop] using this
  · exact bind_linear_loop_once c ambiguous e post he hpost pre l hl hpre

/-- A base table or projection whose list exports the name once binds it. -/
theorem rel_bind_column_child_found (c : String) (stk : Nat) (a : Nat) (d : rel_fields)
    (l r : slot) (lx : exp_list) (e : sql_exp) (p : Option sql_rel) (sql : mvc)
    (hstk : 1 ≤ stk)
    (hop : d.op = .op_basetable ∨ d.op = .op_table ∨ d.op = .op_project)
    (hex : exports_once lx c e) :
    rel_bind_column_ c stk (.mk a d l r (.list lx)) p sql =
      (some (.mk a d l r (.list lx)), p, sql) := by
  have hg : THRhighwater stk = false := by simp [THRhighwater]; omega
  have hb := exps_bind_column_once lx d.ht c e (some false) hex
  rcases hop with hop | hop | hop <;>
    simp [rel_bind_column_, hg, rel_bind_column_body, sql_rel.d, hop, sql_rel.exps,
      slot.list_val, slot.is_null, hb]

/-- A base table, or a projection that is processed, whose list has no
expression of the name does not bind it. -/
theorem rel_bind_column_child_none (c : String) (stk : Nat) (a : Nat) (d : rel_fields)
    (l r : slot) (lx : exp_list) (p : Option sql_rel) (sql : mvc) (hstk : 1 ≤ stk)
    (hop : d.op = .op_basetable ∨ d.op = .op_table ∨ (d.op = .op_project ∧ d.processed = true))
    (hno : ∀ x ∈ lx.toList, x.d.name ≠ some c) :
    rel_bind_column_ c stk (.mk a d l r (.list lx)) p sql =
      (none, some (.mk a d l r (.list lx)), sql) := by
  have hg : THRhighwater stk = false := by simp [THRhighwater]; omega
  have hb := exps_bind_column_not_found lx d.ht c (some false) hno
  rcases hop with hop | hop | ⟨hop, hproc⟩
  · simp [rel_bind_column_, hg, rel_bind_column_body, sql_rel.d, hop, sql_rel.exps,
      slot.list_val, slot.is_null, hb, is_processed, is_base, sql_rel.l]
  · simp [rel_bind_column_, hg, rel_bind_column_body, sql_rel.d, hop, sql_rel.exps,
      slot.list_val, slot.is_null, hb, is_processed, is_base, sql_rel.l]
  · simp [rel_bind_column_, hg, rel_bind_column_body, sql_rel.d, hop, sql_rel.exps,
      slot.list_val, slot.is_null, hb, is_processed, hproc]

/-- The reference `exp_alias_or_copy` builds under the name `c` to an
expression that has the alias name `c`: a new column named `c`; the
expression itself is left as it is. -/
theorem exp_alias_or_copy_named (sql : mvc) (tname : Option String) (c : String)
    (orel : Option sql_rel) (e : sql_exp) (he : e.d.name = some c) :
    (exp_alias_or_copy sql tname (some c) orel e).1.d.name = some c ∧
      (exp_alias_or_copy sql tname (some c) orel e).1.d.type = .e_column ∧
      (exp_alias_or_copy sql tname (some c) orel e).1.addr = sql.sa.next ∧
      (exp_alias_or_copy sql tname (some c) orel e).2.1 = e := by
  cases e with
  | mk a d l r f =>
    simp only [sql_exp.d] at he
    simp [exp_alias_or_copy, he, exp_propagate, exp_column, exp_create, sql_exp.d, sql_exp.addr]

/-- A base table or projection that is no subquery is none for
`rel_issubquery`. -/
theorem rel_issubquery_child (a : Nat) (d : rel_fields) (l r exps : slot)
    (hop : d.op = .op_basetable ∨ d.op = .op_table ∨ d.op = .op_project)
    (h : d.subquery = false) : rel_issubquery (.mk a d l r exps) = false := by
  rcases hop with hop | hop | hop <;> simp [rel_issubquery, h, hop, is_select]

/-- The join case of `rel_bind_column_` when both children bind the name. -/
theorem rel_bind_column_body_both (c : String) (J R L : sql_rel)
    (bl br : Option sql_rel → mvc → Option sql_rel × Option sql_rel × mvc)
    (p : Option sql_rel) (sql : mvc) (eb : sql_exp)
    (hJop : J.d.op = .op_join ∨ J.d.op = .op_left ∨ J.d.op = .op_right ∨ J.d.op = .op_full)
    (hbr : br (some J) sql = (some R, some J, sql))
    (hbl : bl (some J) sql = (some L, some J, sql))
    (hsubr : slot_issubquery J.r = false) (hsub : rel_issubquery R = false)
    (hlk : exps_bind_column R.exps.list_val R.d.ht (some c) (some false) = (some eb, some false))
    (hfree : is_freevar eb = false) (hdep : is_dependent J = false) :
    rel_bind_column_body c J bl br p sql = (none, some J, ambiguous_error sql c) := by
  unfold rel_bind_column_body
  rcases hJop with h | h | h | h <;>
    simp only [h, hbr, hbl, hsubr, hsub, hlk, hfree, hdep] <;> simp

/-- The join case of `rel_bind_column_` when only the right child binds the
name and no ambiguity is pending. -/
theorem rel_bind_column_body_right (c : String) (J R L : sql_rel)
    (bl br : Option sql_rel → mvc → Option sql_rel × Option sql_rel × mvc)
    (p : Option sql_rel) (sql : mvc) (eb : sql_exp)
    (hJop : J.d.op = .op_join ∨ J.d.op = .op_left ∨ J.d.op = .op_right ∨ J.d.op = .op_full)
    (hbr : br (some J) sql = (some R, some J, sql))
    (hbl : bl (some J) sql = (none, some L, sql))
    (hsubr : slot_issubquery J.r = false)
    (hlk : exps_bind_column R.exps.list_val R.d.ht (some c) (some false) = (some eb, some false))
    (hfree : is_freevar eb = false) (hstat : sql.status ≠ -(ERR_AMBIGUOUS : Int)) :
    rel_bind_column_body c J bl br p sql = (some R, some L, sql) := by
  unfold rel_bind_column_body
  rcases hJop with h | h | h | h <;>
    simp only [h, hbr, hbl, hsubr, hlk, hfree] <;> simp [bind_join_result, hstat]

/-- The join case of `rel_bind_column_` when only the left child binds the
name and no ambiguity is pending. -/
theorem rel_bind_column_body_left (c : String) (J R L : sql_rel)
    (bl br : Option sql_rel → mvc → Option sql_rel × Option sql_rel × mvc)
    (p : Option sql_rel) (sql : mvc)
    (hJop : J.d.op = .op_join ∨ J.d.op = .op_left ∨ J.d.op = .op_right ∨ J.d.op = .op_full)
    (hbr : br (some J) sql = (none, some R, sql))
    (hbl : bl (some J) sql = (some L, some J, sql))
    (hstat : sql.status ≠ -(ERR_AMBIGUOUS : Int)) :
    rel_bind_column_body c J bl br p sql = (some L, some J, sql) := by
  unfold rel_bind_column_body
  rcases hJop with h | h | h | h <;>
    simp only [h, hbr, hbl] <;> simp [bind_join_result, hstat]

/-- C36, amended. For every join `J` (inner, left, right or full) over two
children `A` and `B` that are base tables or projections, with the recursion
guard not tripped: (1) when each child exports the name `c` once, the
expression of `B` is no free variable, `J` is not dependent and `B` is no
subquery, `rel_bind_column(J, c)` returns NULL and reports the identifier as
ambiguous; (2) when only `B` exports `c`, `A` being a base table or a
processed projection, and no ambiguity is pending in the session, the result
is a new reference named `c` to the expression of `B`; (3) when only `A`
exports `c`, `B` being a base table or a processed projection, and no
ambiguity is pending, the result is a new reference named `c` to the
expression of `A`. -/
theorem rel_bind_column_across_join
    (project_add : mvc → sql_rel → sql_exp → Option sql_exp × mvc) (sql : mvc) (stk : Nat)
    (aJ : Nat) (dJ : rel_fields) (exJ : slot) (aA : Nat) (dA : rel_fields) (lA rA : slot)
    (la : exp_list) (aB : Nat) (dB : rel_fields) (lB rB : slot) (lb : exp_list) (c : String)
    (sel orderby : Bool) (hstk : 3 ≤ stk)
    (hJop : dJ.op = .op_join ∨ dJ.op = .op_left ∨ dJ.op = .op_right ∨ dJ.op = .op_full)
    (hAop : dA.op = .op_basetable ∨ dA.op = .op_table ∨ dA.op = .op_project)
    (hBop : dB.op = .op_basetable ∨ dB.op = .op_table ∨ dB.op = .op_project) :
    (∀ ea eb : sql_exp, exports_once la c ea → exports_once lb c eb → eb.d.freevar = false →
      dJ.dependent = false → dB.subquery = false →
      rel_bind_column project_add sql stk
          (some (.mk aJ dJ (.rel (.mk aA dA lA rA (.list la))) (.rel (.mk aB dB lB rB (.list lb)))
            exJ)) c sel orderby =
        (none, ambiguous_error sql c)) ∧
    (∀ eb : sql_exp, exports_once lb c eb → (∀ x ∈ la.toList, x.d.name ≠ some c) →
      (dA.op = .op_project → dA.processed = true) → eb.d.freevar = false →
      dB.subquery = false → sql.status ≠ -(ERR_AMBIGUOUS : Int) →
      rel_bind_column project_add sql stk
          (some (.mk aJ dJ (.rel (.mk aA dA lA rA (.list la))) (.rel (.mk aB dB lB rB (.list lb)))
            exJ)) c sel orderby =
        (some (exp_alias_or_copy sql (exp_relname eb) (some c)
            (some (.mk aB dB lB rB (.list lb))) eb).1,
          (exp_alias_or_copy sql (exp_relname eb) (some c)
            (some (.mk aB dB lB rB (.list lb))) eb).2.2) ∧
        (exp_alias_or_copy sql (exp_relname eb) (some c)
            (some (.mk aB dB lB rB (.list lb))) eb).1.d.name = some c ∧
        (exp_alias_or_copy sql (exp_relname eb) (some c)
            (some (.mk aB dB lB rB (.list lb))) eb).2.1 = eb) ∧
    (∀ ea : sql_exp, exports_once la c ea → (∀ x ∈ lb.toList, x.d.name ≠ some c) →
      (dB.op = .op_project → dB.processed = true) → sql.status ≠ -(ERR_AMBIGUOUS : Int) →
      rel_bind_column project_add sql stk
          (some (.mk aJ dJ (.rel (.mk aA dA lA rA (.list la))) (.rel (.mk aB dB lB rB (.list lb)))
            exJ)) c sel orderby =
        (some (exp_alias_or_copy sql (exp_relname ea) (some c)
            (some (.mk aA dA lA rA (.list la))) ea).1,
          (exp_alias_or_copy sql (exp_relname ea) (some c)
            (some (.mk aA dA lA rA (.list la))) ea).2.2) ∧
        (exp_alias_or_copy sql (exp_relname ea) (some c)
            (some (.mk aA dA lA rA (.list la))) ea).1.d.name = some c ∧
        (exp_alias_or_copy sql (exp_relname ea) (some c)
            (some (.mk aA dA lA rA (.list la))) ea).2.1 = ea) := by
  have hg : THRhighwater (stk - 1) = false := by simp [THRhighwater]; omega
  have hs2 : 1 ≤ stk - 1 - 1 := by omega
  have hJproj : is_simple_project dJ.op = false := by
    rcases hJop with h | h | h | h <;> simp [is_simple_project, h]
  have hBpb : (is_project dB.op = true ∨ is_base dB.op = true) := by
    rcases hBop with h | h | h <;> simp [is_project, is_base, h]
  have hApb : (is_project dA.op = true ∨ is_base dA.op = true) := by
    rcases hAop with h | h | h <;> simp [is_project, is_base, h]
  have hrel1 : ∀ J : sql_rel, J.d.op = dJ.op →
      (if (sel = true ∧ is_simple_project J.d.op = true ∧ (!is_processed J) = true) then
        J.l.rel_val else some J) = some J := by
    intro J hJ
    rw [hJ, hJproj]
    simp
  have hr1 := hrel1
    (.mk aJ dJ (.rel (.mk aA dA lA rA (.list la))) (.rel (.mk aB dB lB rB (.list lb))) exJ) rfl
  refine ⟨?_, ?_, ?_⟩
  · intro ea eb hea heb hfree hdep hsub
    have hB := rel_bind_column_child_found c (stk - 1 - 1) aB dB lB rB lb eb
      (some (.mk aJ dJ (.rel (.mk aA dA lA rA (.list la))) (.rel (.mk aB dB lB rB (.list lb)))
        exJ)) sql hs2 hBop heb
    have hA := rel_bind_column_child_found c (stk - 1 - 1) aA dA lA rA la ea
      (some (.mk aJ dJ (.rel (.mk aA dA lA rA (.list la))) (.rel (.mk aB dB lB rB (.list lb)))
        exJ)) sql hs2 hAop hea
    have hbody := rel_bind_column_body_both c
      (.mk aJ dJ (.rel (.mk aA dA lA rA (.list la))) (.rel (.mk aB dB lB rB (.list lb))) exJ)
      (.mk aB dB lB rB (.list lb)) (.mk aA dA lA rA (.list la))
      (slot_bind_column c (stk - 1 - 1) (.rel (.mk aA dA lA rA (.list la))))
      (slot_bind_column c (stk - 1 - 1) (.rel (.mk aB dB lB rB (.list lb)))) none sql eb hJop
      hB hA
      (by
        simp only [sql_rel.r, slot_issubquery]
        exact rel_issubquery_child aB dB lB rB (.list lb) hBop hsub)
      (rel_issubquery_child aB dB lB rB (.list lb) hBop hsub)
      (exps_bind_column_once lb dB.ht c eb (some false) heb) hfree hdep
    have hJ : rel_bind_column_ c (stk - 1)
        (.mk aJ dJ (.rel (.mk aA dA lA rA (.list la))) (.rel (.mk aB dB lB rB (.list lb))) exJ)
        none sql =
        (none, some (.mk aJ dJ (.rel (.mk aA dA lA rA (.list la))) (.rel (.mk aB dB lB rB (.list lb))) exJ),
          ambiguous_error sql c) := by
      rw [rel_bind_column_]
      simp only [hg, Bool.false_eq_true, if_false]
      exact hbody
    simp only [rel_bind_column, hr1, hJ]
  · intro eb heb hno hproc hfree hsub hstat
    have hAop2 : dA.op = .op_basetable ∨ dA.op = .op_table ∨
        (dA.op = .op_project ∧ dA.processed = true) := by
      rcases hAop with h | h | h
      · exact Or.inl h
      · exact Or.inr (Or.inl h)
      · exact Or.inr (Or.inr ⟨h, hproc h⟩)
    have hAsp : ¬ (is_simple_project dA.op = true ∧ dA.processed = false) := by
      rintro ⟨h1, h2⟩
      have : dA.op = .op_project := by simpa [is_simple_project] using h1
      rw [hproc this] at h2
      exact absurd h2 (by simp)
    have hB := rel_bind_column_child_found c (stk - 1 - 1) aB dB lB rB lb eb
      (some (.mk aJ dJ (.rel (.mk aA dA lA rA (.list la))) (.rel (.mk aB dB lB rB (.list lb)))
        exJ)) sql hs2 hBop heb
    have hA := rel_bind_column_child_none c (stk - 1 - 1) aA dA lA rA la
      (some (.mk aJ dJ (.rel (.mk aA dA lA rA (.list la))) (.rel (.mk aB dB lB rB (.list lb)))
        exJ)) sql hs2 hAop2 hno
    have hbody := rel_bind_column_body_right c
      (.mk aJ dJ (.rel (.mk aA dA lA rA (.list la))) (.rel (.mk aB dB lB rB (.list lb))) exJ)
      (.mk aB dB lB rB (.list lb)) (.mk aA dA lA rA (.list la))
      (slot_bind_column c (stk - 1 - 1) (.rel (.mk aA dA lA rA (.list la))))
      (slot_bind_column c (stk - 1 - 1) (.rel (.mk aB dB lB rB (.list lb)))) none sql eb hJop
      hB hA
      (by
        simp only [sql_rel.r, slot_issubquery]
        exact rel_issubquery_child aB dB lB rB (.list lb) hBop hsub)
      (exps_bind_column_once lb dB.ht c eb (some false) heb) hfree hstat
    have hJ : rel_bind_column_ c (stk - 1)
        (.mk aJ dJ (.rel (.mk aA dA lA rA (.list la))) (.rel (.mk aB dB lB rB (.list lb))) exJ)
        none sql =
        (some (.mk aB dB lB rB (.list lb)), some (.mk aA dA lA rA (.list la)), sql) := by
      rw [rel_bind_column_]
      simp only [hg, Bool.false_eq_true, if_false]
      exact hbody
    have hlk2 : exps_bind_column (sql_rel.mk aB dB lB rB (.list lb)).exps.list_val
        (sql_rel.mk aB dB lB rB (.list lb)).d.ht (some c) none = (some eb, none) :=
      exps_bind_column_once lb dB.ht c eb none heb
    have hnm := exp_alias_or_copy_named sql (exp_relname eb) c
      (some (.mk aB dB lB rB (.list lb))) eb heb.choose_spec.choose_spec.2.1
    refine ⟨?_, hnm.1, hnm.2.2.2⟩
    have hcond : ((is_project (sql_rel.mk aB dB lB rB (.list lb)).d.op = true ∨
        is_base (sql_rel.mk aB dB lB rB (.list lb)).d.op = true) ∧
        (!(sql_rel.mk aB dB lB rB (.list lb)).exps.is_null) = true) := ⟨hBpb, rfl⟩
    have hp : ¬ (is_simple_project (sql_rel.mk aA dA lA rA (.list la)).d.op = true ∧
        (!is_processed (.mk aA dA lA rA (.list la))) = true ∧ orderby = true ∧
        Option.map sql_rel.addr (some (sql_rel.mk aJ dJ (.rel (.mk aA dA lA rA (.list la)))
          (.rel (.mk aB dB lB rB (.list lb))) exJ)) ≠
          some (sql_rel.mk aB dB lB rB (.list lb)).addr) := by
      rintro ⟨h1, h2, _⟩
      exact hAsp ⟨h1, by simpa [is_processed, sql_rel.d] using h2⟩
    simp only [rel_bind_column, hr1, hJ, if_pos hcond, hlk2, if_neg hp]
  · intro ea hea hno hproc hstat
    have hBop2 : dB.op = .op_basetable ∨ dB.op = .op_table ∨
        (dB.op = .op_project ∧ dB.processed = true) := by
      rcases hBop with h | h | h
      · exact Or.inl h
      · exact Or.inr (Or.inl h)
      · exact Or.inr (Or.inr ⟨h, hproc h⟩)
    have hB := rel_bind_column_child_none c (stk - 1 - 1) aB dB lB rB lb
      (some (.mk aJ dJ (.rel (.mk aA dA lA rA (.list la))) (.rel (.mk aB dB lB rB (.list lb)))
        exJ)) sql hs2 hBop2 hno
    have hA := rel_bind_column_child_found c (stk - 1 - 1) aA dA lA rA la ea
      (some (.mk aJ dJ (.rel (.mk aA dA lA rA (.list la))) (.rel (.mk aB dB lB rB (.list lb)))
        exJ)) sql hs2 hAop hea
    have hbody := rel_bind_column_body_left c
      (.mk aJ dJ (.rel (.mk aA dA lA rA (.list la))) (.rel (.mk aB dB lB rB (.list lb))) exJ)
      (.mk aB dB lB rB (.list lb)) (.mk aA dA lA rA (.list la))
      (slot_bind_column c (stk - 1 - 1) (.rel (.mk aA dA lA rA (.list la))))
      (slot_bind_column c (stk - 1 - 1) (.rel (.mk aB dB lB rB (.list lb)))) none sql hJop
      hB hA hstat
    have hJ : rel_bind_column_ c (stk - 1)
        (.mk aJ dJ (.rel (.mk aA dA lA rA (.list la))) (.rel (.mk aB dB lB rB (.list lb))) exJ)
        none sql =
        (some (.mk aA dA lA rA (.list la)), some (.mk aJ dJ (.rel (.mk aA dA lA rA (.list la))) (.rel (.mk aB dB lB rB (.list lb))) exJ),
          sql) := by
      rw [rel_bind_column_]
      simp only [hg, Bool.false_eq_true, if_false]
      exact hbody
    have hlk2 : exps_bind_column (sql_rel.mk aA dA lA rA (.list la)).exps.list_val
        (sql_rel.mk aA dA lA rA (.list la)).d.ht (some c) none = (some ea, none) :=
      exps_bind_column_once la dA.ht c ea none hea
    have hnm := exp_alias_or_copy_named sql (exp_relname ea) c
      (some (.mk aA dA lA rA (.list la))) ea hea.choose_spec.choose_spec.2.1
    refine ⟨?_, hnm.1, hnm.2.2.2⟩
    have hcond : ((is_project (sql_rel.mk aA dA lA rA (.list la)).d.op = true ∨
        is_base (sql_rel.mk aA dA lA rA (.list la)).d.op = true) ∧
        (!(sql_rel.mk aA dA lA rA (.list la)).exps.is_null) = true) := ⟨hApb, rfl⟩
    have hp : ¬ (is_simple_project (sql_rel.mk aJ dJ (.rel (.mk aA dA lA rA (.list la)))
          (.rel (.mk aB dB lB rB (.list lb))) exJ).d.op = true ∧
        (!is_processed (.mk aJ dJ (.rel (.mk aA dA lA rA (.list la)))
          (.rel (.mk aB dB lB rB (.list lb))) exJ)) = true ∧ orderby = true ∧
        Option.map sql_rel.addr (some (sql_rel.mk aJ dJ (.rel (.mk aA dA lA rA (.list la)))
          (.rel (.mk aB dB lB rB (.list lb))) exJ)) ≠
          some (sql_rel.mk aA dA lA rA (.list la)).addr) := by
      rintro ⟨h1, _⟩
      rw [show (sql_rel.mk aJ dJ (.rel (.mk aA dA lA rA (.list la)))
          (.rel (.mk aB dB lB rB (.list lb))) exJ).d.op = dJ.op from rfl, hJproj] at h1
      exact absurd h1 (by simp)
    simp only [rel_bind_column, hr1, hJ, if_pos hcond, hlk2, if_neg hp]

/-- Witness of C36: in the inner join of the base tables `x` and `y`, which
both export a column `c`, the name `c` is ambiguous; in the inner join of `s`
and `t` the name `a`, which only `s` exports, is bound to a new reference to
the column `s.a`. -/
theorem rel_bind_column_across_join_witness :
    rel_bind_column (fun sql _ e => (some e, sql)) sql0 10 (some exJoinXY) "c" false false =
      (none, ambiguous_error sql0 "c") ∧
    rel_bind_column (fun sql _ e => (some e, sql)) sql0 10 (some exJoin) "a" false false =
      (some (exp_alias_or_copy sql0 (some "s") (some "a") (some exBaseS) colSA).1,
        { sql0 with sa := ⟨101⟩ }) :=
  ⟨(rel_bind_column_across_join (fun sql _ e => (some e, sql)) sql0 10 89 exJoinFields
      (.list .nil) 87 exBaseX.d .null .null (.cons colXC .nil) 88 exBaseY.d .null .null
      (.cons colYC .nil) "c" false false (by decide) (Or.inl rfl) (Or.inl rfl) (Or.inl rfl)).1
      colXC colYC ⟨[], [], rfl, rfl, by simp, by simp⟩ ⟨[], [], rfl, rfl, by simp, by simp⟩
      rfl rfl rfl,
    ((rel_bind_column_across_join (fun sql _ e => (some e, sql)) sql0 10 72 exJoinFields
      (.list .nil) 70 exBaseS.d .null .null (.cons colSA .nil) 71 exBaseT.d .null .null
      (.cons colB .nil) "a" false false (by decide) (Or.inl rfl) (Or.inl rfl)
      (Or.inl rfl)).2.2 colSA ⟨[], [], rfl, rfl, by simp, by simp⟩
      (by
        intro x hx
        simp only [exp_list.toList, List.mem_singleton] at hx
        subst hx
        decide)
      (by intro h; exact absurd h (by decide)) (by decide)).1⟩

/-- C36 as stated fails: in the inner join of a projection over the base
table `x` with the base table `y`, the projection is not processed and
exports the column `a` only, so that `y` is the only child that exports `c`;
`rel_bind_column_` goes through the projection to `x`, which binds `c` too,
and the name is reported as ambiguous. And with an ambiguity pending in the
session the name `b`, which only `t` exports in the join of `s` and `t`, is
not bound. -/
theorem rel_bind_column_through_projection :
    exProjOverX.exps_names = [some "a"] ∧ exBaseY.exps_names = [some "c"] ∧
    (rel_bind_column (fun sql _ e => (some e, sql)) sql0 10 (some exJoinPY) "c" false
      false).1.isNone = true ∧
    (rel_bind_column (fun sql _ e => (some e, sql)) sql0 10 (some exJoinPY) "c" false
      false).2.status = -(ERR_AMBIGUOUS : Int) ∧
    exBaseS.exps_names = [some "a"] ∧ exBaseT.exps_names = [some "b"] ∧
    (rel_bind_column (fun sql _ e => (some e, sql)) sql0_ambiguous 10 (some exJoin) "b" false
      false).1.isNone = true := by
  decide

end SQL
